import Mathlib

/-! Shallow embedding of `backend/cpp/llama/grpc-server.cpp`

The slot scheduler of the llama.cpp gRPC backend, embedded as pure functions.

Conventions of the embedding:

* `std::string` is a list of bytes (`Str`), `std::string::npos` is `none`;
* `int32_t` / `int64_t` fields are `Int`, `size_t` counters are `Nat`, and every
  conversion between the two is written out; the subtraction of `has_budget`, whose
  operand `n_predict` a request sets to any int32 value, wraps around modulo 2^32
  (`int32_t`), the other arithmetic is exact;
* the inference engine (tokenizer, decoder, sampler, clock) is an `Engine` record of
  uninterpreted functions; calls that return a fresh value each time (decode, sample,
  clock) take the number of the call, which the server state counts;
* undefined behaviour and aborts of the C++ program are results `Except.error`;
* the scheduler is the text-only server (`params.mmproj` empty, so `multimodal = false`
  and `slot.images` stays empty); timings and sampling parameters that only feed
  statistics are left out;
* the two parts of the multimodal path that stand by themselves, `base64_decode` and the
  scan of the prompt for image markers, are embedded apart from the scheduler.
-/

namespace LlamaGrpc

/-- A `std::string`: its bytes. -/
abbrev Str := List Nat

/-- The type `llama_token`. -/
abbrev llama_token := Int

/-! ## String primitives used by the source -/

/-- Search for `word` in the text `t`, the part of the string that starts at index `i`. -/
def find_at (word : Str) : Str → Nat → Option Nat
  | [], i => if word.isPrefixOf [] then some i else none
  | c :: t, i => if word.isPrefixOf (c :: t) then some i else find_at word t (i + 1)

/-- The call `text.find(word, from_pos)`: the first index at or after `from_pos` at which
`word` occurs, `none` for `npos`. -/
def str_find (text word : Str) (from_pos : Nat) : Option Nat :=
  if from_pos ≤ text.length then find_at word (text.drop from_pos) from_pos else none

/-- Source: `ends_with` (lines 235-239). -/
def ends_with (str suffix : Str) : Bool :=
  decide (str.length ≥ suffix.length) &&
    (str.drop (str.length - suffix.length) == suffix)

/-- The loop of `find_partial_stop_string`, with `k = char_index + 1` counting down. -/
def find_partial_stop_loop (stop text : Str) (text_last_char : Nat) : Nat → Option Nat
  | 0 => none
  | k + 1 =>
    if stop.getD k 0 = text_last_char ∧ ends_with text (stop.take (k + 1)) = true then
      some (text.length - k - 1)
    else find_partial_stop_loop stop text text_last_char k

/-- Source: `find_partial_stop_string` (lines 241-260). -/
def find_partial_stop_string (stop text : Str) : Option Nat :=
  if ¬ text.isEmpty ∧ ¬ stop.isEmpty then
    find_partial_stop_loop stop text (text.getLastD 0) stop.length
  else none

/-- Source: `common_part` (lines 220-227). -/
def common_part : List llama_token → List llama_token → Nat
  | a :: as, b :: bs => if a = b then common_part as bs + 1 else 0
  | _, _ => 0

/-! ## Data model -/

inductive task_type
  | COMPLETION_TASK
  | CANCEL_TASK
  deriving DecidableEq, Repr

inductive slot_state
  | IDLE
  | PROCESSING
  deriving DecidableEq, Repr

inductive slot_command
  | NONE
  | LOAD_PROMPT
  | RELEASE
  deriving DecidableEq, Repr

inductive stop_type
  | STOP_FULL
  | STOP_PARTIAL
  deriving DecidableEq, Repr

/-- One element of a JSON array prompt: a string or a raw token id. -/
inductive json_item
  | text (s : Str)
  | token (t : llama_token)
  deriving DecidableEq, Repr

/-- The JSON values the prompt fields hold: a string or an array of strings and token ids. -/
inductive json_prompt
  | string (s : Str)
  | array (items : List json_item)
  deriving DecidableEq, Repr

/-- Source: `struct slot_params` (lines 178-191); the seed is left out. -/
structure slot_params where
  stream : Bool := true
  cache_prompt : Bool := false
  n_keep : Int := 0
  n_predict : Int := -1
  antiprompt : List Str := []
  input_prefix : json_prompt := .string []
  input_suffix : json_prompt := .string []
  deriving DecidableEq, Repr

/-- Source: `struct completion_token_output` (lines 207-218); the probabilities are
floating point and are left out. -/
structure completion_token_output where
  tok : llama_token
  text_to_send : Str := []
  deriving DecidableEq, Repr

/-- The fields of `gpt_params` the scheduler reads. -/
structure gpt_params where
  n_predict : Int := -1
  n_batch : Int := 512
  n_parallel : Int := 1
  cont_batching : Bool := false
  embedding : Bool := false
  input_suffix : Str := []
  deriving DecidableEq, Repr

/-- Source: `struct llama_client_slot` (lines 346-401), without images and timings. -/
structure llama_client_slot where
  id : Int
  task_id : Int := -1
  params : slot_params := {}
  state : slot_state := .IDLE
  command : slot_command := .NONE
  t_last_used : Int := -1
  n_ctx : Int := 0
  n_past : Int := 0
  n_decoded : Int := 0
  n_remaining : Int := -1
  i_batch : Int := -1
  num_prompt_tokens : Int := 0
  num_prompt_tokens_processed : Int := 0
  multibyte_pending : Int := 0
  prompt : json_prompt := .string []
  generated_text : Str := []
  sampled : llama_token := 0
  cache_tokens : List llama_token := []
  generated_token_probs : List completion_token_output := []
  infill : Bool := false
  embedding : Bool := false
  has_next_token : Bool := true
  truncated : Bool := false
  stopped_eos : Bool := false
  stopped_word : Bool := false
  stopped_limit : Bool := false
  stopping_word : Str := []
  n_probs : Int := 0
  sent_count : Nat := 0
  sent_token_probs_index : Nat := 0
  deriving DecidableEq, Repr

/-- The fields of the final response that `send_final_response` fills from the slot. -/
structure final_response where
  content : Str
  slot_id : Int
  tokens_predicted : Int
  tokens_evaluated : Int
  truncated : Bool
  stopped_eos : Bool
  stopped_word : Bool
  stopped_limit : Bool
  stopping_word : Str
  tokens_cached : Int
  completion_probabilities : Option (List completion_token_output)
  deriving DecidableEq, Repr

/-- The `result_json` of a `task_result`, by the function that built it. -/
inductive result_json
  | error_content (content : Str)
  | partial_response (content : Str) (slot_id : Int) (multimodal : Bool)
      (completion_probabilities : Option (List completion_token_output))
  | final (r : final_response)
  | embedding
  deriving DecidableEq, Repr

/-- Source: `struct task_result` (lines 157-162). `send_error` leaves `stop`
uninitialised, which is `none`. -/
structure task_result where
  id : Int
  stop : Option Bool
  error : Bool
  result : result_json
  deriving DecidableEq, Repr

/-- The inference engine and the clock, as uninterpreted functions. -/
structure Engine where
  llama_tokenize : Str → Bool → List llama_token
  llama_token_to_piece : llama_token → Str
  llama_token_eos : llama_token
  llama_token_bos : llama_token
  llama_token_prefix : llama_token
  llama_token_suffix : llama_token
  llama_token_middle : llama_token
  llama_decode : Nat → Int
  llama_sampling_sample : Nat → llama_token
  ggml_time_us : Nat → Int

/-! ## Slot methods -/

/-- Source: `llama_client_slot::reset` (lines 403-428). -/
def llama_client_slot.reset (slot : llama_client_slot) : llama_client_slot :=
  { slot with
    num_prompt_tokens := 0
    generated_text := []
    truncated := false
    stopped_eos := false
    stopped_word := false
    stopped_limit := false
    stopping_word := []
    multibyte_pending := 0
    n_past := 0
    sent_count := 0
    sent_token_probs_index := 0
    infill := false
    generated_token_probs := [] }

/-- The value of type `int32_t` that holds the integer `x`: the integer of
`[-2^31, 2^31)` congruent to `x` modulo 2^32. -/
def int32_t (x : Int) : Int :=
  (x + 2147483648) % 4294967296 - 2147483648

/-- Source: `llama_client_slot::has_budget` (lines 430-441): the slot with `n_remaining`
set, and the returned flag. `n_remaining`, `n_predict` and `n_decoded` are `int32_t`, and
the differences are taken in that type. -/
def llama_client_slot.has_budget (slot : llama_client_slot) (global_params : gpt_params) :
    llama_client_slot × Bool :=
  let n_remaining : Int :=
    if slot.params.n_predict ≠ -1 then int32_t (slot.params.n_predict - slot.n_decoded)
    else if global_params.n_predict ≠ -1 then
      int32_t (global_params.n_predict - slot.n_decoded)
    else -1
  ({ slot with n_remaining := n_remaining }, decide (n_remaining > 0 ∨ n_remaining = -1))

/-- Source: `llama_client_slot::available` (lines 443-445). -/
def llama_client_slot.available (slot : llama_client_slot) : Bool :=
  slot.state = .IDLE ∧ slot.command = .NONE

/-- Source: `llama_client_slot::is_processing` (lines 447-449). -/
def llama_client_slot.is_processing (slot : llama_client_slot) : Bool :=
  (slot.state = .IDLE ∧ slot.command = .LOAD_PROMPT) ∨ slot.state = .PROCESSING

/-- Source: `llama_client_slot::add_token_string` (lines 451-458). -/
def llama_client_slot.add_token_string (slot : llama_client_slot)
    (token : completion_token_output) : llama_client_slot :=
  if slot.command = .RELEASE then slot
  else { slot with
    cache_tokens := slot.cache_tokens ++ [token.tok]
    generated_token_probs := slot.generated_token_probs ++ [token] }

/-- Source: `llama_client_slot::release` (lines 460-466); both states satisfy the test. -/
def llama_client_slot.release (slot : llama_client_slot) : llama_client_slot :=
  if slot.state = .IDLE ∨ slot.state = .PROCESSING then { slot with command := .RELEASE }
  else slot

/-! ## Tasks, results and the server context -/

/-- The `system_prompt` object of a request (`process_system_prompt_data`). -/
structure system_props where
  prompt : Str := []
  anti_prompt : Str := []
  assistant_name : Str := []
  deriving DecidableEq, Repr

/-- The keys of the JSON `data` of a completion request that the scheduler reads; `none`
is an absent (or null) key. Sampling parameters and image data are left out. -/
structure task_data where
  slot_id : Option Int := none
  system_prompt : Option system_props := none
  stream : Option Bool := none
  cache_prompt : Option Bool := none
  n_predict : Option Int := none
  n_keep : Option Int := none
  n_probs : Option Int := none
  input_prefix : Option json_prompt := none
  input_suffix : Option json_prompt := none
  prompt : Option json_prompt := none
  stop : Option (List Str) := none
  deriving DecidableEq, Repr

/-- Source: `struct task_server` (lines 148-155). -/
structure task_server where
  id : Int
  target_id : Int := 0
  type : task_type
  data : task_data := {}
  infill_mode : Bool := false
  embedding_mode : Bool := false
  deriving DecidableEq, Repr

/-- One entry of the shared `llama_batch`, as `llama_batch_add` writes it. -/
structure batch_entry where
  token : llama_token
  pos : Int
  seq_id : Int
  logits : Bool
  deriving DecidableEq, Repr

/-- Source: `struct llama_server_context` (lines 493-526). The last three fields count the
calls made so far to `llama_decode`, `llama_sampling_sample` and `ggml_time_us`. -/
structure llama_server_context where
  params : gpt_params := {}
  batch : List batch_entry := []
  multimodal : Bool := false
  clean_kv_cache : Bool := true
  all_slots_are_idle : Bool := false
  id_gen : Int := 0
  n_ctx : Int := 0
  system_need_update : Bool := false
  system_prompt : Str := []
  system_tokens : List llama_token := []
  name_user : Str := []
  name_assistant : Str := []
  slots : List llama_client_slot := []
  queue_tasks : List task_server := []
  queue_results : List task_result := []
  decode_calls : Nat := 0
  sample_calls : Nat := 0
  clock_calls : Nat := 0
  deriving DecidableEq, Repr

/-! ## Stop strings and token processing -/

/-- The test `pos != npos && (stop_pos == npos || pos < stop_pos)` of
`find_stopping_strings`. -/
def stop_pos_improves (pos stop_pos : Option Nat) : Bool :=
  match pos, stop_pos with
  | none, _ => false
  | some _, none => true
  | some p, some q => decide (p < q)

/-- The position `pos` that the loop of `find_stopping_strings` computes for one `word`
(lines 924-934). -/
def word_stop_pos (text : Str) (last_token_size : Nat) (type : stop_type) (word : Str) :
    Option Nat :=
  match type with
  | .STOP_FULL =>
    let tmp := word.length + last_token_size
    let from_pos := if text.length > tmp then text.length - tmp else 0
    str_find text word from_pos
  | .STOP_PARTIAL => find_partial_stop_string word text

/-- The slot after a full match of `word` (lines 938-943). -/
def mark_stopped (slot : llama_client_slot) (type : stop_type) (word : Str) :
    llama_client_slot :=
  match type with
  | .STOP_FULL => { slot with stopped_word := true, stopping_word := word, has_next_token := false }
  | .STOP_PARTIAL => slot

/-- The body of the loop of `find_stopping_strings` for one `word`. -/
def find_stopping_strings_word (text : Str) (last_token_size : Nat) (type : stop_type)
    (acc : Option Nat × llama_client_slot) (word : Str) : Option Nat × llama_client_slot :=
  if stop_pos_improves (word_stop_pos text last_token_size type word) acc.1 = true then
    (word_stop_pos text last_token_size type word, mark_stopped acc.2 type word)
  else acc

/-- Source: `llama_server_context::find_stopping_strings` (lines 917-949): the stop
position and the slot with its stop flags set. -/
def find_stopping_strings (text : Str) (last_token_size : Nat) (type : stop_type)
    (slot : llama_client_slot) : Option Nat × llama_client_slot :=
  slot.params.antiprompt.foldl (find_stopping_strings_word text last_token_size type)
    (none, slot)

/-- Source: `send_partial_response` (lines 1140-1171): the slot, whose
`sent_token_probs_index` moves when `n_probs > 0`, and the result pushed. -/
def send_partial_response (env : Engine) (multimodal : Bool) (slot : llama_client_slot)
    (tkn : completion_token_output) : llama_client_slot × task_result :=
  if slot.n_probs > 0 then
    let to_send_toks := env.llama_tokenize tkn.text_to_send false
    let probs_pos := min slot.sent_token_probs_index slot.generated_token_probs.length
    let probs_stop_pos :=
      min (slot.sent_token_probs_index + to_send_toks.length) slot.generated_token_probs.length
    let probs_output :=
      if probs_pos < probs_stop_pos then
        (slot.generated_token_probs.take probs_stop_pos).drop probs_pos
      else []
    ({ slot with sent_token_probs_index := probs_stop_pos },
      { id := slot.task_id, stop := some false, error := false,
        result := .partial_response tkn.text_to_send slot.id multimodal (some probs_output) })
  else
    (slot,
      { id := slot.task_id, stop := some false, error := false,
        result := .partial_response tkn.text_to_send slot.id multimodal none })

/-- The UTF-8 framing of `process_token` (lines 960-986): the new `multibyte_pending`. -/
def multibyte_pending_after (multibyte_pending : Int) (token_str : Str) : Int :=
  if multibyte_pending > 0 then multibyte_pending - token_str.length
  else if token_str.length = 1 then
    let c := token_str.headD 0
    if c &&& 0xE0 = 0xC0 then 1
    else if c &&& 0xF0 = 0xE0 then 2
    else if c &&& 0xF8 = 0xF0 then 3
    else 0
  else multibyte_pending

/-- The stop search of `process_token` (lines 990-1006): the locals `stop_pos`,
`is_stop_full` and `pos`, and the slot, whose text a full match cuts. -/
def stop_search (token_str : Str) (slot : llama_client_slot) :
    Option Nat × Bool × Nat × llama_client_slot :=
  let pos := min slot.sent_count slot.generated_text.length
  let str_test := slot.generated_text.drop pos
  let full := find_stopping_strings str_test token_str.length .STOP_FULL slot
  match full.1 with
  | some stop_pos =>
    let slot1 := { full.2 with generated_text := full.2.generated_text.take (pos + stop_pos) }
    (some stop_pos, true, min slot1.sent_count slot1.generated_text.length, slot1)
  | none =>
    let part := find_stopping_strings str_test token_str.length .STOP_PARTIAL full.2
    (part.1, false, pos, part.2)

/-- The test of the flush of `process_token` (line 1009). -/
def flush_test (stop_pos : Option Nat) (is_stop_full : Bool) (slot : llama_client_slot) : Bool :=
  stop_pos.isNone ||
    (!slot.has_next_token && !is_stop_full &&
      (match stop_pos with
        | some p => decide (p > 0)
        | none => false))

/-- The flush of `process_token` (lines 1009-1015): `text_to_send` and `sent_count`. -/
def flush_text (stop_pos : Option Nat) (is_stop_full : Bool) (pos : Nat)
    (result : completion_token_output) (slot : llama_client_slot) :
    completion_token_output × llama_client_slot :=
  if flush_test stop_pos is_stop_full slot = true then
    ({ result with text_to_send := slot.generated_text.drop pos },
      { slot with sent_count := slot.sent_count + (slot.generated_text.drop pos).length })
  else (result, slot)

/-- The block of `process_token` that runs when `multibyte_pending == 0` (lines 988-1021):
stop search, flush, `add_token_string` and the partial response. -/
def process_token_flush (env : Engine) (multimodal : Bool) (token_str : Str)
    (result : completion_token_output) (slot : llama_client_slot)
    (queue_results : List task_result) :
    completion_token_output × llama_client_slot × List task_result :=
  let found := stop_search token_str slot
  let flushed := flush_text found.1 found.2.1 found.2.2.1 result found.2.2.2
  let slot1 := flushed.2.add_token_string flushed.1
  if slot1.params.stream = true then
    let sent := send_partial_response env multimodal slot1 flushed.1
    (flushed.1, sent.1, queue_results ++ [sent.2])
  else (flushed.1, slot1, queue_results)

/-- The start of `process_token` (lines 953-986): the piece is appended and the UTF-8
framing is updated. -/
def append_piece (tok : llama_token) (token_str : Str) (slot : llama_client_slot) :
    llama_client_slot :=
  { slot with
    sampled := tok
    generated_text := slot.generated_text ++ token_str
    has_next_token := true
    multibyte_pending := multibyte_pending_after slot.multibyte_pending token_str }

/-- The statement at lines 1023-1026 of `process_token`. -/
def pending_override (slot : llama_client_slot) : llama_client_slot :=
  if slot.multibyte_pending > 0 ∧ slot.has_next_token = false then
    { slot with has_next_token := true }
  else slot

/-- The limit check of `process_token` (lines 1028-1033); `has_budget` is only called
when the first two conjuncts hold. -/
def check_limit (params : gpt_params) (slot : llama_client_slot) : llama_client_slot :=
  if slot.n_decoded > 2 ∧ slot.has_next_token = true then
    if (slot.has_budget params).2 = false then
      { (slot.has_budget params).1 with stopped_limit := true, has_next_token := false }
    else (slot.has_budget params).1
  else slot

/-- The end-of-stream check of `process_token` (lines 1035-1040). -/
def check_eos (env : Engine) (tok : llama_token) (slot : llama_client_slot) :
    llama_client_slot :=
  if slot.cache_tokens.isEmpty = false ∧ tok = env.llama_token_eos then
    { slot with stopped_eos := true, has_next_token := false }
  else slot

/-- Source: `llama_server_context::process_token` (lines 951-1055): the returned
`has_next_token`, the result with `text_to_send` filled, the slot and the result queue. -/
def process_token (env : Engine) (params : gpt_params) (multimodal : Bool)
    (result : completion_token_output) (slot : llama_client_slot)
    (queue_results : List task_result) :
    Bool × completion_token_output × llama_client_slot × List task_result :=
  let token_str := env.llama_token_to_piece result.tok
  let slot1 := append_piece result.tok token_str slot
  let flushed :=
    if slot1.multibyte_pending = 0 then
      process_token_flush env multimodal token_str result slot1 queue_results
    else (result, slot1, queue_results)
  let slot2 := check_eos env result.tok (check_limit params (pending_override flushed.2.1))
  (slot2.has_next_token, flushed.1, slot2, flushed.2.2)

/-! ## Undefined behaviour and aborts -/

/-- The ways in which the embedded C++ leaves defined behaviour or aborts. -/
inductive fault
  | out_of_bounds
  | length_error
  | assert_failed
  | division_by_zero
  | out_of_fuel
  | uninitialised
  | uncaught_exception
  deriving DecidableEq, Repr

/-- A `for (auto & slot : slots)` loop whose body also updates a shared state. -/
def for_each_slot {σ : Type} (body : σ → llama_client_slot → Except fault (σ × llama_client_slot)) :
    σ → List llama_client_slot → Except fault (σ × List llama_client_slot)
  | st, [] => .ok (st, [])
  | st, slot :: rest =>
    match body st slot with
    | .error e => .error e
    | .ok (st1, slot1) =>
      match for_each_slot body st1 rest with
      | .error e => .error e
      | .ok (st2, rest2) => .ok (st2, slot1 :: rest2)

/-! ## Tokenizing, slot selection, binding a task -/

/-- The array branch of `tokenize`: `first` is the flag of the source. -/
def tokenize_items (env : Engine) (add_bos : Bool) : List json_item → Bool → List llama_token
  | [], _ => []
  | .text s :: rest, first =>
    env.llama_tokenize s (if first then add_bos else false) ++ tokenize_items env add_bos rest false
  | .token t :: rest, _ => t :: tokenize_items env add_bos rest false

/-- Source: `llama_server_context::tokenize` (lines 610-653). -/
def tokenize (env : Engine) (json_prompt : json_prompt) (add_bos : Bool) : List llama_token :=
  match json_prompt with
  | .array items => tokenize_items env add_bos items true
  | .string s => env.llama_tokenize s add_bos

/-- The loop of `get_slot` from the slot at index `i` on: `t_last` and `last_used` are the
locals of the source, a slot pointer is the index of the slot. -/
def get_slot_loop (id : Int) : List llama_client_slot → Nat → Int → Option Nat → Option Nat
  | [], _, _, last_used => last_used
  | slot :: rest, i, t_last, last_used =>
    if slot.id = id ∧ slot.available = true then some i
    else if slot.available = true ∧ slot.t_last_used < t_last then
      get_slot_loop id rest (i + 1) slot.t_last_used (some i)
    else get_slot_loop id rest (i + 1) t_last last_used

/-- Source: `llama_server_context::get_slot` (lines 655-674); `now` is the value that
`ggml_time_us()` returns at the start, the result is the index of the slot or `none` for
`nullptr`. -/
def get_slot (slots : List llama_client_slot) (now : Int) (id : Int) : Option Nat :=
  get_slot_loop id slots 0 now none

/-- Source: `launch_slot_with_data` (lines 676-860) in the text-only server, where it
cannot fail: the slot with the request copied in. The caller's `all_slots_are_idle` is
cleared by `process_tasks` below. -/
def launch_slot_with_data (slot : llama_client_slot) (data : task_data) :
    Bool × llama_client_slot :=
  (true,
    { slot with
      params :=
        { slot.params with
          stream := data.stream.getD false
          cache_prompt := data.cache_prompt.getD false
          n_predict := data.n_predict.getD (-1)
          n_keep := data.n_keep.getD slot.params.n_keep
          input_prefix := data.input_prefix.getD (.string [])
          input_suffix := data.input_suffix.getD (.string [])
          antiprompt := data.stop.getD [] }
      n_probs := data.n_probs.getD 0
      prompt := data.prompt.getD (.string [])
      command := .LOAD_PROMPT })

/-- Source: `notify_system_prompt_changed` (lines 896-904). -/
def notify_system_prompt_changed (srv : llama_server_context) : llama_server_context :=
  { srv with slots := srv.slots.map llama_client_slot.release, system_need_update := true }

/-- Source: `process_system_prompt_data` (lines 906-915). -/
def process_system_prompt_data (srv : llama_server_context) (sys_props : system_props) :
    llama_server_context :=
  let srv1 :=
    { srv with
      system_prompt := sys_props.prompt
      name_user := sys_props.anti_prompt
      name_assistant := sys_props.assistant_name }
  if srv1.slots.length > 0 then notify_system_prompt_changed srv1 else srv1

/-- The text "slot unavailable". -/
def msg_slot_unavailable : Str :=
  [115, 108, 111, 116, 32, 117, 110, 97, 118, 97, 105, 108, 97, 98, 108, 101]

/-- The text "internal_error". -/
def msg_internal_error : Str :=
  [105, 110, 116, 101, 114, 110, 97, 108, 95, 101, 114, 114, 111, 114]

/-- Source: `send_error` (lines 1092-1100). -/
def send_error (srv : llama_server_context) (id : Int) (error : Str) : llama_server_context :=
  { srv with
    queue_results :=
      srv.queue_results ++ [{ id := id, stop := none, error := true, result := .error_content error }] }

/-- Source: `send_final_response` (lines 1173-1218): the result pushed. Taking more
elements than `generated_token_probs` holds is undefined. -/
def send_final_response (env : Engine) (slot : llama_client_slot) : Except fault task_result :=
  let probs : Except fault (Option (List completion_token_output)) :=
    if slot.n_probs > 0 then
      if slot.params.stream = false ∧ slot.stopped_word = true then
        let stop_word_toks := env.llama_tokenize slot.stopping_word false
        if stop_word_toks.length ≤ slot.generated_token_probs.length then
          .ok (some (slot.generated_token_probs.take
            (slot.generated_token_probs.length - stop_word_toks.length)))
        else .error .out_of_bounds
      else if slot.sent_token_probs_index ≤ slot.generated_token_probs.length then
        .ok (some (slot.generated_token_probs.take slot.sent_token_probs_index))
      else .error .out_of_bounds
    else .ok none
  match probs with
  | .error e => .error e
  | .ok completion_probabilities =>
    .ok
      { id := slot.task_id, stop := some true, error := false,
        result := .final
          { content := if slot.params.stream = false then slot.generated_text else []
            slot_id := slot.id
            tokens_predicted := slot.n_decoded
            tokens_evaluated := slot.num_prompt_tokens
            truncated := slot.truncated
            stopped_eos := slot.stopped_eos
            stopped_word := slot.stopped_word
            stopped_limit := slot.stopped_limit
            stopping_word := slot.stopping_word
            tokens_cached := slot.n_past
            completion_probabilities := completion_probabilities } }

/-- Source: `send_embedding` (lines 1220-1249): the result pushed. -/
def send_embedding (slot : llama_client_slot) : task_result :=
  { id := slot.task_id, stop := some true, error := false, result := .embedding }

/-- Source: `request_completion` (lines 1251-1262): the server and the id returned. -/
def request_completion (srv : llama_server_context) (data : task_data) ( infill : Bool)
    (embedding : Bool) : llama_server_context × Int :=
  ({ srv with
    id_gen := srv.id_gen + 1
    queue_tasks :=
      srv.queue_tasks ++
        [{ id := srv.id_gen, type := .COMPLETION_TASK, data := data, infill_mode := infill,
           embedding_mode := embedding }] },
    srv.id_gen)

/-- Source: `request_cancel` (lines 1359-1367). -/
def request_cancel (srv : llama_server_context) (task_id : Int) : llama_server_context :=
  { srv with
    id_gen := srv.id_gen + 1
    queue_tasks :=
      srv.queue_tasks ++ [{ id := srv.id_gen, type := .CANCEL_TASK, target_id := task_id }] }

/-- The scan of `next_result` over the result queue (lines 1278-1286): the first result
with the id, and the queue after `erase`; `none` when no result has the id. -/
def next_result_scan (task_id : Int) : List task_result →
    Option (task_result × List task_result)
  | [] => none
  | res :: rest =>
    if res.id = task_id then some (res, rest)
    else
      match next_result_scan task_id rest with
      | none => none
      | some (found, rest1) => some (found, res :: rest1)

/-- Source: `next_result` (lines 1264-1289), one pass of its `while (true)` loop under the
lock: the result returned and the server. `none` when the pass finds no result with the
id: then the source sleeps and scans again, and does not return before a result with the id
is pushed. -/
def next_result (srv : llama_server_context) (task_id : Int) :
    Option (task_result × llama_server_context) :=
  match next_result_scan task_id srv.queue_results with
  | none => none
  | some (res, rest) => some (res, { srv with queue_results := rest })

/-- The results of `n` successive calls of `next_result` with the same id, and the server
after them; `none` when one of the calls finds no result. -/
def next_results (task_id : Int) : Nat → llama_server_context →
    Option (List task_result × llama_server_context)
  | 0, srv => some ([], srv)
  | n + 1, srv =>
    match next_result srv task_id with
    | none => none
    | some (res, srv1) =>
      match next_results task_id n srv1 with
      | none => none
      | some (results, srv2) => some (res :: results, srv2)

/-- The `CANCEL_TASK` loop of `process_tasks`: release the first slot bound to the task. -/
def cancel_slot (target_id : Int) : List llama_client_slot → List llama_client_slot
  | [] => []
  | slot :: rest =>
    if slot.task_id = target_id then slot.release :: rest
    else slot :: cancel_slot target_id rest

/-- The body of the loop of `process_tasks` for the task taken from the front of the
queue: the server, and whether the loop goes on (`false` is the `return` of the source). -/
def process_task (env : Engine) (srv : llama_server_context) (task : task_server) :
    llama_server_context × Bool :=
  match task.type with
  | .COMPLETION_TASK =>
    let now := env.ggml_time_us srv.clock_calls
    let srv1 := { srv with clock_calls := srv.clock_calls + 1 }
    match get_slot srv1.slots now (task.data.slot_id.getD (-1)) with
    | none => (send_error srv1 task.id msg_slot_unavailable, false)
    | some i =>
      let srv2 :=
        match task.data.system_prompt with
        | some sys_props => process_system_prompt_data srv1 sys_props
        | none => srv1
      match srv2.slots.get? i with
      | none => (srv2, true)
      | some slot =>
        let slot1 :=
          { slot.reset with
            infill := task.infill_mode
            embedding := task.embedding_mode
            task_id := task.id }
        let launched := launch_slot_with_data slot1 task.data
        let srv3 :=
          { srv2 with slots := srv2.slots.set i launched.2, all_slots_are_idle := false }
        if launched.1 = false then (send_error srv3 task.id msg_internal_error, true)
        else (srv3, true)
  | .CANCEL_TASK => ({ srv with slots := cancel_slot task.target_id srv.slots }, true)

/-- The `while (!queue_tasks.empty())` loop of `process_tasks`, over the queued tasks. -/
def process_tasks_loop (env : Engine) : List task_server → llama_server_context →
    llama_server_context
  | [], srv => srv
  | task :: rest, srv =>
    let stepped := process_task env { srv with queue_tasks := rest } task
    if stepped.2 = true then process_tasks_loop env rest stepped.1 else stepped.1

/-- Source: `llama_server_context::process_tasks` (lines 1369-1418). -/
def process_tasks (env : Engine) (srv : llama_server_context) : llama_server_context :=
  process_tasks_loop env srv.queue_tasks srv

/-! ## The scheduler tick -/

/-- Source: `kv_cache_clear` (lines 862-866); the engine's cache itself is not modelled. -/
def kv_cache_clear (srv : llama_server_context) : llama_server_context :=
  { srv with clean_kv_cache := false }

/-- The batch entries `update_system_prompt` adds, for the tokens from position `i` on. -/
def system_batch : List llama_token → Nat → List batch_entry
  | [], _ => []
  | t :: rest, i => { token := t, pos := i, seq_id := 0, logits := false } :: system_batch rest (i + 1)

/-- Source: `update_system_prompt` (lines 868-894). -/
def update_system_prompt (env : Engine) (srv : llama_server_context) : llama_server_context :=
  let system_tokens := env.llama_tokenize srv.system_prompt true
  let srv1 :=
    { kv_cache_clear srv with
      system_tokens := system_tokens
      batch := system_batch system_tokens 0
      decode_calls := srv.decode_calls + 1 }
  if env.llama_decode srv.decode_calls ≠ 0 then srv1
  else { srv1 with system_need_update := false }

/-- The compaction loop of the context shift (lines 1456-1459): `n` iterations are left
and `i` is the loop variable. The index `i - n_discard` is written, which is undefined
outside the vector. -/
def context_shift_loop (n_discard : Int) : Nat → Nat → List llama_token →
    Except fault (List llama_token)
  | 0, _, cache_tokens => .ok cache_tokens
  | n + 1, i, cache_tokens =>
    let target : Int := (i : Int) - n_discard
    if 0 ≤ target ∧ target < cache_tokens.length then
      context_shift_loop n_discard n (i + 1)
        (cache_tokens.set target.toNat (cache_tokens.getD i 0))
    else .error .out_of_bounds

/-- The call `cache_tokens.resize(cache_tokens.size() - n_discard)` (line 1461): new
elements are zero, and a size that wraps around below zero is a `length_error`. -/
def resize_cache (cache_tokens : List llama_token) (n_discard : Int) :
    Except fault (List llama_token) :=
  let new_size : Int := (cache_tokens.length : Int) - n_discard
  if new_size < 0 then .error .length_error
  else .ok (cache_tokens.take new_size.toNat ++
    List.replicate (new_size.toNat - cache_tokens.length) 0)

/-- The body of the context shift (lines 1448-1465), for a slot on which it fires. -/
def context_shift (slot : llama_client_slot) : Except fault llama_client_slot :=
  let n_left := slot.n_past - slot.params.n_keep - 1
  let n_discard := n_left.tdiv 2
  let start : Int := slot.params.n_keep + 1 + n_discard
  let moved :=
    if start < 0 then .ok slot.cache_tokens
    else context_shift_loop n_discard (slot.cache_tokens.length - start.toNat) start.toNat
      slot.cache_tokens
  match moved with
  | .error e => .error e
  | .ok cache_tokens =>
    match resize_cache cache_tokens n_discard with
    | .error e => .error e
    | .ok resized =>
      .ok { slot with
        cache_tokens := resized
        n_past := slot.n_past - n_discard
        truncated := true }

/-- The test of the context-shift pass (line 1446). -/
def context_shift_fires (slot : llama_client_slot) : Bool :=
  slot.is_processing && decide (0 ≤ slot.n_ctx ∧ slot.n_ctx ≤ (slot.cache_tokens.length : Int))

/-- The context-shift pass of `update_slots` for one slot (lines 1444-1473). -/
def update_slots_shift (slot : llama_client_slot) : Except fault llama_client_slot :=
  if context_shift_fires slot = true then context_shift slot else .ok slot

/-- The release and continue-decode pass of `update_slots` for one slot
(lines 1476-1501). -/
def update_slots_ongoing (env : Engine) (srv : llama_server_context)
    (slot : llama_client_slot) : Except fault (llama_server_context × llama_client_slot) :=
  if slot.command = .RELEASE then
    .ok ({ srv with clock_calls := srv.clock_calls + 1 },
      { slot with
        state := .IDLE
        command := .NONE
        t_last_used := env.ggml_time_us srv.clock_calls })
  else if slot.state = .IDLE then .ok (srv, slot)
  else
    .ok ({ srv with
        batch := srv.batch ++
          [{ token := slot.sampled, pos := (srv.system_tokens.length : Int) + slot.n_past,
             seq_id := slot.id, logits := true }] },
      { slot with
        i_batch := srv.batch.length
        n_decoded := slot.n_decoded + 1
        n_past := slot.n_past + 1 })

/-- The infill prompt (lines 1531-1553): the global `params.input_suffix` after the
leading blank is erased, and the prompt tokens. -/
def infill_tokens (env : Engine) (params : gpt_params) (slot : llama_client_slot) :
    gpt_params × List llama_token :=
  let erase := params.input_suffix.head? = some 32 ∧ params.input_suffix.length > 1
  let params1 :=
    if erase then { params with input_suffix := params.input_suffix.drop 1 } else params
  let suff_rm_leading_spc : Bool := !decide erase
  let prefix_tokens := tokenize env slot.params.input_prefix false
  let suffix_tokens := tokenize env slot.params.input_suffix false
  let suffix_tokens1 :=
    if suff_rm_leading_spc = true ∧ suffix_tokens.head? = some 29871 then suffix_tokens.drop 1
    else suffix_tokens
  (params1,
    [env.llama_token_bos, env.llama_token_prefix] ++ prefix_tokens ++ [env.llama_token_suffix] ++
      suffix_tokens1 ++ [env.llama_token_middle])

/-- The truncation of a prompt that does not fit (lines 1577-1597), entered when
`num_prompt_tokens >= n_ctx`. -/
def truncate_prompt (slot : llama_client_slot) (prompt_tokens : List llama_token) :
    Except fault (llama_client_slot × List llama_token) :=
  let n_left := slot.n_ctx - slot.params.n_keep
  let n_block_size := n_left.tdiv 2
  if n_block_size = 0 then .error .division_by_zero
  else
    let erased_blocks :=
      (slot.num_prompt_tokens - slot.params.n_keep - n_block_size).tdiv n_block_size
    let skip : Int := slot.params.n_keep + erased_blocks * n_block_size
    if slot.params.n_keep < 0 ∨ slot.params.n_keep > prompt_tokens.length ∨ skip < 0 ∨
        skip > prompt_tokens.length then .error .out_of_bounds
    else
      let new_tokens := prompt_tokens.take slot.params.n_keep.toNat ++ prompt_tokens.drop skip.toNat
      if (new_tokens.length : Int) < slot.n_ctx then
        .ok ({ slot with truncated := true, num_prompt_tokens := new_tokens.length }, new_tokens)
      else .error .assert_failed

/-- The adjustment of `n_keep` in the `cache_prompt` branch (lines 1570-1574). -/
def clamp_n_keep (slot : llama_client_slot) : llama_client_slot :=
  { slot with
    params.n_keep :=
      min (slot.n_ctx - 4)
        (if slot.params.n_keep < 0 then slot.num_prompt_tokens else slot.params.n_keep) }

/-- The statement at lines 1576-1597: a prompt that does not fit is truncated. -/
def fit_prompt (slot : llama_client_slot) (prompt_tokens : List llama_token) :
    Except fault (llama_client_slot × List llama_token) :=
  if slot.num_prompt_tokens ≥ slot.n_ctx then truncate_prompt slot prompt_tokens
  else .ok (slot, prompt_tokens)

/-- The `cache_prompt` branch of the prompt preparation (lines 1570-1608). -/
def prepare_cached_prompt (slot : llama_client_slot) (prompt_tokens : List llama_token) :
    Except fault (llama_client_slot × List llama_token) :=
  match fit_prompt (clamp_n_keep slot) prompt_tokens with
  | .error e => .error e
  | .ok (slot3, tokens) =>
    .ok ({ slot3 with
        n_past := (common_part slot3.cache_tokens tokens : Nat)
        num_prompt_tokens_processed :=
          slot3.num_prompt_tokens - (common_part slot3.cache_tokens tokens : Nat) },
      tokens)

/-- The loop that puts the prompt into the batch (lines 1634-1637): `n` iterations are
left, the entry for position `n_past` is added. The loop is entered with `n_past >= 0`; a
negative `n_past` reads `prefix_tokens[-1]`, which `update_slots_prompt` reports. -/
def ingest_loop (system_size : Nat) (id : Int) (prefix_tokens : List llama_token) :
    Nat → Nat → List batch_entry
  | 0, _ => []
  | n + 1, n_past =>
    { token := prefix_tokens.getD n_past 0, pos := (system_size : Int) + n_past, seq_id := id,
      logits := false } :: ingest_loop system_size id prefix_tokens n (n_past + 1)

/-- The statement `batch.logits[batch.n_tokens - 1] = true` (lines 1646-1649). -/
def set_last_logits : List batch_entry → List batch_entry
  | [] => []
  | [e] => [{ e with logits := true }]
  | e :: rest => e :: set_last_logits rest

/-- The tokenization of the prompt (lines 1531-1557): the global `params`, whose
`input_suffix` the infill branch may change, and the prompt tokens. -/
def prompt_tokens_of (env : Engine) (srv : llama_server_context) (slot : llama_client_slot) :
    gpt_params × List llama_token :=
  if slot.infill = true then infill_tokens env srv.params slot
  else (srv.params, tokenize env slot.prompt srv.system_prompt.isEmpty)

/-- The two branches on `cache_prompt` (lines 1561-1609). -/
def prepare_slot (slot : llama_client_slot) (prompt_tokens : List llama_token) :
    Except fault (llama_client_slot × List llama_token) :=
  if slot.params.cache_prompt = false then
    .ok ({ slot with n_past := 0, num_prompt_tokens_processed := slot.num_prompt_tokens },
      prompt_tokens)
  else prepare_cached_prompt slot prompt_tokens

/-- The statement at lines 1617-1622: at least one token is left to evaluate. -/
def adjust_n_past (slot : llama_client_slot) : llama_client_slot :=
  if slot.n_past = slot.num_prompt_tokens then { slot with n_past := slot.n_past - 1 } else slot

/-- The prompt preparation of the prompt-ingest pass (lines 1527-1622): the prompt is
tokenized, truncated and compared with the cache; the global `params`, the slot and the
prompt tokens. -/
def prepare_prompt (env : Engine) (srv : llama_server_context) (slot : llama_client_slot) :
    Except fault (gpt_params × llama_client_slot × List llama_token) :=
  match prepare_slot
      { slot with num_prompt_tokens := (prompt_tokens_of env srv slot).2.length }
      (prompt_tokens_of env srv slot).2 with
  | .error e => .error e
  | .ok (slot3, prompt_tokens) =>
    .ok ((prompt_tokens_of env srv slot).1,
      adjust_n_past { slot3 with cache_tokens := prompt_tokens }, prompt_tokens)

/-- The prompt-ingest pass of `update_slots` for one slot (lines 1509-1654). -/
def update_slots_prompt (env : Engine) (srv : llama_server_context)
    (slot : llama_client_slot) : Except fault (llama_server_context × llama_client_slot) :=
  let has_prompt : Bool :=
    match slot.prompt with
    | .array _ => true
    | .string s => !s.isEmpty
  if slot.state = .IDLE ∧ slot.command = .LOAD_PROMPT ∧ has_prompt = false then
    match send_final_response env slot.release with
    | .error e => .error e
    | .ok res => .ok ({ srv with queue_results := srv.queue_results ++ [res] }, slot.release)
  else if slot.state = .IDLE ∧ slot.command = .LOAD_PROMPT then
    match prepare_prompt env srv { slot with state := .PROCESSING, command := .NONE } with
    | .error e => .error e
    | .ok (params, slot5, prompt_tokens) =>
      if slot5.n_past < (0 : Int) then .error .out_of_bounds
      else
        let added :=
          ingest_loop srv.system_tokens.length slot5.id prompt_tokens
            (prompt_tokens.length - slot5.n_past.toNat) slot5.n_past.toNat
        let batch := set_last_logits (srv.batch ++ added)
        .ok ({ srv with params := params, batch := batch },
          { slot5 with
            n_past := max slot5.n_past (prompt_tokens.length : Int)
            n_decoded := 0
            i_batch := (batch.length : Int) - 1 })
  else .ok (srv, slot)

/-- The per-slot work after a chunk was decoded (lines 1696-1746). The flag of the shared
state says that `update_slots` has returned, which the embedding branch does. -/
def update_slots_sample (env : Engine) (i n_tokens : Int) (st : llama_server_context × Bool)
    (slot : llama_client_slot) :
    Except fault ((llama_server_context × Bool) × llama_client_slot) :=
  if st.2 = true then .ok (st, slot)
  else if slot.i_batch < i ∨ slot.i_batch ≥ i + n_tokens then .ok (st, slot)
  else if slot.embedding = true then
    .ok (({ st.1 with queue_results := st.1.queue_results ++ [send_embedding slot] }, true),
      { slot.release with i_batch := -1 })
  else
    let id := env.llama_sampling_sample st.1.sample_calls
    let processed :=
      process_token env st.1.params st.1.multimodal { tok := id } slot st.1.queue_results
    let srv1 :=
      { st.1 with sample_calls := st.1.sample_calls + 1, queue_results := processed.2.2.2 }
    if processed.1 = false then
      let slot1 := processed.2.2.1.release
      match send_final_response env slot1 with
      | .error e => .error e
      | .ok res =>
        .ok (({ srv1 with queue_results := srv1.queue_results ++ [res] }, false),
          { slot1 with i_batch := -1 })
    else .ok ((srv1, false), { processed.2.2.1 with i_batch := -1 })

/-- The chunked decode loop of `update_slots` (lines 1663-1747), `i` and `n_batch` being
its variables: the value `update_slots` returns, and the server. -/
def decode_loop (env : Engine) : Nat → Int → Int → llama_server_context →
    Except fault (Bool × llama_server_context)
  | 0, _, _, _ => .error .out_of_fuel
  | fuel + 1, i, n_batch, srv =>
    if i < (srv.batch.length : Int) then
      let n_tokens := min n_batch ((srv.batch.length : Int) - i)
      let ret := env.llama_decode srv.decode_calls
      let srv1 := { srv with decode_calls := srv.decode_calls + 1 }
      if ret ≠ 0 then
        if n_batch = 1 ∨ ret < 0 then .ok (false, srv1)
        else decode_loop env fuel (i - n_batch.tdiv 2 + n_batch.tdiv 2) (n_batch.tdiv 2) srv1
      else
        match for_each_slot (update_slots_sample env i n_tokens) (srv1, false) srv1.slots with
        | .error e => .error e
        | .ok (st, slots) =>
          if st.2 = true then .ok (true, { st.1 with slots := slots })
          else decode_loop env fuel (i + n_batch) n_batch { st.1 with slots := slots }
    else .ok (true, srv)

/-- One call of `llama_decode` in the chunked decode loop: the offset `i` and `n_batch` of
the iteration, the size `n_tokens` of the chunk and the code returned. -/
structure decode_call where
  i : Int
  n_batch : Int
  n_tokens : Int
  ret : Int
  deriving DecidableEq, Repr

/-- The loop `decode_loop` with a record of its `llama_decode` calls, in their order. -/
def decode_loop_log (env : Engine) : Nat → Int → Int → llama_server_context →
    Except fault ((Bool × llama_server_context) × List decode_call)
  | 0, _, _, _ => .error .out_of_fuel
  | fuel + 1, i, n_batch, srv =>
    if i < (srv.batch.length : Int) then
      let n_tokens := min n_batch ((srv.batch.length : Int) - i)
      let ret := env.llama_decode srv.decode_calls
      let srv1 := { srv with decode_calls := srv.decode_calls + 1 }
      let call : decode_call := { i := i, n_batch := n_batch, n_tokens := n_tokens, ret := ret }
      if ret ≠ 0 then
        if n_batch = 1 ∨ ret < 0 then .ok ((false, srv1), [call])
        else
          match decode_loop_log env fuel (i - n_batch.tdiv 2 + n_batch.tdiv 2)
              (n_batch.tdiv 2) srv1 with
          | .error e => .error e
          | .ok (res, calls) => .ok (res, call :: calls)
      else
        match for_each_slot (update_slots_sample env i n_tokens) (srv1, false) srv1.slots with
        | .error e => .error e
        | .ok (st, slots) =>
          if st.2 = true then .ok ((true, { st.1 with slots := slots }), [call])
          else
            match decode_loop_log env fuel (i + n_batch) n_batch { st.1 with slots := slots } with
            | .error e => .error e
            | .ok (res, calls) => .ok (res, call :: calls)
    else .ok ((true, srv), [])

/-- The chunks `cs` lie one after the other, none empty, from offset `a` up to `b`. -/
def chunks_cover : List decode_call → Int → Int → Bool
  | [], a, b => decide (a = b)
  | c :: rest, a, b =>
    decide (c.i = a) && decide (0 < c.n_tokens) && chunks_cover rest (a + c.n_tokens) b

/-- The start of `update_slots` (lines 1421-1442): the tasks are attended, the system
prompt is updated when it is due, the batch is cleared, and so is the KV cache of an idle
server. -/
def update_slots_begin (env : Engine) (srv : llama_server_context) : llama_server_context :=
  let srv1 := process_tasks env srv
  let srv2 :=
    if srv1.system_need_update = true ∧ srv1.all_slots_are_idle = true then
      update_system_prompt env srv1
    else srv1
  let srv3 := { srv2 with batch := [] }
  if srv3.all_slots_are_idle = true ∧ srv3.system_prompt.isEmpty = true ∧
      srv3.clean_kv_cache = true then kv_cache_clear srv3
  else srv3

/-- The context-shift pass as a body of `for_each_slot`; it has no shared state. -/
def update_slots_shift_body (_ : Unit) (slot : llama_client_slot) :
    Except fault (Unit × llama_client_slot) :=
  match update_slots_shift slot with
  | .error e => .error e
  | .ok slot1 => .ok ((), slot1)

/-- Source: `llama_server_context::update_slots` (lines 1420-1749), one tick of the
scheduler: the value returned and the server. `fuel` bounds the number of `llama_decode`
calls of the chunked decode loop. -/
def update_slots (env : Engine) (fuel : Nat) (srv : llama_server_context) :
    Except fault (Bool × llama_server_context) :=
  match for_each_slot update_slots_shift_body () (update_slots_begin env srv).slots with
  | .error e => .error e
  | .ok (_, shifted) =>
    match for_each_slot (update_slots_ongoing env)
        { update_slots_begin env srv with slots := shifted } shifted with
    | .error e => .error e
    | .ok (srv5, ongoing) =>
      let ingested :=
        if srv5.params.cont_batching = true ∨ srv5.batch.length = 0 then
          for_each_slot (update_slots_prompt env) { srv5 with slots := ongoing } ongoing
        else .ok ({ srv5 with slots := ongoing }, ongoing)
      match ingested with
      | .error e => .error e
      | .ok (srv7, slots) =>
        if srv7.batch.length = 0 then
          .ok (true, { srv7 with slots := slots, all_slots_are_idle := true })
        else decode_loop env fuel 0 srv7.params.n_batch { srv7 with slots := slots }

/-- The slots that `initialize` creates, with ids `i`, `i + 1`, ... (lines 591-601). -/
def new_slots (n_ctx_slot : Int) : Nat → Int → List llama_client_slot
  | 0, _ => []
  | n + 1, i =>
    ({ id := i, n_ctx := n_ctx_slot } : llama_client_slot).reset :: new_slots n_ctx_slot n (i + 1)

/-- Source: `llama_server_context::initialize` (lines 582-608). -/
def llama_server_context.initialize (srv : llama_server_context) :
    Except fault llama_server_context :=
  if srv.params.n_parallel = 0 then .error .division_by_zero
  else
    .ok { srv with
      id_gen := 0
      all_slots_are_idle := true
      slots := srv.slots ++ new_slots (srv.n_ctx.tdiv srv.params.n_parallel)
        srv.params.n_parallel.toNat 0
      batch := []
      system_prompt := []
      system_tokens := [] }

/-! ## Generation of one slot -/

/-- The calls of `process_token` that `update_slots` makes for one slot once its prompt is
in the batch: each sampled token is processed, and after a call that returns `true` the
continue-decode pass of the next tick advances `n_decoded` and `n_past` (lines 1499-1500).
The flag is `false` when a call has returned `false`, which ends the generation (the slot
is released, lines 1738-1743). -/
def process_tokens (env : Engine) (params : gpt_params) (multimodal : Bool) :
    List llama_token → llama_client_slot → List task_result →
    Bool × llama_client_slot × List task_result
  | [], slot, queue_results => (true, slot, queue_results)
  | tok :: rest, slot, queue_results =>
    let processed := process_token env params multimodal { tok := tok } slot queue_results
    if processed.1 = true then
      process_tokens env params multimodal rest
        { processed.2.2.1 with
          n_decoded := processed.2.2.1.n_decoded + 1
          n_past := processed.2.2.1.n_past + 1 }
        processed.2.2.2
    else (false, processed.2.2.1, processed.2.2.2)

/-- The text of a sequence of sampled tokens: their pieces, concatenated. -/
def pieces (env : Engine) (toks : List llama_token) : Str :=
  (toks.map env.llama_token_to_piece).flatten

/-- The value of `multibyte_pending` after the calls of `process_token` for the tokens
`toks`, from the value `p`: the UTF-8 framing of lines 960-986, piece after piece. -/
def pending_after (env : Engine) (p : Int) (toks : List llama_token) : Int :=
  toks.foldl (fun pending tok => multibyte_pending_after pending (env.llama_token_to_piece tok)) p

/-- The `content` of a partial response, which `PredictStream` writes to the client. -/
def streamed_content (res : task_result) : Str :=
  match res.result with
  | .partial_response content _ _ _ => content
  | _ => []

/-- Several ticks of the scheduler, one after the other. -/
def run_ticks (env : Engine) (fuel : Nat) : Nat → llama_server_context →
    Except fault llama_server_context
  | 0, srv => .ok srv
  | n + 1, srv =>
    match update_slots env fuel srv with
    | .error e => .error e
    | .ok (_, srv1) => run_ticks env fuel n srv1

/-- The work of `update_slots` on one slot after chunks were decoded: a sequence of calls
of `update_slots_sample`, each for a chunk `[i, i + n_tokens)` with `0 ≤ i` or
`n_tokens ≤ 0`. -/
inductive sampled_steps (env : Engine) : llama_client_slot → llama_client_slot → Prop
  | done (s : llama_client_slot) : sampled_steps env s s
  | step (i n_tokens : Int) (st st' : llama_server_context × Bool)
      (s s' s'' : llama_client_slot) (hi : 0 ≤ i ∨ n_tokens ≤ 0)
      (h : update_slots_sample env i n_tokens st s = .ok (st', s'))
      (hrest : sampled_steps env s' s'') : sampled_steps env s s''

/-- What `process_tasks` may do to a slot: a processing slot keeps everything but its
command; an idle slot stays idle. -/
def tasks_rel (s s' : llama_client_slot) : Prop :=
  s'.state = s.state ∧ s'.n_ctx = s.n_ctx ∧ s'.id = s.id ∧
    (s.state = .PROCESSING → { s' with command := s.command } = s)

/-- The passes of one tick on one slot, in order: `process_tasks`, the context shift, the
release and continue-decode pass, the prompt-ingest pass (when it runs) and the sampling
after each decoded chunk. -/
def tick_chain (env : Engine) (s0 s5 : llama_client_slot) : Prop :=
  ∃ s1 s2 s3 s4 : llama_client_slot,
    tasks_rel s0 s1 ∧ update_slots_shift s1 = .ok s2 ∧
    (∃ a b, update_slots_ongoing env a s2 = .ok (b, s3)) ∧
    ((∃ a b, update_slots_prompt env a s3 = .ok (b, s4)) ∨ s4 = s3) ∧
    sampled_steps env s4 s5

/-- The server after a tick of `update_slots`; a tick that does not complete leaves it as
it was. -/
def after_tick (env : Engine) (fuel : Nat) (srv : llama_server_context) :
    llama_server_context :=
  match update_slots env fuel srv with
  | .ok (_, srv1) => srv1
  | .error _ => srv

/-- The slot at index `j` of the server; a slot with `id = -1` when there is none. -/
def slot_at (srv : llama_server_context) (j : Nat) : llama_client_slot :=
  srv.slots.getD j { id := -1 }

/-- A tick of `update_slots` that completes and in which the slot at index `j` neither
shifts its context nor prepares a prompt: when the tick starts its `cache_tokens` are
fewer than `n_ctx`, so that the test of line 1446 fails, and it is not idle at the start
and processing at the end, as a slot whose prompt the tick loads is. -/
def quiet_tick (env : Engine) (fuel : Nat) (j : Nat) (srv srv' : llama_server_context) : Prop :=
  ∃ (b : Bool) (s s' : llama_client_slot),
    update_slots env fuel srv = .ok (b, srv') ∧
    srv.slots.get? j = some s ∧ srv'.slots.get? j = some s' ∧
    (s.cache_tokens.length : Int) < s.n_ctx ∧ ¬ (s.state = .IDLE ∧ s'.state = .PROCESSING)

/-- A run of the server in which the slot at index `j` neither shifts its context nor
prepares a prompt: ticks of that kind, submitted tasks and cancellations, in any order. -/
inductive quiet_run (env : Engine) (j : Nat) :
    llama_server_context → llama_server_context → Prop
  | done (srv : llama_server_context) : quiet_run env j srv srv
  | tick (fuel : Nat) (srv srv1 srv2 : llama_server_context)
      (h : quiet_tick env fuel j srv srv1) (hrest : quiet_run env j srv1 srv2) :
      quiet_run env j srv srv2
  | completion (srv : llama_server_context) (data : task_data)
      (infill_mode embedding_mode : Bool) (srv2 : llama_server_context)
      (hrest : quiet_run env j (request_completion srv data infill_mode embedding_mode).1 srv2) :
      quiet_run env j srv srv2
  | cancel (srv : llama_server_context) (task_id : Int) (srv2 : llama_server_context)
      (hrest : quiet_run env j (request_cancel srv task_id) srv2) : quiet_run env j srv srv2

/-! ## Base64 -/

/-- Source: `base64_chars` (lines 69-72), as byte values. -/
def base64_chars : Str :=
  [65, 66, 67, 68, 69, 70, 71, 72, 73, 74, 75, 76, 77, 78, 79, 80, 81, 82, 83, 84, 85, 86, 87,
   88, 89, 90, 97, 98, 99, 100, 101, 102, 103, 104, 105, 106, 107, 108, 109, 110, 111, 112,
   113, 114, 115, 116, 117, 118, 119, 120, 121, 122, 48, 49, 50, 51, 52, 53, 54, 55, 56, 57,
   43, 47]

/-- Source: `is_base64` (lines 74-77); `isalnum` is that of the C locale. -/
def is_base64 (c : Nat) : Bool :=
  (decide (48 ≤ c ∧ c ≤ 57) || decide (65 ≤ c ∧ c ≤ 90) || decide (97 ≤ c ∧ c ≤ 122)) ||
    decide (c = 43) || decide (c = 47)

/-- The call `str.find(c)` for a character: the first index of `c` from `i` on. -/
def find_char (c : Nat) : Str → Nat → Option Nat
  | [], _ => none
  | x :: t, i => if x = c then some i else find_char c t (i + 1)

/-- The statement `char_array_4[i] = base64_chars.find(char_array_4[i])` (lines 97-100,
121-124): the index is stored in a `uint8_t`, which makes 255 of `npos`. -/
def base64_find (c : Nat) : Nat :=
  match find_char c base64_chars 0 with
  | some p => p % 256
  | none => 255

/-- The three bytes made of `char_array_4` (lines 102-104 and 126-128), in `uint8_t`. -/
def base64_bytes (char_array_4 : List Nat) : List Nat :=
  [((char_array_4.getD 0 0 <<< 2) + ((char_array_4.getD 1 0 &&& 0x30) >>> 4)) % 256,
   (((char_array_4.getD 1 0 &&& 0xf) <<< 4) + ((char_array_4.getD 2 0 &&& 0x3c) >>> 2)) % 256,
   (((char_array_4.getD 2 0 &&& 0x3) <<< 6) + char_array_4.getD 3 0) % 256]

/-- The `while` loop of `base64_decode` (lines 92-112) over the rest of the input: `i`,
`char_array_4` and `ret` are the locals of the source. -/
def base64_decode_loop : Str → Nat → List Nat → List Nat → Nat × List Nat × List Nat
  | [], i, char_array_4, ret => (i, char_array_4, ret)
  | c :: rest, i, char_array_4, ret =>
    if c ≠ 61 ∧ is_base64 c = true then
      if i + 1 = 4 then
        base64_decode_loop rest 0 ((char_array_4.set i c).map base64_find)
          (ret ++ base64_bytes ((char_array_4.set i c).map base64_find))
      else base64_decode_loop rest (i + 1) (char_array_4.set i c) ret
    else (i, char_array_4, ret)

/-- The statement `if (i) ...` after the loop of `base64_decode` (lines 114-134), for the
values `i`, `char_array_4` and `ret` that the loop leaves: the rest of `char_array_4` is
set to zero, and `i - 1` bytes are added. -/
def base64_decode_tail (looped : Nat × List Nat × List Nat) : List Nat :=
  if looped.1 ≠ 0 then
    looped.2.2 ++
      (base64_bytes
        ((looped.2.1.take looped.1 ++ List.replicate (4 - looped.1) 0).map base64_find)).take
        (looped.1 - 1)
  else looped.2.2

/-- Source: `base64_decode` (lines 79-137). The array `char_array_4` is not initialised in
the source; no element of it is read before it is written. -/
def base64_decode (encoded_string : Str) : List Nat :=
  base64_decode_tail (base64_decode_loop encoded_string 0 [0, 0, 0, 0] [])

/-- The standard Base64 encoding (RFC 4648: the alphabet `A-Z a-z 0-9 + /` and the padding
`=`), which the round trip is stated for; the source has no encoder. -/
def base64_encode_standard : List Nat → Str
  | [] => []
  | [a] => [base64_chars.getD (a / 4) 0, base64_chars.getD (a % 4 * 16) 0, 61, 61]
  | [a, b] =>
    [base64_chars.getD (a / 4) 0, base64_chars.getD (a % 4 * 16 + b / 16) 0,
     base64_chars.getD (b % 16 * 4) 0, 61]
  | a :: b :: c :: rest =>
    base64_chars.getD (a / 4) 0 :: base64_chars.getD (a % 4 * 16 + b / 16) 0 ::
      base64_chars.getD (b % 16 * 4 + c / 64) 0 :: base64_chars.getD (c % 64) 0 ::
      base64_encode_standard rest

/-! ## The image markers of a prompt -/

/-- Source: `struct slot_image` (lines 193-204): the id and the text before the image. -/
structure slot_image where
  id : Int
  prefix_prompt : Str := []
  deriving DecidableEq, Repr

/-- What a call of `std::stoi` does: it returns a value or throws one of two exceptions. -/
inductive stoi_result
  | value (n : Int)
  | invalid_argument
  | out_of_range
  deriving DecidableEq, Repr

/-- The C function `isspace` in the C locale. -/
def isspace (c : Nat) : Bool :=
  decide (c = 32) || decide (9 ≤ c ∧ c ≤ 13)

/-- The C function `isdigit`. -/
def isdigit (c : Nat) : Bool :=
  decide (48 ≤ c ∧ c ≤ 57)

/-- The value of a run of decimal digits. -/
def digits_value (digits : Str) : Int :=
  digits.foldl (fun acc c => acc * 10 + ((c : Int) - 48)) 0

/-- The sign that `std::stoi` reads: whether it is `-`, and the text after it. -/
def stoi_sign : Str → Bool × Str
  | 45 :: t => (true, t)
  | 43 :: t => (false, t)
  | t => (false, t)

/-- The call `std::stoi(str)`: white space is skipped, a sign is read, then the longest run
of decimal digits; what follows is ignored. No digit is `invalid_argument`, a value outside
`int` is `out_of_range`. -/
def stoi (str : Str) : stoi_result :=
  let unsigned := stoi_sign (str.dropWhile isspace)
  let digits := unsigned.2.takeWhile isdigit
  if digits.isEmpty then .invalid_argument
  else
    let v : Int := if unsigned.1 = true then - digits_value digits else digits_value digits
    if v < -2147483648 ∨ 2147483647 < v then .out_of_range else .value v

/-- The subtraction `a - b` of two `size_t` values, which wraps around below zero. -/
def size_t_sub (a b : Nat) : Nat :=
  if b ≤ a then a - b else a + 18446744073709551616 - b

/-- The call `str.substr(pos, count)` for `pos ≤ str.size()`. -/
def substr (str : Str) (pos count : Nat) : Str :=
  (str.drop pos).take count

/-- The pattern `"[img-"` of the marker scan. -/
def img_pattern : Str :=
  [91, 105, 109, 103, 45]

/-- The loop over `slot->images` (lines 820-828): the first image with the id gets the
prefix; `none` when no image has the id. -/
def set_image_prefix (img_id : Int) (prefix_prompt : Str) :
    List slot_image → Option (List slot_image)
  | [] => none
  | img :: rest =>
    if img.id = img_id then some ({ img with prefix_prompt := prefix_prompt } :: rest)
    else
      match set_image_prefix img_id prefix_prompt rest with
      | none => none
      | some rest1 => some (img :: rest1)

/-- The `while` loop of the marker scan (lines 809-840): `pos` and `begin_prefix` are its
variables; `none` is the `return false` of the source, after which the images are cleared.
The exception `out_of_range` of `std::stoi` is not caught. Every iteration moves `pos` on
by the length of the pattern, so `fuel` above the length of the prompt is not used up. -/
def image_marker_loop (prompt : Str) : Nat → Nat → Nat → List slot_image →
    Except fault (Option (Nat × List slot_image))
  | 0, _, _, _ => .error .out_of_fuel
  | fuel + 1, pos, begin_prefix, images =>
    match str_find prompt img_pattern pos with
    | none => .ok (some ( begin_prefix, images))
    | some end_prefix =>
      match str_find prompt [93] ( end_prefix + img_pattern.length) with
      | none =>
        image_marker_loop prompt fuel ( end_prefix + img_pattern.length) begin_prefix images
      | some end_pos =>
        match stoi (substr prompt ( end_prefix + img_pattern.length)
            (end_pos - ( end_prefix + img_pattern.length))) with
        | .invalid_argument => .ok none
        | .out_of_range => .error .uncaught_exception
        | .value img_id =>
          match set_image_prefix img_id
              (substr prompt begin_prefix (size_t_sub end_prefix begin_prefix)) images with
          | none => .ok none
          | some images1 =>
            image_marker_loop prompt fuel ( end_prefix + img_pattern.length) (end_pos + 1)
              images1

/-- The fields of the slot that the marker scan reads and writes. -/
structure image_prompt where
  images : List slot_image
  prompt : json_prompt
  input_suffix : Str := []
  cache_prompt : Bool := false
  deriving DecidableEq, Repr

/-- The marker scan of `launch_slot_with_data` (lines 804-844), in multimodal mode after the
images were loaded: the flag is `false` when `launch_slot_with_data` returns `false` there. -/
def launch_slot_image_prompt (slot : image_prompt) : Except fault (Bool × image_prompt) :=
  match slot.prompt with
  | .array _ => .ok (true, slot)
  | .string prompt =>
    if slot.images.length > 0 then
      match image_marker_loop prompt (prompt.length + 1) 0 0 slot.images with
      | .error e => .error e
      | .ok none => .ok (false, { slot with images := [] })
      | .ok (some ( begin_prefix, images)) =>
        .ok (true,
          { images := images, prompt := .string [],
            input_suffix := prompt.drop begin_prefix, cache_prompt := false })
    else .ok (true, slot)

/-- A prompt written with markers: each pair is the text before a marker and the text of
its id, `last` is the text after the last marker. -/
def marked_prompt : List (Str × Str) → Str → Str
  | [], last => last
  | (text, id) :: rest, last => text ++ img_pattern ++ id ++ [93] ++ marked_prompt rest last

/-- The markers handled in order, as the specification words it: the image with the id of
the marker gets the text before the marker; `none` when the text of an id holds no number
or the id matches no image. -/
def bind_markers : List (Str × Str) → List slot_image → Option (List slot_image)
  | [], images => some images
  | (text, id) :: rest, images =>
    match stoi id with
    | .value img_id =>
      match set_image_prefix img_id text images with
      | none => none
      | some images1 => bind_markers rest images1
    | _ => none

/-! ## The RPC handlers -/

/-- The status of a gRPC call; the source returns `OK` and, from `LoadModel`,
`CANCELLED`. -/
inductive grpc_status
  | OK
  | CANCELLED
  deriving DecidableEq, Repr

/-- The call `result_json.value("content", "")`. -/
def json_content : result_json → Str
  | .error_content content => content
  | .partial_response content _ _ _ => content
  | .final r => r.content
  | .embedding => []

/-- Source: `BackendServiceImpl::Predict` (lines 2123-2138), from the result that
`next_result` has delivered: the status returned and the message set in the reply, if one
is set. The test reads `stop` only when `error` is false. -/
def Predict (result : task_result) : Except fault (grpc_status × Option Str) :=
  if result.error = false then
    match result.stop with
    | none => .error .uninitialised
    | some true => .ok (.OK, some (json_content result.result))
    | some false => .ok (.OK, none)
  else .ok (.OK, none)

/-! ## Frames -/

/-- What `process_token` leaves alone: the slot with the fields it may write blanked. -/
def token_frame (s : llama_client_slot) : llama_client_slot :=
  { s with
    sampled := 0, generated_text := [], has_next_token := true, multibyte_pending := 0,
    stopped_word := false, stopping_word := [], sent_count := 0, cache_tokens := [],
    generated_token_probs := [], sent_token_probs_index := 0, n_remaining := 0,
    stopped_limit := false, stopped_eos := false }

/-- What `find_stopping_strings` leaves alone: the slot with its stop flags blanked. -/
def stop_frame (s : llama_client_slot) : llama_client_slot :=
  { s with stopped_word := false, stopping_word := [], has_next_token := true }

/-- What a flush without a full stop-word match leaves alone. -/
def flush_frame (s : llama_client_slot) : llama_client_slot :=
  { s with sent_count := 0, cache_tokens := [], generated_token_probs := [],
           sent_token_probs_index := 0 }

/-- What `add_token_string` and `send_partial_response` leave alone. -/
def emit_frame (s : llama_client_slot) : llama_client_slot :=
  { s with cache_tokens := [], generated_token_probs := [], sent_token_probs_index := 0 }

/-- What the limit and end-of-stream checks at the end of `process_token` leave alone. -/
def tail_frame (s : llama_client_slot) : llama_client_slot :=
  { s with has_next_token := true, stopped_limit := false, stopped_eos := false,
           n_remaining := 0 }

/-! ## Well-formed UTF-8

The byte sequences of table 3-7 of the Unicode standard, as an automaton. -/

/-- Where the automaton stands inside a character: at a boundary, before the last one, two
or three continuation bytes, or after a lead byte that narrows the range of the next byte. -/
inductive utf8_state
  | boundary
  | tail1
  | tail2
  | tail3
  | after_e0
  | after_ed
  | after_f0
  | after_f4
  deriving DecidableEq, Repr

/-- One byte of input. -/
def utf8_step : utf8_state → Nat → Option utf8_state
  | .boundary, b =>
    if b < 0x80 then some .boundary
    else if 0xC2 ≤ b ∧ b ≤ 0xDF then some .tail1
    else if b = 0xE0 then some .after_e0
    else if b = 0xED then some .after_ed
    else if 0xE1 ≤ b ∧ b ≤ 0xEF then some .tail2
    else if b = 0xF0 then some .after_f0
    else if 0xF1 ≤ b ∧ b ≤ 0xF3 then some .tail3
    else if b = 0xF4 then some .after_f4
    else none
  | .tail1, b => if 0x80 ≤ b ∧ b ≤ 0xBF then some .boundary else none
  | .tail2, b => if 0x80 ≤ b ∧ b ≤ 0xBF then some .tail1 else none
  | .tail3, b => if 0x80 ≤ b ∧ b ≤ 0xBF then some .tail2 else none
  | .after_e0, b => if 0xA0 ≤ b ∧ b ≤ 0xBF then some .tail1 else none
  | .after_ed, b => if 0x80 ≤ b ∧ b ≤ 0x9F then some .tail1 else none
  | .after_f0, b => if 0x90 ≤ b ∧ b ≤ 0xBF then some .tail2 else none
  | .after_f4, b => if 0x80 ≤ b ∧ b ≤ 0x8F then some .tail2 else none

/-- The automaton run over a string; `none` when a byte is rejected. -/
def utf8_run : utf8_state → Str → Option utf8_state
  | st, [] => some st
  | st, b :: rest =>
    match utf8_step st b with
    | none => none
    | some st1 => utf8_run st1 rest

/-- A string is well-formed UTF-8 when the automaton ends at a character boundary. -/
def valid_utf8 (s : Str) : Bool :=
  decide (utf8_run .boundary s = some .boundary)

/-- The number of continuation bytes the automaton still expects. -/
def utf8_expected : utf8_state → Int
  | .boundary => 0
  | .tail1 => 1
  | .tail2 => 2
  | .after_e0 => 2
  | .after_ed => 2
  | .tail3 => 3
  | .after_f0 => 3
  | .after_f4 => 3

/-! ## Concrete engines, servers and slots -/

/-- Equality of results is decidable. -/
instance decEqExcept {ε α : Type} [DecidableEq ε] [DecidableEq α] : DecidableEq (Except ε α)
  | .ok a, .ok b =>
    if h : a = b then isTrue (by rw [h]) else isFalse (by intro h'; cases h'; exact h rfl)
  | .error a, .error b =>
    if h : a = b then isTrue (by rw [h]) else isFalse (by intro h'; cases h'; exact h rfl)
  | .ok _, .error _ => isFalse (by intro h; cases h)
  | .error _, .ok _ => isFalse (by intro h; cases h)

/-- A byte-level engine: the tokenizer maps each byte to the token with its value, after
the begin-of-stream token 1 when asked for; token 2 is end-of-stream, with an empty piece;
a token below 256 is that byte, a larger one is the two bytes of its value; the `k`-th
sample is the token `100 + k`; decoding succeeds and the clock reads `k` at its `k`-th
call. -/
def engine_bytes : Engine where
  llama_tokenize := fun s add_bos =>
    (if add_bos then [1] else []) ++ s.map (fun b => (b : Int))
  llama_token_to_piece := fun t =>
    if t = 2 then [] else if t < 256 then [t.toNat] else [t.toNat / 256, t.toNat % 256]
  llama_token_eos := 2
  llama_token_bos := 1
  llama_token_prefix := 3
  llama_token_suffix := 4
  llama_token_middle := 5
  llama_decode := fun _ => 0
  llama_sampling_sample := fun k => 100 + k
  ggml_time_us := fun k => k

/-- The engine `engine_bytes` with another sampler: the first sampled token is the byte
0xC3, the second has the piece "\xA9b", all later ones the piece "bc". -/
def engine_split : Engine :=
  { engine_bytes with
    llama_sampling_sample := fun k => if k = 0 then 195 else if k = 1 then 43362 else 25187 }

/-- A server with one slot of `n_ctx = 4`, as `initialize` makes it. -/
def server_ctx4 : llama_server_context :=
  { n_ctx := 4, all_slots_are_idle := true,
    slots := [({ id := 0, n_ctx := 4 } : llama_client_slot).reset] }

/-- The slot of `server_ctx4` after the first tick of a request with prompt "abc" and
`n_keep = 8`: four prompt tokens and the sampled token 100 are in `cache_tokens`. -/
def slot_after_abc : llama_client_slot :=
  { id := 0, task_id := 0, n_ctx := 4, state := .PROCESSING, n_past := 4,
    params := { stream := false, n_keep := 8 }, prompt := .string [97, 98, 99],
    num_prompt_tokens := 4, num_prompt_tokens_processed := 4, sampled := 100,
    generated_text := [100], sent_count := 1,
    cache_tokens := [1, 97, 98, 99, 100],
    generated_token_probs := [{ tok := 100, text_to_send := [100] }] }

/-- The slot of `server_ctx4` after the first tick of a request with prompt "a" and
`cache_prompt` on. -/
def slot_after_a : llama_client_slot :=
  { id := 0, task_id := 0, n_ctx := 4, state := .PROCESSING, n_past := 2,
    params := { stream := false, cache_prompt := true }, prompt := .string [97],
    num_prompt_tokens := 2, num_prompt_tokens_processed := 2, sampled := 100,
    generated_text := [100], sent_count := 1,
    cache_tokens := [1, 97, 100],
    generated_token_probs := [{ tok := 100, text_to_send := [100] }] }

/-- The server `server_ctx4` after the first tick of a request with prompt "a" and
`cache_prompt` on. -/
def server_after_a : llama_server_context :=
  { n_ctx := 4, id_gen := 1, decode_calls := 1, sample_calls := 1, clock_calls := 1,
    batch :=
      [{ token := 1, pos := 0, seq_id := 0, logits := false },
       { token := 97, pos := 1, seq_id := 0, logits := true }],
    slots := [slot_after_a] }

/-- The slot `slot_after_a` after one more tick: a second token is sampled. -/
def slot_after_a2 : llama_client_slot :=
  { slot_after_a with
    n_past := 3, n_decoded := 1, sampled := 101, generated_text := [100, 101],
    sent_count := 2, cache_tokens := [1, 97, 100, 101],
    generated_token_probs :=
      [{ tok := 100, text_to_send := [100] }, { tok := 101, text_to_send := [101] }] }

/-- The server `server_after_a` after one more tick. -/
def server_after_a2 : llama_server_context :=
  { server_after_a with
    batch := [{ token := 100, pos := 2, seq_id := 0, logits := true }]
    decode_calls := 2
    sample_calls := 2
    slots := [slot_after_a2] }

/-- A slot whose cache is full: `n_ctx = 8`, eight cached tokens, `n_past = 7`, `n_keep = 2`. -/
def slot_full : llama_client_slot :=
  { id := 0, n_ctx := 8, state := .PROCESSING, n_past := 7, params := { n_keep := 2 },
    cache_tokens := [1, 11, 12, 13, 14, 15, 16, 17] }

/-- A server whose result queue holds the partial results "a" and "b" of task 1 with a
result of task 0 between them. -/
def server_results : llama_server_context :=
  { queue_results :=
      [{ id := 1, stop := some false, error := false,
         result := .partial_response [97] 0 false none },
       { id := 0, stop := some false, error := false,
         result := .partial_response [120] 1 false none },
       { id := 1, stop := some false, error := false,
         result := .partial_response [98] 0 false none }] }

/-- The partial results in the result queue: the task id and the content of each. -/
def partial_results (srv : llama_server_context) : List (Int × Str) :=
  srv.queue_results.filterMap (fun r =>
    match r.result with
    | .partial_response content _ _ _ => some (r.id, content)
    | _ => none)

/-- A server with two slots of `n_ctx = 4` at the start of a tick, after this history: an
embedding request (task 0) and a streaming request with prompt "b" (task 1) are submitted
and a tick runs, in which the embedding branch returns before slot 1 is sampled; task 1 is
cancelled and a tick runs; a streaming request with an empty prompt is submitted for slot 1
(task 3) and a tick runs, which releases slot 1; a streaming request with prompt "abc" is
submitted for slot 0 (task 4). -/
def server_stale_batch : Except fault llama_server_context :=
  (( llama_server_context.initialize { n_ctx := 8, params := { n_parallel := 2 } }).bind
    (fun srv => run_ticks engine_bytes 4 1
      (request_completion
        (request_completion srv { prompt := some (.string [97]) } false true).1
        { prompt := some (.string [98]), stream := some true } false false).1)).bind
    (fun srv => (run_ticks engine_bytes 4 1 (request_cancel srv 1)).bind
      (fun srv1 => (run_ticks engine_bytes 4 1
        (request_completion srv1
          { slot_id := some 1, prompt := some (.string []), stream := some true }
          false false).1).map
        (fun srv2 =>
          (request_completion srv2
            { slot_id := some 0, prompt := some (.string [97, 98, 99]), stream := some true }
            false false).1)))

/-- A server with one slot of `n_ctx = 4` at the start of a tick, after this history: a
request with prompt "abc" and `n_predict = 1` is submitted and five ticks run, after which
the slot is idle and keeps four tokens in `cache_tokens`; a request with prompt "a" and
`n_keep = 1` is submitted. -/
def server_stale_cache : Except fault llama_server_context :=
  (run_ticks engine_bytes 4 5
    (request_completion server_ctx4
      { prompt := some (.string [97, 98, 99]), n_predict := some 1 } false false).1).map
    (fun srv =>
      (request_completion srv { prompt := some (.string [97]), n_keep := some 1 }
        false false).1)

/-- A request with prompt "a", `cache_prompt` on and the stop word "d", which is the first
piece that `engine_bytes` samples. -/
def data_reuse : task_data :=
  { prompt := some (.string [97]), cache_prompt := some true, stop := some [[100]] }

/-- The server `server_ctx4` with the request `data_reuse` submitted. -/
def server_reuse_a : llama_server_context :=
  (request_completion server_ctx4 data_reuse false false).1

/-- The server after the first tick of the request: the prompt is prepared and the sampled
"d" ends the generation. -/
def server_reuse_b : llama_server_context :=
  after_tick engine_bytes 4 server_reuse_a

/-- The server after one more tick, which sets the slot idle, with the same request
submitted again. -/
def server_reuse_c : llama_server_context :=
  (request_completion (after_tick engine_bytes 4 server_reuse_b) data_reuse false false).1

/-- The server after the tick that prepares the prompt of the second request. -/
def server_reuse_d : llama_server_context :=
  after_tick engine_bytes 4 server_reuse_c

/-- The engine `engine_bytes` whose first `llama_decode` call returns 1 and whose later
calls return 0. -/
def engine_retry : Engine :=
  { engine_bytes with llama_decode := fun k => if k = 0 then 1 else 0 }

/-- The server `server_ctx4` with three tokens in the batch; its slot is idle. -/
def server_batch3 : llama_server_context :=
  { server_ctx4 with
    batch :=
      [{ token := 1, pos := 0, seq_id := 0, logits := false },
       { token := 97, pos := 1, seq_id := 0, logits := false },
       { token := 98, pos := 2, seq_id := 0, logits := true }] }

/-- A pool of three slots: slot 0 is busy, slots 1 and 2 are idle. -/
def pool3 : List llama_client_slot :=
  [{ id := 0, state := .PROCESSING, t_last_used := 5 },
   { id := 1, t_last_used := 9 },
   { id := 2, t_last_used := 7 }]

/-- A freshly reset streaming slot with the stop word "ab". -/
def slot_stop_ab : llama_client_slot :=
  ({ id := 0, params := { stream := true, antiprompt := [[97, 98]] } } : llama_client_slot).reset

/-- A freshly reset streaming slot with the stop word ", 5". -/
def slot_stop_comma5 : llama_client_slot :=
  ({ id := 0, params := { stream := true, antiprompt := [[44, 32, 53]] } } : llama_client_slot).reset

/-- The only slot of `server_ctx4` is busy with task 0, and two completion requests and the
cancellation of task 0 are queued, in this order. -/
def server_busy : Except fault llama_server_context :=
  (run_ticks engine_bytes 4 1
    (request_completion server_ctx4 { prompt := some (.string [97]) } false false).1).map
    (fun srv =>
      request_cancel
        (request_completion
          (request_completion srv { prompt := some (.string [98]) } false false).1
          { prompt := some (.string [99]) } false false).1
        0)


/-! # Theorems -/



/-- Bytes `text.find` reports are an occurrence. -/
theorem find_at_some (word : Str) : ∀ (t : Str) (i p : Nat), find_at word t i = some p →
    i ≤ p ∧ p ≤ i + t.length ∧ word <+: t.drop (p - i) := by
  intro t
  induction t with
  | nil =>
    intro i p h
    simp only [find_at] at h
    split at h
    · rename_i hp
      cases h
      simp [List.isPrefixOf_iff_prefix] at hp ⊢
      exact hp
    · cases h
  | cons c t ih =>
    intro i p h
    simp only [find_at] at h
    split at h
    · rename_i hp
      cases h
      simp only [List.isPrefixOf_iff_prefix] at hp
      simp [hp]
    · obtain ⟨h1, h2, h3⟩ := ih (i + 1) p h
      refine ⟨by omega, by simp; omega, ?_⟩
      have : p - i = (p - (i + 1)) + 1 := by omega
      rw [this]
      simpa using h3

theorem str_find_some (text word : Str) (from_pos p : Nat) (h : str_find text word from_pos = some p) :
    from_pos ≤ p ∧ p ≤ text.length ∧ word <+: text.drop p := by
  unfold str_find at h
  split at h
  · rename_i hle
    obtain ⟨h1, h2, h3⟩ := find_at_some word _ _ _ h
    refine ⟨h1, ?_, ?_⟩
    · simp at h2; omega
    · rw [List.drop_drop] at h3
      have : from_pos + (p - from_pos) = p := by omega
      rw [Nat.add_comm] at h3
      simpa [this, Nat.add_comm] using h3
  · cases h


theorem foldl_word_none (text : Str) (n : Nat) (type : stop_type) :
    ∀ (ws : List Str) (acc : Option Nat × llama_client_slot),
      (∀ w ∈ ws, word_stop_pos text n type w = none) →
      ws.foldl (find_stopping_strings_word text n type) acc = acc := by
  intro ws
  induction ws with
  | nil => intro acc _; rfl
  | cons w ws ih =>
    intro acc h
    simp only [List.foldl_cons]
    have hw : word_stop_pos text n type w = none := h w (List.mem_cons_self _ _)
    have : find_stopping_strings_word text n type acc w = acc := by
      simp [find_stopping_strings_word, hw, stop_pos_improves]
    rw [this]
    exact ih acc (fun w' hw' => h w' (List.mem_cons_of_mem _ hw'))

theorem foldl_word_spec (text : Str) (n : Nat) (type : stop_type) :
    ∀ (ws : List Str) (acc : Option Nat × llama_client_slot),
      ((ws.foldl (find_stopping_strings_word text n type) acc).1 = none →
        acc.1 = none ∧ ∀ w ∈ ws, word_stop_pos text n type w = none) ∧
      (∀ p, (ws.foldl (find_stopping_strings_word text n type) acc).1 = some p →
        (∀ q, acc.1 = some q → p ≤ q) ∧
        (∀ w ∈ ws, ∀ q, word_stop_pos text n type w = some q → p ≤ q) ∧
        ((acc.1 = some p ∧ (ws.foldl (find_stopping_strings_word text n type) acc).2 = acc.2) ∨
          ∃ w ∈ ws, word_stop_pos text n type w = some p ∧
            ∃ s, (ws.foldl (find_stopping_strings_word text n type) acc).2 =
              mark_stopped s type w)) := by
  intro ws
  induction ws with
  | nil =>
    intro acc
    refine ⟨fun h => ⟨h, by simp⟩, fun p h => ⟨?_, by simp, Or.inl ⟨h, rfl⟩⟩⟩
    intro q hq
    simp only [List.foldl_nil] at h
    rw [h] at hq; cases hq; exact Nat.le_refl _
  | cons w ws ih =>
    intro acc
    simp only [List.foldl_cons]
    obtain ⟨ih1, ih2⟩ := ih (find_stopping_strings_word text n type acc w)
    by_cases himp : stop_pos_improves (word_stop_pos text n type w) acc.1 = true
    · -- the word improves the position
      have hstep : find_stopping_strings_word text n type acc w =
          (word_stop_pos text n type w, mark_stopped acc.2 type w) := by
        simp [find_stopping_strings_word, himp]
      obtain ⟨pw, hpw⟩ : ∃ pw, word_stop_pos text n type w = some pw := by
        cases hc : word_stop_pos text n type w with
        | none => rw [hc] at himp; simp [stop_pos_improves] at himp
        | some pw => exact ⟨pw, rfl⟩
      have hacc : ∀ q, acc.1 = some q → pw < q := by
        intro q hq
        rw [hpw, hq] at himp
        simpa [stop_pos_improves] using himp
      constructor
      · intro h
        have := (ih1 h).1
        rw [hstep, hpw] at this
        cases this
      · intro p h
        obtain ⟨h1, h2, h3⟩ := ih2 p h
        have hp : p ≤ pw := h1 pw (by rw [hstep, hpw])
        refine ⟨fun q hq => Nat.le_trans hp (Nat.le_of_lt (hacc q hq)), ?_, ?_⟩
        · intro w' hw' q hq
          rcases List.mem_cons.1 hw' with rfl | hw'
          · rw [hpw] at hq; cases hq; exact hp
          · exact h2 w' hw' q hq
        · rcases h3 with ⟨h3a, h3b⟩ | ⟨w', hw', h3a, h3b⟩
          · right
            refine ⟨w, List.mem_cons_self _ _, ?_, acc.2, ?_⟩
            · rw [hstep] at h3a; exact h3a
            · rw [h3b, hstep]
          · exact Or.inr ⟨w', List.mem_cons_of_mem _ hw', h3a, h3b⟩
    · have hstep : find_stopping_strings_word text n type acc w = acc := by
        simp [find_stopping_strings_word, himp]
      rw [hstep] at ih1 ih2 ⊢
      constructor
      · intro h
        obtain ⟨h1, h2⟩ := ih1 h
        refine ⟨h1, ?_⟩
        intro w' hw'
        rcases List.mem_cons.1 hw' with rfl | hw'
        · cases hc : word_stop_pos text n type w' with
          | none => rfl
          | some pw => rw [hc, h1] at himp; simp [stop_pos_improves] at himp
        · exact h2 w' hw'
      · intro p h
        obtain ⟨h1, h2, h3⟩ := ih2 p h
        refine ⟨h1, ?_, ?_⟩
        · intro w' hw' q hq
          rcases List.mem_cons.1 hw' with rfl | hw'
          · -- not improving: acc.1 = some a with a ≤ q
            cases ha : acc.1 with
            | none => rw [hq, ha] at himp; simp [stop_pos_improves] at himp
            | some a =>
              rw [hq, ha] at himp
              have : a ≤ q := by simpa [stop_pos_improves] using himp
              exact Nat.le_trans (h1 a ha) this
          · exact h2 w' hw' q hq
        · rcases h3 with h3 | ⟨w', hw', h3a, h3b⟩
          · exact Or.inl h3
          · exact Or.inr ⟨w', List.mem_cons_of_mem _ hw', h3a, h3b⟩


theorem find_stopping_strings_partial_slot (text : Str) (n : Nat) (slot : llama_client_slot) :
    (find_stopping_strings text n .STOP_PARTIAL slot).2 = slot := by
  unfold find_stopping_strings
  have key : ∀ (ws : List Str) (acc : Option Nat × llama_client_slot),
      (ws.foldl (find_stopping_strings_word text n .STOP_PARTIAL) acc).2 = acc.2 := by
    intro ws
    induction ws with
    | nil => intro acc; rfl
    | cons w ws ih =>
      intro acc
      simp only [List.foldl_cons]
      rw [ih]
      unfold find_stopping_strings_word
      split <;> rfl
  exact key _ _

theorem word_stop_pos_full_occurs (text : Str) (n : Nat) (w : Str) (p : Nat)
    (h : word_stop_pos text n .STOP_FULL w = some p) :
    p ≤ text.length ∧ w <+: text.drop p := by
  simp only [word_stop_pos] at h
  obtain ⟨_, h2, h3⟩ := str_find_some _ _ _ _ h
  exact ⟨h2, h3⟩

theorem infix_of_prefix_drop {w text : Str} {p : Nat} (h : w <+: text.drop p) : w <:+: text :=
  List.IsInfix.trans h.isInfix (List.drop_suffix p text).isInfix

theorem find_stopping_strings_full_none (text : Str) (n : Nat) (slot : llama_client_slot)
    (h : ∀ w ∈ slot.params.antiprompt, ¬ w <:+: text) :
    find_stopping_strings text n .STOP_FULL slot = (none, slot) := by
  unfold find_stopping_strings
  apply foldl_word_none
  intro w hw
  cases hc : word_stop_pos text n .STOP_FULL w with
  | none => rfl
  | some p =>
    exact absurd (infix_of_prefix_drop (word_stop_pos_full_occurs text n w p hc).2) (h w hw)



theorem token_frame_mark_stopped (s : llama_client_slot) (type : stop_type) (w : Str) :
    token_frame (mark_stopped s type w) = token_frame s := by
  cases type <;> rfl

theorem token_frame_find_stopping_strings (text : Str) (n : Nat) (type : stop_type)
    (slot : llama_client_slot) :
    token_frame (find_stopping_strings text n type slot).2 = token_frame slot := by
  unfold find_stopping_strings
  have key : ∀ (ws : List Str) (acc : Option Nat × llama_client_slot),
      token_frame (ws.foldl (find_stopping_strings_word text n type) acc).2 =
        token_frame acc.2 := by
    intro ws
    induction ws with
    | nil => intro acc; rfl
    | cons w ws ih =>
      intro acc
      simp only [List.foldl_cons]
      rw [ih]
      unfold find_stopping_strings_word
      split
      · exact token_frame_mark_stopped _ _ _
      · rfl
  exact key _ _

theorem token_frame_add_token_string (s : llama_client_slot) (r : completion_token_output) :
    token_frame (s.add_token_string r) = token_frame s := by
  unfold llama_client_slot.add_token_string
  split <;> rfl

theorem token_frame_send_partial_response (env : Engine) (mm : Bool) (s : llama_client_slot)
    (r : completion_token_output) :
    token_frame (send_partial_response env mm s r).1 = token_frame s := by
  unfold send_partial_response
  split <;> rfl


theorem token_frame_stop_search (token_str : Str) (s : llama_client_slot) :
    token_frame (stop_search token_str s).2.2.2 = token_frame s := by
  unfold stop_search
  simp only
  split
  · exact token_frame_find_stopping_strings _ _ _ _
  · rw [token_frame_find_stopping_strings, token_frame_find_stopping_strings]

theorem token_frame_flush_text (stop_pos : Option Nat) (full : Bool) (pos : Nat)
    (r : completion_token_output) (s : llama_client_slot) :
    token_frame (flush_text stop_pos full pos r s).2 = token_frame s := by
  unfold flush_text
  split <;> rfl

theorem token_frame_process_token_flush (env : Engine) (mm : Bool) (token_str : Str)
    (result : completion_token_output) (s : llama_client_slot) (q : List task_result) :
    token_frame (process_token_flush env mm token_str result s q).2.1 = token_frame s := by
  unfold process_token_flush
  simp only
  split
  · rw [token_frame_send_partial_response, token_frame_add_token_string,
      token_frame_flush_text, token_frame_stop_search]
  · rw [token_frame_add_token_string, token_frame_flush_text, token_frame_stop_search]

theorem token_frame_append_piece (tok : llama_token) (token_str : Str) (s : llama_client_slot) :
    token_frame (append_piece tok token_str s) = token_frame s := rfl

theorem token_frame_pending_override (s : llama_client_slot) :
    token_frame (pending_override s) = token_frame s := by
  unfold pending_override
  split <;> rfl

theorem token_frame_check_limit (params : gpt_params) (s : llama_client_slot) :
    token_frame (check_limit params s) = token_frame s := by
  unfold check_limit
  split
  · split <;> rfl
  · rfl

theorem token_frame_check_eos (env : Engine) (tok : llama_token) (s : llama_client_slot) :
    token_frame (check_eos env tok s) = token_frame s := by
  unfold check_eos
  split <;> rfl

/-- The fields `process_token` never writes are those of the slot it was given. -/
theorem token_frame_process_token (env : Engine) (params : gpt_params) (mm : Bool)
    (result : completion_token_output) (s : llama_client_slot) (q : List task_result) :
    token_frame (process_token env params mm result s q).2.2.1 = token_frame s := by
  unfold process_token
  simp only
  rw [token_frame_check_eos, token_frame_check_limit, token_frame_pending_override]
  split
  · rw [token_frame_process_token_flush, token_frame_append_piece]
  · rfl


theorem stop_search_of_full_none (token_str : Str) (s : llama_client_slot)
    (h : find_stopping_strings
      (s.generated_text.drop (min s.sent_count s.generated_text.length)) token_str.length
      .STOP_FULL s = (none, s)) :
    stop_search token_str s =
      ((find_stopping_strings
          (s.generated_text.drop (min s.sent_count s.generated_text.length)) token_str.length
          .STOP_PARTIAL s).1, false, min s.sent_count s.generated_text.length, s) := by
  unfold stop_search
  simp only [h, find_stopping_strings_partial_slot]

theorem flush_frame_flush_text (stop_pos : Option Nat) (full : Bool) (pos : Nat)
    (r : completion_token_output) (s : llama_client_slot) :
    flush_frame (flush_text stop_pos full pos r s).2 = flush_frame s := by
  unfold flush_text
  split <;> rfl

theorem flush_frame_add_token_string (s : llama_client_slot) (r : completion_token_output) :
    flush_frame (s.add_token_string r) = flush_frame s := by
  unfold llama_client_slot.add_token_string
  split <;> rfl

theorem flush_frame_send_partial_response (env : Engine) (mm : Bool) (s : llama_client_slot)
    (r : completion_token_output) :
    flush_frame (send_partial_response env mm s r).1 = flush_frame s := by
  unfold send_partial_response
  split <;> rfl

theorem flush_frame_process_token_flush (env : Engine) (mm : Bool) (token_str : Str)
    (result : completion_token_output) (s : llama_client_slot) (q : List task_result)
    (h : find_stopping_strings
      (s.generated_text.drop (min s.sent_count s.generated_text.length)) token_str.length
      .STOP_FULL s = (none, s)) :
    flush_frame (process_token_flush env mm token_str result s q).2.1 = flush_frame s := by
  unfold process_token_flush
  simp only [stop_search_of_full_none token_str s h]
  split
  · rw [flush_frame_send_partial_response, flush_frame_add_token_string, flush_frame_flush_text]
  · rw [flush_frame_add_token_string, flush_frame_flush_text]

/-- A call of `process_token` in which no stop word is in the text and the token is not
the end-of-stream token: the text grows by the piece and only the limit can stop. -/
theorem process_token_no_stop (env : Engine) (params : gpt_params) (mm : Bool)
    (tok : llama_token) (slot : llama_client_slot) (q : List task_result)
    (hA : ∀ w ∈ slot.params.antiprompt,
      ¬ w <:+: slot.generated_text ++ env.llama_token_to_piece tok)
    (heos : tok ≠ env.llama_token_eos) :
    (process_token env params mm { tok := tok } slot q).2.2.1.generated_text =
        slot.generated_text ++ env.llama_token_to_piece tok ∧
    (process_token env params mm { tok := tok } slot q).2.2.1.stopped_word = slot.stopped_word ∧
    (process_token env params mm { tok := tok } slot q).2.2.1.stopped_eos = slot.stopped_eos ∧
    (slot.n_decoded > 2 ∧ (slot.has_budget params).2 = false →
      (process_token env params mm { tok := tok } slot q).1 = false ∧
      (process_token env params mm { tok := tok } slot q).2.2.1.stopped_limit = true) ∧
    (¬ (slot.n_decoded > 2 ∧ (slot.has_budget params).2 = false) →
      (process_token env params mm { tok := tok } slot q).1 = true ∧
      (process_token env params mm { tok := tok } slot q).2.2.1.stopped_limit =
        slot.stopped_limit) := by
  have hfull : find_stopping_strings
      ((append_piece tok (env.llama_token_to_piece tok) slot).generated_text.drop
        (min (append_piece tok (env.llama_token_to_piece tok) slot).sent_count
          (append_piece tok (env.llama_token_to_piece tok) slot).generated_text.length))
      (env.llama_token_to_piece tok).length .STOP_FULL
      (append_piece tok (env.llama_token_to_piece tok) slot) =
      (none, append_piece tok (env.llama_token_to_piece tok) slot) := by
    apply find_stopping_strings_full_none
    intro w hw habs
    exact hA w hw (List.IsInfix.trans habs (List.drop_suffix _ _).isInfix)
  -- the slot after the flush block
  obtain ⟨F, hF, hout1, hout2⟩ : ∃ F : llama_client_slot,
      flush_frame F = flush_frame (append_piece tok (env.llama_token_to_piece tok) slot) ∧
      (process_token env params mm { tok := tok } slot q).2.2.1 =
        check_eos env tok (check_limit params (pending_override F)) ∧
      (process_token env params mm { tok := tok } slot q).1 =
        (check_eos env tok (check_limit params (pending_override F))).has_next_token := by
    refine ⟨_, ?_, rfl, rfl⟩
    split
    · exact flush_frame_process_token_flush env mm _ _ _ q hfull
    · rfl
  have hnext : F.has_next_token = true := by
    have h := congrArg llama_client_slot.has_next_token hF
    exact h
  have hgen : F.generated_text = slot.generated_text ++ env.llama_token_to_piece tok := by
    have h := congrArg llama_client_slot.generated_text hF
    exact h
  have hword : F.stopped_word = slot.stopped_word := by
    have h := congrArg llama_client_slot.stopped_word hF
    exact h
  have heosf : F.stopped_eos = slot.stopped_eos := by
    have h := congrArg llama_client_slot.stopped_eos hF
    exact h
  have hlim : F.stopped_limit = slot.stopped_limit := by
    have h := congrArg llama_client_slot.stopped_limit hF
    exact h
  have hdec : F.n_decoded = slot.n_decoded := by
    have h := congrArg llama_client_slot.n_decoded hF
    exact h
  have hpar : F.params = slot.params := by
    have h := congrArg llama_client_slot.params hF
    exact h
  have hbud : (F.has_budget params).2 = (slot.has_budget params).2 := by
    simp only [llama_client_slot.has_budget, hdec, hpar]
  have hover : pending_override F = F := by
    simp [pending_override, hnext]
  have heos' : ∀ s : llama_client_slot, check_eos env tok s = s := by
    intro s
    simp [check_eos, heos]
  rw [hout1, hout2, hover, heos']
  by_cases hl : slot.n_decoded > 2 ∧ (slot.has_budget params).2 = false
  · have hcl : check_limit params F =
        { (F.has_budget params).1 with stopped_limit := true, has_next_token := false } := by
      simp [check_limit, hdec, hnext, hbud, hl.1, hl.2]
    rw [hcl]
    refine ⟨hgen, hword, heosf, fun _ => ⟨rfl, rfl⟩, fun h => absurd hl h⟩
  · by_cases h2 : slot.n_decoded > 2
    · have hb : (slot.has_budget params).2 = true := by
        cases hc : (slot.has_budget params).2 with
        | true => rfl
        | false => exact absurd ⟨h2, hc⟩ hl
      have hcl : check_limit params F = (F.has_budget params).1 := by
        simp [check_limit, hdec, hnext, hbud, h2, hb]
      rw [hcl]
      exact ⟨hgen, hword, heosf, fun h => absurd h hl, fun _ => ⟨hnext, hlim⟩⟩
    · have hcl : check_limit params F = F := by
        simp [check_limit, hdec, h2]
      rw [hcl]
      exact ⟨hgen, hword, heosf, fun h => absurd h hl, fun _ => ⟨hnext, hlim⟩⟩


theorem process_tokens_append (env : Engine) (params : gpt_params) (mm : Bool) :
    ∀ (pre rest : List llama_token) (slot : llama_client_slot) (q : List task_result),
      (process_tokens env params mm pre slot q).1 = true →
      process_tokens env params mm (pre ++ rest) slot q =
        process_tokens env params mm rest (process_tokens env params mm pre slot q).2.1
          (process_tokens env params mm pre slot q).2.2 := by
  intro pre
  induction pre with
  | nil => intro rest slot q _; rfl
  | cons t pre ih =>
    intro rest slot q h
    simp only [List.cons_append, process_tokens] at h ⊢
    split at h
    · rename_i hc
      simp only [hc, if_true]
      exact ih rest _ _ h
    · cases h

theorem pieces_cons (env : Engine) (t : llama_token) (ts : List llama_token) :
    pieces env (t :: ts) = env.llama_token_to_piece t ++ pieces env ts := by
  simp [pieces]

theorem pieces_append (env : Engine) (a b : List llama_token) :
    pieces env (a ++ b) = pieces env a ++ pieces env b := by
  simp [pieces]

/-- An integer of the int32 range is its own `int32_t` value. -/
theorem int32_t_of_range (x : Int) (h1 : -2147483648 ≤ x) (h2 : x ≤ 2147483647) :
    int32_t x = x := by
  unfold int32_t
  omega

theorem has_budget_of_n_predict (params : gpt_params) (slot : llama_client_slot) (n : Nat)
    (hp : slot.params.n_predict = n) (hmax : n ≤ 2147483647) (h0 : 0 ≤ slot.n_decoded)
    (hle : slot.n_decoded ≤ n) :
    (slot.has_budget params).2 =
      decide ((n : Int) - slot.n_decoded > 0 ∨ (n : Int) - slot.n_decoded = -1) := by
  have hne : (n : Int) ≠ -1 := by omega
  simp only [llama_client_slot.has_budget, hp, ne_eq, hne, not_false_eq_true, if_true]
  rw [int32_t_of_range _ (by omega) (by omega)]

/-- While the budget lasts and no stop word or end-of-stream token comes, every call of
`process_token` returns `true`. -/
theorem process_tokens_within_budget (env : Engine) (params : gpt_params) (mm : Bool)
    (n : Nat) (hmax : n ≤ 2147483647) :
    ∀ (toks : List llama_token) (slot : llama_client_slot) (q : List task_result),
      slot.params.n_predict = n →
      0 ≤ slot.n_decoded →
      slot.n_decoded + toks.length ≤ n →
      (∀ t ∈ toks, t ≠ env.llama_token_eos) →
      (∀ w ∈ slot.params.antiprompt, ¬ w <:+: slot.generated_text ++ pieces env toks) →
      (process_tokens env params mm toks slot q).1 = true ∧
      (process_tokens env params mm toks slot q).2.1.n_decoded = slot.n_decoded + toks.length ∧
      (process_tokens env params mm toks slot q).2.1.params = slot.params ∧
      (process_tokens env params mm toks slot q).2.1.generated_text =
        slot.generated_text ++ pieces env toks ∧
      (process_tokens env params mm toks slot q).2.1.stopped_limit = slot.stopped_limit ∧
      (process_tokens env params mm toks slot q).2.1.stopped_word = slot.stopped_word ∧
      (process_tokens env params mm toks slot q).2.1.stopped_eos = slot.stopped_eos := by
  intro toks
  induction toks with
  | nil =>
    intro slot q _ _ _ _ _
    simp [process_tokens, pieces]
  | cons t toks ih =>
    intro slot q hp h0 hlen heos hstop
    have hA : ∀ w ∈ slot.params.antiprompt,
        ¬ w <:+: slot.generated_text ++ env.llama_token_to_piece t := by
      intro w hw habs
      apply hstop w hw
      rw [pieces_cons, ← List.append_assoc]
      exact List.IsInfix.trans habs (List.prefix_append _ _).isInfix
    obtain ⟨hgen, hword, heosf, _, hcont⟩ :=
      process_token_no_stop env params mm t slot q hA (heos t (List.mem_cons_self _ _))
    have hframe := token_frame_process_token env params mm { tok := t } slot q
    have hpar : (process_token env params mm { tok := t } slot q).2.2.1.params = slot.params := by
      have h := congrArg llama_client_slot.params hframe
      exact h
    have hdec : (process_token env params mm { tok := t } slot q).2.2.1.n_decoded =
        slot.n_decoded := by
      have h := congrArg llama_client_slot.n_decoded hframe
      exact h
    have hnolimit : ¬ (slot.n_decoded > 2 ∧ (slot.has_budget params).2 = false) := by
      rintro ⟨_, hb⟩
      simp only [List.length_cons, Nat.cast_add, Nat.cast_one] at hlen
      rw [has_budget_of_n_predict params slot n hp hmax h0 (by omega)] at hb
      have : (n : Int) - slot.n_decoded > 0 := by omega
      simp [this] at hb
    obtain ⟨htrue, hlim⟩ := hcont hnolimit
    simp only [process_tokens, htrue, if_true]
    have hrec := ih
      { (process_token env params mm { tok := t } slot q).2.2.1 with
        n_decoded := (process_token env params mm { tok := t } slot q).2.2.1.n_decoded + 1
        n_past := (process_token env params mm { tok := t } slot q).2.2.1.n_past + 1 }
      (process_token env params mm { tok := t } slot q).2.2.2
      (by simpa [hpar] using hp)
      (by simp only [hdec]; omega)
      (by simp only [hdec, List.length_cons, Nat.cast_add, Nat.cast_one] at hlen ⊢; omega)
      (fun t' ht' => heos t' (List.mem_cons_of_mem _ ht'))
      (by
        intro w hw
        simp only [hpar] at hw
        simp only [hgen, List.append_assoc, ← pieces_cons]
        exact hstop w hw)
    obtain ⟨r1, r2, r3, r4, r5, r6, r7⟩ := hrec
    refine ⟨r1, ?_, ?_, ?_, ?_, ?_, ?_⟩
    · rw [r2]; simp only [hdec, List.length_cons, Nat.cast_add, Nat.cast_one]; omega
    · rw [r3]; exact hpar
    · rw [r4]; simp only [hgen, List.append_assoc, ← pieces_cons]
    · rw [r5]; exact hlim
    · rw [r6]; exact hword
    · rw [r7]; exact heosf


theorem process_tokens_stopped (env : Engine) (params : gpt_params) (mm : Bool) :
    ∀ (pre rest : List llama_token) (slot : llama_client_slot) (q : List task_result),
      (process_tokens env params mm pre slot q).1 = false →
      process_tokens env params mm (pre ++ rest) slot q =
        process_tokens env params mm pre slot q := by
  intro pre
  induction pre with
  | nil => intro rest slot q h; simp [process_tokens] at h
  | cons t pre ih =>
    intro rest slot q h
    simp only [List.cons_append, process_tokens] at h ⊢
    split
    · rename_i hc
      simp only [hc, if_true] at h
      exact ih rest _ _ h
    · rfl

/-- C10 (amended): with a per-request `n_predict = n ≥ 3` (an int32 value, so
`n ≤ 2147483647`), a slot whose prompt was just ingested (`n_decoded = 0`) and a sampled
stream without end-of-stream token whose text holds no stop word: generation has not ended
after `n` tokens, and the next token ends it with `stopped_limit = true` and
`n_decoded = n`; later tokens are not processed. -/
theorem limit_ends_generation (env : Engine) (params : gpt_params) (mm : Bool) (n : Nat)
    (toks : List llama_token) (last : llama_token) (rest : List llama_token)
    (slot : llama_client_slot) (q : List task_result)
    (hn : 3 ≤ n) (hmax : n ≤ 2147483647) (hp : slot.params.n_predict = n)
    (hd : slot.n_decoded = 0) (hlen : toks.length = n)
    (heos : ∀ t ∈ toks ++ [last], t ≠ env.llama_token_eos)
    (hstop : ∀ w ∈ slot.params.antiprompt,
      ¬ w <:+: slot.generated_text ++ pieces env (toks ++ [last])) :
    (process_tokens env params mm toks slot q).1 = true ∧
    (process_tokens env params mm (toks ++ last :: rest) slot q).1 = false ∧
    (process_tokens env params mm (toks ++ last :: rest) slot q).2.1.stopped_limit = true ∧
    (process_tokens env params mm (toks ++ last :: rest) slot q).2.1.n_decoded = n ∧
    (process_tokens env params mm (toks ++ last :: rest) slot q).2.1.stopped_word =
      slot.stopped_word ∧
    (process_tokens env params mm (toks ++ last :: rest) slot q).2.1.stopped_eos =
      slot.stopped_eos := by
  have hstop1 : ∀ w ∈ slot.params.antiprompt, ¬ w <:+: slot.generated_text ++ pieces env toks := by
    intro w hw habs
    apply hstop w hw
    rw [pieces_append, ← List.append_assoc]
    exact List.IsInfix.trans habs (List.prefix_append _ _).isInfix
  obtain ⟨r1, r2, r3, r4, r5, r6, r7⟩ :=
    process_tokens_within_budget env params mm n hmax toks slot q hp (by omega)
      (by rw [hd, hlen]; omega) (fun t ht => heos t (List.mem_append_left _ ht)) hstop1
  refine ⟨r1, ?_⟩
  have hsplit : toks ++ last :: rest = (toks ++ [last]) ++ rest := by simp
  have hlast : (process_tokens env params mm (toks ++ [last]) slot q).1 = false ∧
      (process_tokens env params mm (toks ++ [last]) slot q).2.1.stopped_limit = true ∧
      (process_tokens env params mm (toks ++ [last]) slot q).2.1.n_decoded = n ∧
      (process_tokens env params mm (toks ++ [last]) slot q).2.1.stopped_word =
        slot.stopped_word ∧
      (process_tokens env params mm (toks ++ [last]) slot q).2.1.stopped_eos =
        slot.stopped_eos := by
    rw [process_tokens_append env params mm toks [last] slot q r1]
    generalize (process_tokens env params mm toks slot q).2.1 = s at r2 r3 r4 r5 r6 r7
    generalize (process_tokens env params mm toks slot q).2.2 = q'
    have hA : ∀ w ∈ s.params.antiprompt,
        ¬ w <:+: s.generated_text ++ env.llama_token_to_piece last := by
      intro w hw
      rw [r3] at hw
      rw [r4, List.append_assoc]
      have := hstop w hw
      rw [pieces_append] at this
      simpa [pieces] using this
    obtain ⟨_, hword, heosf, hlim, _⟩ :=
      process_token_no_stop env params mm last s q' hA
        (heos last (List.mem_append_right _ (List.mem_singleton_self _)))
    have hframe := token_frame_process_token env params mm { tok := last } s q'
    have hdec : (process_token env params mm { tok := last } s q').2.2.1.n_decoded =
        s.n_decoded := by
      have h := congrArg llama_client_slot.n_decoded hframe
      exact h
    have hreach : s.n_decoded > 2 ∧ (s.has_budget params).2 = false := by
      rw [has_budget_of_n_predict params s n (by rw [r3]; exact hp) hmax
        (by rw [r2, hd]; omega) (by rw [r2, hd, hlen]; omega), r2, hd, hlen]
      refine ⟨by omega, ?_⟩
      simp
    obtain ⟨hfalse, hlimit⟩ := hlim hreach
    simp only [process_tokens, hfalse]
    refine ⟨by simp, hlimit, ?_, ?_, ?_⟩
    · simp only [Bool.false_eq_true, if_false]; rw [hdec, r2, hd, hlen]; simp
    · simp only [Bool.false_eq_true, if_false]; rw [hword, r6]
    · simp only [Bool.false_eq_true, if_false]; rw [heosf, r7]
  rw [hsplit, process_tokens_stopped env params mm _ rest slot q hlast.1]
  exact hlast

/-- C10 (witness): with `n_predict = 3` the generation goes on after three tokens and the
fourth ends it with `stopped_limit` and `n_decoded = 3`. -/
theorem limit_ends_generation_witness :
    (process_tokens engine_bytes {} false [5, 5, 5] { id := 0, params := { n_predict := 3 } } []).1 = true ∧
    (process_tokens engine_bytes {} false ([5, 5, 5] ++ 5 :: [5])
      { id := 0, params := { n_predict := 3 } } []).1 = false ∧
    (process_tokens engine_bytes {} false ([5, 5, 5] ++ 5 :: [5])
      { id := 0, params := { n_predict := 3 } } []).2.1.stopped_limit = true ∧
    (process_tokens engine_bytes {} false ([5, 5, 5] ++ 5 :: [5])
      { id := 0, params := { n_predict := 3 } } []).2.1.n_decoded = ((3 : Nat) : Int) ∧
    (process_tokens engine_bytes {} false ([5, 5, 5] ++ 5 :: [5])
      { id := 0, params := { n_predict := 3 } } []).2.1.stopped_word = false ∧
    (process_tokens engine_bytes {} false ([5, 5, 5] ++ 5 :: [5])
      { id := 0, params := { n_predict := 3 } } []).2.1.stopped_eos = false :=
  limit_ends_generation engine_bytes {} false 3 [5, 5, 5] 5 [5]
    { id := 0, params := { n_predict := 3 } } [] (by decide) (by decide) rfl rfl rfl
    (by decide)
    (by intro w hw; cases hw)

/-- C10 (counterexample): with `n_predict = 1` generation has not ended after two tokens;
it ends at the fourth, with `n_decoded = 3`; with `n_predict = 2` it ends at the fifth,
with `n_decoded = 4`. -/
theorem limit_short_n_predict :
    (process_tokens engine_bytes {} false [5, 5] { id := 0, params := { n_predict := 1 } } []).1 = true ∧
    (process_tokens engine_bytes {} false [5, 5, 5, 5]
      { id := 0, params := { n_predict := 1 } } []).1 = false ∧
    (process_tokens engine_bytes {} false [5, 5, 5, 5]
      { id := 0, params := { n_predict := 1 } } []).2.1.stopped_limit = true ∧
    (process_tokens engine_bytes {} false [5, 5, 5, 5]
      { id := 0, params := { n_predict := 1 } } []).2.1.n_decoded = 3 ∧
    (process_tokens engine_bytes {} false [5, 5, 5, 5]
      { id := 0, params := { n_predict := 2 } } []).1 = true ∧
    (process_tokens engine_bytes {} false [5, 5, 5, 5, 5]
      { id := 0, params := { n_predict := 2 } } []).2.1.n_decoded = 4 := by
  decide



/-- The loop of `get_slot` when no slot of the rest is the requested one and available. -/
theorem get_slot_loop_lru (id : Int) :
    ∀ (rest : List llama_client_slot) (i : Nat) (t_last : Int) (last_used : Option Nat),
      (∀ s ∈ rest, ¬ (s.id = id ∧ s.available = true)) →
      (get_slot_loop id rest i t_last last_used = last_used ∧
        ∀ s ∈ rest, s.available = true → t_last ≤ s.t_last_used) ∨
      ∃ k s, rest.get? k = some s ∧ get_slot_loop id rest i t_last last_used = some (i + k) ∧
        s.available = true ∧ s.t_last_used < t_last ∧
        ∀ s' ∈ rest, s'.available = true → s.t_last_used ≤ s'.t_last_used := by
  intro rest
  induction rest with
  | nil =>
    intro i t_last last_used _
    left
    exact ⟨rfl, by simp⟩
  | cons slot rest ih =>
    intro i t_last last_used hno
    have hslot : ¬ (slot.id = id ∧ slot.available = true) := hno slot (List.mem_cons_self _ _)
    have hrest : ∀ s ∈ rest, ¬ (s.id = id ∧ s.available = true) :=
      fun s hs => hno s (List.mem_cons_of_mem _ hs)
    simp only [get_slot_loop, hslot, if_false]
    by_cases hbetter : slot.available = true ∧ slot.t_last_used < t_last
    · simp only [hbetter, and_self, if_true]
      right
      rcases ih (i + 1) slot.t_last_used (some i) hrest with ⟨h1, h2⟩ | ⟨k, s, hk, h1, h2, h3, h4⟩
      · refine ⟨0, slot, rfl, ?_, hbetter.1, hbetter.2, ?_⟩
        · simpa using h1
        · intro s' hs' hav
          rcases List.mem_cons.1 hs' with rfl | hs'
          · exact Int.le_refl _
          · exact h2 s' hs' hav
      · refine ⟨k + 1, s, by simpa using hk, ?_, h2, Int.lt_trans h3 hbetter.2, ?_⟩
        · rw [h1]; congr 1; omega
        · intro s' hs' hav
          rcases List.mem_cons.1 hs' with rfl | hs'
          · exact Int.le_of_lt h3
          · exact h4 s' hs' hav
    · simp only [hbetter, if_false]
      have hslot2 : slot.available = true → t_last ≤ slot.t_last_used := by
        intro hav
        by_contra hlt
        exact hbetter ⟨hav, by omega⟩
      rcases ih (i + 1) t_last last_used hrest with ⟨h1, h2⟩ | ⟨k, s, hk, h1, h2, h3, h4⟩
      · left
        refine ⟨h1, ?_⟩
        intro s' hs' hav
        rcases List.mem_cons.1 hs' with rfl | hs'
        · exact hslot2 hav
        · exact h2 s' hs' hav
      · right
        refine ⟨k + 1, s, by simpa using hk, ?_, h2, h3, ?_⟩
        · rw [h1]; congr 1; omega
        · intro s' hs' hav
          rcases List.mem_cons.1 hs' with rfl | hs'
          · exact Int.le_trans (Int.le_of_lt h3) (hslot2 hav)
          · exact h4 s' hs' hav

/-- The loop of `get_slot` returns the first slot that is the requested one and available. -/
theorem get_slot_loop_requested (id : Int) :
    ∀ (rest : List llama_client_slot) (i : Nat) (t_last : Int) (last_used : Option Nat)
      (k : Nat) (s : llama_client_slot),
      rest.get? k = some s → s.id = id → s.available = true →
      (∀ k' s', k' < k → rest.get? k' = some s' → ¬ (s'.id = id ∧ s'.available = true)) →
      get_slot_loop id rest i t_last last_used = some (i + k) := by
  intro rest
  induction rest with
  | nil => intro i t_last last_used k s hk; simp at hk
  | cons slot rest ih =>
    intro i t_last last_used k s hk hid hav hfirst
    cases k with
    | zero =>
      simp only [List.get?_cons_zero, Option.some.injEq] at hk
      subst hk
      simp [get_slot_loop, hid, hav]
    | succ k =>
      have hslot : ¬ (slot.id = id ∧ slot.available = true) :=
        hfirst 0 slot (Nat.succ_pos _) rfl
      simp only [List.get?_cons_succ] at hk
      have hrec : ∀ t l, get_slot_loop id rest (i + 1) t l = some (i + 1 + k) :=
        fun t l => ih (i + 1) t l k s hk hid hav
          (fun k' s' hk' hs' => hfirst (k' + 1) s' (Nat.succ_lt_succ hk') (by simpa using hs'))
      simp only [get_slot_loop, hslot, if_false]
      split
      · rw [hrec]; congr 1; omega
      · rw [hrec]; congr 1; omega

/-- C6: `get_slot` on a pool with distinct ids, read at a time later than every
`t_last_used`: it returns the slot with the requested id when that slot is available;
otherwise an available slot whose `t_last_used` is smallest; and `nullptr` exactly when no
slot is available. -/
theorem get_slot_correct (slots : List llama_client_slot) (now r : Int)
    (hid : (slots.map (fun s => s.id)).Nodup)
    (hnow : ∀ s ∈ slots, s.t_last_used < now) :
    (∀ i s, slots.get? i = some s → s.id = r → s.available = true →
      get_slot slots now r = some i) ∧
    ((∀ s ∈ slots, ¬ (s.id = r ∧ s.available = true)) →
      ∀ j, get_slot slots now r = some j →
        ∃ s, slots.get? j = some s ∧ s.available = true ∧
          ∀ s' ∈ slots, s'.available = true → s.t_last_used ≤ s'.t_last_used) ∧
    (get_slot slots now r = none ↔ ∀ s ∈ slots, s.available = false) := by
  have hlru : (∀ s ∈ slots, ¬ (s.id = r ∧ s.available = true)) →
      (get_slot slots now r = none ∧ ∀ s ∈ slots, s.available = false) ∨
      ∃ k s, slots.get? k = some s ∧ get_slot slots now r = some k ∧ s.available = true ∧
        ∀ s' ∈ slots, s'.available = true → s.t_last_used ≤ s'.t_last_used := by
    intro hno
    rcases get_slot_loop_lru r slots 0 now none hno with ⟨h1, h2⟩ | ⟨k, s, hk, h1, h2, _, h4⟩
    · left
      refine ⟨h1, ?_⟩
      intro s hs
      cases hav : s.available with
      | false => rfl
      | true =>
        have := h2 s hs hav
        have := hnow s hs
        omega
    · right
      exact ⟨k, s, hk, by simpa [get_slot] using h1, h2, h4⟩
  have hreq : ∀ i s, slots.get? i = some s → s.id = r → s.available = true →
      get_slot slots now r = some i := by
    intro i s hi hsid hav
    have := get_slot_loop_requested r slots 0 now none i s hi hsid hav (by
      intro k' s' hlt hk' hboth
      have hne := (List.nodup_iff_get?_ne_get?.1 hid) k' i hlt (by
        rw [List.length_map]
        exact (List.get?_eq_some.1 hi).1)
      apply hne
      rw [List.get?_map, List.get?_map, hk', hi]
      simp [hboth.1, hsid])
    simpa [get_slot] using this
  refine ⟨hreq, ?_, ?_⟩
  · intro hno j hj
    rcases hlru hno with ⟨h1, _⟩ | ⟨k, s, hk, h1, h2, h4⟩
    · rw [h1] at hj; cases hj
    · rw [h1] at hj
      cases hj
      exact ⟨s, hk, h2, h4⟩
  · constructor
    · intro hnone
      by_cases hno : ∀ s ∈ slots, ¬ (s.id = r ∧ s.available = true)
      · rcases hlru hno with ⟨_, h2⟩ | ⟨k, s, _, h1, _, _⟩
        · exact h2
        · rw [h1] at hnone; cases hnone
      · exfalso
        push_neg at hno
        obtain ⟨s, hs, hsid, hav⟩ := hno
        obtain ⟨i, hi⟩ := List.get?_of_mem hs
        rw [hreq i s hi hsid hav] at hnone
        cases hnone
    · intro hall
      have hno : ∀ s ∈ slots, ¬ (s.id = r ∧ s.available = true) := by
        intro s hs h
        rw [hall s hs] at h
        exact absurd h.2 (by simp)
      rcases hlru hno with ⟨h1, _⟩ | ⟨k, s, hk, _, h2, _⟩
      · exact h1
      · rw [hall s (List.get?_mem hk)] at h2
        cases h2

/-- C6 (witness): in `pool3` at time 10, slot 1 is returned when requested, and the idle
slot used longest ago (slot 2) when slot 0 is requested. -/
theorem get_slot_correct_witness :
    (pool3.map (fun s => s.id)).Nodup ∧ (∀ s ∈ pool3, s.t_last_used < 10) ∧
    get_slot pool3 10 1 = some 1 ∧ get_slot pool3 10 0 = some 2 :=
  ⟨by decide, by decide,
    (get_slot_correct pool3 10 1 (by decide) (by decide)).1 1 _ rfl rfl rfl, by decide⟩



theorem take_set_ge {α : Type} (l : List α) (m k : Nat) (a : α) (h : m ≤ k) :
    (l.set k a).take m = l.take m := by
  induction l generalizing m k with
  | nil => simp
  | cons x l ih =>
    cases m with
    | zero => simp
    | succ m =>
      cases k with
      | zero => omega
      | succ k => simp [List.set, ih m k (by omega)]

/-- The compaction loop with a non-negative `n_discard` stays in bounds and does not touch
the elements before its first target. -/
theorem context_shift_loop_ok (d : Nat) :
    ∀ (n i : Nat) (v : List llama_token), d ≤ i → i + n ≤ v.length →
      ∃ v', context_shift_loop (d : Int) n i v = .ok v' ∧ v'.length = v.length ∧
        v'.take (i - d) = v.take (i - d) := by
  intro n
  induction n with
  | zero => intro i v _ _; exact ⟨v, rfl, rfl, rfl⟩
  | succ n ih =>
    intro i v hd hlen
    have htarget : (0 : Int) ≤ (i : Int) - (d : Int) ∧ (i : Int) - (d : Int) < (v.length : Int) := by
      omega
    have hnat : ((i : Int) - (d : Int)).toNat = i - d := by omega
    simp only [context_shift_loop, htarget, and_self, if_true, hnat]
    obtain ⟨v', h1, h2, h3⟩ := ih (i + 1) (v.set (i - d) (v.getD i 0)) (by omega)
      (by simp only [List.length_set]; omega)
    refine ⟨v', h1, by simpa using h2, ?_⟩
    have h4 : (v'.take (i + 1 - d)).take (i - d) =
        ((v.set (i - d) (v.getD i 0)).take (i + 1 - d)).take (i - d) := by rw [h3]
    rw [List.take_take, List.take_take] at h4
    have hmin : min (i - d) (i + 1 - d) = i - d := by omega
    rw [hmin] at h4
    rw [h4]
    exact take_set_ge v (i - d) (i - d) _ (Nat.le_refl _)

/-- When the context shift fires on a slot with `0 ≤ n_keep`, `n_keep + 1 ≤ n_past` and
`n_past ≤ |cache_tokens| + 1`, so that `n_discard` is not negative, it completes and the
first `n_keep` elements of `cache_tokens` are the same before and after. -/
theorem context_shift_keeps_head (slot : llama_client_slot)
    (hfire : context_shift_fires slot = true)
    (h0 : 0 ≤ slot.params.n_keep) (h1 : slot.params.n_keep + 1 ≤ slot.n_past)
    (h2 : slot.n_past ≤ (slot.cache_tokens.length : Int) + 1) :
    ∃ slot', update_slots_shift slot = .ok slot' ∧
      slot'.cache_tokens.take slot.params.n_keep.toNat =
        slot.cache_tokens.take slot.params.n_keep.toNat := by
  obtain ⟨K, hK⟩ := Int.eq_ofNat_of_zero_le h0
  obtain ⟨P, hP⟩ := Int.eq_ofNat_of_zero_le (show 0 ≤ slot.n_past by omega)
  have hdiv : (slot.n_past - slot.params.n_keep - 1).tdiv 2 = ((P - K - 1) / 2 : Nat) := by
    rw [Int.tdiv_eq_ediv (by omega) (by omega)]
    omega
  have hKtoNat : slot.params.n_keep.toNat = K := by omega
  have hstart : ¬ (slot.params.n_keep + 1 + (((P - K - 1) / 2 : Nat) : Int) < 0) := by omega
  have hstartNat : (slot.params.n_keep + 1 + (((P - K - 1) / 2 : Nat) : Int)).toNat =
      K + 1 + (P - K - 1) / 2 := by omega
  have hloop : ∃ v', context_shift_loop (((P - K - 1) / 2 : Nat) : Int)
      (slot.cache_tokens.length - (K + 1 + (P - K - 1) / 2)) (K + 1 + (P - K - 1) / 2)
      slot.cache_tokens = .ok v' ∧ v'.length = slot.cache_tokens.length ∧
      v'.take K = slot.cache_tokens.take K := by
    by_cases hle : K + 1 + (P - K - 1) / 2 ≤ slot.cache_tokens.length
    · obtain ⟨v', e1, e2, e3⟩ := context_shift_loop_ok ((P - K - 1) / 2)
        (slot.cache_tokens.length - (K + 1 + (P - K - 1) / 2)) (K + 1 + (P - K - 1) / 2)
        slot.cache_tokens (by omega) (by omega)
      refine ⟨v', e1, e2, ?_⟩
      have e4 : (v'.take (K + 1 + (P - K - 1) / 2 - (P - K - 1) / 2)).take K =
          (slot.cache_tokens.take (K + 1 + (P - K - 1) / 2 - (P - K - 1) / 2)).take K := by
        rw [e3]
      rw [List.take_take, List.take_take] at e4
      have hmin : min K (K + 1 + (P - K - 1) / 2 - (P - K - 1) / 2) = K := by omega
      rw [hmin] at e4
      exact e4
    · have hz : slot.cache_tokens.length - (K + 1 + (P - K - 1) / 2) = 0 := by omega
      rw [hz]
      exact ⟨slot.cache_tokens, rfl, rfl, rfl⟩
  obtain ⟨v', e1, e2, e3⟩ := hloop
  have hsize : ¬ ((v'.length : Int) - (((P - K - 1) / 2 : Nat) : Int) < 0) := by omega
  have hsizeNat : ((v'.length : Int) - (((P - K - 1) / 2 : Nat) : Int)).toNat =
      v'.length - (P - K - 1) / 2 := by omega
  refine ⟨{ slot with
      cache_tokens := v'.take (v'.length - (P - K - 1) / 2) ++
        List.replicate (v'.length - (P - K - 1) / 2 - v'.length) 0
      n_past := slot.n_past - (((P - K - 1) / 2 : Nat) : Int)
      truncated := true }, ?_, ?_⟩
  · simp only [update_slots_shift, hfire, if_true, context_shift, hdiv, hstart, if_false,
      hstartNat, e1, resize_cache, hsize, hsizeNat]
  · simp only [hKtoNat]
    rw [List.take_append_of_le_length (by rw [List.length_take]; omega), List.take_take]
    have hmin : min K (v'.length - (P - K - 1) / 2) = K := by omega
    rw [hmin, e3]

/-- C8 (failing input): a request with prompt "abc" and `n_keep = 8`, `cache_prompt` off,
on a slot with `n_ctx = 4` leaves the slot, after its first tick, in the state
`slot_after_abc`; the context shift fires on it at the next tick with a negative
`n_discard` and makes the first `n_keep = 8` elements of `cache_tokens` seven tokens, two
zeros added, where they were five: the head is not the same before and after. -/
theorem context_shift_grows_head :
    (update_slots engine_bytes 4
        (request_completion server_ctx4 { prompt := some (.string [97, 98, 99]), n_keep := some 8 }
          false false).1).map (fun r => r.2.slots) = .ok [slot_after_abc] ∧
    context_shift_fires slot_after_abc = true ∧
    slot_after_abc.cache_tokens.take slot_after_abc.params.n_keep.toNat = [1, 97, 98, 99, 100] ∧
    (update_slots_shift slot_after_abc).map
        (fun s => s.cache_tokens.take slot_after_abc.params.n_keep.toNat) =
      .ok [1, 97, 98, 99, 100, 0, 0] := by
  decide

/-- The hypotheses of `context_shift_keeps_head` hold of `slot_full`. -/
theorem context_shift_keeps_head_witness :
    context_shift_fires slot_full = true ∧ 0 ≤ slot_full.params.n_keep ∧
    slot_full.params.n_keep + 1 ≤ slot_full.n_past ∧
    slot_full.n_past ≤ (slot_full.cache_tokens.length : Int) + 1 ∧
    ∃ slot', update_slots_shift slot_full = .ok slot' ∧
      slot'.cache_tokens.take slot_full.params.n_keep.toNat =
        slot_full.cache_tokens.take slot_full.params.n_keep.toNat :=
  ⟨by decide, by decide, by decide, by decide,
    context_shift_keeps_head slot_full (by decide) (by decide) (by decide) (by decide)⟩



/-- C1 (failing input): on a reset streaming slot with stop word "ab", the pieces "x", "a"
and the end-of-stream token end the generation with `generated_text = "xa"`, while the
partial results carry "x" only: the "a", held back as a possible start of the stop word, is
never sent (`sent_count = 1`). With stop word ", 5" and the pieces "4," and " 5" the final
text is "4" and nothing was sent. -/
theorem stream_misses_held_text :
    (process_tokens engine_bytes {} false [120, 97, 2] slot_stop_ab []).1 = false ∧
    (process_tokens engine_bytes {} false [120, 97, 2] slot_stop_ab []).2.1.generated_text =
      [120, 97] ∧
    ((process_tokens engine_bytes {} false [120, 97, 2] slot_stop_ab []).2.2.map
      streamed_content).flatten = [120] ∧
    (process_tokens engine_bytes {} false [120, 97, 2] slot_stop_ab []).2.1.sent_count = 1 ∧
    (process_tokens engine_bytes {} false [13356, 8245] slot_stop_comma5 []).1 = false ∧
    (process_tokens engine_bytes {} false [13356, 8245] slot_stop_comma5 []).2.1.generated_text =
      [52] ∧
    ((process_tokens engine_bytes {} false [13356, 8245] slot_stop_comma5 []).2.2.map
      streamed_content).flatten = [] := by
  decide

/-- C9 (failing input): in `server_busy`, two ticks after `request_cancel` the slot of
task 0 is still processing and the cancel task is still queued, each tick having answered
one completion request with "slot unavailable" and returned; the third tick releases the
slot. -/
theorem cancel_waits_behind_unavailable :
    server_busy.map (fun srv =>
      (srv.slots.map (fun s => (s.task_id, s.state)), srv.queue_tasks.map (fun t => t.type))) =
      .ok ([(0, .PROCESSING)], [.COMPLETION_TASK, .COMPLETION_TASK, .CANCEL_TASK]) ∧
    (server_busy.bind (run_ticks engine_bytes 4 2)).map (fun srv =>
      (srv.slots.map (fun s => (s.task_id, s.state)), srv.queue_tasks.map (fun t => t.type),
        srv.queue_results.map (fun r => r.result))) =
      .ok ([(0, .PROCESSING)], [.CANCEL_TASK],
        [.error_content msg_slot_unavailable, .error_content msg_slot_unavailable]) ∧
    (server_busy.bind (run_ticks engine_bytes 4 3)).map (fun srv =>
      (srv.slots.map (fun s => (s.task_id, s.state)), srv.queue_tasks.map (fun t => t.type))) =
      .ok ([(0, .IDLE)], []) := by
  decide



/-! ### Loops over the slots -/

theorem for_each_slot_forall₂ {σ : Type}
    (body : σ → llama_client_slot → Except fault (σ × llama_client_slot)) :
    ∀ (ss : List llama_client_slot) (st : σ) (st' : σ) (ss' : List llama_client_slot),
      for_each_slot body st ss = .ok (st', ss') →
      List.Forall₂ (fun s s' => ∃ a b, body a s = .ok (b, s')) ss ss' := by
  intro ss
  induction ss with
  | nil =>
    intro st st' ss' h
    simp only [for_each_slot, Except.ok.injEq, Prod.mk.injEq] at h
    rw [← h.2]
    exact List.Forall₂.nil
  | cons s ss ih =>
    intro st st' ss' h
    simp only [for_each_slot] at h
    split at h
    · cases h
    · rename_i st1 s1 hb
      split at h
      · cases h
      · rename_i st2 rest2 hr
        simp only [Except.ok.injEq, Prod.mk.injEq] at h
        rw [← h.2]
        exact List.Forall₂.cons ⟨st, st1, hb⟩ (ih st1 st2 rest2 hr)

theorem forall₂_comp {α : Type} {R S T : α → α → Prop}
    (hT : ∀ x y z, R x y → S y z → T x z) :
    ∀ {a b c : List α}, List.Forall₂ R a b → List.Forall₂ S b c → List.Forall₂ T a c := by
  intro a b c hab
  induction hab generalizing c with
  | nil => intro hbc; cases hbc; exact List.Forall₂.nil
  | cons h _ ih =>
    intro hbc
    cases hbc with
    | cons h' t' => exact List.Forall₂.cons (hT _ _ _ h h') (ih t')

theorem forall₂_mono {α : Type} {R S : α → α → Prop} (h : ∀ x y, R x y → S x y) :
    ∀ {a b : List α}, List.Forall₂ R a b → List.Forall₂ S a b := by
  intro a b hab
  induction hab with
  | nil => exact List.Forall₂.nil
  | cons h' _ ih => exact List.Forall₂.cons (h _ _ h') ih

theorem forall₂_refl_of {α : Type} {R : α → α → Prop} (h : ∀ x, R x x) :
    ∀ (a : List α), List.Forall₂ R a a := by
  intro a
  induction a with
  | nil => exact List.Forall₂.nil
  | cons x a ih => exact List.Forall₂.cons (h x) ih

theorem tasks_rel_refl (s : llama_client_slot) : tasks_rel s s := ⟨rfl, rfl, rfl, fun _ => rfl⟩

theorem tasks_rel_trans (a b c : llama_client_slot) (h1 : tasks_rel a b) (h2 : tasks_rel b c) :
    tasks_rel a c := by
  obtain ⟨a1, a2, a3, a4⟩ := h1
  obtain ⟨b1, b2, b3, b4⟩ := h2
  refine ⟨b1.trans a1, b2.trans a2, b3.trans a3, ?_⟩
  intro hp
  have hb := b4 (a1.trans hp)
  have ha := a4 hp
  rw [← ha, ← hb]

theorem tasks_rel_release (s : llama_client_slot) : tasks_rel s s.release := by
  unfold llama_client_slot.release
  split
  · exact ⟨rfl, rfl, rfl, fun _ => rfl⟩
  · exact tasks_rel_refl s

theorem get_slot_loop_available (id : Int) :
    ∀ (rest : List llama_client_slot) (i : Nat) (t_last : Int) (last_used : Option Nat) (j : Nat),
      get_slot_loop id rest i t_last last_used = some j →
      last_used = some j ∨ ∃ k s, rest.get? k = some s ∧ j = i + k ∧ s.available = true := by
  intro rest
  induction rest with
  | nil => intro i t_last last_used j h; exact Or.inl h
  | cons slot rest ih =>
    intro i t_last last_used j h
    simp only [get_slot_loop] at h
    split at h
    · rename_i hc
      cases h
      exact Or.inr ⟨0, slot, rfl, rfl, hc.2⟩
    · split at h
      · rename_i hc
        rcases ih _ _ _ _ h with h1 | ⟨k, s, hk, hj, hav⟩
        · cases h1
          exact Or.inr ⟨0, slot, rfl, rfl, hc.1⟩
        · exact Or.inr ⟨k + 1, s, by simpa using hk, by omega, hav⟩
      · rcases ih _ _ _ _ h with h1 | ⟨k, s, hk, hj, hav⟩
        · exact Or.inl h1
        · exact Or.inr ⟨k + 1, s, by simpa using hk, by omega, hav⟩

/-- The slot that `get_slot` returns is available. -/
theorem get_slot_available (slots : List llama_client_slot) (now id : Int) (j : Nat)
    (h : get_slot slots now id = some j) :
    ∃ s, slots.get? j = some s ∧ s.available = true := by
  rcases get_slot_loop_available id slots 0 now none j h with h1 | ⟨k, s, hk, hj, hav⟩
  · cases h1
  · exact ⟨s, by simpa [hj] using hk, hav⟩

theorem forall₂_set {α : Type} {R : α → α → Prop} (hrefl : ∀ x, R x x) :
    ∀ (l : List α) (i : Nat) (x y : α), l.get? i = some x → R x y →
      List.Forall₂ R l (l.set i y) := by
  intro l
  induction l with
  | nil => intro i x y h; simp at h
  | cons a l ih =>
    intro i x y h hR
    cases i with
    | zero =>
      simp only [List.get?_cons_zero, Option.some.injEq] at h
      subst h
      exact List.Forall₂.cons hR (forall₂_refl_of hrefl l)
    | succ i =>
      simp only [List.get?_cons_succ] at h
      exact List.Forall₂.cons (hrefl a) (ih i x y h hR)

theorem forall₂_map_right {α : Type} {R : α → α → Prop} (f : α → α) (h : ∀ x, R x (f x)) :
    ∀ (l : List α), List.Forall₂ R l (l.map f) := by
  intro l
  induction l with
  | nil => exact List.Forall₂.nil
  | cons a l ih => exact List.Forall₂.cons (h a) ih

theorem forall₂_get? {α : Type} {R : α → α → Prop} :
    ∀ {a b : List α}, List.Forall₂ R a b → ∀ (i : Nat) (y : α), b.get? i = some y →
      ∃ x, a.get? i = some x ∧ R x y := by
  intro a b hab
  induction hab with
  | nil => intro i y h; simp at h
  | cons h' _ ih =>
    intro i y h
    cases i with
    | zero =>
      simp only [List.get?_cons_zero, Option.some.injEq] at h
      subst h
      exact ⟨_, rfl, h'⟩
    | succ i =>
      simp only [List.get?_cons_succ] at h
      obtain ⟨x, hx, hR⟩ := ih i y h
      exact ⟨x, by simpa using hx, hR⟩

theorem cancel_slot_rel (target_id : Int) :
    ∀ (slots : List llama_client_slot),
      List.Forall₂ tasks_rel slots (cancel_slot target_id slots) := by
  intro slots
  induction slots with
  | nil => exact List.Forall₂.nil
  | cons s slots ih =>
    simp only [cancel_slot]
    split
    · exact List.Forall₂.cons (tasks_rel_release s) (forall₂_refl_of tasks_rel_refl _)
    · exact List.Forall₂.cons (tasks_rel_refl s) ih

theorem process_system_prompt_data_rel (srv : llama_server_context) (p : system_props) :
    List.Forall₂ tasks_rel srv.slots (process_system_prompt_data srv p).slots := by
  unfold process_system_prompt_data
  simp only
  split
  · exact forall₂_map_right _ tasks_rel_release _
  · exact forall₂_refl_of tasks_rel_refl _

theorem tasks_rel_bind (slot : llama_client_slot) (task : task_server)
    (h : slot.state = .IDLE) :
    tasks_rel slot
      (launch_slot_with_data
        { slot.reset with
          infill := task.infill_mode, embedding := task.embedding_mode, task_id := task.id }
        task.data).2 := by
  refine ⟨rfl, rfl, rfl, ?_⟩
  intro hp
  rw [h] at hp
  cases hp

theorem process_task_rel (env : Engine) (srv : llama_server_context) (task : task_server) :
    List.Forall₂ tasks_rel srv.slots (process_task env srv task).1.slots := by
  unfold process_task
  split
  · -- completion
    simp only
    split
    · exact forall₂_refl_of tasks_rel_refl _
    · rename_i i hget
      obtain ⟨s0, hs0, hav⟩ := get_slot_available _ _ _ _ hget
      have hsys : List.Forall₂ tasks_rel srv.slots
          (match task.data.system_prompt with
            | some sys_props =>
              process_system_prompt_data { srv with clock_calls := srv.clock_calls + 1 } sys_props
            | none => { srv with clock_calls := srv.clock_calls + 1 }).slots := by
        split
        · exact process_system_prompt_data_rel { srv with clock_calls := srv.clock_calls + 1 } _
        · exact forall₂_refl_of tasks_rel_refl _
      split
      · exact hsys
      · rename_i slot hslot
        obtain ⟨x, hx, hR⟩ := forall₂_get? hsys i slot hslot
        have hidle : slot.state = .IDLE := by
          have h1 : x = s0 := by
            have : some x = some s0 := by rw [← hx, ← hs0]
            exact Option.some.inj this
          rw [hR.1, h1]
          simp only [llama_client_slot.available, Bool.decide_and, Bool.and_eq_true,
            decide_eq_true_eq] at hav
          exact hav.1
        have hset := forall₂_set tasks_rel_refl _ i slot _ hslot (tasks_rel_bind slot task hidle)
        have hall := forall₂_comp tasks_rel_trans hsys hset
        split
        · exact hall
        · exact hall
  · exact cancel_slot_rel _ _

theorem process_tasks_loop_rel (env : Engine) :
    ∀ (queue : List task_server) (srv : llama_server_context),
      List.Forall₂ tasks_rel srv.slots (process_tasks_loop env queue srv).slots := by
  intro queue
  induction queue with
  | nil => intro srv; exact forall₂_refl_of tasks_rel_refl _
  | cons task rest ih =>
    intro srv
    simp only [process_tasks_loop]
    have h1 : List.Forall₂ tasks_rel srv.slots
        (process_task env { srv with queue_tasks := rest } task).1.slots :=
      process_task_rel env { srv with queue_tasks := rest } task
    split
    · exact forall₂_comp tasks_rel_trans h1 (ih _)
    · exact h1

/-- Every slot is related by `tasks_rel` to what `process_tasks` makes of it. -/
theorem process_tasks_rel (env : Engine) (srv : llama_server_context) :
    List.Forall₂ tasks_rel srv.slots (process_tasks env srv).slots :=
  process_tasks_loop_rel env _ srv

/-! ### The passes of `update_slots` -/

theorem sampled_steps_trans (env : Engine) (a b c : llama_client_slot)
    (h1 : sampled_steps env a b) (h2 : sampled_steps env b c) : sampled_steps env a c := by
  induction h1 with
  | done s => exact h2
  | step i n st st' s s' s'' hi h _ ih => exact sampled_steps.step i n st st' s s' c hi h (ih h2)

theorem tdiv_two_nonpos (a : Int) (h : a ≤ 0) : a.tdiv 2 ≤ 0 := by
  obtain ⟨n, hn⟩ := Int.eq_ofNat_of_zero_le (show 0 ≤ -a by omega)
  have ha : a = -(n : Int) := by omega
  rw [ha, Int.neg_tdiv, Int.tdiv_eq_ediv (by omega) (by omega)]
  omega

theorem decode_loop_rel (env : Engine) :
    ∀ (fuel : Nat) (i n_batch : Int) (srv : llama_server_context) (b : Bool)
      (srv' : llama_server_context),
      decode_loop env fuel i n_batch srv = .ok (b, srv') → (0 ≤ i ∨ n_batch ≤ 0) →
      List.Forall₂ (sampled_steps env) srv.slots srv'.slots := by
  intro fuel
  induction fuel with
  | zero => intro i n_batch srv b srv' h; simp [decode_loop] at h
  | succ fuel ih =>
    intro i n_batch srv b srv' h hi
    simp only [decode_loop] at h
    split at h
    · split at h
      · split at h
        · simp only [Except.ok.injEq, Prod.mk.injEq] at h
          rw [← h.2]
          exact forall₂_refl_of (sampled_steps.done) _
        · have := ih _ _ _ _ _ h (by
            rcases hi with hi | hi
            · left; omega
            · right; exact tdiv_two_nonpos _ hi)
          exact this
      · split at h
        · cases h
        · rename_i st slots hfor
          have hstep : List.Forall₂ (sampled_steps env) srv.slots slots := by
            have := for_each_slot_forall₂ _ _ _ _ _ hfor
            refine forall₂_mono ?_ this
            intro x y ⟨a, b', hab⟩
            exact sampled_steps.step i _ a b' x y y (by
              rcases hi with hi | hi
              · exact Or.inl hi
              · right
                exact Int.le_trans (Int.min_le_left _ _) hi) hab (sampled_steps.done y)
          split at h
          · simp only [Except.ok.injEq, Prod.mk.injEq] at h
            rw [← h.2]
            exact hstep
          · have := ih _ _ _ _ _ h (by
              rcases hi with hi | hi
              · by_cases hn : n_batch ≤ 0
                · exact Or.inr hn
                · left; omega
              · exact Or.inr hi)
            exact forall₂_comp (sampled_steps_trans env) hstep this
    · simp only [Except.ok.injEq, Prod.mk.injEq] at h
      rw [← h.2]
      exact forall₂_refl_of (sampled_steps.done) _

theorem update_system_prompt_slots (env : Engine) (srv : llama_server_context) :
    (update_system_prompt env srv).slots = srv.slots := by
  unfold update_system_prompt
  simp only
  split <;> rfl

theorem update_slots_begin_slots (env : Engine) (srv : llama_server_context) :
    (update_slots_begin env srv).slots = (process_tasks env srv).slots := by
  unfold update_slots_begin
  simp only
  split <;> split <;> first
    | exact update_system_prompt_slots env _
    | rfl

/-- One tick, slot by slot: the slots go through `process_tasks`, the context-shift pass,
the release and continue-decode pass, the prompt-ingest pass (when it runs) and the
sampling after each decoded chunk. -/
theorem update_slots_passes (env : Engine) (fuel : Nat) (srv : llama_server_context)
    (b : Bool) (srv' : llama_server_context)
    (h : update_slots env fuel srv = .ok (b, srv')) :
    ∃ l1 l2 l3 : List llama_client_slot,
      List.Forall₂ (fun s s' => update_slots_shift s = .ok s') (process_tasks env srv).slots l1 ∧
      List.Forall₂ (fun s s' => ∃ a b, update_slots_ongoing env a s = .ok (b, s')) l1 l2 ∧
      List.Forall₂ (fun s s' => (∃ a b, update_slots_prompt env a s = .ok (b, s')) ∨ s' = s)
        l2 l3 ∧
      List.Forall₂ (sampled_steps env) l3 srv'.slots := by
  unfold update_slots at h
  split at h
  · cases h
  · rename_i u shifted hshift
    have hs1 : List.Forall₂ (fun s s' => update_slots_shift s = .ok s')
        (process_tasks env srv).slots shifted := by
      have := for_each_slot_forall₂ _ _ _ _ _ hshift
      rw [update_slots_begin_slots] at this
      refine forall₂_mono ?_ this
      intro x y ⟨_, _, hxy⟩
      unfold update_slots_shift_body at hxy
      split at hxy
      · cases hxy
      · rename_i v hv
        simp only [Except.ok.injEq, Prod.mk.injEq, true_and] at hxy
        rw [hv, hxy]
    split at h
    · cases h
    · rename_i srv5 ongoing hong
      have hs2 := for_each_slot_forall₂ _ _ _ _ _ hong
      simp only at h
      split at h
      · cases h
      · rename_i srv7 slots hing
        have hs3 : List.Forall₂
            (fun s s' => (∃ a b, update_slots_prompt env a s = .ok (b, s')) ∨ s' = s)
            ongoing slots := by
          split at hing
          · exact forall₂_mono (fun x y hxy => Or.inl hxy) (for_each_slot_forall₂ _ _ _ _ _ hing)
          · simp only [Except.ok.injEq, Prod.mk.injEq] at hing
            rw [← hing.2]
            exact forall₂_refl_of
              (R := fun s s' => (∃ a b, update_slots_prompt env a s = .ok (b, s')) ∨ s' = s)
              (fun x => Or.inr rfl) _
        refine ⟨shifted, ongoing, slots, hs1, hs2, hs3, ?_⟩
        split at h
        · simp only [Except.ok.injEq, Prod.mk.injEq] at h
          rw [← h.2]
          exact forall₂_refl_of (sampled_steps.done) _
        · exact decode_loop_rel env fuel 0 _ _ b srv' h (Or.inl (Int.le_refl 0))


/-! ### `cache_tokens` and `n_past` through a tick -/

theorem stop_frame_find_stopping_strings (text : Str) (n : Nat) (type : stop_type)
    (slot : llama_client_slot) :
    stop_frame (find_stopping_strings text n type slot).2 = stop_frame slot := by
  unfold find_stopping_strings
  have key : ∀ (ws : List Str) (acc : Option Nat × llama_client_slot),
      stop_frame (ws.foldl (find_stopping_strings_word text n type) acc).2 =
        stop_frame acc.2 := by
    intro ws
    induction ws with
    | nil => intro acc; rfl
    | cons w ws ih =>
      intro acc
      simp only [List.foldl_cons]
      rw [ih]
      unfold find_stopping_strings_word
      split
      · cases type <;> rfl
      · rfl
  exact key _ _

theorem stop_search_cache_tokens (token_str : Str) (s : llama_client_slot) :
    (stop_search token_str s).2.2.2.cache_tokens = s.cache_tokens := by
  have h1 : ∀ text n type (x : llama_client_slot),
      (find_stopping_strings text n type x).2.cache_tokens = x.cache_tokens := by
    intro text n type x
    have h := congrArg llama_client_slot.cache_tokens
      (stop_frame_find_stopping_strings text n type x)
    exact h
  unfold stop_search
  simp only
  split
  · exact h1 _ _ _ _
  · rw [h1, h1]

theorem flush_text_cache_tokens (stop_pos : Option Nat) (full : Bool) (pos : Nat)
    (r : completion_token_output) (s : llama_client_slot) :
    (flush_text stop_pos full pos r s).2.cache_tokens = s.cache_tokens := by
  unfold flush_text
  split <;> rfl

theorem add_token_string_cache_tokens (s : llama_client_slot) (r : completion_token_output) :
    (s.add_token_string r).cache_tokens.length ≤ s.cache_tokens.length + 1 := by
  unfold llama_client_slot.add_token_string
  split
  · omega
  · simp

theorem send_partial_response_cache_tokens (env : Engine) (mm : Bool) (s : llama_client_slot)
    (r : completion_token_output) :
    (send_partial_response env mm s r).1.cache_tokens = s.cache_tokens := by
  unfold send_partial_response
  split <;> rfl

theorem process_token_flush_cache_tokens (env : Engine) (mm : Bool) (token_str : Str)
    (result : completion_token_output) (s : llama_client_slot) (q : List task_result) :
    (process_token_flush env mm token_str result s q).2.1.cache_tokens.length ≤
      s.cache_tokens.length + 1 := by
  unfold process_token_flush
  simp only
  split
  · rw [send_partial_response_cache_tokens]
    refine Nat.le_trans (add_token_string_cache_tokens _ _) ?_
    rw [flush_text_cache_tokens, stop_search_cache_tokens]
  · refine Nat.le_trans (add_token_string_cache_tokens _ _) ?_
    rw [flush_text_cache_tokens, stop_search_cache_tokens]

theorem pending_override_cache_tokens (s : llama_client_slot) :
    (pending_override s).cache_tokens = s.cache_tokens := by
  unfold pending_override
  split <;> rfl

theorem check_limit_cache_tokens (params : gpt_params) (s : llama_client_slot) :
    (check_limit params s).cache_tokens = s.cache_tokens := by
  unfold check_limit
  split
  · split <;> rfl
  · rfl

theorem check_eos_cache_tokens (env : Engine) (tok : llama_token) (s : llama_client_slot) :
    (check_eos env tok s).cache_tokens = s.cache_tokens := by
  unfold check_eos
  split <;> rfl

/-- A call of `process_token` adds at most one token to `cache_tokens`. -/
theorem process_token_cache_tokens (env : Engine) (params : gpt_params) (mm : Bool)
    (result : completion_token_output) (s : llama_client_slot) (q : List task_result) :
    (process_token env params mm result s q).2.2.1.cache_tokens.length ≤
      s.cache_tokens.length + 1 := by
  unfold process_token
  simp only
  rw [check_eos_cache_tokens, check_limit_cache_tokens, pending_override_cache_tokens]
  split
  · exact process_token_flush_cache_tokens env mm _ _ _ q
  · simp [append_piece]


theorem context_shift_loop_length (d : Int) :
    ∀ (n i : Nat) (v v' : List llama_token), context_shift_loop d n i v = .ok v' →
      v'.length = v.length := by
  intro n
  induction n with
  | zero =>
    intro i v v' h
    simp only [context_shift_loop, Except.ok.injEq] at h
    rw [h]
  | succ n ih =>
    intro i v v' h
    simp only [context_shift_loop] at h
    split at h
    · rw [ih _ _ _ h, List.length_set]
    · cases h

theorem resize_cache_length (v v' : List llama_token) (d : Int)
    (h : resize_cache v d = .ok v') : (v'.length : Int) = (v.length : Int) - d := by
  unfold resize_cache at h
  simp only at h
  split at h
  · cases h
  · simp only [Except.ok.injEq] at h
    rw [← h]
    simp only [List.length_append, List.length_take, List.length_replicate]
    omega

/-- A context shift that completes moves `n_past` and the length of `cache_tokens` by the
same amount, and sets `truncated`. -/
theorem context_shift_effect (s s' : llama_client_slot) (h : context_shift s = .ok s') :
    (s'.cache_tokens.length : Int) - s'.n_past = (s.cache_tokens.length : Int) - s.n_past ∧
    s'.n_past = s.n_past - (s.n_past - s.params.n_keep - 1).tdiv 2 ∧
    s'.state = s.state ∧ s'.command = s.command ∧ s'.n_ctx = s.n_ctx ∧
    s'.params = s.params ∧ s'.i_batch = s.i_batch := by
  unfold context_shift at h
  simp only at h
  split at h
  · cases h
  · rename_i moved hmoved
    split at h
    · cases h
    · rename_i resized hres
      simp only [Except.ok.injEq] at h
      rw [← h]
      have hlen : moved.length = s.cache_tokens.length := by
        split at hmoved
        · simp only [Except.ok.injEq] at hmoved
          rw [hmoved]
        · exact context_shift_loop_length _ _ _ _ _ hmoved
      have := resize_cache_length _ _ _ hres
      refine ⟨?_, rfl, rfl, rfl, rfl, rfl, rfl⟩
      simp only
      omega

theorem update_slots_shift_effect (s s' : llama_client_slot)
    (h : update_slots_shift s = .ok s') :
    (s'.cache_tokens.length : Int) - s'.n_past = (s.cache_tokens.length : Int) - s.n_past ∧
    s'.state = s.state ∧ s'.command = s.command ∧ s'.n_ctx = s.n_ctx ∧
    s'.params = s.params ∧ s'.i_batch = s.i_batch := by
  unfold update_slots_shift at h
  split at h
  · obtain ⟨h1, _, h3, h4, h5, h6, h7⟩ := context_shift_effect s s' h
    exact ⟨h1, h3, h4, h5, h6, h7⟩
  · simp only [Except.ok.injEq] at h
    rw [← h]
    exact ⟨rfl, rfl, rfl, rfl, rfl, rfl⟩

/-- The release and continue-decode pass on one slot. -/
theorem update_slots_ongoing_effect (env : Engine) (a b : llama_server_context)
    (s s' : llama_client_slot) (h : update_slots_ongoing env a s = .ok (b, s')) :
    s'.cache_tokens = s.cache_tokens ∧ s'.n_ctx = s.n_ctx ∧ s'.params = s.params ∧
    ((s.command = .RELEASE ∧ s'.state = .IDLE ∧ s'.command = .NONE ∧ s'.n_past = s.n_past) ∨
     (s.command ≠ .RELEASE ∧ s.state = .IDLE ∧ s' = s) ∨
     (s.command ≠ .RELEASE ∧ s.state = .PROCESSING ∧ s'.state = .PROCESSING ∧
       s'.command = s.command ∧ s'.n_past = s.n_past + 1)) := by
  unfold update_slots_ongoing at h
  split at h
  · rename_i hc
    simp only [Except.ok.injEq, Prod.mk.injEq] at h
    rw [← h.2]
    exact ⟨rfl, rfl, rfl, Or.inl ⟨hc, rfl, rfl, rfl⟩⟩
  · rename_i hc
    split at h
    · rename_i hs
      simp only [Except.ok.injEq, Prod.mk.injEq] at h
      rw [← h.2]
      exact ⟨rfl, rfl, rfl, Or.inr (Or.inl ⟨hc, hs, rfl⟩)⟩
    · rename_i hs
      simp only [Except.ok.injEq, Prod.mk.injEq] at h
      rw [← h.2]
      have hp : s.state = .PROCESSING := by
        cases hst : s.state with
        | IDLE => exact absurd hst hs
        | PROCESSING => rfl
      exact ⟨rfl, rfl, rfl, Or.inr (Or.inr ⟨hc, hp, hp, rfl, rfl⟩)⟩


/-! ### The prompt-ingest pass -/

theorem common_part_le_right : ∀ (a b : List llama_token), common_part a b ≤ b.length := by
  intro a
  induction a with
  | nil => intro b; simp [common_part]
  | cons x a ih =>
    intro b
    cases b with
    | nil => simp [common_part]
    | cons y b =>
      simp only [common_part, List.length_cons]
      split
      · have := ih b; omega
      · omega

theorem truncate_prompt_effect (s s' : llama_client_slot) (toks toks' : List llama_token)
    (h : truncate_prompt s toks = .ok (s', toks')) :
    s' = { s with truncated := true, num_prompt_tokens := toks'.length } ∧
    (toks'.length : Int) < s.n_ctx := by
  unfold truncate_prompt at h
  simp only at h
  split at h
  · cases h
  · split at h
    · cases h
    · split at h
      · rename_i hlt
        simp only [Except.ok.injEq, Prod.mk.injEq] at h
        obtain ⟨h1, h2⟩ := h
        subst h2
        exact ⟨h1.symm, hlt⟩
      · cases h

theorem fit_prompt_effect (s s' : llama_client_slot) (toks toks' : List llama_token)
    (hnum : s.num_prompt_tokens = toks.length)
    (h : fit_prompt s toks = .ok (s', toks')) :
    s' = { s with truncated := s'.truncated, num_prompt_tokens := toks'.length } ∧
    (toks'.length : Int) < s.n_ctx := by
  unfold fit_prompt at h
  split at h
  · obtain ⟨e1, e2⟩ := truncate_prompt_effect _ _ _ _ h
    refine ⟨?_, e2⟩
    rw [e1]
  · rename_i hlt
    simp only [Except.ok.injEq, Prod.mk.injEq] at h
    obtain ⟨e1, e2⟩ := h
    subst e1 e2
    refine ⟨?_, by omega⟩
    rw [← hnum]

/-- The `cache_prompt` branch of the prompt preparation, when it completes. -/
theorem prepare_cached_prompt_effect (s s' : llama_client_slot) (toks toks' : List llama_token)
    (hnum : s.num_prompt_tokens = toks.length)
    (h : prepare_cached_prompt s toks = .ok (s', toks')) :
    s'.state = s.state ∧ s'.command = s.command ∧ s'.n_ctx = s.n_ctx ∧ s'.id = s.id ∧
    s'.params.cache_prompt = s.params.cache_prompt ∧
    s'.cache_tokens = s.cache_tokens ∧
    s'.num_prompt_tokens = toks'.length ∧
    (toks'.length : Int) < s.n_ctx ∧
    s'.n_past = common_part s.cache_tokens toks' ∧
    s'.num_prompt_tokens_processed = (toks'.length : Int) - common_part s.cache_tokens toks' := by
  unfold prepare_cached_prompt at h
  split at h
  · cases h
  · rename_i s3 tokens hfit
    simp only [Except.ok.injEq, Prod.mk.injEq] at h
    obtain ⟨h1, h2⟩ := h
    subst h2
    obtain ⟨e1, e2⟩ := fit_prompt_effect (clamp_n_keep s) s3 toks tokens hnum hfit
    rw [← h1, e1]
    exact ⟨rfl, rfl, rfl, rfl, rfl, rfl, rfl, e2, rfl, rfl⟩

theorem prepare_slot_effect (s s' : llama_client_slot) (toks toks' : List llama_token)
    (hnum : s.num_prompt_tokens = toks.length)
    (h : prepare_slot s toks = .ok (s', toks')) :
    s'.state = s.state ∧ s'.command = s.command ∧ s'.n_ctx = s.n_ctx ∧ s'.id = s.id ∧
    s'.params.cache_prompt = s.params.cache_prompt ∧
    s'.num_prompt_tokens = toks'.length ∧
    0 ≤ s'.n_past ∧ s'.n_past ≤ toks'.length ∧
    (s.params.cache_prompt = true → (toks'.length : Int) < s.n_ctx) ∧
    (s.params.cache_prompt = true →
      s'.num_prompt_tokens_processed =
        (toks'.length : Int) - common_part s.cache_tokens toks') := by
  unfold prepare_slot at h
  split at h
  · rename_i hcp
    simp only [Except.ok.injEq, Prod.mk.injEq] at h
    obtain ⟨e1, e2⟩ := h
    subst e2
    rw [← e1]
    refine ⟨rfl, rfl, rfl, rfl, rfl, hnum, Int.le_refl 0, ?_, ?_, ?_⟩
    · simp only; omega
    · intro hc; rw [hcp] at hc; cases hc
    · intro hc; rw [hcp] at hc; cases hc
  · obtain ⟨c1, c2, c3, c4, c5, _, c7, c8, c9, c10⟩ :=
      prepare_cached_prompt_effect _ _ _ _ hnum h
    have hle := common_part_le_right s.cache_tokens toks'
    refine ⟨c1, c2, c3, c4, c5, c7, ?_, ?_, fun _ => c8, fun _ => c10⟩
    · rw [c9]; omega
    · rw [c9]; omega

theorem adjust_n_past_effect (s : llama_client_slot) :
    adjust_n_past s = { s with n_past := (adjust_n_past s).n_past } ∧
    ((s.n_past = s.num_prompt_tokens ∧ (adjust_n_past s).n_past = s.n_past - 1) ∨
     (s.n_past ≠ s.num_prompt_tokens ∧ (adjust_n_past s).n_past = s.n_past)) := by
  unfold adjust_n_past
  split
  · rename_i h; exact ⟨rfl, Or.inl ⟨h, rfl⟩⟩
  · rename_i h; exact ⟨rfl, Or.inr ⟨h, rfl⟩⟩

/-- The prompt preparation, when it completes: the prompt tokens are the new
`cache_tokens`, and `n_past` is below their number. -/
theorem prepare_prompt_effect (env : Engine) (srv : llama_server_context)
    (s s' : llama_client_slot) (p : gpt_params) (toks : List llama_token)
    (h : prepare_prompt env srv s = .ok (p, s', toks)) :
    s'.state = s.state ∧ s'.command = s.command ∧ s'.n_ctx = s.n_ctx ∧ s'.id = s.id ∧
    s'.params.cache_prompt = s.params.cache_prompt ∧
    s'.cache_tokens = toks ∧
    s'.n_past ≤ toks.length ∧
    (s'.n_past < toks.length ∨ toks = []) ∧
    (s.params.cache_prompt = true → (toks.length : Int) < s.n_ctx) ∧
    (s.params.cache_prompt = true →
      s'.num_prompt_tokens_processed = (toks.length : Int) - common_part s.cache_tokens toks) := by
  unfold prepare_prompt at h
  split at h
  · cases h
  · rename_i s3 tokens hprep
    simp only [Except.ok.injEq, Prod.mk.injEq] at h
    obtain ⟨_, h2, h3⟩ := h
    subst h3
    obtain ⟨c1, c2, c3, c4, c5, c6, c7, c8, c9, c10⟩ := prepare_slot_effect _ _ _ _ rfl hprep
    obtain ⟨a1, a2⟩ := adjust_n_past_effect { s3 with cache_tokens := tokens }
    rw [← h2, a1]
    refine ⟨c1, c2, c3, c4, c5, rfl, ?_, ?_, c9, c10⟩
    · simp only at a2 ⊢
      rcases a2 with ⟨_, a3⟩ | ⟨_, a3⟩ <;> rw [a3] <;> omega
    · simp only at a2 ⊢
      rcases a2 with ⟨a4, a3⟩ | ⟨a4, a3⟩
      · rw [a3]; left; omega
      · rw [a3]
        rw [c6] at a4
        left
        omega

/-- The prompt-ingest pass on one slot, when it completes. -/
theorem update_slots_prompt_effect (env : Engine) (a b : llama_server_context)
    (s s' : llama_client_slot) (h : update_slots_prompt env a s = .ok (b, s')) :
    s'.n_ctx = s.n_ctx ∧
    ((s.state = .IDLE ∧ s.command = .LOAD_PROMPT ∧ s' = s.release) ∨
     (s.state = .IDLE ∧ s.command = .LOAD_PROMPT ∧ s'.state = .PROCESSING ∧
       s'.command = .NONE ∧ s'.n_past = s'.cache_tokens.length ∧
       s'.params.cache_prompt = s.params.cache_prompt ∧
       (s.params.cache_prompt = true → (s'.cache_tokens.length : Int) < s.n_ctx) ∧
       s'.n_decoded = 0) ∨
     (¬ (s.state = .IDLE ∧ s.command = .LOAD_PROMPT) ∧ s' = s)) := by
  unfold update_slots_prompt at h
  simp only at h
  split at h
  · rename_i hc
    split at h
    · cases h
    · simp only [Except.ok.injEq, Prod.mk.injEq] at h
      rw [← h.2]
      refine ⟨?_, Or.inl ⟨hc.1, hc.2.1, rfl⟩⟩
      unfold llama_client_slot.release
      split <;> rfl
  · split at h
    · rename_i hc
      split at h
      · cases h
      · rename_i p s5 toks hprep
        split at h
        · cases h
        · rename_i hneg
          simp only [Except.ok.injEq, Prod.mk.injEq] at h
          obtain ⟨e1, e2, e3, e4, e5, e6, e7, _, e9, _⟩ :=
            prepare_prompt_effect env a _ s5 p toks hprep
          rw [← h.2]
          refine ⟨e3, Or.inr (Or.inl ⟨hc.1, hc.2, e1, e2, ?_, e5, ?_, rfl⟩)⟩
          · simp only [e6]
            omega
          · intro hcp
            simp only [e6]
            exact e9 hcp
    · rename_i hc
      simp only [Except.ok.injEq, Prod.mk.injEq] at h
      rw [← h.2]
      exact ⟨rfl, Or.inr (Or.inr ⟨hc, rfl⟩)⟩


/-! ### Sampling after a decoded chunk -/

theorem release_frame (s : llama_client_slot) :
    s.release = { s with command := s.release.command } := by
  unfold llama_client_slot.release
  split <;> rfl

/-- One call of `update_slots_sample`: the slot is either untouched, or its logits lie in
the chunk, `i_batch` becomes `-1`, and at most one token is added to `cache_tokens`;
`state`, `n_past`, `n_ctx` and `params` stay. -/
theorem update_slots_sample_effect (env : Engine) (i n_tokens : Int)
    (st st' : llama_server_context × Bool) (s s' : llama_client_slot)
    (h : update_slots_sample env i n_tokens st s = .ok (st', s')) :
    s'.state = s.state ∧ s'.n_past = s.n_past ∧ s'.n_ctx = s.n_ctx ∧ s'.params = s.params ∧
    (s' = s ∨
      (i ≤ s.i_batch ∧ s.i_batch < i + n_tokens ∧ s'.i_batch = -1 ∧
        s'.cache_tokens.length ≤ s.cache_tokens.length + 1)) := by
  unfold update_slots_sample at h
  split at h
  · simp only [Except.ok.injEq, Prod.mk.injEq] at h
    rw [← h.2]
    exact ⟨rfl, rfl, rfl, rfl, Or.inl rfl⟩
  · split at h
    · simp only [Except.ok.injEq, Prod.mk.injEq] at h
      rw [← h.2]
      exact ⟨rfl, rfl, rfl, rfl, Or.inl rfl⟩
    · rename_i hrange
      have hr : i ≤ s.i_batch ∧ s.i_batch < i + n_tokens := by omega
      split at h
      · simp only [Except.ok.injEq, Prod.mk.injEq] at h
        rw [← h.2, release_frame]
        exact ⟨rfl, rfl, rfl, rfl, Or.inr ⟨hr.1, hr.2, rfl, Nat.le_succ _⟩⟩
      · simp only at h
        have hframe := token_frame_process_token env st.1.params st.1.multimodal
          { tok := env.llama_sampling_sample st.1.sample_calls } s st.1.queue_results
        have hcache := process_token_cache_tokens env st.1.params st.1.multimodal
          { tok := env.llama_sampling_sample st.1.sample_calls } s st.1.queue_results
        have f1 := congrArg llama_client_slot.state hframe
        have f2 := congrArg llama_client_slot.n_past hframe
        have f3 := congrArg llama_client_slot.n_ctx hframe
        have f4 := congrArg llama_client_slot.params hframe
        split at h
        · split at h
          · cases h
          · simp only [Except.ok.injEq, Prod.mk.injEq] at h
            rw [← h.2, release_frame]
            exact ⟨f1, f2, f3, f4, Or.inr ⟨hr.1, hr.2, rfl, hcache⟩⟩
        · simp only [Except.ok.injEq, Prod.mk.injEq] at h
          rw [← h.2]
          exact ⟨f1, f2, f3, f4, Or.inr ⟨hr.1, hr.2, rfl, hcache⟩⟩


/-! ### C4: `cache_tokens` is at most one token ahead of `n_past` -/

/-- Every slot goes through the passes of the tick, and no slot is added or removed. -/
theorem update_slots_chain (env : Engine) (fuel : Nat) (srv : llama_server_context)
    (b : Bool) (srv' : llama_server_context)
    (h : update_slots env fuel srv = .ok (b, srv')) :
    List.Forall₂ (tick_chain env) srv.slots srv'.slots := by
  obtain ⟨l1, l2, l3, h1, h2, h3, h4⟩ := update_slots_passes env fuel srv b srv' h
  have c1 := forall₂_comp
    (T := fun s0 s2 => ∃ s1, tasks_rel s0 s1 ∧ update_slots_shift s1 = .ok s2)
    (fun x y z hxy hyz => ⟨y, hxy, hyz⟩) (process_tasks_rel env srv) h1
  have c2 := forall₂_comp
    (T := fun s0 s3 => ∃ s1 s2, tasks_rel s0 s1 ∧ update_slots_shift s1 = .ok s2 ∧
      ∃ a b, update_slots_ongoing env a s2 = .ok (b, s3))
    (fun x y z hxy hyz => by
      obtain ⟨s1, e1, e2⟩ := hxy
      exact ⟨s1, y, e1, e2, hyz⟩) c1 h2
  have c3 := forall₂_comp
    (T := fun s0 s4 => ∃ s1 s2 s3, tasks_rel s0 s1 ∧ update_slots_shift s1 = .ok s2 ∧
      (∃ a b, update_slots_ongoing env a s2 = .ok (b, s3)) ∧
      ((∃ a b, update_slots_prompt env a s3 = .ok (b, s4)) ∨ s4 = s3))
    (fun x y z hxy hyz => by
      obtain ⟨s1, s2, e1, e2, e3⟩ := hxy
      exact ⟨s1, s2, y, e1, e2, e3, hyz⟩) c2 h3
  exact forall₂_comp
    (fun x y z hxy hyz => by
      obtain ⟨s1, s2, s3, e1, e2, e3, e4⟩ := hxy
      exact ⟨s1, s2, s3, y, e1, e2, e3, e4, hyz⟩) c3 h4

theorem forall₂_get {α : Type} {R : α → α → Prop} :
    ∀ {a b : List α}, List.Forall₂ R a b → ∀ (i : Nat) (x y : α),
      a.get? i = some x → b.get? i = some y → R x y := by
  intro a b hab
  induction hab with
  | nil => intro i x y h; simp at h
  | cons h' _ ih =>
    intro i x y hx hy
    cases i with
    | zero =>
      simp only [List.get?_cons_zero, Option.some.injEq] at hx hy
      subst hx hy
      exact h'
    | succ i =>
      simp only [List.get?_cons_succ] at hx hy
      exact ih i x y hx hy

theorem sampled_steps_frame (env : Engine) (s s' : llama_client_slot)
    (h : sampled_steps env s s') :
    s'.state = s.state ∧ s'.n_past = s.n_past ∧ s'.n_ctx = s.n_ctx ∧ s'.params = s.params := by
  induction h with
  | done s => exact ⟨rfl, rfl, rfl, rfl⟩
  | step i n st st' s s1 s2 hi h _ ih =>
    obtain ⟨e1, e2, e3, e4, _⟩ := update_slots_sample_effect env i n st st' s s1 h
    obtain ⟨f1, f2, f3, f4⟩ := ih
    exact ⟨f1.trans e1, f2.trans e2, f3.trans e3, f4.trans e4⟩

theorem tdiv_two_cases (x : Int) :
    (0 ≤ x → x.tdiv 2 = x / 2) ∧ (x < 0 → x.tdiv 2 = -((-x) / 2)) := by
  constructor
  · intro h
    exact Int.tdiv_eq_ediv h (by omega)
  · intro h
    have : x = -(-x) := by omega
    rw [this, Int.neg_tdiv, Int.tdiv_eq_ediv (by omega) (by omega)]
    simp


/-- A slot that is processing before a tick and after it: `n_past` after the tick. -/
theorem tick_chain_processing (env : Engine) (s s' : llama_client_slot)
    (h : tick_chain env s s') (hs : s.state = .PROCESSING) (hp : s'.state = .PROCESSING)
    (hn : s.n_past ≤ s.n_ctx)
    (hlo : s.n_past ≤ (s.cache_tokens.length : Int))
    (hhi : (s.cache_tokens.length : Int) ≤ s.n_past + 1)
    (hk0 : 0 ≤ s.params.n_keep) (hk : s.params.n_keep + 4 ≤ s.n_ctx) :
    s'.n_past ≤ s'.n_ctx := by
  obtain ⟨s1, s2, s3, s4, h1, h2, ⟨a, b, h3⟩, h4, h5⟩ := h
  obtain ⟨t1, t2, _, t4⟩ := h1
  have e1 := t4 hs
  have q1 : s1.n_past = s.n_past := by
    have h := congrArg llama_client_slot.n_past e1; exact h
  have q2 : s1.cache_tokens = s.cache_tokens := by
    have h := congrArg llama_client_slot.cache_tokens e1; exact h
  have q3 : s1.params = s.params := by
    have h := congrArg llama_client_slot.params e1; exact h
  -- the context shift
  have hshift : s2.n_past + 1 ≤ s.n_ctx ∧ s2.state = .PROCESSING ∧ s2.n_ctx = s.n_ctx := by
    unfold update_slots_shift at h2
    split at h2
    · rename_i hf
      obtain ⟨_, c2, c3, _, c5, _⟩ := context_shift_effect s1 s2 h2
      simp only [context_shift_fires, Bool.and_eq_true, decide_eq_true_eq] at hf
      obtain ⟨_, hf1, hf2⟩ := hf
      rw [q2] at hf2
      rw [q1, q3] at c2
      have hpos : 0 ≤ s.n_past - s.params.n_keep - 1 := by omega
      rw [(tdiv_two_cases _).1 hpos] at c2
      refine ⟨?_, by rw [c3, t1, hs], by rw [c5, t2]⟩
      omega
    · rename_i hf
      simp only [context_shift_fires, llama_client_slot.is_processing, Bool.and_eq_true,
        decide_eq_true_eq, Bool.or_eq_true, not_and] at hf
      injection h2 with h2
      subst h2
      have := hf (Or.inr (by rw [t1, hs]))
      rw [q2] at this
      refine ⟨?_, by rw [t1, hs], t2⟩
      rw [q1]
      omega
  obtain ⟨g1, g2, g3⟩ := hshift
  obtain ⟨_, o2, _, o4⟩ := update_slots_ongoing_effect env a b s2 s3 h3
  obtain ⟨f1, f2, f3, _⟩ := sampled_steps_frame env s4 s' h5
  have h43 : s4.state = s3.state ∧ s4.n_past = s3.n_past ∧ s4.n_ctx = s3.n_ctx ∨
      (s3.state = .IDLE ∧ s3.command = .LOAD_PROMPT) := by
    rcases h4 with ⟨a', b', h4⟩ | h4
    · obtain ⟨p1, p2⟩ := update_slots_prompt_effect env a' b' s3 s4 h4
      rcases p2 with ⟨p, p', _⟩ | ⟨p, p', _⟩ | ⟨_, p⟩
      · exact Or.inr ⟨p, p'⟩
      · exact Or.inr ⟨p, p'⟩
      · subst p
        exact Or.inl ⟨rfl, rfl, rfl⟩
    · subst h4
      exact Or.inl ⟨rfl, rfl, rfl⟩
  rcases o4 with ⟨_, o, oc, _⟩ | ⟨_, o, _⟩ | ⟨_, _, o5, _, o7⟩
  · rcases h43 with ⟨x1, _, _⟩ | ⟨_, x⟩
    · rw [f1, x1, o] at hp; cases hp
    · rw [oc] at x; cases x
  · rw [g2] at o; cases o
  · rcases h43 with ⟨_, x2, x3⟩ | ⟨x, _⟩
    · rw [f2, f3, x2, x3, o7, o2, g3]
      exact g1
    · rw [o5] at x; cases x

/-- A slot that is idle before a tick and processing after it, with `cache_prompt` on. -/
theorem tick_chain_started (env : Engine) (s s' : llama_client_slot)
    (h : tick_chain env s s') (hs : s.state = .IDLE) (hp : s'.state = .PROCESSING)
    (hc : s'.params.cache_prompt = true) :
    s'.n_past < s'.n_ctx := by
  obtain ⟨s1, s2, s3, s4, h1, h2, ⟨a, b, h3⟩, h4, h5⟩ := h
  obtain ⟨t1, _, _, _⟩ := h1
  obtain ⟨_, u2, _⟩ := update_slots_shift_effect s1 s2 h2
  have i2 : s2.state = .IDLE := by rw [u2, t1, hs]
  obtain ⟨_, _, _, o4⟩ := update_slots_ongoing_effect env a b s2 s3 h3
  have i3 : s3.state = .IDLE := by
    rcases o4 with ⟨_, o, _, _⟩ | ⟨_, _, o⟩ | ⟨_, o, _⟩
    · exact o
    · rw [o]; exact i2
    · rw [i2] at o; cases o
  obtain ⟨f1, f2, f3, f4⟩ := sampled_steps_frame env s4 s' h5
  rcases h4 with ⟨a', b', h4⟩ | h4
  · obtain ⟨p1, p2⟩ := update_slots_prompt_effect env a' b' s3 s4 h4
    rcases p2 with ⟨_, _, p⟩ | ⟨_, _, _, _, p5, p6, p7, _⟩ | ⟨_, p⟩
    · rw [f1, p, release_frame] at hp
      rw [i3] at hp; cases hp
    · rw [f2, f3, p5, p1]
      exact p7 (by rw [← p6, ← f4]; exact hc)
    · rw [f1, p, i3] at hp; cases hp
  · rw [f1, h4, i3] at hp; cases hp

/-- C5 (failing inputs): with two slots of `n_ctx = 4` each and `cache_prompt` off, the
first tick of a request whose prompt has five tokens leaves its slot processing with
`n_past = 5 > n_ctx`. With `cache_prompt` on and pieces that leave the UTF-8 framing off
0, the sampled tokens are not added to `cache_tokens`, no context shift fires and after
four ticks the slot is processing with `n_past = 5 > n_ctx`. -/
theorem n_past_exceeds_ctx :
    (( llama_server_context.initialize { n_ctx := 8, params := { n_parallel := 2 } }).bind
      (fun srv => update_slots engine_bytes 4
        (request_completion srv { prompt := some (.string [97, 98, 99, 100]) }
          false false).1)).map
      (fun r => r.2.slots.map (fun s => (s.state, s.n_past, s.n_ctx))) =
      .ok [(.PROCESSING, 5, 4), (.IDLE, 0, 4)] ∧
    (( llama_server_context.initialize { n_ctx := 8, params := { n_parallel := 2 } }).bind
      (fun srv => run_ticks engine_split 4 4
        (request_completion srv { prompt := some (.string [97]), cache_prompt := some true }
          false false).1)).map
      (fun srv => srv.slots.map (fun s => (s.state, s.n_past, s.n_ctx, s.cache_tokens))) =
      .ok [(.PROCESSING, 5, 4, [1, 97]), (.IDLE, 0, 4, [])] := by
  decide

/-- One tick keeps the bound: after a completed tick, a slot in state Processing has
`n_past ≤ n_ctx` when it started its request in this tick with `cache_prompt` on, or when
before the tick it was Processing with `n_past ≤ n_ctx`,
`n_past ≤ |cache_tokens| ≤ n_past + 1` and `0 ≤ n_keep ≤ n_ctx - 4`. -/
theorem n_past_within_ctx (env : Engine) (fuel : Nat) (srv : llama_server_context) (b : Bool)
    (srv' : llama_server_context) (h : update_slots env fuel srv = .ok (b, srv'))
    (i : Nat) (s s' : llama_client_slot)
    (hs : srv.slots.get? i = some s) (hs' : srv'.slots.get? i = some s')
    (hp : s'.state = .PROCESSING)
    (hpre : (s.state = .IDLE ∧ s'.params.cache_prompt = true) ∨
      (s.state = .PROCESSING ∧ s.n_past ≤ s.n_ctx ∧
        s.n_past ≤ (s.cache_tokens.length : Int) ∧
        (s.cache_tokens.length : Int) ≤ s.n_past + 1 ∧
        0 ≤ s.params.n_keep ∧ s.params.n_keep + 4 ≤ s.n_ctx)) :
    s'.n_past ≤ s'.n_ctx := by
  have hc := forall₂_get (update_slots_chain env fuel srv b srv' h) i s s' hs hs'
  rcases hpre with ⟨h1, h2⟩ | ⟨h1, h2, h3, h4, h5, h6⟩
  · exact le_of_lt (tick_chain_started env s s' hc h1 hp h2)
  · exact tick_chain_processing env s s' hc h1 hp h2 h3 h4 h5 h6

/-- The second tick of the request of `server_after_a` takes `n_past` from 2 to 3, with
`n_ctx = 4`. -/
theorem n_past_within_ctx_witness :
    update_slots engine_bytes 4 server_after_a = .ok (true, server_after_a2) ∧
    slot_after_a.state = .PROCESSING ∧ slot_after_a2.state = .PROCESSING ∧
    slot_after_a2.n_past ≤ slot_after_a2.n_ctx :=
  ⟨by decide, by decide, by decide,
    n_past_within_ctx engine_bytes 4 server_after_a true server_after_a2 (by decide) 0
      slot_after_a slot_after_a2 (by decide) (by decide) (by decide) (Or.inr (by decide))⟩


theorem common_part_append_left : ∀ (t extra : List llama_token),
    common_part (t ++ extra) t = t.length := by
  intro t
  induction t with
  | nil => intro extra; cases extra <;> simp [common_part]
  | cons x t ih =>
    intro extra
    simp only [List.cons_append, common_part, if_true, List.length_cons]
    exact congrArg (fun n => n + 1) (ih extra)

/-- The truncation depends on `n_ctx`, `n_keep` and `num_prompt_tokens` only. -/
theorem fit_prompt_congr (a b a' : llama_client_slot) (toks T : List llama_token)
    (h : fit_prompt a toks = .ok (a', T))
    (hctx : b.n_ctx = a.n_ctx) (hk : b.params.n_keep = a.params.n_keep)
    (hn : b.num_prompt_tokens = a.num_prompt_tokens) :
    ∃ b', fit_prompt b toks = .ok (b', T) ∧ b'.cache_tokens = b.cache_tokens ∧
      b'.num_prompt_tokens = a'.num_prompt_tokens ∧ a'.params.n_keep = a.params.n_keep := by
  unfold fit_prompt at h ⊢
  rw [hctx, hn]
  split at h
  · rename_i hge
    rw [if_pos hge]
    unfold truncate_prompt at h ⊢
    rw [hctx, hk, hn]
    simp only at h ⊢
    split at h
    · cases h
    · rename_i hb
      rw [if_neg hb]
      split at h
      · cases h
      · rename_i ho
        rw [if_neg ho]
        split at h
        · rename_i hl
          rw [if_pos hl]
          simp only [Except.ok.injEq, Prod.mk.injEq] at h
          obtain ⟨h1, h2⟩ := h
          subst h1 h2
          exact ⟨_, rfl, rfl, rfl, rfl⟩
        · cases h
  · rename_i hge
    rw [if_neg hge]
    simp only [Except.ok.injEq, Prod.mk.injEq] at h
    obtain ⟨h1, h2⟩ := h
    subst h1 h2
    exact ⟨b, rfl, rfl, hn, rfl⟩

/-- Clamping `n_keep` a second time changes nothing. -/
theorem clamp_n_keep_idem (c k n : Int) (hn : 0 ≤ n) :
    min (c - 4) (if min (c - 4) (if k < 0 then n else k) < 0 then n
      else min (c - 4) (if k < 0 then n else k)) = min (c - 4) (if k < 0 then n else k) := by
  by_cases hk : k < 0
  · simp only [hk, if_true]
    by_cases h1 : min (c - 4) n < 0
    · simp only [h1, if_true]
    · simp only [h1, if_false]
      simp
  · simp only [hk, if_false]
    by_cases h1 : min (c - 4) k < 0
    · simp only [h1, if_true]
      omega
    · simp only [h1, if_false]
      simp


theorem adjust_n_past_frame (s : llama_client_slot) :
    (adjust_n_past s).params = s.params ∧
    (adjust_n_past s).num_prompt_tokens_processed = s.num_prompt_tokens_processed := by
  unfold adjust_n_past
  split <;> exact ⟨rfl, rfl⟩

/-- C7 (counterexample): on `server_ctx4` the request with prompt "a", `cache_prompt` on
and `n_predict = 3` ends after five ticks, a context shift having dropped the second
prompt token from `cache_tokens`; the same request, submitted again, is prepared with
`num_prompt_tokens_processed = 1`. -/
theorem second_run_after_shift :
    (run_ticks engine_bytes 4 5
      (request_completion server_ctx4
        { prompt := some (.string [97]), cache_prompt := some true, n_predict := some 3 }
        false false).1).map
      (fun srv => srv.slots.map (fun s => (s.task_id, s.state, s.truncated, s.cache_tokens))) =
      .ok [(0, .IDLE, true, [1, 102, 103])] ∧
    ((run_ticks engine_bytes 4 5
      (request_completion server_ctx4
        { prompt := some (.string [97]), cache_prompt := some true, n_predict := some 3 }
        false false).1).bind
      (fun srv => run_ticks engine_bytes 4 1
        (request_completion srv
          { prompt := some (.string [97]), cache_prompt := some true, n_predict := some 3 }
          false false).1)).map
      (fun srv => srv.slots.map
        (fun s => (s.task_id, s.state, s.num_prompt_tokens_processed))) =
      .ok [(1, .PROCESSING, 1)] := by
  decide

/-- When the first preparation of a prompt with `cache_prompt` on gave the tokens `T`, a
second preparation of the same prompt (same `n_ctx`, `n_keep` as submitted or as the first
preparation left it, no infill, same system prompt) on a slot whose `cache_tokens` are `T`
followed by any tokens succeeds with the tokens `T` and sets
`num_prompt_tokens_processed = 0`. -/
theorem prepare_prompt_reuses (env : Engine) (srv1 srv2 : llama_server_context)
    (s1 s2 r1 : llama_client_slot) (p1 : gpt_params) (T extra : List llama_token)
    (h1 : prepare_prompt env srv1 s1 = .ok (p1, r1, T))
    (hsys : srv2.system_prompt = srv1.system_prompt)
    (hi1 : s1.infill = false) (hi2 : s2.infill = false)
    (hc1 : s1.params.cache_prompt = true) (hc2 : s2.params.cache_prompt = true)
    (hprompt : s2.prompt = s1.prompt) (hctx : s2.n_ctx = s1.n_ctx)
    (hkeep : s2.params.n_keep = s1.params.n_keep ∨ s2.params.n_keep = r1.params.n_keep)
    (hcache : s2.cache_tokens = T ++ extra) :
    ∃ p2 r2, prepare_prompt env srv2 s2 = .ok (p2, r2, T) ∧
      r2.num_prompt_tokens_processed = 0 := by
  have htok : (prompt_tokens_of env srv2 s2).2 = (prompt_tokens_of env srv1 s1).2 := by
    simp only [prompt_tokens_of, hi1, hi2, hsys, hprompt, Bool.false_eq_true, if_false]
  unfold prepare_prompt at h1 ⊢
  rw [htok]
  generalize (prompt_tokens_of env srv1 s1).2 = toks at h1 ⊢
  unfold prepare_slot at h1 ⊢
  simp only [hc1, hc2, Bool.true_eq_false, if_false] at h1 ⊢
  unfold prepare_cached_prompt at h1 ⊢
  split at h1
  · cases h1
  · rename_i x a3 tokens hfit
    split at hfit
    · cases hfit
    · rename_i a3' tokens' hfit'
      simp only [Except.ok.injEq, Prod.mk.injEq] at hfit
      obtain ⟨e1, e2⟩ := hfit
      subst e1 e2
      simp only [Except.ok.injEq, Prod.mk.injEq] at h1
      obtain ⟨_, hr1, hT⟩ := h1
      subst hT
      have hk1 : r1.params.n_keep =
          min (s1.n_ctx - 4) (if s1.params.n_keep < 0 then (toks.length : Int)
            else s1.params.n_keep) := by
        obtain ⟨_, _, _, _, g4⟩ := fit_prompt_congr _
          (clamp_n_keep { s1 with num_prompt_tokens := toks.length }) _ _ _ hfit' rfl rfl rfl
        rw [← hr1, (adjust_n_past_frame _).1]
        exact g4
      have hclamp : (clamp_n_keep { s2 with num_prompt_tokens := toks.length }).params.n_keep =
          (clamp_n_keep { s1 with num_prompt_tokens := toks.length }).params.n_keep := by
        simp only [clamp_n_keep]
        rcases hkeep with hk | hk
        · rw [hk, hctx]
        · rw [hk, hk1, hctx]
          exact clamp_n_keep_idem _ _ _ (by omega)
      obtain ⟨b', g1, g2, g3, _⟩ := fit_prompt_congr _
        (clamp_n_keep { s2 with num_prompt_tokens := toks.length }) _ _ _ hfit'
        (by simp only [clamp_n_keep]; exact hctx) hclamp rfl
      rw [g1]
      refine ⟨_, _, rfl, ?_⟩
      rw [(adjust_n_past_frame _).2]
      have hcb : b'.cache_tokens = tokens' ++ extra := by
        rw [g2]; exact hcache
      have hlen : a3'.num_prompt_tokens = tokens'.length := by
        obtain ⟨_, _, _, _, _, _, c7, _⟩ := prepare_cached_prompt_effect
          { s1 with num_prompt_tokens := toks.length } _ toks tokens' rfl
          (by unfold prepare_cached_prompt; rw [hfit'])
        exact c7
      show b'.num_prompt_tokens - (common_part b'.cache_tokens tokens' : Nat) = 0
      rw [hcb, common_part_append_left, g3, hlen]
      omega

/-- With the tokens of "a" and one generated token in the cache, the second preparation of
"a" processes no prompt token. -/
theorem prepare_prompt_reuses_example :
    ∃ p2 r2,
      prepare_prompt engine_bytes server_ctx4
        { id := 0, n_ctx := 4, params := { cache_prompt := true }, prompt := .string [97],
          cache_tokens := [1, 97, 100] } = .ok (p2, r2, [1, 97]) ∧
      r2.num_prompt_tokens_processed = 0 :=
  prepare_prompt_reuses engine_bytes server_ctx4 server_ctx4
    { id := 0, n_ctx := 4, params := { cache_prompt := true }, prompt := .string [97] }
    { id := 0, n_ctx := 4, params := { cache_prompt := true }, prompt := .string [97],
      cache_tokens := [1, 97, 100] }
    (adjust_n_past
      { id := 0, n_ctx := 4, params := { cache_prompt := true }, prompt := .string [97],
        num_prompt_tokens := 2, num_prompt_tokens_processed := 2, cache_tokens := [1, 97] })
    {} [1, 97] [100] (by decide) rfl rfl rfl rfl rfl rfl rfl (Or.inl rfl) rfl


/-! ### One call of `process_token`, case by case -/

theorem tail_frame_pending_override (s : llama_client_slot) :
    tail_frame (pending_override s) = tail_frame s := by
  unfold pending_override
  split <;> rfl

theorem tail_frame_check_limit (params : gpt_params) (s : llama_client_slot) :
    tail_frame (check_limit params s) = tail_frame s := by
  unfold check_limit
  split
  · split <;> rfl
  · rfl

theorem tail_frame_check_eos (env : Engine) (tok : llama_token) (s : llama_client_slot) :
    tail_frame (check_eos env tok s) = tail_frame s := by
  unfold check_eos
  split <;> rfl

/-- The checks at the end of `process_token` can only clear `has_next_token`. -/
theorem tail_checks_next (env : Engine) (params : gpt_params) (tok : llama_token)
    (s : llama_client_slot) (h : s.has_next_token = false) :
    (check_eos env tok (check_limit params (pending_override s))).has_next_token = false ∨
      0 < s.multibyte_pending := by
  by_cases hp : 0 < s.multibyte_pending
  · exact Or.inr hp
  · left
    have h1 : pending_override s = s := by
      unfold pending_override
      rw [if_neg]
      intro hc
      exact hp hc.1
    have h2 : check_limit params s = s := by
      unfold check_limit
      rw [if_neg]
      intro hc
      rw [h] at hc
      cases hc.2
    rw [h1, h2]
    unfold check_eos
    split
    · rfl
    · exact h

theorem emit_frame_add_token_string (s : llama_client_slot) (r : completion_token_output) :
    emit_frame (s.add_token_string r) = emit_frame s := by
  unfold llama_client_slot.add_token_string
  split <;> rfl

theorem emit_frame_send_partial_response (env : Engine) (mm : Bool) (s : llama_client_slot)
    (r : completion_token_output) :
    emit_frame (send_partial_response env mm s r).1 = emit_frame s := by
  unfold send_partial_response
  split <;> rfl

theorem streamed_content_send_partial_response (env : Engine) (mm : Bool)
    (s : llama_client_slot) (r : completion_token_output) :
    streamed_content (send_partial_response env mm s r).2 = r.text_to_send := by
  unfold send_partial_response
  split <;> rfl

/-- The flush block after the stop search: what is emitted. -/
theorem process_token_flush_emit (env : Engine) (mm : Bool) (token_str : Str)
    (result : completion_token_output) (s : llama_client_slot) (q : List task_result) :
    (process_token_flush env mm token_str result s q).1 =
      (flush_text (stop_search token_str s).1 (stop_search token_str s).2.1
        (stop_search token_str s).2.2.1 result (stop_search token_str s).2.2.2).1 ∧
    emit_frame (process_token_flush env mm token_str result s q).2.1 =
      emit_frame (flush_text (stop_search token_str s).1 (stop_search token_str s).2.1
        (stop_search token_str s).2.2.1 result (stop_search token_str s).2.2.2).2 ∧
    ((process_token_flush env mm token_str result s q).2.2 = q ∨
      ∃ res, (process_token_flush env mm token_str result s q).2.2 = q ++ [res] ∧
        streamed_content res =
          (flush_text (stop_search token_str s).1 (stop_search token_str s).2.1
            (stop_search token_str s).2.2.1 result (stop_search token_str s).2.2.2).1.text_to_send) := by
  unfold process_token_flush
  simp only
  split
  · refine ⟨rfl, ?_, Or.inr ⟨_, rfl, ?_⟩⟩
    · rw [emit_frame_send_partial_response, emit_frame_add_token_string]
    · rw [streamed_content_send_partial_response]
  · refine ⟨rfl, ?_, Or.inl rfl⟩
    rw [emit_frame_add_token_string]

/-- The full search finds nothing exactly when no stop word is found in its window. -/
theorem find_stopping_strings_none (text : Str) (n : Nat) (type : stop_type)
    (slot : llama_client_slot)
    (h : (find_stopping_strings text n type slot).1 = none) :
    (∀ w ∈ slot.params.antiprompt, word_stop_pos text n type w = none) ∧
      find_stopping_strings text n type slot = (none, slot) := by
  unfold find_stopping_strings at h ⊢
  have h1 := ((foldl_word_spec text n type slot.params.antiprompt (none, slot)).1 h).2
  exact ⟨h1, foldl_word_none text n type _ _ h1⟩

/-- The full search, when it finds a position: the leftmost position over all stop words,
and the word recorded. -/
theorem find_stopping_strings_some (text : Str) (n : Nat) (slot : llama_client_slot) (p : Nat)
    (h : (find_stopping_strings text n .STOP_FULL slot).1 = some p) :
    (∀ w ∈ slot.params.antiprompt, ∀ q, word_stop_pos text n .STOP_FULL w = some q → p ≤ q) ∧
    ∃ w ∈ slot.params.antiprompt, word_stop_pos text n .STOP_FULL w = some p ∧
      (find_stopping_strings text n .STOP_FULL slot).2.stopped_word = true ∧
      (find_stopping_strings text n .STOP_FULL slot).2.stopping_word = w ∧
      (find_stopping_strings text n .STOP_FULL slot).2.has_next_token = false := by
  unfold find_stopping_strings at h ⊢
  obtain ⟨_, h2, h3⟩ := (foldl_word_spec text n .STOP_FULL slot.params.antiprompt (none, slot)).2 p h
  refine ⟨h2, ?_⟩
  rcases h3 with ⟨h3, _⟩ | ⟨w, hw, hp, s, hs⟩
  · cases h3
  · refine ⟨w, hw, hp, ?_⟩
    rw [hs]
    exact ⟨rfl, rfl, rfl⟩

/-- The flush block of `process_token` on a slot with `has_next_token` set: a full match
cuts the text and ends the generation; otherwise the text stays, and it is flushed from
`sent_count` on when no stop word has begun at its end. -/
theorem process_token_flush_cases (env : Engine) (mm : Bool) (token_str : Str)
    (result : completion_token_output) (s : llama_client_slot) (q : List task_result)
    (pos : Nat) (str_test : Str) (R : completion_token_output × llama_client_slot × List task_result)
    (hn : s.has_next_token = true)
    (hpos : pos = min s.sent_count s.generated_text.length)
    (hstr : str_test = s.generated_text.drop pos)
    (hR : R = process_token_flush env mm token_str result s q) :
    R.2.1.multibyte_pending = s.multibyte_pending ∧ R.2.1.params = s.params ∧
    (R.2.2 = q ∨ ∃ res, R.2.2 = q ++ [res] ∧ streamed_content res = R.1.text_to_send) ∧
    ((∃ p w, w ∈ s.params.antiprompt ∧
        word_stop_pos str_test token_str.length .STOP_FULL w = some p ∧
        (∀ w' ∈ s.params.antiprompt, ∀ p',
          word_stop_pos str_test token_str.length .STOP_FULL w' = some p' → p ≤ p') ∧
        R.2.1.has_next_token = false ∧
        R.2.1.generated_text = s.generated_text.take (pos + p) ∧
        R.2.1.stopped_word = true ∧ R.2.1.stopping_word = w ∧
        R.2.1.sent_count = s.sent_count ∧ R.1 = result) ∨
     ((∀ w ∈ s.params.antiprompt,
          word_stop_pos str_test token_str.length .STOP_FULL w = none) ∧
        R.2.1.has_next_token = true ∧ R.2.1.generated_text = s.generated_text ∧
        R.2.1.stopped_word = s.stopped_word ∧ R.2.1.stopping_word = s.stopping_word ∧
        ((R.2.1.sent_count = s.sent_count ∧ R.1 = result) ∨
          ((∀ w ∈ s.params.antiprompt, find_partial_stop_string w str_test = none) ∧
            R.2.1.sent_count = s.sent_count + str_test.length ∧
            R.1 = { result with text_to_send := str_test })))) := by
  obtain ⟨e1, e2, e3⟩ := process_token_flush_emit env mm token_str result s q
  rw [← hR] at e1 e2 e3
  cases hfull : (find_stopping_strings str_test token_str.length .STOP_FULL s).1 with
  | some p =>
    obtain ⟨hmin, w, hw, hwp, f1, f2, f3⟩ :=
      find_stopping_strings_some str_test token_str.length s p hfull
    have hsf := stop_frame_find_stopping_strings str_test token_str.length .STOP_FULL s
    have hsearch : stop_search token_str s =
        (some p, true,
          min ({ (find_stopping_strings str_test token_str.length .STOP_FULL s).2 with
            generated_text :=
              (find_stopping_strings str_test token_str.length .STOP_FULL s).2.generated_text.take
                (pos + p) } : llama_client_slot).sent_count
            ({ (find_stopping_strings str_test token_str.length .STOP_FULL s).2 with
            generated_text :=
              (find_stopping_strings str_test token_str.length .STOP_FULL s).2.generated_text.take
                (pos + p) } : llama_client_slot).generated_text.length,
          { (find_stopping_strings str_test token_str.length .STOP_FULL s).2 with
            generated_text :=
              (find_stopping_strings str_test token_str.length .STOP_FULL s).2.generated_text.take
                (pos + p) }) := by
      unfold stop_search
      simp only [← hpos, ← hstr, hfull]
    rw [hsearch] at e1 e2 e3
    simp only [flush_text, flush_test, Option.isNone_some, Bool.not_true, Bool.and_false,
      Bool.false_and, Bool.or_false, Bool.false_eq_true, if_false] at e1 e2 e3
    have g1 : (find_stopping_strings str_test token_str.length .STOP_FULL s).2.generated_text =
        s.generated_text := by
      have h := congrArg llama_client_slot.generated_text hsf; exact h
    have g2 : (find_stopping_strings str_test token_str.length .STOP_FULL s).2.sent_count =
        s.sent_count := by
      have h := congrArg llama_client_slot.sent_count hsf; exact h
    have g3 : (find_stopping_strings str_test token_str.length .STOP_FULL s).2.multibyte_pending =
        s.multibyte_pending := by
      have h := congrArg llama_client_slot.multibyte_pending hsf; exact h
    have g4 : (find_stopping_strings str_test token_str.length .STOP_FULL s).2.params =
        s.params := by
      have h := congrArg llama_client_slot.params hsf; exact h
    refine ⟨?_, ?_, by rw [e1]; exact e3, Or.inl ⟨p, w, hw, hwp, hmin, ?_, ?_, ?_, ?_, ?_, e1⟩⟩
    · have h := congrArg llama_client_slot.multibyte_pending e2
      exact h.trans g3
    · have h := congrArg llama_client_slot.params e2
      exact h.trans g4
    · have h := congrArg llama_client_slot.has_next_token e2
      exact h.trans f3
    · have h := congrArg llama_client_slot.generated_text e2
      rw [← g1]
      exact h
    · have h := congrArg llama_client_slot.stopped_word e2
      exact h.trans f1
    · have h := congrArg llama_client_slot.stopping_word e2
      exact h.trans f2
    · have h := congrArg llama_client_slot.sent_count e2
      exact h.trans g2
  | none =>
    obtain ⟨hall, hnone⟩ := find_stopping_strings_none str_test token_str.length .STOP_FULL s hfull
    rw [hstr, hpos] at hnone
    have hsearch := stop_search_of_full_none token_str s hnone
    rw [← hpos, ← hstr] at hsearch
    rw [hsearch] at e1 e2 e3
    cases hpart : (find_stopping_strings str_test token_str.length .STOP_PARTIAL s).1 with
    | some pp =>
      rw [hpart] at e1 e2 e3
      simp only [flush_text, flush_test, Option.isNone_some, hn, Bool.not_true,
        Bool.false_and, Bool.or_false, Bool.false_eq_true, if_false] at e1 e2 e3
      refine ⟨?_, ?_, by rw [e1]; exact e3, Or.inr ⟨hall, ?_, ?_, ?_, ?_, Or.inl ⟨?_, e1⟩⟩⟩
      · have h := congrArg llama_client_slot.multibyte_pending e2; exact h
      · have h := congrArg llama_client_slot.params e2; exact h
      · have h := congrArg llama_client_slot.has_next_token e2; exact h.trans hn
      · have h := congrArg llama_client_slot.generated_text e2; exact h
      · have h := congrArg llama_client_slot.stopped_word e2; exact h
      · have h := congrArg llama_client_slot.stopping_word e2; exact h
      · have h := congrArg llama_client_slot.sent_count e2; exact h
    | none =>
      obtain ⟨hpall, _⟩ :=
        find_stopping_strings_none str_test token_str.length .STOP_PARTIAL s hpart
      rw [hpart] at e1 e2 e3
      simp only [flush_text, flush_test, Option.isNone_none, Bool.true_or, if_true,
        ← hstr] at e1 e2 e3
      refine ⟨?_, ?_, by rw [e1]; exact e3, Or.inr ⟨hall, ?_, ?_, ?_, ?_, Or.inr ⟨hpall, ?_, e1⟩⟩⟩
      · have h := congrArg llama_client_slot.multibyte_pending e2; exact h
      · have h := congrArg llama_client_slot.params e2; exact h
      · have h := congrArg llama_client_slot.has_next_token e2; exact h.trans hn
      · have h := congrArg llama_client_slot.generated_text e2; exact h
      · have h := congrArg llama_client_slot.stopped_word e2; exact h
      · have h := congrArg llama_client_slot.stopping_word e2; exact h
      · have h := congrArg llama_client_slot.sent_count e2; exact h

/-- One call of `process_token`: the text, the stop flags, `sent_count` and what is
emitted, in each of its cases. -/
theorem process_token_cases (env : Engine) (params : gpt_params) (mm : Bool)
    (tok : llama_token) (slot : llama_client_slot) (q : List task_result)
    (piece text1 : Str) (pos : Nat) (str_test : Str)
    (R : Bool × completion_token_output × llama_client_slot × List task_result)
    (hpiece : piece = env.llama_token_to_piece tok)
    (htext : text1 = slot.generated_text ++ piece)
    (hpos : pos = min slot.sent_count text1.length)
    (hstr : str_test = text1.drop pos)
    (hR : R = process_token env params mm { tok := tok } slot q) :
    R.2.2.1.multibyte_pending = multibyte_pending_after slot.multibyte_pending piece ∧
    R.2.2.1.params = slot.params ∧
    ((multibyte_pending_after slot.multibyte_pending piece ≠ 0 ∧ R.2.2.2 = q ∧
        R.2.2.1.generated_text = text1 ∧ R.2.2.1.sent_count = slot.sent_count ∧
        R.2.2.1.stopped_word = slot.stopped_word ∧
        R.2.2.1.stopping_word = slot.stopping_word) ∨
     (multibyte_pending_after slot.multibyte_pending piece = 0 ∧
        (R.2.2.2 = q ∨ ∃ res, R.2.2.2 = q ++ [res] ∧ streamed_content res = R.2.1.text_to_send) ∧
        ((∃ p w, w ∈ slot.params.antiprompt ∧
            word_stop_pos str_test piece.length .STOP_FULL w = some p ∧
            (∀ w' ∈ slot.params.antiprompt, ∀ p',
              word_stop_pos str_test piece.length .STOP_FULL w' = some p' → p ≤ p') ∧
            R.1 = false ∧
            R.2.2.1.generated_text = text1.take (pos + p) ∧
            R.2.2.1.stopped_word = true ∧ R.2.2.1.stopping_word = w ∧
            R.2.2.1.sent_count = slot.sent_count ∧ R.2.1 = { tok := tok }) ∨
         ((∀ w ∈ slot.params.antiprompt,
              word_stop_pos str_test piece.length .STOP_FULL w = none) ∧
            R.2.2.1.generated_text = text1 ∧
            R.2.2.1.stopped_word = slot.stopped_word ∧
            R.2.2.1.stopping_word = slot.stopping_word ∧
            ((R.2.2.1.sent_count = slot.sent_count ∧ R.2.1 = { tok := tok }) ∨
              ((∀ w ∈ slot.params.antiprompt, find_partial_stop_string w str_test = none) ∧
                R.2.2.1.sent_count = slot.sent_count + str_test.length ∧
                R.2.1 = { tok := tok, text_to_send := str_test })))))) := by
  by_cases hpend : multibyte_pending_after slot.multibyte_pending piece = 0
  · -- the flush block runs
    have hshape : R =
        ((check_eos env tok (check_limit params (pending_override
            (process_token_flush env mm piece { tok := tok }
              (append_piece tok piece slot) q).2.1))).has_next_token,
          (process_token_flush env mm piece { tok := tok } (append_piece tok piece slot) q).1,
          check_eos env tok (check_limit params (pending_override
            (process_token_flush env mm piece { tok := tok }
              (append_piece tok piece slot) q).2.1)),
          (process_token_flush env mm piece { tok := tok }
            (append_piece tok piece slot) q).2.2) := by
      rw [hR]
      unfold process_token
      simp only [← hpiece]
      have : (append_piece tok piece slot).multibyte_pending = 0 := hpend
      rw [if_pos this]
    obtain ⟨c1, c2, c3, c4⟩ := process_token_flush_cases env mm piece { tok := tok }
      (append_piece tok piece slot) q pos str_test _ rfl
      (by rw [hpos, htext]; rfl) (by rw [hstr, htext]; rfl) rfl
    have htf : tail_frame R.2.2.1 = tail_frame (process_token_flush env mm piece { tok := tok }
        (append_piece tok piece slot) q).2.1 := by
      rw [hshape]
      simp only
      rw [tail_frame_check_eos, tail_frame_check_limit, tail_frame_pending_override]
    have t1 : R.2.2.1.multibyte_pending = (process_token_flush env mm piece { tok := tok }
        (append_piece tok piece slot) q).2.1.multibyte_pending := by
      have h := congrArg llama_client_slot.multibyte_pending htf; exact h
    have t2 : R.2.2.1.params = (process_token_flush env mm piece { tok := tok }
        (append_piece tok piece slot) q).2.1.params := by
      have h := congrArg llama_client_slot.params htf; exact h
    have t3 : R.2.2.1.generated_text = (process_token_flush env mm piece { tok := tok }
        (append_piece tok piece slot) q).2.1.generated_text := by
      have h := congrArg llama_client_slot.generated_text htf; exact h
    have t4 : R.2.2.1.sent_count = (process_token_flush env mm piece { tok := tok }
        (append_piece tok piece slot) q).2.1.sent_count := by
      have h := congrArg llama_client_slot.sent_count htf; exact h
    have t5 : R.2.2.1.stopped_word = (process_token_flush env mm piece { tok := tok }
        (append_piece tok piece slot) q).2.1.stopped_word := by
      have h := congrArg llama_client_slot.stopped_word htf; exact h
    have t6 : R.2.2.1.stopping_word = (process_token_flush env mm piece { tok := tok }
        (append_piece tok piece slot) q).2.1.stopping_word := by
      have h := congrArg llama_client_slot.stopping_word htf; exact h
    have hq : R.2.2.2 = (process_token_flush env mm piece { tok := tok }
        (append_piece tok piece slot) q).2.2 := by rw [hshape]
    have ho : R.2.1 = (process_token_flush env mm piece { tok := tok }
        (append_piece tok piece slot) q).1 := by rw [hshape]
    refine ⟨t1.trans c1, t2.trans c2, Or.inr ⟨hpend, ?_, ?_⟩⟩
    · rw [hq, ho]; exact c3
    · rcases c4 with ⟨p, w, hw, hwp, hmin, f1, f2, f3, f4, f5, f6⟩ |
        ⟨hall, f1, f2, f3, f4, f5⟩
      · left
        refine ⟨p, w, hw, hwp, hmin, ?_, t3.trans (by rw [f2, htext]; rfl), t5.trans f3,
          t6.trans f4, t4.trans f5, ho.trans f6⟩
        rw [hshape]
        simp only
        rcases tail_checks_next env params tok _ f1 with h | h
        · exact h
        · rw [c1] at h
          have : (append_piece tok piece slot).multibyte_pending = 0 := hpend
          rw [this] at h
          exact absurd h (by decide)
      · right
        refine ⟨hall, t3.trans (by rw [f2, htext]; rfl), t5.trans f3, t6.trans f4, ?_⟩
        rcases f5 with ⟨g1, g2⟩ | ⟨g0, g1, g2⟩
        · exact Or.inl ⟨t4.trans g1, ho.trans g2⟩
        · exact Or.inr ⟨g0, t4.trans g1, ho.trans g2⟩
  · have hshape : R =
        ((check_eos env tok (check_limit params (pending_override
            (append_piece tok piece slot)))).has_next_token,
          { tok := tok },
          check_eos env tok (check_limit params (pending_override (append_piece tok piece slot))),
          q) := by
      rw [hR]
      unfold process_token
      simp only [← hpiece]
      have : ¬ (append_piece tok piece slot).multibyte_pending = 0 := hpend
      rw [if_neg this]
    have htf : tail_frame R.2.2.1 = tail_frame (append_piece tok piece slot) := by
      rw [hshape]
      simp only
      rw [tail_frame_check_eos, tail_frame_check_limit, tail_frame_pending_override]
    have t1 : R.2.2.1.multibyte_pending = (append_piece tok piece slot).multibyte_pending := by
      have h := congrArg llama_client_slot.multibyte_pending htf; exact h
    have t2 : R.2.2.1.params = (append_piece tok piece slot).params := by
      have h := congrArg llama_client_slot.params htf; exact h
    have t3 : R.2.2.1.generated_text = (append_piece tok piece slot).generated_text := by
      have h := congrArg llama_client_slot.generated_text htf; exact h
    have t4 : R.2.2.1.sent_count = (append_piece tok piece slot).sent_count := by
      have h := congrArg llama_client_slot.sent_count htf; exact h
    have t5 : R.2.2.1.stopped_word = (append_piece tok piece slot).stopped_word := by
      have h := congrArg llama_client_slot.stopped_word htf; exact h
    have t6 : R.2.2.1.stopping_word = (append_piece tok piece slot).stopping_word := by
      have h := congrArg llama_client_slot.stopping_word htf; exact h
    refine ⟨t1, t2, Or.inl ⟨hpend, by rw [hshape], t3.trans (by rw [htext]; rfl), t4, t5, t6⟩⟩


/-! ### UTF-8 framing -/

theorem utf8_run_append : ∀ (a b : Str) (st : utf8_state),
    utf8_run st (a ++ b) = (utf8_run st a).bind (fun s => utf8_run s b) := by
  intro a
  induction a with
  | nil => intro b st; rfl
  | cons x a ih =>
    intro b st
    simp only [List.cons_append, utf8_run]
    cases utf8_step st x with
    | none => rfl
    | some s1 => exact ih b s1

theorem utf8_step_lt (b : Nat) (st : utf8_state) (h : utf8_step .boundary b = some st) :
    b < 256 := by
  by_contra hb
  have hb : 256 ≤ b := by omega
  unfold utf8_step at h
  simp only at h
  repeat' split at h
  all_goals first | omega | cases h

set_option maxRecDepth 100000 in
theorem pending_of_lead_table : ∀ b < 256,
    (utf8_step .boundary b).all
      (fun st => decide (multibyte_pending_after 0 [b] = utf8_expected st)) = true := by
  decide

/-- A single byte at a character boundary: the framing of `process_token` expects as many
continuation bytes as the automaton. -/
theorem pending_of_lead (b : Nat) (st : utf8_state) (h : utf8_step .boundary b = some st) :
    multibyte_pending_after 0 [b] = utf8_expected st := by
  have h1 := pending_of_lead_table b (utf8_step_lt b st h)
  rw [h] at h1
  simpa using h1

/-- A byte inside a character is a continuation byte and leaves one byte less to come. -/
theorem expected_of_cont (b : Nat) (st st1 : utf8_state) (hst : st ≠ .boundary)
    (h : utf8_step st b = some st1) :
    utf8_expected st1 = utf8_expected st - 1 ∧ 0x80 ≤ b ∧ b ≤ 0xBF := by
  cases st with
  | boundary => exact absurd rfl hst
  | tail1 | tail2 | tail3 | after_e0 | after_ed | after_f0 | after_f4 =>
    simp only [utf8_step] at h
    split at h
    · cases h
      refine ⟨by decide, by omega, by omega⟩
    · cases h

/-- A byte that starts a character is not a continuation byte. -/
theorem lead_not_cont (b : Nat) (st : utf8_state) (h : utf8_step .boundary b = some st) :
    b < 0x80 ∨ 0xBF < b := by
  unfold utf8_step at h
  simp only at h
  by_contra hc
  have : 0x80 ≤ b ∧ b ≤ 0xBF := by omega
  repeat' split at h
  all_goals first | omega | cases h

theorem expected_pos (st : utf8_state) (h : st ≠ .boundary) : 0 < utf8_expected st := by
  cases st <;> first | exact absurd rfl h | decide

theorem expected_zero (st : utf8_state) (h : utf8_expected st = 0) : st = .boundary := by
  cases st <;> first | rfl | (exfalso; revert h; decide)

theorem utf8_run_cons_some (st st1 : utf8_state) (b : Nat) (rest : Str)
    (h : utf8_run st (b :: rest) = some st1) :
    ∃ s, utf8_step st b = some s ∧ utf8_run s rest = some st1 := by
  simp only [utf8_run] at h
  cases hs : utf8_step st b with
  | none => rw [hs] at h; cases h
  | some s => rw [hs] at h; exact ⟨s, rfl, h⟩

/-- The framing of `process_token` follows the automaton over a piece that is a single
byte, or empty, or well-formed by itself. -/
theorem pending_tracks (piece : Str) (st st1 : utf8_state)
    (hrun : utf8_run st piece = some st1)
    (hpiece : piece.length ≠ 1 → valid_utf8 piece = true) :
    multibyte_pending_after (utf8_expected st) piece = utf8_expected st1 := by
  match piece, hrun, hpiece with
  | [], hrun, _ =>
    simp only [utf8_run, Option.some.injEq] at hrun
    subst hrun
    unfold multibyte_pending_after
    simp
  | [b], hrun, _ =>
    obtain ⟨s, hs, hs'⟩ := utf8_run_cons_some _ _ _ _ hrun
    simp only [utf8_run, Option.some.injEq] at hs'
    subst hs'
    by_cases hst : st = .boundary
    · subst hst
      exact pending_of_lead b s hs
    · obtain ⟨h1, _, _⟩ := expected_of_cont b st s hst hs
      have hp := expected_pos st hst
      unfold multibyte_pending_after
      rw [if_pos hp, h1]
      simp
  | b :: c :: rest, hrun, hpiece =>
    have hv := hpiece (by simp)
    simp only [valid_utf8, decide_eq_true_eq] at hv
    by_cases hst : st = .boundary
    · subst hst
      rw [hv] at hrun
      cases hrun
      unfold multibyte_pending_after
      simp [utf8_expected]
    · exfalso
      obtain ⟨s, hs, _⟩ := utf8_run_cons_some _ _ _ _ hrun
      obtain ⟨s', hs', _⟩ := utf8_run_cons_some _ _ _ _ hv
      obtain ⟨_, h1, h2⟩ := expected_of_cont b st s hst hs
      rcases lead_not_cont b s' hs' with h | h <;> omega

/-- A well-formed text with a well-formed head has a well-formed rest. -/
theorem valid_utf8_drop (text : Str) (n : Nat)
    (h : utf8_run .boundary text = some .boundary)
    (hn : utf8_run .boundary (text.take n) = some .boundary) :
    valid_utf8 (text.drop n) = true := by
  have := utf8_run_append (text.take n) (text.drop n) .boundary
  rw [List.take_append_drop, h, hn] at this
  simp only [Option.bind] at this
  simp only [valid_utf8, decide_eq_true_eq]
  exact this.symm

/-- One call of `process_token` under the framing invariant: what it emits is well-formed,
and when the generation goes on the invariant holds for the longer text. -/
theorem process_token_utf8 (env : Engine) (params : gpt_params) (mm : Bool)
    (tok : llama_token) (slot : llama_client_slot) (q : List task_result)
    (st st1 : utf8_state)
    (hpiece : (env.llama_token_to_piece tok).length ≠ 1 →
      valid_utf8 (env.llama_token_to_piece tok) = true)
    (hst : utf8_run .boundary slot.generated_text = some st)
    (hst1 : utf8_run st (env.llama_token_to_piece tok) = some st1)
    (hpend : slot.multibyte_pending = utf8_expected st)
    (hsent : slot.sent_count ≤ slot.generated_text.length)
    (hhead : utf8_run .boundary (slot.generated_text.take slot.sent_count) = some .boundary)
    (hq : ∀ r ∈ q, valid_utf8 (streamed_content r) = true) :
    (∀ r ∈ (process_token env params mm { tok := tok } slot q).2.2.2,
      valid_utf8 (streamed_content r) = true) ∧
    ((process_token env params mm { tok := tok } slot q).1 = true →
      (process_token env params mm { tok := tok } slot q).2.2.1.generated_text =
        slot.generated_text ++ env.llama_token_to_piece tok ∧
      (process_token env params mm { tok := tok } slot q).2.2.1.multibyte_pending =
        utf8_expected st1 ∧
      (process_token env params mm { tok := tok } slot q).2.2.1.sent_count ≤
        (slot.generated_text ++ env.llama_token_to_piece tok).length ∧
      utf8_run .boundary ((slot.generated_text ++ env.llama_token_to_piece tok).take
        (process_token env params mm { tok := tok } slot q).2.2.1.sent_count) =
        some .boundary) := by
  have htext1 : utf8_run .boundary (slot.generated_text ++ env.llama_token_to_piece tok) =
      some st1 := by
    rw [utf8_run_append, hst]
    exact hst1
  have htrack := pending_tracks _ st st1 hst1 hpiece
  rw [← hpend] at htrack
  have htake : (slot.generated_text ++ env.llama_token_to_piece tok).take slot.sent_count =
      slot.generated_text.take slot.sent_count := by
    rw [List.take_append_of_le_length hsent]
  have hmin : min slot.sent_count (slot.generated_text ++ env.llama_token_to_piece tok).length =
      slot.sent_count := by
    simp only [List.length_append]
    omega
  obtain ⟨c1, _, c3⟩ := process_token_cases env params mm tok slot q
    (env.llama_token_to_piece tok) (slot.generated_text ++ env.llama_token_to_piece tok)
    slot.sent_count ((slot.generated_text ++ env.llama_token_to_piece tok).drop slot.sent_count)
    (process_token env params mm { tok := tok } slot q) rfl rfl hmin.symm rfl rfl
  rw [htrack] at c1
  have hempty : valid_utf8 [] = true := by decide
  rcases c3 with ⟨_, d2, d3, d4, _⟩ | ⟨d1, d2, d3⟩
  · refine ⟨by rw [d2]; exact hq, fun _ => ⟨d3, c1, ?_, ?_⟩⟩
    · rw [d4]; simp only [List.length_append]; omega
    · rw [d4, htake]; exact hhead
  · rw [htrack] at d1
    have hb : st1 = .boundary := expected_zero st1 d1
    subst hb
    have hqueue : ∀ content, (process_token env params mm { tok := tok } slot q).2.1.text_to_send =
        content → valid_utf8 content = true →
        ∀ r ∈ (process_token env params mm { tok := tok } slot q).2.2.2,
          valid_utf8 (streamed_content r) = true := by
      intro content hc hv r hr
      rcases d2 with d2 | ⟨res, d2, d2'⟩
      · rw [d2] at hr; exact hq r hr
      · rw [d2] at hr
        rcases List.mem_append.1 hr with hr | hr
        · exact hq r hr
        · simp only [List.mem_singleton] at hr
          subst hr
          rw [d2', hc]
          exact hv
    rcases d3 with ⟨p, w, _, _, _, e1, _, _, _, _, e6⟩ | ⟨_, e2, _, _, e5⟩
    · refine ⟨hqueue [] (by rw [e6]) hempty, fun h => ?_⟩
      rw [e1] at h
      cases h
    · rcases e5 with ⟨f1, f2⟩ | ⟨_, f1, f2⟩
      · refine ⟨hqueue [] (by rw [f2]) hempty, fun _ => ⟨e2, c1, ?_, ?_⟩⟩
        · rw [f1]; simp only [List.length_append]; omega
        · rw [f1, htake]; exact hhead
      · refine ⟨hqueue _ (by rw [f2]) (valid_utf8_drop _ _ htext1 (by rw [htake]; exact hhead)),
          fun _ => ⟨e2, c1, ?_, ?_⟩⟩
        · rw [f1]; simp only [List.length_append, List.length_drop]; omega
        · rw [f1]
          have : slot.sent_count +
              ((slot.generated_text ++ env.llama_token_to_piece tok).drop slot.sent_count).length =
              (slot.generated_text ++ env.llama_token_to_piece tok).length := by
            simp only [List.length_append, List.length_drop]; omega
          rw [this, List.take_length]
          exact htext1

theorem process_tokens_utf8 (env : Engine) (params : gpt_params) (mm : Bool) :
    ∀ (toks : List llama_token) (slot : llama_client_slot) (q : List task_result)
      (st : utf8_state),
      (∀ t ∈ toks, (env.llama_token_to_piece t).length ≠ 1 →
        valid_utf8 (env.llama_token_to_piece t) = true) →
      utf8_run .boundary slot.generated_text = some st →
      utf8_run st (pieces env toks) = some .boundary →
      slot.multibyte_pending = utf8_expected st →
      slot.sent_count ≤ slot.generated_text.length →
      utf8_run .boundary (slot.generated_text.take slot.sent_count) = some .boundary →
      (∀ r ∈ q, valid_utf8 (streamed_content r) = true) →
      ∀ r ∈ (process_tokens env params mm toks slot q).2.2,
        valid_utf8 (streamed_content r) = true := by
  intro toks
  induction toks with
  | nil =>
    intro slot q st _ _ _ _ _ _ hq
    exact hq
  | cons t toks ih =>
    intro slot q st hp hst hrun hpend hsent hhead hq
    rw [pieces_cons, utf8_run_append] at hrun
    cases hst1 : utf8_run st (env.llama_token_to_piece t) with
    | none => rw [hst1] at hrun; cases hrun
    | some st1 =>
      rw [hst1] at hrun
      obtain ⟨h1, h2⟩ := process_token_utf8 env params mm t slot q st st1
        (hp t (List.mem_cons_self _ _)) hst hst1 hpend hsent hhead hq
      unfold process_tokens
      simp only
      split
      · rename_i htrue
        obtain ⟨g1, g2, g3, g4⟩ := h2 htrue
        refine ih _ _ st1 (fun t' ht' => hp t' (List.mem_cons_of_mem _ ht')) ?_ hrun g2 ?_ ?_ h1
        · show utf8_run .boundary
            (process_token env params mm { tok := t } slot q).2.2.1.generated_text = some st1
          rw [g1, utf8_run_append, hst]
          exact hst1
        · show (process_token env params mm { tok := t } slot q).2.2.1.sent_count ≤
            (process_token env params mm { tok := t } slot q).2.2.1.generated_text.length
          rw [g1]; exact g3
        · show utf8_run .boundary
            ((process_token env params mm { tok := t } slot q).2.2.1.generated_text.take
              (process_token env params mm { tok := t } slot q).2.2.1.sent_count) = some .boundary
          rw [g1]; exact g4
      · exact h1

/-- C3 (counterexample): the pieces "a\xC3" and "\xA9" make the well-formed text "aé", and
each is streamed as it comes: both partial results are ill-formed. -/
theorem streamed_split_character :
    valid_utf8 (pieces engine_bytes [25027, 169]) = true ∧
    (process_tokens engine_bytes {} false [25027, 169]
      ({ id := 0, params := { stream := true } } : llama_client_slot).reset []).2.2.map
        streamed_content = [[97, 195], [169]] ∧
    valid_utf8 [97, 195] = false ∧ valid_utf8 [169] = false := by
  decide

/-- C3 (amended): when the pieces of the sampled tokens make a well-formed UTF-8 text and
every piece that is not a single byte is well-formed by itself, every partial result of the
run on a freshly reset slot carries well-formed UTF-8. -/
theorem streamed_text_valid_utf8 (env : Engine) (params : gpt_params) (mm : Bool)
    (toks : List llama_token) (slot : llama_client_slot)
    (hvalid : valid_utf8 (pieces env toks) = true)
    (hpieces : ∀ t ∈ toks, (env.llama_token_to_piece t).length ≠ 1 →
      valid_utf8 (env.llama_token_to_piece t) = true) :
    ∀ r ∈ (process_tokens env params mm toks slot.reset []).2.2,
      valid_utf8 (streamed_content r) = true := by
  simp only [valid_utf8, decide_eq_true_eq] at hvalid
  exact process_tokens_utf8 env params mm toks slot.reset [] .boundary hpieces rfl hvalid rfl
    (Nat.le_refl _) rfl (by intro r hr; cases hr)

/-- C3 (witness): the bytes of "é" come as two single-byte pieces, then "a": the partial
results carry "é" and "a". -/
theorem streamed_text_valid_utf8_witness :
    (process_tokens engine_bytes {} false [195, 169, 97]
      ({ id := 0, params := { stream := true } } : llama_client_slot).reset []).2.2.map
        streamed_content = [[195, 169], [97]] ∧
    ∀ r ∈ (process_tokens engine_bytes {} false [195, 169, 97]
      ({ id := 0, params := { stream := true } } : llama_client_slot).reset []).2.2,
      valid_utf8 (streamed_content r) = true :=
  ⟨by decide,
    streamed_text_valid_utf8 engine_bytes {} false [195, 169, 97]
      { id := 0, params := { stream := true } } (by decide) (by decide)⟩


/-! ### Stop words -/

/-- The search `text.find` misses no occurrence. -/
theorem find_at_complete (word : Str) : ∀ (t : Str) (i k : Nat), word <+: t.drop k →
    k ≤ t.length → ∃ p, find_at word t i = some p ∧ p ≤ i + k := by
  intro t
  induction t with
  | nil =>
    intro i k h _
    simp only [List.drop_nil] at h
    refine ⟨i, ?_, by omega⟩
    simp only [find_at]
    rw [if_pos]
    simpa [List.isPrefixOf_iff_prefix] using h
  | cons c t ih =>
    intro i k h hk
    simp only [find_at]
    split
    · exact ⟨i, rfl, by omega⟩
    · rename_i hnot
      cases k with
      | zero =>
        exfalso
        apply hnot
        simpa [List.isPrefixOf_iff_prefix] using h
      | succ k =>
        simp only [List.drop_succ_cons] at h
        simp only [List.length_cons] at hk
        obtain ⟨p, hp, hle⟩ := ih (i + 1) k h (by omega)
        exact ⟨p, hp, by omega⟩

theorem str_find_complete (text word : Str) (from_pos j : Nat)
    (h : word <+: text.drop j) (hj : j ≤ text.length) (hfrom : from_pos ≤ j) :
    ∃ p, str_find text word from_pos = some p ∧ p ≤ j := by
  unfold str_find
  rw [if_pos (by omega)]
  obtain ⟨p, hp, hle⟩ := find_at_complete word (text.drop from_pos) from_pos (j - from_pos)
    (by rw [List.drop_drop]; have : from_pos + (j - from_pos) = j := by omega
        simpa [this, Nat.add_comm] using h)
    (by simp only [List.length_drop]; omega)
  exact ⟨p, hp, by omega⟩

/-- A non-empty word occurs inside the text. -/
theorem prefix_drop_lt {w text : Str} {j : Nat} (h : w <+: text.drop j) (hw : w ≠ []) :
    j + w.length ≤ text.length := by
  have := h.length_le
  simp only [List.length_drop] at this
  have hpos : 0 < w.length := List.length_pos.2 hw
  omega

theorem ends_with_of_suffix (str suffix : Str) (h : suffix <:+ str) :
    ends_with str suffix = true := by
  obtain ⟨pre, rfl⟩ := h
  unfold ends_with
  simp

theorem getLastD_of_suffix_take (stop text : Str) (m : Nat) (h1 : 1 ≤ m) (h2 : m ≤ stop.length)
    (h : stop.take m <:+ text) : stop.getD (m - 1) 0 = text.getLastD 0 := by
  obtain ⟨pre, rfl⟩ := h
  have hne : stop.take m ≠ [] := by
    intro hc
    have := congrArg List.length hc
    simp only [List.length_take, List.length_nil] at this
    omega
  rw [List.getLastD_eq_getLast?, List.getLast?_append_of_ne_nil _ hne,
    List.getLast?_eq_getElem?, List.getD_eq_getElem?_getD]
  simp only [List.length_take]
  have : min m stop.length - 1 = m - 1 := by omega
  rw [this, List.getElem?_take_of_lt (by omega)]

theorem find_partial_stop_loop_none (stop text : Str) (last : Nat) :
    ∀ k, find_partial_stop_loop stop text last k = none →
      ∀ m, 1 ≤ m → m ≤ k →
        ¬ (stop.getD (m - 1) 0 = last ∧ ends_with text (stop.take m) = true) := by
  intro k
  induction k with
  | zero => intro _ m h1 h2; omega
  | succ k ih =>
    intro h m h1 h2
    simp only [find_partial_stop_loop] at h
    split at h
    · cases h
    · rename_i hnot
      by_cases hm : m = k + 1
      · subst hm
        simpa using hnot
      · exact ih h m h1 (by omega)

/-- When the partial search finds nothing, the text does not end with the beginning of the
stop word. -/
theorem find_partial_stop_none (stop text : Str) (h : find_partial_stop_string stop text = none) :
    ∀ m, 1 ≤ m → m ≤ stop.length → ¬ (stop.take m <:+ text) := by
  intro m h1 h2 hsuf
  unfold find_partial_stop_string at h
  split at h
  · exact find_partial_stop_loop_none stop text _ _ h m h1 h2
      ⟨getLastD_of_suffix_take stop text m h1 h2 hsuf, ends_with_of_suffix _ _ hsuf⟩
  · rename_i hc
    have hlen := hsuf.length_le
    simp only [List.length_take] at hlen
    apply hc
    constructor
    · intro he
      simp only [List.isEmpty_iff] at he
      subst he
      simp only [List.length_nil] at hlen
      omega
    · intro he
      simp only [List.isEmpty_iff] at he
      subst he
      simp only [List.length_nil] at h2
      omega

theorem prefix_take_eq {w t : Str} (h : w <+: t) (m : Nat) (hm : m ≤ w.length) :
    w.take m = t.take m := by
  obtain ⟨r, rfl⟩ := h
  rw [List.take_append_of_le_length hm]

theorem suffix_take_drop (t : Str) (j k : Nat) (hjk : j ≤ k) :
    (t.drop j).take (k - j) <:+ t.take k := by
  refine ⟨t.take j, ?_⟩
  have : k = j + (k - j) := by omega
  conv_rhs => rw [this]
  rw [List.take_add]

/-- An occurrence that lies in the first part of a text is an occurrence in that part. -/
theorem occurrence_in_head (w text piece : Str) (j : Nat)
    (hocc : w <+: (text ++ piece).drop j) (hend : j + w.length ≤ text.length) :
    w <:+: text := by
  have hj : j ≤ text.length := by omega
  rw [List.drop_append_of_le_length hj] at hocc
  have h2 : text.drop j <+: text.drop j ++ piece := List.prefix_append _ _
  have := List.prefix_of_prefix_length_le hocc h2 (by simp only [List.length_drop]; omega)
  exact infix_of_prefix_drop this

/-- With no beginning of a stop word at the end of what was sent, every occurrence of the
stop word `w` after one more piece that ends at or after the end of the text before the
piece lies in the search window, and the full search finds `w` at or before it. -/
theorem occurrence_found (text piece w : Str) (k j : Nat)
    (hw : w ≠ []) (hk : k ≤ text.length)
    (hend : text.length ≤ j + w.length)
    (hinv : ∀ m, 1 ≤ m → m ≤ w.length → ¬ (w.take m <:+ (text ++ piece).take k))
    (hocc : w <+: (text ++ piece).drop j) :
    k ≤ j ∧ ∃ p, word_stop_pos ((text ++ piece).drop k) piece.length .STOP_FULL w = some p ∧
      k + p ≤ j := by
  have hlen := prefix_drop_lt hocc hw
  have hpos : 0 < w.length := List.length_pos.2 hw
  have hkj : k ≤ j := by
    by_contra hc
    have hjk : j < k := by omega
    apply hinv (k - j) (by omega) (by omega)
    rw [prefix_take_eq hocc (k - j) (by omega)]
    exact suffix_take_drop _ j k (by omega)
  refine ⟨hkj, ?_⟩
  simp only [word_stop_pos]
  have hocc' : w <+: ((text ++ piece).drop k).drop (j - k) := by
    rw [List.drop_drop]
    have : k + (j - k) = j := by omega
    simpa [this, Nat.add_comm] using hocc
  simp only [List.length_append] at hlen
  obtain ⟨p, hp, hle⟩ := str_find_complete ((text ++ piece).drop k) w
    (if ((text ++ piece).drop k).length > w.length + piece.length then
      ((text ++ piece).drop k).length - (w.length + piece.length) else 0) (j - k) hocc'
    (by simp only [List.length_drop, List.length_append]; omega)
    (by
      simp only [List.length_drop, List.length_append]
      split <;> omega)
  exact ⟨p, hp, by omega⟩

/-- What the full search reports is an occurrence in the whole text. -/
theorem word_stop_pos_occurrence (t w : Str) (k n p : Nat)
    (h : word_stop_pos (t.drop k) n .STOP_FULL w = some p) :
    w <+: t.drop (k + p) := by
  obtain ⟨_, h2⟩ := word_stop_pos_full_occurs _ _ _ _ h
  rw [List.drop_drop] at h2
  simpa [Nat.add_comm] using h2

theorem infix_exists_drop {w t : Str} (h : w <:+: t) : ∃ j, w <+: t.drop j := by
  obtain ⟨a, b, rfl⟩ := h
  refine ⟨a.length, ?_⟩
  rw [List.append_assoc, List.drop_left]
  exact List.prefix_append _ _

/-- After a flush no beginning of a stop word ends the text that was sent. -/
theorem no_partial_after_flush (t w : Str) (k : Nat) (hk : k ≤ t.length)
    (hinv : ∀ m, 1 ≤ m → m ≤ w.length → ¬ (w.take m <:+ t.take k))
    (hpart : ∀ m, 1 ≤ m → m ≤ w.length → ¬ (w.take m <:+ t.drop k)) :
    ∀ m, 1 ≤ m → m ≤ w.length → ¬ (w.take m <:+ t) := by
  intro m h1 h2 hsuf
  have hlen : (w.take m).length = m := by
    simp only [List.length_take]; omega
  by_cases hm : m ≤ t.length - k
  · apply hpart m h1 h2
    exact List.suffix_of_suffix_length_le hsuf (List.drop_suffix k t)
      (by simp only [List.length_drop]; omega)
  · have hle := hsuf.length_le
    rw [hlen] at hle
    have heq : w.take m = t.drop (t.length - m) := by
      obtain ⟨pre, hpre⟩ := hsuf
      have hpl : pre.length = t.length - m := by
        have := congrArg List.length hpre
        simp only [List.length_append, hlen] at this
        omega
      rw [← hpl]
      subst hpre
      rw [List.drop_left]
    apply hinv (k - (t.length - m)) (by omega) (by omega)
    have h3 : w.take (k - (t.length - m)) = (w.take m).take (k - (t.length - m)) := by
      rw [List.take_take]
      congr 1
      omega
    rw [h3, heq]
    exact suffix_take_drop t _ k (by omega)


theorem pending_after_cons (env : Engine) (p : Int) (t : llama_token) (ts : List llama_token) :
    pending_after env p (t :: ts) =
      pending_after env (multibyte_pending_after p (env.llama_token_to_piece t)) ts := rfl

theorem pending_after_append (env : Engine) (p : Int) (a b : List llama_token) :
    pending_after env p (a ++ b) = pending_after env (pending_after env p a) b := by
  simp only [pending_after, List.foldl_append]

/-- One call of `process_token` that finds no stop word, either because the search is
skipped (`multibyte_pending` is not 0 after the piece) or because no stop word is in the
text: the text grows by the piece and the invariant of the sent text is kept. -/
theorem process_token_before_stop (env : Engine) (params : gpt_params) (mm : Bool)
    (tok : llama_token) (slot : llama_client_slot) (q : List task_result)
    (hk : slot.sent_count ≤ slot.generated_text.length)
    (hinv : ∀ w ∈ slot.params.antiprompt, ∀ m, 1 ≤ m → m ≤ w.length →
      ¬ (w.take m <:+ slot.generated_text.take slot.sent_count))
    (hno : multibyte_pending_after slot.multibyte_pending (env.llama_token_to_piece tok) = 0 →
      ∀ w ∈ slot.params.antiprompt,
        ¬ w <:+: slot.generated_text ++ env.llama_token_to_piece tok) :
    (process_token env params mm { tok := tok } slot q).2.2.1.generated_text =
      slot.generated_text ++ env.llama_token_to_piece tok ∧
    (process_token env params mm { tok := tok } slot q).2.2.1.multibyte_pending =
      multibyte_pending_after slot.multibyte_pending (env.llama_token_to_piece tok) ∧
    (process_token env params mm { tok := tok } slot q).2.2.1.params = slot.params ∧
    (process_token env params mm { tok := tok } slot q).2.2.1.sent_count ≤
      (slot.generated_text ++ env.llama_token_to_piece tok).length ∧
    (∀ w ∈ slot.params.antiprompt, ∀ m, 1 ≤ m → m ≤ w.length →
      ¬ (w.take m <:+ (slot.generated_text ++ env.llama_token_to_piece tok).take
        (process_token env params mm { tok := tok } slot q).2.2.1.sent_count)) := by
  have hmin : min slot.sent_count (slot.generated_text ++ env.llama_token_to_piece tok).length =
      slot.sent_count := by
    simp only [List.length_append]
    omega
  have htake : (slot.generated_text ++ env.llama_token_to_piece tok).take slot.sent_count =
      slot.generated_text.take slot.sent_count := by
    rw [List.take_append_of_le_length hk]
  obtain ⟨c1, c2, c3⟩ := process_token_cases env params mm tok slot q
    (env.llama_token_to_piece tok) (slot.generated_text ++ env.llama_token_to_piece tok)
    slot.sent_count ((slot.generated_text ++ env.llama_token_to_piece tok).drop slot.sent_count)
    (process_token env params mm { tok := tok } slot q) rfl rfl hmin.symm rfl rfl
  rcases c3 with ⟨_, _, d3, d4, _⟩ | ⟨d0, _, d3⟩
  · refine ⟨d3, c1, c2, ?_, ?_⟩
    · rw [d4]; simp only [List.length_append]; omega
    · rw [d4, htake]; exact hinv
  · rcases d3 with ⟨p, w, hw, hwp, _⟩ | ⟨_, e2, _, _, e5⟩
    · exfalso
      exact hno d0 w hw (infix_of_prefix_drop (word_stop_pos_occurrence _ _ _ _ _ hwp))
    · rcases e5 with ⟨f1, _⟩ | ⟨f0, f1, _⟩
      · refine ⟨e2, c1, c2, ?_, ?_⟩
        · rw [f1]; simp only [List.length_append]; omega
        · rw [f1, htake]; exact hinv
      · have hsum : slot.sent_count +
            ((slot.generated_text ++ env.llama_token_to_piece tok).drop slot.sent_count).length =
            (slot.generated_text ++ env.llama_token_to_piece tok).length := by
          simp only [List.length_append, List.length_drop]; omega
        refine ⟨e2, c1, c2, ?_, ?_⟩
        · rw [f1, hsum]
        · rw [f1, hsum, List.take_length]
          intro w hw
          refine no_partial_after_flush _ w slot.sent_count
            (by simp only [List.length_append]; omega) ?_ ?_
          · rw [htake]; exact hinv w hw
          · exact find_partial_stop_none w _ (f0 w hw)

/-- The call of `process_token` that finds a stop word: the piece leaves
`multibyte_pending` at 0, so that the search runs, and every occurrence of a stop word
ends at or after the end of the text before the piece, so that it lies in the search
window. -/
theorem process_token_at_stop (env : Engine) (params : gpt_params) (mm : Bool)
    (tok : llama_token) (slot : llama_client_slot) (q : List task_result)
    (hne : ∀ w ∈ slot.params.antiprompt, w ≠ [])
    (hsync : multibyte_pending_after slot.multibyte_pending (env.llama_token_to_piece tok) = 0)
    (hk : slot.sent_count ≤ slot.generated_text.length)
    (hinv : ∀ w ∈ slot.params.antiprompt, ∀ m, 1 ≤ m → m ≤ w.length →
      ¬ (w.take m <:+ slot.generated_text.take slot.sent_count))
    (hend : ∀ w ∈ slot.params.antiprompt, ∀ j,
      w <+: (slot.generated_text ++ env.llama_token_to_piece tok).drop j →
      slot.generated_text.length ≤ j + w.length)
    (hocc : ∃ w ∈ slot.params.antiprompt,
      w <:+: slot.generated_text ++ env.llama_token_to_piece tok) :
    (process_token env params mm { tok := tok } slot q).1 = false ∧
    (process_token env params mm { tok := tok } slot q).2.2.1.stopped_word = true ∧
    ∃ n,
      (process_token env params mm { tok := tok } slot q).2.2.1.generated_text =
        (slot.generated_text ++ env.llama_token_to_piece tok).take n ∧
      (process_token env params mm { tok := tok } slot q).2.2.1.stopping_word ∈
        slot.params.antiprompt ∧
      (process_token env params mm { tok := tok } slot q).2.2.1.stopping_word <+:
        (slot.generated_text ++ env.llama_token_to_piece tok).drop n ∧
      (∀ w ∈ slot.params.antiprompt, ∀ j,
        w <+: (slot.generated_text ++ env.llama_token_to_piece tok).drop j → n ≤ j) ∧
      (∀ w ∈ slot.params.antiprompt,
        ¬ w <:+: (slot.generated_text ++ env.llama_token_to_piece tok).take n) := by
  have hmin : min slot.sent_count (slot.generated_text ++ env.llama_token_to_piece tok).length =
      slot.sent_count := by
    simp only [List.length_append]
    omega
  have htake : (slot.generated_text ++ env.llama_token_to_piece tok).take slot.sent_count =
      slot.generated_text.take slot.sent_count := by
    rw [List.take_append_of_le_length hk]
  have hfound : ∀ w ∈ slot.params.antiprompt, ∀ j,
      w <+: (slot.generated_text ++ env.llama_token_to_piece tok).drop j →
      ∃ p, word_stop_pos
        ((slot.generated_text ++ env.llama_token_to_piece tok).drop slot.sent_count)
        (env.llama_token_to_piece tok).length .STOP_FULL w = some p ∧
        slot.sent_count + p ≤ j := by
    intro w hw j hj
    exact (occurrence_found slot.generated_text (env.llama_token_to_piece tok) w
      slot.sent_count j (hne w hw) hk (hend w hw j hj) (by rw [htake]; exact hinv w hw) hj).2
  obtain ⟨c1, c2, c3⟩ := process_token_cases env params mm tok slot q
    (env.llama_token_to_piece tok) (slot.generated_text ++ env.llama_token_to_piece tok)
    slot.sent_count ((slot.generated_text ++ env.llama_token_to_piece tok).drop slot.sent_count)
    (process_token env params mm { tok := tok } slot q) rfl rfl hmin.symm rfl rfl
  obtain ⟨w0, hw0, hocc0⟩ := hocc
  obtain ⟨j0, hj0⟩ := infix_exists_drop hocc0
  obtain ⟨p0, hp0, _⟩ := hfound w0 hw0 j0 hj0
  rcases c3 with ⟨d1, _⟩ | ⟨_, _, d3⟩
  · exact absurd hsync d1
  · rcases d3 with ⟨p, w, hw, hwp, hleast, e1, e2, e3, e4, _⟩ | ⟨hall, _⟩
    · refine ⟨e1, e3, slot.sent_count + p, e2, by rw [e4]; exact hw, ?_, ?_, ?_⟩
      · rw [e4]
        exact word_stop_pos_occurrence _ _ _ _ _ hwp
      · intro w' hw' j hj
        obtain ⟨p', hp', hle⟩ := hfound w' hw' j hj
        have := hleast w' hw' p' hp'
        omega
      · intro w' hw' hin
        obtain ⟨j, hj⟩ := infix_exists_drop hin
        have hlen := prefix_drop_lt hj (hne w' hw')
        have hpos : 0 < w'.length := List.length_pos.2 (hne w' hw')
        have hj' : w' <+: (slot.generated_text ++ env.llama_token_to_piece tok).drop j := by
          refine List.IsPrefix.trans hj ?_
          rw [List.drop_take]
          exact List.take_prefix _ _
        obtain ⟨p', hp', hle⟩ := hfound w' hw' j hj'
        have := hleast w' hw' p' hp'
        simp only [List.length_take] at hlen
        omega
    · rw [hall w0 hw0] at hp0
      cases hp0

/-- The run up to the call that finds a stop word: while the generation goes on and every
call either skips the search or has no stop word in its text, the text is the pieces so
far, `multibyte_pending` is that of the framing and no beginning of a stop word was
sent. -/
theorem process_tokens_before_stop (env : Engine) (params : gpt_params) (mm : Bool) :
    ∀ (toks : List llama_token) (slot : llama_client_slot) (q : List task_result),
      slot.sent_count ≤ slot.generated_text.length →
      (∀ w ∈ slot.params.antiprompt, ∀ m, 1 ≤ m → m ≤ w.length →
        ¬ (w.take m <:+ slot.generated_text.take slot.sent_count)) →
      (∀ k, k < toks.length →
        pending_after env slot.multibyte_pending (toks.take (k + 1)) = 0 →
        ∀ w ∈ slot.params.antiprompt,
          ¬ w <:+: slot.generated_text ++ pieces env (toks.take (k + 1))) →
      (process_tokens env params mm toks slot q).1 = true →
      (process_tokens env params mm toks slot q).2.1.generated_text =
        slot.generated_text ++ pieces env toks ∧
      (process_tokens env params mm toks slot q).2.1.multibyte_pending =
        pending_after env slot.multibyte_pending toks ∧
      (process_tokens env params mm toks slot q).2.1.params = slot.params ∧
      (process_tokens env params mm toks slot q).2.1.sent_count ≤
        (slot.generated_text ++ pieces env toks).length ∧
      (∀ w ∈ slot.params.antiprompt, ∀ m, 1 ≤ m → m ≤ w.length →
        ¬ (w.take m <:+ (slot.generated_text ++ pieces env toks).take
          (process_tokens env params mm toks slot q).2.1.sent_count)) := by
  intro toks
  induction toks with
  | nil =>
    intro slot q hk hinv _ _
    simp only [process_tokens, pieces, List.map_nil, List.flatten_nil, List.append_nil]
    exact ⟨trivial, rfl, trivial, hk, hinv⟩
  | cons t toks ih =>
    intro slot q hk hinv hno hrun
    have hno1 : multibyte_pending_after slot.multibyte_pending (env.llama_token_to_piece t) = 0 →
        ∀ w ∈ slot.params.antiprompt,
          ¬ w <:+: slot.generated_text ++ env.llama_token_to_piece t := by
      intro hp w hw
      have := hno 0 (by simp only [List.length_cons]; omega) hp w hw
      simpa [pieces] using this
    obtain ⟨g1, g2, g3, g4, g5⟩ := process_token_before_stop env params mm t slot q
      hk hinv hno1
    unfold process_tokens at hrun ⊢
    simp only at hrun ⊢
    split at hrun
    · rename_i htrue
      rw [if_pos htrue]
      have ih' := ih
        { (process_token env params mm { tok := t } slot q).2.2.1 with
          n_decoded := (process_token env params mm { tok := t } slot q).2.2.1.n_decoded + 1
          n_past := (process_token env params mm { tok := t } slot q).2.2.1.n_past + 1 }
        (process_token env params mm { tok := t } slot q).2.2.2
        (by show (process_token env params mm { tok := t } slot q).2.2.1.sent_count ≤
              (process_token env params mm { tok := t } slot q).2.2.1.generated_text.length
            rw [g1]; exact g4)
        (by show ∀ w ∈ (process_token env params mm { tok := t } slot q).2.2.1.params.antiprompt,
              ∀ m, 1 ≤ m → m ≤ w.length →
              ¬ (w.take m <:+ (process_token env params mm { tok := t } slot q).2.2.1.generated_text.take
                (process_token env params mm { tok := t } slot q).2.2.1.sent_count)
            rw [g1, g3]; exact g5)
        (by show ∀ k, k < toks.length →
              pending_after env
                (process_token env params mm { tok := t } slot q).2.2.1.multibyte_pending
                (toks.take (k + 1)) = 0 →
              ∀ w ∈ (process_token env params mm { tok := t } slot q).2.2.1.params.antiprompt,
                ¬ w <:+: (process_token env params mm { tok := t } slot q).2.2.1.generated_text ++
                  pieces env (toks.take (k + 1))
            intro k hklt hp
            rw [g2] at hp
            rw [g1, g3, List.append_assoc, ← pieces_cons]
            exact hno (k + 1) (by simp only [List.length_cons]; omega) hp)
        hrun
      obtain ⟨i1, i2, i3, i4, i5⟩ := ih'
      have hg : ({ (process_token env params mm { tok := t } slot q).2.2.1 with
          n_decoded := (process_token env params mm { tok := t } slot q).2.2.1.n_decoded + 1
          n_past := (process_token env params mm { tok := t } slot q).2.2.1.n_past + 1 } :
          llama_client_slot).generated_text =
          slot.generated_text ++ env.llama_token_to_piece t := g1
      have hp : ({ (process_token env params mm { tok := t } slot q).2.2.1 with
          n_decoded := (process_token env params mm { tok := t } slot q).2.2.1.n_decoded + 1
          n_past := (process_token env params mm { tok := t } slot q).2.2.1.n_past + 1 } :
          llama_client_slot).params = slot.params := g3
      have hm : ({ (process_token env params mm { tok := t } slot q).2.2.1 with
          n_decoded := (process_token env params mm { tok := t } slot q).2.2.1.n_decoded + 1
          n_past := (process_token env params mm { tok := t } slot q).2.2.1.n_past + 1 } :
          llama_client_slot).multibyte_pending =
          multibyte_pending_after slot.multibyte_pending (env.llama_token_to_piece t) := g2
      rw [hg, List.append_assoc, ← pieces_cons] at i1 i4 i5
      rw [hp] at i3 i5
      rw [hm, ← pending_after_cons] at i2
      exact ⟨i1, i2, i3, i4, i5⟩
    · cases hrun

/-- An occurrence of a word in a text followed by a piece that ends inside the text is an
occurrence in the text, at the same position. -/
theorem occurrence_head_drop (w text piece : Str) (j : Nat)
    (hocc : w <+: (text ++ piece).drop j) (hend : j + w.length ≤ text.length) :
    w <+: text.drop j := by
  have hj : j ≤ text.length := by omega
  rw [List.drop_append_of_le_length hj] at hocc
  have h2 : text.drop j <+: text.drop j ++ piece := List.prefix_append _ _
  exact List.prefix_of_prefix_length_le hocc h2 (by simp only [List.length_drop]; omega)

/-- C2 (counterexample): with the stop words "ab" and "b" and the pieces "a", "b" the text
comes to contain "b", and the generation ends with `stopping_word = "ab"` and an empty
text, not the "a" before the first "b". With the stop word "b" and the pieces "\xF0", "b",
"x", "y" the UTF-8 framing counts 3, 2, 1, 0: the search is skipped at "b", and at "y" it
looks at the last two bytes only, so the generation goes on and "b" is sent. With the
empty stop word the generation ends with an empty text, in which the empty word occurs. -/
theorem stop_word_not_recorded :
    [98] <:+: pieces engine_bytes [97, 98] ∧
    (process_tokens engine_bytes {} false [97, 98]
      ({ id := 0, params := { antiprompt := [[97, 98], [98]] } } : llama_client_slot).reset
      []).1 = false ∧
    (process_tokens engine_bytes {} false [97, 98]
      ({ id := 0, params := { antiprompt := [[97, 98], [98]] } } : llama_client_slot).reset
      []).2.1.stopping_word = [97, 98] ∧
    (process_tokens engine_bytes {} false [97, 98]
      ({ id := 0, params := { antiprompt := [[97, 98], [98]] } } : llama_client_slot).reset
      []).2.1.generated_text = [] ∧
    [98] <:+: pieces engine_bytes [240, 98] ∧
    (pending_after engine_bytes 0 [240], pending_after engine_bytes 0 [240, 98],
      pending_after engine_bytes 0 [240, 98, 120],
      pending_after engine_bytes 0 [240, 98, 120, 121]) = (3, 2, 1, 0) ∧
    (process_tokens engine_bytes {} false [240, 98, 120, 121]
      ({ id := 0, params := { antiprompt := [[98]] } } : llama_client_slot).reset []).1 = true ∧
    (process_tokens engine_bytes {} false [240, 98, 120, 121]
      ({ id := 0, params := { antiprompt := [[98]] } } : llama_client_slot).reset
      []).2.1.stopped_word = false ∧
    (process_tokens engine_bytes {} false [240, 98, 120, 121]
      ({ id := 0, params := { antiprompt := [[98]] } } : llama_client_slot).reset
      []).2.1.generated_text = [240, 98, 120, 121] ∧
    (process_tokens engine_bytes {} false [240, 98, 120, 121]
      ({ id := 0, params := { antiprompt := [[98]] } } : llama_client_slot).reset
      []).2.1.sent_count = 4 ∧
    (process_tokens engine_bytes {} false [97]
      ({ id := 0, params := { antiprompt := [[]] } } : llama_client_slot).reset []).1 = false ∧
    (process_tokens engine_bytes {} false [97]
      ({ id := 0, params := { antiprompt := [[]] } } : llama_client_slot).reset
      []).2.1.stopped_word = true ∧
    ([] : Str) <:+: (process_tokens engine_bytes {} false [97]
      ({ id := 0, params := { antiprompt := [[]] } } : llama_client_slot).reset
      []).2.1.generated_text := by
  refine ⟨⟨[97], [], by decide⟩, by decide, by decide, by decide,
    ⟨[240], [], by decide⟩, by decide, by decide, by decide, by decide, by decide,
    by decide, by decide, ⟨[], [], by decide⟩⟩

/-- C2 (amended): on a freshly reset slot whose stop words are not empty, let no stop word
occur in the text of the pieces `pre`, let the pieces `mid` after them leave
`multibyte_pending` off 0, so that the search is skipped, and let the next piece `t`
bring it to 0, the generation not having ended before. When the text then contains a stop
word, and a stop word occurs in the text before `t` at most as its end, so that it lies in
the search window, the call for `t` ends the generation with `stopped_word = true`; the
recorded `stopping_word` is a stop word that occurs at the leftmost position `n` at which
any stop word occurs, `generated_text` is the text cut at `n`, and no stop word occurs in
it. -/
theorem stop_word_ends_generation (env : Engine) (params : gpt_params) (mm : Bool)
    (pre mid : List llama_token) (t : llama_token) (rest : List llama_token)
    (slot : llama_client_slot)
    (hne : ∀ w ∈ slot.params.antiprompt, w ≠ [])
    (hpre : ∀ w ∈ slot.params.antiprompt, ¬ w <:+: pieces env pre)
    (hmid : ∀ k, 0 < k → k ≤ mid.length → pending_after env 0 (pre ++ mid.take k) ≠ 0)
    (hsync : pending_after env 0 (pre ++ mid ++ [t]) = 0)
    (hend : ∀ w ∈ slot.params.antiprompt, ∀ j,
      w <+: (pieces env (pre ++ mid)).drop j →
      (pieces env (pre ++ mid)).length ≤ j + w.length)
    (hrun : (process_tokens env params mm (pre ++ mid) slot.reset []).1 = true)
    (hocc : ∃ w ∈ slot.params.antiprompt, w <:+: pieces env (pre ++ mid ++ [t])) :
    (process_tokens env params mm (pre ++ mid ++ t :: rest) slot.reset []).1 = false ∧
    (process_tokens env params mm (pre ++ mid ++ t :: rest) slot.reset []).2.1.stopped_word =
      true ∧
    ∃ n,
      (process_tokens env params mm (pre ++ mid ++ t :: rest) slot.reset []).2.1.generated_text =
        (pieces env (pre ++ mid ++ [t])).take n ∧
      (process_tokens env params mm (pre ++ mid ++ t :: rest) slot.reset []).2.1.stopping_word ∈
        slot.params.antiprompt ∧
      (process_tokens env params mm (pre ++ mid ++ t :: rest) slot.reset []).2.1.stopping_word <+:
        (pieces env (pre ++ mid ++ [t])).drop n ∧
      (∀ w ∈ slot.params.antiprompt, ∀ j,
        w <+: (pieces env (pre ++ mid ++ [t])).drop j → n ≤ j) ∧
      (∀ w ∈ slot.params.antiprompt,
        ¬ w <:+: (process_tokens env params mm (pre ++ mid ++ t :: rest) slot.reset
          []).2.1.generated_text) := by
  have hpieces : pieces env (pre ++ mid ++ [t]) =
      pieces env (pre ++ mid) ++ env.llama_token_to_piece t := by
    rw [pieces_append (a := pre ++ mid), pieces_cons]
    simp [pieces]
  have hgen0 : slot.reset.generated_text = [] := rfl
  have hpar0 : slot.reset.params = slot.params := rfl
  have hpend0 : slot.reset.multibyte_pending = 0 := rfl
  obtain ⟨i1, i2, i3, i4, i5⟩ := process_tokens_before_stop env params mm (pre ++ mid)
    slot.reset [] (Nat.le_refl _)
    (by
      intro w _ m h1 h2 hsuf
      have h0 : slot.reset.generated_text.take slot.reset.sent_count = [] := rfl
      rw [h0] at hsuf
      have := hsuf.length_le
      rw [List.length_take, List.length_nil] at this
      omega)
    (by
      intro k hk hp w hw
      rw [hgen0, List.nil_append]
      rw [hpend0] at hp
      by_cases hkp : k + 1 ≤ pre.length
      · rw [List.take_append_of_le_length hkp]
        intro hin
        apply hpre w hw
        have hsplit : pieces env pre =
            pieces env (pre.take (k + 1)) ++ pieces env (pre.drop (k + 1)) := by
          rw [← pieces_append, List.take_append_drop]
        rw [hsplit]
        exact List.IsInfix.trans hin (List.prefix_append _ _).isInfix
      · exfalso
        have htake : (pre ++ mid).take (k + 1) = pre ++ mid.take (k + 1 - pre.length) := by
          rw [List.take_append_eq_append_take, List.take_of_length_le (by omega)]
        rw [htake] at hp
        simp only [List.length_append] at hk
        exact hmid (k + 1 - pre.length) (by omega) (by omega) hp)
    hrun
  rw [hgen0, List.nil_append] at i1 i4 i5
  rw [hpar0] at i3 i5
  rw [hpend0] at i2
  obtain ⟨s1, s2, n, s3, s4, s5, s6, s7⟩ := process_token_at_stop env params mm t
    (process_tokens env params mm (pre ++ mid) slot.reset []).2.1
    (process_tokens env params mm (pre ++ mid) slot.reset []).2.2
    (by rw [i3]; exact hne)
    (by
      rw [i2]
      rw [pending_after_append] at hsync
      exact hsync)
    (by rw [i1]; exact i4)
    (by rw [i1, i3]; exact i5)
    (by
      rw [i1, i3]
      intro w hw j hj
      by_cases hin : j + w.length ≤ (pieces env (pre ++ mid)).length
      · exact hend w hw j (occurrence_head_drop w _ _ j hj hin)
      · omega)
    (by rw [i1, i3, ← hpieces]; exact hocc)
  rw [i1, ← hpieces] at s3 s5 s6 s7
  rw [i3] at s4 s6 s7
  have hR : process_tokens env params mm (pre ++ mid ++ t :: rest) slot.reset [] =
      (false,
        (process_token env params mm { tok := t }
          (process_tokens env params mm (pre ++ mid) slot.reset []).2.1
          (process_tokens env params mm (pre ++ mid) slot.reset []).2.2).2.2.1,
        (process_token env params mm { tok := t }
          (process_tokens env params mm (pre ++ mid) slot.reset []).2.1
          (process_tokens env params mm (pre ++ mid) slot.reset []).2.2).2.2.2) := by
    rw [process_tokens_append env params mm (pre ++ mid) (t :: rest) slot.reset [] hrun]
    conv_lhs => unfold process_tokens
    simp only [s1, Bool.false_eq_true, if_false]
  rw [hR]
  refine ⟨rfl, s2, n, s3, s4, s5, s6, ?_⟩
  intro w hw
  show ¬ w <:+: (process_token env params mm { tok := t }
          (process_tokens env params mm (pre ++ mid) slot.reset []).2.1
          (process_tokens env params mm (pre ++ mid) slot.reset []).2.2).2.2.1.generated_text
  rw [s3]
  exact s7 w hw

/-- The stop word "b" does not occur in a text without the byte 98. -/
theorem stop_b_absent (text : Str) (h : 98 ∉ text) : ¬ [98] <:+: text := by
  rintro ⟨a, b, rfl⟩
  apply h
  simp

/-- C2 (witness): with the stop word "b" and the pieces "\xC3", "\xA9", "b", "c" the
generation ends at "b" with the text "é"; with the pieces "\xE2", "b", "c", "d" the search
is skipped at "b" and the generation ends at "c" with the text "\xE2". -/
theorem stop_word_ends_generation_witness :
    ((process_tokens engine_bytes {} false ([195, 169] ++ [] ++ 98 :: [99])
      ({ id := 0, params := { antiprompt := [[98]] } } : llama_client_slot).reset []).1 = false ∧
     (process_tokens engine_bytes {} false ([195, 169] ++ [] ++ 98 :: [99])
      ({ id := 0, params := { antiprompt := [[98]] } } : llama_client_slot).reset
      []).2.1.stopped_word = true ∧
     (process_tokens engine_bytes {} false ([195, 169] ++ [] ++ 98 :: [99])
      ({ id := 0, params := { antiprompt := [[98]] } } : llama_client_slot).reset
      []).2.1.generated_text = [195, 169]) ∧
    ((process_tokens engine_bytes {} false ([226] ++ [98] ++ 99 :: [100])
      ({ id := 0, params := { antiprompt := [[98]] } } : llama_client_slot).reset []).1 = false ∧
     (process_tokens engine_bytes {} false ([226] ++ [98] ++ 99 :: [100])
      ({ id := 0, params := { antiprompt := [[98]] } } : llama_client_slot).reset
      []).2.1.stopped_word = true ∧
     (process_tokens engine_bytes {} false ([226] ++ [98] ++ 99 :: [100])
      ({ id := 0, params := { antiprompt := [[98]] } } : llama_client_slot).reset
      []).2.1.generated_text = [226]) :=
  have ha := stop_word_ends_generation engine_bytes {} false [195, 169] [] 98 [99]
    { id := 0, params := { antiprompt := [[98]] } }
    (by decide)
    (by
      intro w hw
      simp only [List.mem_singleton] at hw
      subst hw
      exact stop_b_absent _ (by decide))
    (by
      intro k h1 h2
      simp only [List.length_nil] at h2
      omega)
    (by decide)
    (by
      intro w hw j hj
      simp only [List.mem_singleton] at hw
      subst hw
      exact absurd (infix_of_prefix_drop hj) (stop_b_absent _ (by decide)))
    (by decide) ⟨[98], List.mem_singleton_self _, [195, 169], [], by decide⟩
  have hb := stop_word_ends_generation engine_bytes {} false [226] [98] 99 [100]
    { id := 0, params := { antiprompt := [[98]] } }
    (by decide)
    (by
      intro w hw
      simp only [List.mem_singleton] at hw
      subst hw
      exact stop_b_absent _ (by decide))
    (by
      intro k h1 h2
      simp only [List.length_singleton] at h2
      have hk : k = 1 := by omega
      subst hk
      decide)
    (by decide)
    (by
      intro w hw j hj
      simp only [List.mem_singleton] at hw
      subst hw
      rcases j with _ | j
      · exfalso
        revert hj
        decide
      · have hl : (pieces engine_bytes ([226] ++ [98])).length = 2 := by decide
        rw [hl, List.length_singleton]
        omega)
    (by decide) ⟨[98], List.mem_singleton_self _, [226], [99], by decide⟩
  ⟨⟨ha.1, ha.2.1, by decide⟩, ⟨hb.1, hb.2.1, by decide⟩⟩


/-! ### The result queue -/

/-- The scan of `next_result`: it takes the first result with the id out of the queue. -/
theorem next_result_scan_spec (t : Int) : ∀ (q : List task_result), (∃ r ∈ q, r.id = t) →
    ∃ pre res post, q = pre ++ res :: post ∧ res.id = t ∧ (∀ r ∈ pre, r.id ≠ t) ∧
      next_result_scan t q = some (res, pre ++ post) := by
  intro q
  induction q with
  | nil => rintro ⟨r, hr, _⟩; cases hr
  | cons x q ih =>
    intro h
    by_cases hx : x.id = t
    · refine ⟨[], x, q, rfl, hx, ?_, ?_⟩
      · intro r hr
        cases hr
      · simp only [next_result_scan, hx, if_true, List.nil_append]
    · have hq : ∃ r ∈ q, r.id = t := by
        obtain ⟨r, hr, hrt⟩ := h
        rcases List.mem_cons.1 hr with rfl | hr
        · exact absurd hrt hx
        · exact ⟨r, hr, hrt⟩
      obtain ⟨pre, res, post, h1, h2, h3, h4⟩ := ih hq
      refine ⟨x :: pre, res, post, by rw [h1]; rfl, h2, ?_, ?_⟩
      · intro r hr
        rcases List.mem_cons.1 hr with rfl | hr
        · exact hx
        · exact h3 r hr
      · simp only [next_result_scan, hx, if_false, h4, List.cons_append]

theorem next_result_scan_filter (t : Int) (pre post : List task_result) (res : task_result)
    (hres : res.id = t) (hpre : ∀ r ∈ pre, r.id ≠ t) :
    (pre ++ res :: post).filter (fun r => decide (r.id = t)) =
      res :: (pre ++ post).filter (fun r => decide (r.id = t)) ∧
    (pre ++ res :: post).filter (fun r => !decide (r.id = t)) =
      (pre ++ post).filter (fun r => !decide (r.id = t)) := by
  have h1 : pre.filter (fun r => decide (r.id = t)) = [] := by
    rw [List.filter_eq_nil_iff]
    intro r hr
    simpa using hpre r hr
  constructor
  · rw [List.filter_append, List.filter_append, h1, List.filter_cons]
    simp [hres]
  · rw [List.filter_append, List.filter_append, List.filter_cons]
    simp [hres]

/-- Successive calls of `next_result`, one for each queued result with the id: they return
these results in queue order and leave the other results in their order. -/
theorem next_results_filter (t : Int) : ∀ (n : Nat) (srv : llama_server_context),
    (srv.queue_results.filter (fun r => decide (r.id = t))).length = n →
    next_results t n srv =
      some (srv.queue_results.filter (fun r => decide (r.id = t)),
        { srv with queue_results := srv.queue_results.filter (fun r => !decide (r.id = t)) }) := by
  intro n
  induction n with
  | zero =>
    intro srv h
    have h0 : srv.queue_results.filter (fun r => decide (r.id = t)) = [] :=
      List.length_eq_zero.1 h
    have h1 : srv.queue_results.filter (fun r => !decide (r.id = t)) = srv.queue_results := by
      rw [List.filter_eq_self]
      intro r hr
      rw [List.filter_eq_nil_iff] at h0
      simpa using h0 r hr
    simp only [next_results, h0, h1]
  | succ n ih =>
    intro srv h
    have hex : ∃ r ∈ srv.queue_results, r.id = t := by
      have hpos : 0 < (srv.queue_results.filter (fun r => decide (r.id = t))).length := by omega
      obtain ⟨r, hr⟩ := List.exists_mem_of_length_pos hpos
      rw [List.mem_filter] at hr
      exact ⟨r, hr.1, by simpa using hr.2⟩
    obtain ⟨pre, res, post, h1, h2, h3, h4⟩ := next_result_scan_spec t srv.queue_results hex
    obtain ⟨f1, f2⟩ := next_result_scan_filter t pre post res h2 h3
    rw [← h1] at f1 f2
    have hlen : (({ srv with queue_results := pre ++ post } : llama_server_context).queue_results.filter
        (fun r => decide (r.id = t))).length = n := by
      rw [f1] at h
      simpa using h
    have := ih { srv with queue_results := pre ++ post } hlen
    simp only [next_results, next_result, h4, this, f1, f2]

/-- C11: when the result queue holds a result with id `t`, `next_result t` returns the
first such result and takes exactly that element out of the queue, the others staying in
their order; and as many successive calls as there are results with id `t` return these
results in the order of the queue, whatever lies between them. -/
theorem next_result_earliest (srv : llama_server_context) (t : Int)
    (h : ∃ r ∈ srv.queue_results, r.id = t) :
    (∃ pre res post, srv.queue_results = pre ++ res :: post ∧ res.id = t ∧
      (∀ r ∈ pre, r.id ≠ t) ∧
      next_result srv t = some (res, { srv with queue_results := pre ++ post })) ∧
    next_results t (srv.queue_results.filter (fun r => decide (r.id = t))).length srv =
      some (srv.queue_results.filter (fun r => decide (r.id = t)),
        { srv with
          queue_results := srv.queue_results.filter (fun r => !decide (r.id = t)) }) := by
  refine ⟨?_, next_results_filter t _ srv rfl⟩
  obtain ⟨pre, res, post, h1, h2, h3, h4⟩ := next_result_scan_spec t srv.queue_results h
  refine ⟨pre, res, post, h1, h2, h3, ?_⟩
  simp only [next_result, h4]

/-- C11 (witness): two calls for task 1 on `server_results` return "a", then "b", and
leave the result of task 0. -/
theorem next_result_earliest_witness :
    next_results 1 2 server_results =
      some ([{ id := 1, stop := some false, error := false,
               result := .partial_response [97] 0 false none },
             { id := 1, stop := some false, error := false,
               result := .partial_response [98] 0 false none }],
        { server_results with
          queue_results :=
            [{ id := 0, stop := some false, error := false,
               result := .partial_response [120] 1 false none }] }) :=
  (next_result_earliest server_results 1 (by decide)).2


/-! ### Tasks without a slot, and the unary handler -/

/-- C12 (failing input): with the only slot busy and two completion requests queued,
`process_tasks` answers the first with "slot unavailable" and returns: the second request
is still in `queue_tasks`. -/
theorem process_tasks_leaves_queue :
    (run_ticks engine_bytes 4 1
      (request_completion server_ctx4 { prompt := some (.string [97]) } false false).1).map
      (fun srv =>
        ((process_tasks engine_bytes
          (request_completion
            (request_completion srv { prompt := some (.string [98]) } false false).1
            { prompt := some (.string [99]) } false false).1).queue_tasks.map
          (fun t => (t.id, t.type)),
         (process_tasks engine_bytes
          (request_completion
            (request_completion srv { prompt := some (.string [98]) } false false).1
            { prompt := some (.string [99]) } false false).1).queue_results.map
          (fun r => (r.id, r.result)))) =
      .ok ([(2, .COMPLETION_TASK)], [(1, .error_content msg_slot_unavailable)]) := by
  decide

/-- C14 (counterexample): a completion request that finds the only slot busy is answered
with an error result, which `next_result` delivers and for which `Predict` returns `OK`,
with no message set. -/
theorem predict_ok_on_error :
    ((run_ticks engine_bytes 4 1
      (request_completion server_ctx4 { prompt := some (.string [97]) } false false).1).bind
      (fun srv => run_ticks engine_bytes 4 1
        (request_completion srv { prompt := some (.string [98]) } false false).1)).map
      (fun srv => (next_result srv 1).map (fun p => (p.1.error, p.1.result))) =
      .ok (some (true, .error_content msg_slot_unavailable)) ∧
    ((run_ticks engine_bytes 4 1
      (request_completion server_ctx4 { prompt := some (.string [97]) } false false).1).bind
      (fun srv => run_ticks engine_bytes 4 1
        (request_completion srv { prompt := some (.string [98]) } false false).1)).map
      (fun srv => (next_result srv 1).map (fun p => Predict p.1)) =
      .ok (some (.ok (.OK, none))) := by
  decide

/-- C14 (amended): for every task result with `error = true` delivered to it, `Predict`
returns the status `OK` and sets no message in the reply. -/
theorem predict_error_status (result : task_result) (h : result.error = true) :
    Predict result = .ok (.OK, none) := by
  unfold Predict
  simp [h]

/-- C14 (witness): the result that `send_error` pushes for "slot unavailable". -/
theorem predict_error_status_witness :
    Predict { id := 1, stop := none, error := true,
              result := .error_content msg_slot_unavailable } = .ok (.OK, none) :=
  predict_error_status _ rfl


/-! ### The send counters -/

theorem find_stopping_strings_probs (text : Str) (n : Nat) (type : stop_type)
    (slot : llama_client_slot) :
    (find_stopping_strings text n type slot).2.generated_token_probs =
      slot.generated_token_probs ∧
    (find_stopping_strings text n type slot).2.sent_token_probs_index =
      slot.sent_token_probs_index := by
  have h := stop_frame_find_stopping_strings text n type slot
  constructor
  · have h1 := congrArg llama_client_slot.generated_token_probs h; exact h1
  · have h1 := congrArg llama_client_slot.sent_token_probs_index h; exact h1

theorem stop_search_probs (token_str : Str) (s : llama_client_slot) :
    (stop_search token_str s).2.2.2.generated_token_probs = s.generated_token_probs ∧
    (stop_search token_str s).2.2.2.sent_token_probs_index = s.sent_token_probs_index := by
  unfold stop_search
  simp only
  split
  · exact find_stopping_strings_probs _ _ _ _
  · obtain ⟨a1, a2⟩ := find_stopping_strings_probs
      (s.generated_text.drop (min s.sent_count s.generated_text.length)) token_str.length
      .STOP_PARTIAL
      (find_stopping_strings
        (s.generated_text.drop (min s.sent_count s.generated_text.length)) token_str.length
        .STOP_FULL s).2
    obtain ⟨b1, b2⟩ := find_stopping_strings_probs
      (s.generated_text.drop (min s.sent_count s.generated_text.length)) token_str.length
      .STOP_FULL s
    exact ⟨a1.trans b1, a2.trans b2⟩

theorem flush_text_probs (stop_pos : Option Nat) (full : Bool) (pos : Nat)
    (r : completion_token_output) (s : llama_client_slot) :
    (flush_text stop_pos full pos r s).2.generated_token_probs = s.generated_token_probs ∧
    (flush_text stop_pos full pos r s).2.sent_token_probs_index = s.sent_token_probs_index := by
  unfold flush_text
  split <;> exact ⟨rfl, rfl⟩

theorem add_token_string_probs (s : llama_client_slot) (r : completion_token_output) :
    s.generated_token_probs.length ≤ (s.add_token_string r).generated_token_probs.length ∧
    (s.add_token_string r).sent_token_probs_index = s.sent_token_probs_index := by
  unfold llama_client_slot.add_token_string
  split
  · exact ⟨Nat.le_refl _, rfl⟩
  · refine ⟨?_, rfl⟩
    simp only [List.length_append, List.length_singleton]
    omega

/-- The index `send_partial_response` leaves is inside `generated_token_probs`. -/
theorem send_partial_response_probs (env : Engine) (mm : Bool) (s : llama_client_slot)
    (r : completion_token_output)
    (h : s.sent_token_probs_index ≤ s.generated_token_probs.length) :
    (send_partial_response env mm s r).1.generated_token_probs = s.generated_token_probs ∧
    (send_partial_response env mm s r).1.sent_token_probs_index ≤
      s.generated_token_probs.length ∧
    (send_partial_response env mm s r).1.generated_text = s.generated_text ∧
    (send_partial_response env mm s r).1.sent_count = s.sent_count := by
  unfold send_partial_response
  split
  · refine ⟨rfl, ?_, rfl, rfl⟩
    exact Nat.min_le_right _ _
  · exact ⟨rfl, h, rfl, rfl⟩

theorem process_token_flush_probs (env : Engine) (mm : Bool) (token_str : Str)
    (result : completion_token_output) (s : llama_client_slot) (q : List task_result)
    (h : s.sent_token_probs_index ≤ s.generated_token_probs.length) :
    (process_token_flush env mm token_str result s q).2.1.sent_token_probs_index ≤
      (process_token_flush env mm token_str result s q).2.1.generated_token_probs.length := by
  obtain ⟨a1, a2⟩ := stop_search_probs token_str s
  obtain ⟨b1, b2⟩ := flush_text_probs (stop_search token_str s).1 (stop_search token_str s).2.1
    (stop_search token_str s).2.2.1 result (stop_search token_str s).2.2.2
  obtain ⟨c1, c2⟩ := add_token_string_probs
    (flush_text (stop_search token_str s).1 (stop_search token_str s).2.1
      (stop_search token_str s).2.2.1 result (stop_search token_str s).2.2.2).2
    (flush_text (stop_search token_str s).1 (stop_search token_str s).2.1
      (stop_search token_str s).2.2.1 result (stop_search token_str s).2.2.2).1
  rw [b1, a1] at c1
  rw [b2, a2] at c2
  unfold process_token_flush
  simp only
  split
  · obtain ⟨d1, d2, _⟩ := send_partial_response_probs env mm _
      (flush_text (stop_search token_str s).1 (stop_search token_str s).2.1
        (stop_search token_str s).2.2.1 result (stop_search token_str s).2.2.2).1
      (by rw [c2]; omega)
    rw [d1]
    exact d2
  · show (llama_client_slot.add_token_string _ _).sent_token_probs_index ≤
      (llama_client_slot.add_token_string _ _).generated_token_probs.length
    rw [c2]
    omega

theorem process_token_flush_sent (env : Engine) (mm : Bool) (token_str : Str)
    (result : completion_token_output) (s : llama_client_slot) (q : List task_result)
    (hn : s.has_next_token = true) (h : s.sent_count ≤ s.generated_text.length) :
    (process_token_flush env mm token_str result s q).2.1.sent_count ≤
      (process_token_flush env mm token_str result s q).2.1.generated_text.length := by
  have hmin : min s.sent_count s.generated_text.length = s.sent_count := by omega
  obtain ⟨_, _, _, c4⟩ := process_token_flush_cases env mm token_str result s q
    s.sent_count (s.generated_text.drop s.sent_count) _ hn hmin.symm rfl rfl
  rcases c4 with ⟨p, w, _, _, _, _, e2, _, _, e5, _⟩ | ⟨_, _, e2, _, _, e5⟩
  · rw [e2, e5, List.length_take]
    omega
  · rcases e5 with ⟨f1, _⟩ | ⟨_, f1, _⟩
    · rw [e2, f1]; exact h
    · rw [e2, f1, List.length_drop]; omega

/-- C15: `sent_count ≤ |generated_text|` and
`sent_token_probs_index ≤ |generated_token_probs|` hold after `reset`, and every call of
`process_token` and of `send_partial_response` on a slot of which they hold leaves a slot
of which they hold. -/
theorem sent_counters_in_range :
    (∀ s : llama_client_slot,
      s.reset.sent_count ≤ s.reset.generated_text.length ∧
      s.reset.sent_token_probs_index ≤ s.reset.generated_token_probs.length) ∧
    (∀ (env : Engine) (params : gpt_params) (mm : Bool) (result : completion_token_output)
      (slot : llama_client_slot) (q : List task_result),
      slot.sent_count ≤ slot.generated_text.length →
      slot.sent_token_probs_index ≤ slot.generated_token_probs.length →
      (process_token env params mm result slot q).2.2.1.sent_count ≤
        (process_token env params mm result slot q).2.2.1.generated_text.length ∧
      (process_token env params mm result slot q).2.2.1.sent_token_probs_index ≤
        (process_token env params mm result slot q).2.2.1.generated_token_probs.length) ∧
    (∀ (env : Engine) (mm : Bool) (slot : llama_client_slot) (tkn : completion_token_output),
      slot.sent_count ≤ slot.generated_text.length →
      slot.sent_token_probs_index ≤ slot.generated_token_probs.length →
      (send_partial_response env mm slot tkn).1.sent_count ≤
        (send_partial_response env mm slot tkn).1.generated_text.length ∧
      (send_partial_response env mm slot tkn).1.sent_token_probs_index ≤
        (send_partial_response env mm slot tkn).1.generated_token_probs.length) := by
  refine ⟨fun s => ⟨Nat.le_refl _, Nat.le_refl _⟩, ?_, ?_⟩
  · intro env params mm result slot q h1 h2
    obtain ⟨F, hF, hs, hp⟩ : ∃ F : llama_client_slot,
        tail_frame (process_token env params mm result slot q).2.2.1 = tail_frame F ∧
        F.sent_count ≤ F.generated_text.length ∧
        F.sent_token_probs_index ≤ F.generated_token_probs.length := by
      unfold process_token
      simp only
      split
      · refine ⟨(process_token_flush env mm (env.llama_token_to_piece result.tok) result
          (append_piece result.tok (env.llama_token_to_piece result.tok) slot) q).2.1,
          ?_, ?_, ?_⟩
        · rw [tail_frame_check_eos, tail_frame_check_limit, tail_frame_pending_override]
        · apply process_token_flush_sent _ _ _ _ _ _ rfl
          show slot.sent_count ≤ (slot.generated_text ++ _).length
          rw [List.length_append]
          omega
        · exact process_token_flush_probs _ _ _ _ _ _ h2
      · refine ⟨append_piece result.tok (env.llama_token_to_piece result.tok) slot, ?_, ?_, h2⟩
        · rw [tail_frame_check_eos, tail_frame_check_limit, tail_frame_pending_override]
        · show slot.sent_count ≤ (slot.generated_text ++ _).length
          rw [List.length_append]
          omega
    have t1 : (process_token env params mm result slot q).2.2.1.sent_count = F.sent_count := by
      have h := congrArg llama_client_slot.sent_count hF; exact h
    have t2 : (process_token env params mm result slot q).2.2.1.generated_text =
        F.generated_text := by
      have h := congrArg llama_client_slot.generated_text hF; exact h
    have t3 : (process_token env params mm result slot q).2.2.1.sent_token_probs_index =
        F.sent_token_probs_index := by
      have h := congrArg llama_client_slot.sent_token_probs_index hF; exact h
    have t4 : (process_token env params mm result slot q).2.2.1.generated_token_probs =
        F.generated_token_probs := by
      have h := congrArg llama_client_slot.generated_token_probs hF; exact h
    rw [t1, t2, t3, t4]
    exact ⟨hs, hp⟩
  · intro env mm slot tkn h1 h2
    obtain ⟨d1, d2, d3, d4⟩ := send_partial_response_probs env mm slot tkn h2
    rw [d1, d3, d4]
    exact ⟨h1, d2⟩

/-- C15 (witness): the call of `process_token` on `slot_stop_ab` for the piece "a". -/
theorem sent_counters_in_range_witness :
    (process_token engine_bytes {} false { tok := 97 } slot_stop_ab []).2.2.1.sent_count ≤
      (process_token engine_bytes {} false { tok := 97 } slot_stop_ab []).2.2.1.generated_text.length ∧
    (process_token engine_bytes {} false { tok := 97 } slot_stop_ab []).2.2.1.sent_token_probs_index ≤
      (process_token engine_bytes {} false { tok := 97 } slot_stop_ab
        []).2.2.1.generated_token_probs.length :=
  sent_counters_in_range.2.1 engine_bytes {} false { tok := 97 } slot_stop_ab []
    (by decide) (by decide)


/-! ### A released slot with a stale batch index -/

/-- C16 (failing input): at the start of the tick, in `server_stale_batch`, slot 1 is bound
to task 3 with `command = RELEASE`, and its `i_batch = 3` is left from the tick in which
the embedding branch returned early; no partial result is queued. The tick puts the four
prompt tokens of task 4 into the batch, sets the slot to Idle and, as index 3 is in the
batch, samples a token for it: the partial result "e" is pushed for task 3. -/
theorem released_slot_sampled :
    server_stale_batch.map (fun srv =>
      srv.slots.map (fun s => (s.task_id, s.state, s.command, s.i_batch))) =
      .ok [(0, .IDLE, .NONE, -1), (3, .IDLE, .RELEASE, 3)] ∧
    server_stale_batch.map partial_results = .ok [] ∧
    (server_stale_batch.bind (update_slots engine_bytes 4)).map (fun r =>
      r.2.slots.map (fun s => (s.task_id, s.state, s.command, s.i_batch))) =
      .ok [(4, .PROCESSING, .NONE, -1), (3, .IDLE, .NONE, -1)] ∧
    (server_stale_batch.bind (update_slots engine_bytes 4)).map (fun r =>
      partial_results r.2) = .ok [(4, [100]), (3, [101])] := by
  refine ⟨by decide, by decide, by decide, by decide⟩


/-! ### The budget -/

/-- C17 (counterexample): with `params.n_predict = -2`, a global `n_predict = 5` and
`n_decoded = 0`, `has_budget` sets `n_remaining = -2` and returns `false`, where the
global budget would give `n_remaining = 5` and `true`; and with
`params.n_predict = -2147483648` and `n_decoded = 1` the int32 subtraction wraps around:
`n_remaining = 2147483647`, where the global budget would give 4. -/
theorem has_budget_negative_n_predict :
    ((({ id := 0, params := { n_predict := -2 }, n_decoded := 0 } : llama_client_slot).has_budget
      { n_predict := 5 }).1.n_remaining = -2) ∧
    (({ id := 0, params := { n_predict := -2 }, n_decoded := 0 } : llama_client_slot).has_budget
      { n_predict := 5 }).2 = false ∧
    ((({ id := 0, params := { n_predict := -2147483648 }, n_decoded := 1 } :
      llama_client_slot).has_budget { n_predict := 5 }).1.n_remaining = 2147483647) ∧
    (({ id := 0, params := { n_predict := -2147483648 }, n_decoded := 1 } :
      llama_client_slot).has_budget { n_predict := 5 }).2 = true := by
  refine ⟨by decide, by decide, by decide, by decide⟩

/-- C17 (amended): `has_budget` sets `n_remaining` to `params.n_predict - n_decoded` if
`params.n_predict ≠ -1`, else to `global.n_predict - n_decoded` if `global.n_predict ≠ -1`,
else to `-1`, the differences being taken in int32: `int32_t x` lies in `[-2^31, 2^31)`, is
congruent to `x` modulo 2^32, and is `x` when `x` lies in that range. It changes nothing
else and returns `true` iff `n_remaining > 0` or `n_remaining = -1`. So for int32 values
`n_predict ≥ -1` and `n_decoded ≥ 0` the tests are those for `≥ 0` and the differences are
exact. -/
theorem has_budget_remaining (slot : llama_client_slot) (global_params : gpt_params) :
    (slot.has_budget global_params).1 =
      { slot with
        n_remaining :=
          if slot.params.n_predict ≠ -1 then int32_t (slot.params.n_predict - slot.n_decoded)
          else if global_params.n_predict ≠ -1 then
            int32_t (global_params.n_predict - slot.n_decoded)
          else -1 } ∧
    ((slot.has_budget global_params).2 = true ↔
      ((slot.has_budget global_params).1.n_remaining > 0 ∨
        (slot.has_budget global_params).1.n_remaining = -1)) ∧
    (∀ x : Int, -2147483648 ≤ int32_t x ∧ int32_t x ≤ 2147483647 ∧
      (int32_t x - x) % 4294967296 = 0 ∧
      (-2147483648 ≤ x → x ≤ 2147483647 → int32_t x = x)) ∧
    (-1 ≤ slot.params.n_predict → slot.params.n_predict ≤ 2147483647 →
      -1 ≤ global_params.n_predict → global_params.n_predict ≤ 2147483647 →
      0 ≤ slot.n_decoded → slot.n_decoded ≤ 2147483647 →
      (slot.has_budget global_params).1.n_remaining =
        if 0 ≤ slot.params.n_predict then slot.params.n_predict - slot.n_decoded
        else if 0 ≤ global_params.n_predict then global_params.n_predict - slot.n_decoded
        else -1) := by
  refine ⟨rfl, ?_, ?_, ?_⟩
  · simp only [llama_client_slot.has_budget, decide_eq_true_eq]
  · intro x
    unfold int32_t
    refine ⟨by omega, by omega, by omega, fun h1 h2 => by omega⟩
  · intro h1 h1' h2 h2' h3 h3'
    simp only [llama_client_slot.has_budget]
    by_cases hp : slot.params.n_predict = -1
    · have hp' : ¬ (0 ≤ slot.params.n_predict) := by omega
      simp only [hp, ne_eq, not_true_eq_false, if_false]
      by_cases hg : global_params.n_predict = -1
      · simp [hg]
      · have hg' : 0 ≤ global_params.n_predict := by omega
        rw [int32_t_of_range _ (by omega) (by omega)]
        simp [hg, hg']
    · have hp' : 0 ≤ slot.params.n_predict := by omega
      rw [int32_t_of_range _ (by omega) (by omega)]
      simp [hp, hp']

/-- C17 (witness): `params.n_predict = -1` and a global `n_predict = 5` with
`n_decoded = 2` give `n_remaining = 3`. -/
theorem has_budget_remaining_witness :
    (({ id := 0, n_decoded := 2 } : llama_client_slot).has_budget
      { n_predict := 5 }).1.n_remaining = 3 ∧
    (({ id := 0, n_decoded := 2 } : llama_client_slot).has_budget { n_predict := 5 }).2 = true :=
  ⟨((has_budget_remaining { id := 0, n_decoded := 2 } { n_predict := 5 }).2.2.2
      (by decide) (by decide) (by decide) (by decide) (by decide) (by decide)).trans
      (by decide),
    (has_budget_remaining { id := 0, n_decoded := 2 } { n_predict := 5 }).2.1.2
      (Or.inl (by decide))⟩


/-! ### Truncation of a prompt that does not fit -/

/-- The arithmetic of the truncation: with `B` the block size and `E` the number of blocks
erased, the erased blocks lie inside the prompt and what is left is `k + B` tokens and a
rest shorter than a block. -/
theorem erased_blocks_bounds (k c N : Nat) (h4 : k + 4 ≤ c) (hN : c ≤ N) :
    0 < (c - k) / 2 ∧ k + (c - k) / 2 ≤ N ∧
    k + (N - k - (c - k) / 2) / ((c - k) / 2) * ((c - k) / 2) ≤ N ∧
    N - (N - k - (c - k) / 2) / ((c - k) / 2) * ((c - k) / 2) =
      k + (c - k) / 2 + (N - k - (c - k) / 2) % ((c - k) / 2) ∧
    (N - k - (c - k) / 2) % ((c - k) / 2) < (c - k) / 2 := by
  have hB : 0 < (c - k) / 2 := by omega
  have hmod := Nat.div_add_mod (N - k - (c - k) / 2) ((c - k) / 2)
  have hlt := Nat.mod_lt (N - k - (c - k) / 2) hB
  rw [Nat.mul_comm] at hmod
  refine ⟨hB, by omega, by omega, by omega, hlt⟩

/-- The truncation of lines 1577-1597 on a slot with `0 ≤ n_keep ≤ n_ctx - 4` and a prompt
of at least `n_ctx` tokens: no index is out of range, the assertion holds, and the tokens
are the first `n_keep` and those after the erased blocks. -/
theorem truncate_prompt_eq (slot : llama_client_slot) (toks : List llama_token) (k c : Nat)
    (hk : slot.params.n_keep = k) (hc : slot.n_ctx = c)
    (hnum : slot.num_prompt_tokens = toks.length)
    (h4 : k + 4 ≤ c) (hN : c ≤ toks.length) :
    truncate_prompt slot toks =
      .ok ({ slot with
          truncated := true
          num_prompt_tokens :=
            ((toks.take k ++ toks.drop
              (k + (toks.length - k - (c - k) / 2) / ((c - k) / 2) * ((c - k) / 2))).length : Nat) },
        toks.take k ++ toks.drop
          (k + (toks.length - k - (c - k) / 2) / ((c - k) / 2) * ((c - k) / 2))) := by
  obtain ⟨hB, hkB, hskip, hleft, hlt⟩ := erased_blocks_bounds k c toks.length h4 hN
  have hb : ((slot.n_ctx : Int) - (k : Int)).tdiv 2 = (((c - k) / 2 : Nat) : Int) := by
    rw [hc, Int.tdiv_eq_ediv (by omega) (by omega)]
    omega
  have he : (slot.num_prompt_tokens - (k : Int) - (((c - k) / 2 : Nat) : Int)).tdiv
      (((c - k) / 2 : Nat) : Int) =
      (((toks.length - k - (c - k) / 2) / ((c - k) / 2) : Nat) : Int) := by
    have hsub : slot.num_prompt_tokens - (k : Int) - (((c - k) / 2 : Nat) : Int) =
        ((toks.length - k - (c - k) / 2 : Nat) : Int) := by
      rw [hnum]
      omega
    rw [hsub, Int.tdiv_eq_ediv (by omega) (by omega)]
    exact (Int.natCast_div _ _).symm
  have hskipInt : (k : Int) +
      (((toks.length - k - (c - k) / 2) / ((c - k) / 2) : Nat) : Int) *
        (((c - k) / 2 : Nat) : Int) =
      ((k + (toks.length - k - (c - k) / 2) / ((c - k) / 2) * ((c - k) / 2) : Nat) : Int) := by
    push_cast
    rfl
  have hb0 : ¬ ((((c - k) / 2 : Nat) : Int) = 0) := by omega
  have hbounds : ¬ ((k : Int) < 0 ∨ (k : Int) > (toks.length : Int) ∨
      ((k + (toks.length - k - (c - k) / 2) / ((c - k) / 2) * ((c - k) / 2) : Nat) : Int) < 0 ∨
      ((k + (toks.length - k - (c - k) / 2) / ((c - k) / 2) * ((c - k) / 2) : Nat) : Int) >
        (toks.length : Int)) := by
    omega
  have hlen : (((toks.take k ++ toks.drop
      (k + (toks.length - k - (c - k) / 2) / ((c - k) / 2) * ((c - k) / 2))).length : Nat) : Int) <
      slot.n_ctx := by
    rw [hc, List.length_append, List.length_take, List.length_drop]
    omega
  unfold truncate_prompt
  simp only [hk, hb, he, hskipInt, hb0, if_false, hbounds, Int.toNat_ofNat, hlen, if_true]

/-- C18: on a slot with `n_ctx ≥ 4` and `cache_prompt` on, whatever `n_keep` was
requested, the preparation of a prompt of at least `n_ctx` tokens completes (no index is
out of range and the assertion after the truncation holds) with fewer than `n_ctx` tokens
and `truncated` set. -/
theorem truncation_fits (slot : llama_client_slot) (toks : List llama_token)
    (hctx : 4 ≤ slot.n_ctx) (hcp : slot.params.cache_prompt = true)
    (hnum : slot.num_prompt_tokens = toks.length)
    (hN : slot.n_ctx ≤ (toks.length : Int)) :
    ∃ slot' toks', prepare_slot slot toks = .ok (slot', toks') ∧
      (toks'.length : Int) < slot.n_ctx ∧ slot'.truncated = true ∧
      slot'.num_prompt_tokens = toks'.length := by
  obtain ⟨c, hc⟩ := Int.eq_ofNat_of_zero_le (show 0 ≤ slot.n_ctx by omega)
  have hclamp0 : 0 ≤ (clamp_n_keep slot).params.n_keep ∧
      (clamp_n_keep slot).params.n_keep + 4 ≤ slot.n_ctx := by
    simp only [clamp_n_keep]
    split <;> omega
  obtain ⟨k, hk⟩ := Int.eq_ofNat_of_zero_le hclamp0.1
  have hc' : (clamp_n_keep slot).n_ctx = c := hc
  have hnum' : (clamp_n_keep slot).num_prompt_tokens = toks.length := hnum
  have htr := truncate_prompt_eq (clamp_n_keep slot) toks k c hk hc' hnum'
    (by have := hclamp0.2; rw [hk, hc] at this; omega) (by rw [hc] at hN; omega)
  have hfit : fit_prompt (clamp_n_keep slot) toks = truncate_prompt (clamp_n_keep slot) toks := by
    unfold fit_prompt
    rw [if_pos]
    rw [hnum', hc', ← hc]
    exact hN
  obtain ⟨_, a2⟩ := truncate_prompt_effect _ _ _ _ htr
  have hprep : prepare_slot slot toks = prepare_cached_prompt slot toks := by
    unfold prepare_slot
    rw [if_neg (by rw [hcp]; decide)]
  unfold prepare_cached_prompt at hprep
  rw [hfit, htr] at hprep
  exact ⟨_, _, hprep, a2, rfl, rfl⟩

/-- C18 (witness): a prompt of six tokens on a slot with `n_ctx = 5`; two tokens are
left. -/
theorem truncation_fits_witness :
    ∃ slot' toks',
      prepare_slot
        { id := 0, n_ctx := 5, params := { cache_prompt := true }, num_prompt_tokens := 6 }
        [1, 2, 3, 4, 5, 6] = .ok (slot', toks') ∧
      (toks'.length : Int) <
        ({ id := 0, n_ctx := 5, params := { cache_prompt := true }, num_prompt_tokens := 6 } :
          llama_client_slot).n_ctx ∧
      slot'.truncated = true ∧ slot'.num_prompt_tokens = toks'.length :=
  truncation_fits
    { id := 0, n_ctx := 5, params := { cache_prompt := true }, num_prompt_tokens := 6 }
    [1, 2, 3, 4, 5, 6] (by decide) rfl rfl (by decide)

/-- C19 (counterexample): with `n_ctx = 5`, `n_keep = 0` and `cache_prompt` on the block
size is 2; of a prompt of six tokens two blocks are erased and the last two tokens are
left, while the prompt without one block, `[3, 4, 5, 6]`, has four tokens, fewer than
`n_ctx`: the smallest number of blocks that makes the prompt fit is 1, not 2. -/
theorem truncation_erases_more :
    (prepare_slot
      { id := 0, n_ctx := 5, params := { n_keep := 0, cache_prompt := true },
        num_prompt_tokens := 6 }
      [1, 2, 3, 4, 5, 6]).map (fun r => r.2) = .ok [5, 6] ∧
    ([1, 2, 3, 4, 5, 6] : List llama_token).take 0 ++
      ([1, 2, 3, 4, 5, 6] : List llama_token).drop (0 + 1 * ((5 - 0) / 2)) = [3, 4, 5, 6] ∧
    ([3, 4, 5, 6] : List llama_token).length < 5 := by
  refine ⟨by decide, by decide, by decide⟩

/-- C19 (amended): for a prompt of `N ≥ n_ctx` tokens on a slot with
`0 ≤ n_keep ≤ n_ctx - 4`, with `b = (n_ctx - n_keep) / 2` and `k = (N - n_keep - b) / b`,
the truncated prompt is `prompt[0 .. n_keep)` followed by `prompt[n_keep + k·b ..)`; it has
`n_keep + b + (N - n_keep) mod b` tokens, and `k` is the smallest number of whole blocks
whose removal leaves fewer than `n_keep + 2·b` tokens, which is `n_ctx` when
`n_ctx - n_keep` is even and `n_ctx - 1` when it is odd. -/
theorem truncation_shape (slot : llama_client_slot) (toks : List llama_token) (k c : Nat)
    (hk : slot.params.n_keep = k) (hc : slot.n_ctx = c)
    (hcp : slot.params.cache_prompt = true)
    (hnum : slot.num_prompt_tokens = toks.length)
    (h4 : k + 4 ≤ c) (hN : c ≤ toks.length) :
    (prepare_slot slot toks).map (fun r => r.2) =
      .ok (toks.take k ++ toks.drop
        (k + (toks.length - k - (c - k) / 2) / ((c - k) / 2) * ((c - k) / 2))) ∧
    (toks.take k ++ toks.drop
        (k + (toks.length - k - (c - k) / 2) / ((c - k) / 2) * ((c - k) / 2))).length =
      k + (c - k) / 2 + (toks.length - k) % ((c - k) / 2) ∧
    toks.length - (toks.length - k - (c - k) / 2) / ((c - k) / 2) * ((c - k) / 2) <
      k + 2 * ((c - k) / 2) ∧
    (∀ e, e < (toks.length - k - (c - k) / 2) / ((c - k) / 2) →
      k + 2 * ((c - k) / 2) ≤ toks.length - e * ((c - k) / 2)) ∧
    ((c - k) % 2 = 0 → k + 2 * ((c - k) / 2) = c) ∧
    ((c - k) % 2 = 1 → k + 2 * ((c - k) / 2) + 1 = c) := by
  obtain ⟨hB, hkB, hskip, hleft, hlt⟩ := erased_blocks_bounds k c toks.length h4 hN
  have hk' : (clamp_n_keep slot).params.n_keep = k := by
    simp only [clamp_n_keep]
    rw [if_neg (by omega), hk, hc]
    omega
  have htr := truncate_prompt_eq (clamp_n_keep slot) toks k c hk' hc hnum h4 hN
  have hfit : fit_prompt (clamp_n_keep slot) toks =
      truncate_prompt (clamp_n_keep slot) toks := by
    unfold fit_prompt
    rw [if_pos]
    have e1 : (clamp_n_keep slot).num_prompt_tokens = toks.length := hnum
    have e2 : (clamp_n_keep slot).n_ctx = c := hc
    rw [e1, e2]
    omega
  have hprep : prepare_slot slot toks = prepare_cached_prompt slot toks := by
    unfold prepare_slot
    rw [if_neg (by rw [hcp]; decide)]
  unfold prepare_cached_prompt at hprep
  rw [hfit, htr] at hprep
  have hmodeq : (toks.length - k - (c - k) / 2) % ((c - k) / 2) =
      (toks.length - k) % ((c - k) / 2) := by
    have : toks.length - k = (toks.length - k - (c - k) / 2) + (c - k) / 2 := by omega
    conv_rhs => rw [this]
    rw [Nat.add_mod_right]
  refine ⟨?_, ?_, by omega, ?_, by omega, by omega⟩
  · rw [hprep]
    rfl
  · rw [List.length_append, List.length_take, List.length_drop, ← hmodeq]
    omega
  · intro e he
    have h1 : (e + 1) * ((c - k) / 2) ≤
        (toks.length - k - (c - k) / 2) / ((c - k) / 2) * ((c - k) / 2) :=
      Nat.mul_le_mul_right _ (by omega)
    have h2 := Nat.div_mul_le_self (toks.length - k - (c - k) / 2) ((c - k) / 2)
    rw [Nat.add_mul, Nat.one_mul] at h1
    omega

/-- C19 (witness): `n_ctx = 8`, `n_keep = 2` and a prompt of ten tokens: the block size is
3, one block is erased and seven tokens are left. -/
theorem truncation_shape_witness :
    (prepare_slot
      { id := 0, n_ctx := 8, params := { n_keep := 2, cache_prompt := true },
        num_prompt_tokens := 10 }
      [1, 2, 3, 4, 5, 6, 7, 8, 9, 10]).map (fun r => r.2) = .ok [1, 2, 6, 7, 8, 9, 10] :=
  (truncation_shape
    { id := 0, n_ctx := 8, params := { n_keep := 2, cache_prompt := true },
      num_prompt_tokens := 10 }
    [1, 2, 3, 4, 5, 6, 7, 8, 9, 10] 2 8 rfl rfl rfl rfl (by decide) (by decide)).1


theorem take_succ_set {α : Type} (l : List α) (k : Nat) (a : α) (h : k < l.length) :
    (l.set k a).take (k + 1) = l.take k ++ [a] := by
  induction l generalizing k with
  | nil => simp at h
  | cons x l ih =>
    cases k with
    | zero => simp
    | succ k =>
      simp only [List.length_cons] at h
      simp [List.set, ih k (by omega)]

theorem drop_set_lt {α : Type} (l : List α) (k m : Nat) (a : α) (h : k < m) :
    (l.set k a).drop m = l.drop m := by
  induction l generalizing k m with
  | nil => simp
  | cons x l ih =>
    cases m with
    | zero => omega
    | succ m =>
      cases k with
      | zero => simp
      | succ k => simp [List.set, ih k m (by omega)]

theorem drop_eq_getD_cons {α : Type} (l : List α) (i : Nat) (a : α) (h : i < l.length) :
    l.drop i = l.getD i a :: l.drop (i + 1) := by
  induction l generalizing i with
  | nil => simp at h
  | cons x l ih =>
    cases i with
    | zero => simp
    | succ i =>
      simp only [List.length_cons] at h
      simpa using ih i (by omega)

/-- The compaction loop with a non-negative `n_discard`, run up to the end of the vector:
the elements from `i` on are moved `n_discard` places down. -/
theorem context_shift_loop_moves (d : Nat) :
    ∀ (n i : Nat) (v : List llama_token), d ≤ i → i + n = v.length →
      ∃ v', context_shift_loop (d : Int) n i v = .ok v' ∧ v'.length = v.length ∧
        v'.take (i - d + n) = v.take (i - d) ++ v.drop i := by
  intro n
  induction n with
  | zero =>
    intro i v _ hlen
    refine ⟨v, rfl, rfl, ?_⟩
    rw [List.drop_of_length_le (by omega)]
    simp
  | succ n ih =>
    intro i v hd hlen
    have htarget : (0 : Int) ≤ (i : Int) - (d : Int) ∧ (i : Int) - (d : Int) < (v.length : Int) := by
      omega
    have hnat : ((i : Int) - (d : Int)).toNat = i - d := by omega
    simp only [context_shift_loop, htarget, and_self, if_true, hnat]
    obtain ⟨v', h1, h2, h3⟩ := ih (i + 1) (v.set (i - d) (v.getD i 0)) (by omega)
      (by simp only [List.length_set]; omega)
    refine ⟨v', h1, by simpa using h2, ?_⟩
    have hidx : i - d + (n + 1) = i + 1 - d + n := by omega
    have hidx2 : i + 1 - d = i - d + 1 := by omega
    rw [hidx, h3, hidx2, take_succ_set v (i - d) _ (by omega),
      drop_set_lt v (i - d) (i + 1) _ (by omega), drop_eq_getD_cons v i 0 (by omega)]
    simp

/-- C20: when the context shift fires on a slot with `0 ≤ n_keep` and
`n_keep + 1 ≤ n_past ≤ |cache_tokens|`, it completes; with
`n_discard = (n_past - n_keep - 1) / 2`, the new `cache_tokens` is the old
`[0 .. n_keep + 1)` followed by the old `[n_keep + 1 + n_discard ..)`, its length and
`n_past` have gone down by `n_discard`, and `truncated` is set. -/
theorem context_shift_compacts (slot : llama_client_slot)
    (hfire : context_shift_fires slot = true)
    (h0 : 0 ≤ slot.params.n_keep) (h1 : slot.params.n_keep + 1 ≤ slot.n_past)
    (h2 : slot.n_past ≤ (slot.cache_tokens.length : Int)) :
    ∃ slot', update_slots_shift slot = .ok slot' ∧
      slot'.cache_tokens =
        slot.cache_tokens.take (slot.params.n_keep.toNat + 1) ++
          slot.cache_tokens.drop (slot.params.n_keep.toNat + 1 +
            ((slot.n_past - slot.params.n_keep - 1).tdiv 2).toNat) ∧
      (slot'.cache_tokens.length : Int) =
        slot.cache_tokens.length - (slot.n_past - slot.params.n_keep - 1).tdiv 2 ∧
      slot'.n_past = slot.n_past - (slot.n_past - slot.params.n_keep - 1).tdiv 2 ∧
      slot'.truncated = true := by
  obtain ⟨K, hK⟩ := Int.eq_ofNat_of_zero_le h0
  obtain ⟨P, hP⟩ := Int.eq_ofNat_of_zero_le (show 0 ≤ slot.n_past by omega)
  have hdiv : (slot.n_past - slot.params.n_keep - 1).tdiv 2 = ((P - K - 1) / 2 : Nat) := by
    rw [Int.tdiv_eq_ediv (by omega) (by omega)]
    omega
  have hKtoNat : slot.params.n_keep.toNat = K := by omega
  have hstart : ¬ (slot.params.n_keep + 1 + (((P - K - 1) / 2 : Nat) : Int) < 0) := by omega
  have hstartNat : (slot.params.n_keep + 1 + (((P - K - 1) / 2 : Nat) : Int)).toNat =
      K + 1 + (P - K - 1) / 2 := by omega
  have hPlen : P ≤ slot.cache_tokens.length := by omega
  have hKP : K + 1 ≤ P := by omega
  obtain ⟨v', e1, e2, e3⟩ := context_shift_loop_moves ((P - K - 1) / 2)
    (slot.cache_tokens.length - (K + 1 + (P - K - 1) / 2)) (K + 1 + (P - K - 1) / 2)
    slot.cache_tokens (by omega) (by omega)
  have hsize : ¬ ((v'.length : Int) - (((P - K - 1) / 2 : Nat) : Int) < 0) := by omega
  have hsizeNat : ((v'.length : Int) - (((P - K - 1) / 2 : Nat) : Int)).toNat =
      v'.length - (P - K - 1) / 2 := by omega
  have hidx : K + 1 + (P - K - 1) / 2 - (P - K - 1) / 2 +
      (slot.cache_tokens.length - (K + 1 + (P - K - 1) / 2)) =
      v'.length - (P - K - 1) / 2 := by omega
  have hidx2 : K + 1 + (P - K - 1) / 2 - (P - K - 1) / 2 = K + 1 := by omega
  rw [hidx, hidx2] at e3
  have hrep : v'.length - (P - K - 1) / 2 - v'.length = 0 := by omega
  have hres : v'.take (v'.length - (P - K - 1) / 2) ++
      List.replicate (v'.length - (P - K - 1) / 2 - v'.length) 0 =
      slot.cache_tokens.take (K + 1) ++ slot.cache_tokens.drop (K + 1 + (P - K - 1) / 2) := by
    rw [hrep, e3]
    simp
  refine ⟨{ slot with
      cache_tokens := v'.take (v'.length - (P - K - 1) / 2) ++
        List.replicate (v'.length - (P - K - 1) / 2 - v'.length) 0
      n_past := slot.n_past - (((P - K - 1) / 2 : Nat) : Int)
      truncated := true }, ?_, ?_, ?_, ?_, rfl⟩
  · simp only [update_slots_shift, hfire, if_true, context_shift, hdiv, hstart, if_false,
      hstartNat, e1, resize_cache, hsize, hsizeNat]
  · simp only [hKtoNat, hdiv, Int.toNat_ofNat]
    exact hres
  · simp only [hdiv]
    rw [hres, List.length_append, List.length_take, List.length_drop]
    omega
  · simp only [hdiv]

/-- C20 (witness): on `slot_full` (`n_keep = 2`, `n_past = 7`, eight cached tokens) two
tokens are discarded: `[1, 11, 12, 13, 14, 15, 16, 17]` becomes `[1, 11, 12, 15, 16, 17]`
and `n_past` becomes 5. -/
theorem context_shift_compacts_witness :
    context_shift_fires slot_full = true ∧
    (update_slots_shift slot_full).map
        (fun s => (s.cache_tokens, s.n_past, s.truncated)) =
      .ok ([1, 11, 12, 15, 16, 17], 5, true) ∧
    ∃ slot', update_slots_shift slot_full = .ok slot' ∧
      slot'.cache_tokens =
        slot_full.cache_tokens.take (slot_full.params.n_keep.toNat + 1) ++
          slot_full.cache_tokens.drop (slot_full.params.n_keep.toNat + 1 +
            ((slot_full.n_past - slot_full.params.n_keep - 1).tdiv 2).toNat) ∧
      (slot'.cache_tokens.length : Int) =
        slot_full.cache_tokens.length - (slot_full.n_past - slot_full.params.n_keep - 1).tdiv 2 ∧
      slot'.n_past = slot_full.n_past - (slot_full.n_past - slot_full.params.n_keep - 1).tdiv 2 ∧
      slot'.truncated = true :=
  ⟨by decide, by decide,
    context_shift_compacts slot_full (by decide) (by decide) (by decide) (by decide)⟩


/-! ### The common prefix of two token vectors -/

theorem common_part_le_left : ∀ (a b : List llama_token), common_part a b ≤ a.length
  | [], _ => by simp [common_part]
  | _ :: _, [] => by simp [common_part]
  | x :: as, y :: bs => by
    unfold common_part
    split
    · have := common_part_le_left as bs
      simp only [List.length_cons]
      omega
    · omega

theorem common_part_agree : ∀ (a b : List llama_token) (i : Nat),
    i < common_part a b → a[i]? = b[i]?
  | [], _, i => by simp [common_part]
  | _ :: _, [], i => by simp [common_part]
  | x :: as, y :: bs, i => by
    unfold common_part
    split
    · rename_i hxy
      intro hi
      cases i with
      | zero => simp [hxy]
      | succ i =>
        simp only [List.getElem?_cons_succ]
        exact common_part_agree as bs i (by omega)
    · intro hi
      omega

theorem common_part_largest : ∀ (a b : List llama_token) (k : Nat),
    k ≤ a.length → k ≤ b.length → (∀ i, i < k → a[i]? = b[i]?) → k ≤ common_part a b
  | _, _, 0 => by intros; omega
  | [], _, k + 1 => by simp
  | _ :: _, [], k + 1 => by simp
  | x :: as, y :: bs, k + 1 => by
    intro ha hb h
    simp only [List.length_cons] at ha hb
    have h0 := h 0 (by omega)
    simp only [List.getElem?_cons_zero, Option.some.injEq] at h0
    unfold common_part
    rw [if_pos h0]
    have := common_part_largest as bs k (by omega) (by omega)
      (fun i hi => by simpa using h (i + 1) (by omega))
    omega

theorem common_part_comm : ∀ (a b : List llama_token), common_part a b = common_part b a
  | [], [] => rfl
  | [], _ :: _ => by simp [common_part]
  | _ :: _, [] => by simp [common_part]
  | x :: as, y :: bs => by
    unfold common_part
    by_cases h : x = y
    · rw [if_pos h, if_pos h.symm, common_part_comm as bs]
    · rw [if_neg h, if_neg (fun e => h e.symm)]

theorem common_part_self : ∀ (a : List llama_token), common_part a a = a.length
  | [] => rfl
  | x :: as => by
    unfold common_part
    rw [if_pos rfl, common_part_self as]
    rfl

/-- C21: `common_part a b` is the length of the longest common prefix of `a` and `b`: it
is at most `min |a| |b|`, the two vectors agree at every index below it, and every
`k ≤ min |a| |b|` below which they agree is at most `common_part a b`; so it is symmetric
and `common_part a a = |a|`. -/
theorem common_part_longest_prefix (a b : List llama_token) :
    common_part a b ≤ min a.length b.length ∧
    (∀ i, i < common_part a b → a[i]? = b[i]?) ∧
    (∀ k, k ≤ min a.length b.length → (∀ i, i < k → a[i]? = b[i]?) → k ≤ common_part a b) ∧
    common_part a b = common_part b a ∧
    common_part a a = a.length := by
  refine ⟨?_, common_part_agree a b, ?_, common_part_comm a b, common_part_self a⟩
  · have h1 := common_part_le_left a b
    have h2 := common_part_le_right a b
    omega
  · intro k hk h
    exact common_part_largest a b k (by omega) (by omega) h


/-! ### The partial stop string -/

theorem suffix_of_ends_with (str suffix : Str) (h : ends_with str suffix = true) :
    suffix <:+ str := by
  unfold ends_with at h
  simp only [ge_iff_le, Bool.and_eq_true, decide_eq_true_eq, beq_iff_eq] at h
  rw [← h.2]
  exact List.drop_suffix _ _

theorem find_partial_stop_loop_some (stop text : Str) (last : Nat) :
    ∀ k p, find_partial_stop_loop stop text last k = some p →
      ∃ m, 1 ≤ m ∧ m ≤ k ∧ stop.getD (m - 1) 0 = last ∧
        ends_with text (stop.take m) = true ∧ p = text.length - m ∧
        ∀ j, m < j → j ≤ k →
          ¬ (stop.getD (j - 1) 0 = last ∧ ends_with text (stop.take j) = true) := by
  intro k
  induction k with
  | zero => intro p h; simp [find_partial_stop_loop] at h
  | succ k ih =>
    intro p h
    simp only [find_partial_stop_loop] at h
    split at h
    · rename_i hc
      simp only [Option.some.injEq] at h
      refine ⟨k + 1, by omega, by omega, hc.1, hc.2, by omega, ?_⟩
      intro j h1 h2
      omega
    · rename_i hnot
      obtain ⟨m, h1, h2, h3, h4, h5, h6⟩ := ih p h
      refine ⟨m, h1, by omega, h3, h4, h5, ?_⟩
      intro j hj1 hj2
      by_cases hj : j = k + 1
      · subst hj
        exact hnot
      · exact h6 j hj1 (by omega)

/-- C24: `find_partial_stop_string stop text` returns `p` exactly when `p` is the start of
the longest suffix of `text` that is a non-empty prefix of `stop` (of some length `k`, so
that `p = |text| - k`), and `npos` exactly when no non-empty prefix of `stop` is a suffix
of `text`, as when one of the two strings is empty. -/
theorem find_partial_stop_longest (stop text : Str) :
    (∀ p, find_partial_stop_string stop text = some p ↔
      ∃ k, 1 ≤ k ∧ k ≤ stop.length ∧ stop.take k <:+ text ∧ p = text.length - k ∧
        text.drop p = stop.take k ∧
        ∀ m, k < m → m ≤ stop.length → ¬ (stop.take m <:+ text)) ∧
    (find_partial_stop_string stop text = none ↔
      ∀ m, 1 ≤ m → m ≤ stop.length → ¬ (stop.take m <:+ text)) ∧
    (stop = [] ∨ text = [] → find_partial_stop_string stop text = none) := by
  have hsome : ∀ p, find_partial_stop_string stop text = some p →
      ∃ k, 1 ≤ k ∧ k ≤ stop.length ∧ stop.take k <:+ text ∧ p = text.length - k ∧
        text.drop p = stop.take k ∧
        ∀ m, k < m → m ≤ stop.length → ¬ (stop.take m <:+ text) := by
    intro p h
    unfold find_partial_stop_string at h
    split at h
    · obtain ⟨m, h1, h2, _, h4, h5, h6⟩ := find_partial_stop_loop_some stop text _ _ p h
      have hsuf := suffix_of_ends_with _ _ h4
      refine ⟨m, h1, h2, hsuf, h5, ?_, ?_⟩
      · obtain ⟨pre, hpre⟩ := hsuf
        have hlen := congrArg List.length hpre
        simp only [List.length_append, List.length_take] at hlen
        have hp : p = pre.length := by omega
        rw [hp, ← hpre, List.drop_left]
      · intro j hj1 hj2 hjs
        exact h6 j hj1 hj2
          ⟨getLastD_of_suffix_take stop text j (by omega) hj2 hjs, ends_with_of_suffix _ _ hjs⟩
    · cases h
  have hnone : find_partial_stop_string stop text = none →
      ∀ m, 1 ≤ m → m ≤ stop.length → ¬ (stop.take m <:+ text) :=
    find_partial_stop_none stop text
  have hnone_conv : (∀ m, 1 ≤ m → m ≤ stop.length → ¬ (stop.take m <:+ text)) →
      find_partial_stop_string stop text = none := by
    intro h
    cases hres : find_partial_stop_string stop text with
    | none => rfl
    | some p =>
      obtain ⟨k, h1, h2, h3, _⟩ := hsome p hres
      exact absurd h3 (h k h1 h2)
  refine ⟨?_, ⟨hnone, hnone_conv⟩, ?_⟩
  · intro p
    refine ⟨hsome p, ?_⟩
    rintro ⟨k, h1, h2, h3, h4, _, h6⟩
    cases hres : find_partial_stop_string stop text with
    | none => exact absurd h3 (hnone hres k h1 h2)
    | some q =>
      obtain ⟨k', g1, g2, g3, g4, _, g6⟩ := hsome q hres
      have hkk : k = k' := by
        rcases Nat.lt_trichotomy k k' with hlt | heq | hgt
        · exact absurd g3 (h6 k' hlt g2)
        · exact heq
        · exact absurd h3 (g6 k hgt h2)
      rw [h4, g4, hkk]
  · intro h
    apply hnone_conv
    intro m h1 h2 hsuf
    have hlen := hsuf.length_le
    simp only [List.length_take] at hlen
    rcases h with h | h
    · subst h
      simp only [List.length_nil] at h2
      omega
    · subst h
      simp only [List.length_nil] at hlen
      omega


/-! ### Failing inputs of the prompt preparation, the context shift, the UTF-8 counter and
the budget -/

/-- The prompt preparation, when it completes with at least one prompt token, leaves
`0 ≤ n_past < |prompt tokens|`. -/
theorem prepare_prompt_n_past_range (env : Engine) (srv : llama_server_context)
    (s s' : llama_client_slot) (p : gpt_params) (toks : List llama_token)
    (h : prepare_prompt env srv s = .ok (p, s', toks)) (hne : toks ≠ []) :
    0 ≤ s'.n_past ∧ s'.n_past < toks.length := by
  have hlt : s'.n_past < toks.length := by
    rcases (prepare_prompt_effect env srv s s' p toks h).2.2.2.2.2.2.2.1 with h1 | h1
    · exact h1
    · exact absurd h1 hne
  refine ⟨?_, hlt⟩
  unfold prepare_prompt at h
  split at h
  · cases h
  · rename_i s3 tokens hprep
    simp only [Except.ok.injEq, Prod.mk.injEq] at h
    obtain ⟨_, h2, h3⟩ := h
    subst h3
    obtain ⟨_, _, _, _, _, c6, c7, c8, _, _⟩ := prepare_slot_effect _ _ _ _ rfl hprep
    have hpos : 0 < tokens.length := List.length_pos.2 hne
    rw [← h2]
    unfold adjust_n_past
    split
    · rename_i heq
      simp only at heq ⊢
      rw [heq, c6]
      omega
    · exact c7

/-- C22 (failing input): a request whose prompt is the empty array is bound to the slot
of `server_ctx4`; its prompt passes the `has_prompt` test and has no tokens, the
preparation leaves `n_past = -1`, and the ingest loop of the tick reads
`prefix_tokens[-1]`. -/
theorem empty_prompt_n_past_negative :
    (update_slots_begin engine_bytes
        (request_completion server_ctx4 { prompt := some (.array []) } false false).1).slots.map
      (fun s => (s.state, s.command, s.prompt)) = [(.IDLE, .LOAD_PROMPT, .array [])] ∧
    (update_slots_begin engine_bytes
        (request_completion server_ctx4 { prompt := some (.array []) } false false).1).slots.map
      (fun s =>
        (prepare_prompt engine_bytes server_ctx4
          { s with state := .PROCESSING, command := .NONE }).map
          (fun r => (r.2.1.n_past, r.2.2))) = [.ok (-1, [])] ∧
    update_slots engine_bytes 4
        (request_completion server_ctx4 { prompt := some (.array []) } false false).1 =
      .error .out_of_bounds := by
  refine ⟨by decide, by decide, by decide⟩

/-- C26 (failing input): in `server_stale_cache` the tick binds the new request to the
slot, which is then Idle with command LoadPrompt, `n_past = 0`, `n_keep = 1` and the four
cached tokens of the earlier task. The context shift fires on it with `n_discard = -1`, and
its loop writes `cache_tokens[4]`, past the end of the vector. -/
theorem shift_on_bound_slot :
    server_stale_cache.map (fun srv =>
      (update_slots_begin engine_bytes srv).slots.map (fun s =>
        (s.state, s.command, s.n_past, s.params.n_keep))) =
      .ok [(.IDLE, .LOAD_PROMPT, 0, 1)] ∧
    server_stale_cache.map (fun srv =>
      (update_slots_begin engine_bytes srv).slots.map (fun s => (s.n_ctx, s.cache_tokens))) =
      .ok [(4, [1, 101, 102, 103])] ∧
    server_stale_cache.map (fun srv =>
      (update_slots_begin engine_bytes srv).slots.map (fun s =>
        (context_shift_fires s, (s.n_past - s.params.n_keep - 1).tdiv 2,
          (update_slots_shift s).map (fun s1 => s1.cache_tokens)))) =
      .ok [(true, -1, .error .out_of_bounds)] ∧
    server_stale_cache.bind (update_slots engine_bytes 4) = .error .out_of_bounds := by
  refine ⟨by decide, by decide, by decide, by decide⟩

/-- C27 (failing input): from a reset slot, the piece "\xC3" sets `multibyte_pending` to
1, and the next piece, "\xA9b" of two bytes, is subtracted whole: `multibyte_pending` is
`-1` after the second call of `process_token`. -/
theorem pending_below_zero :
    [engine_split.llama_token_to_piece 195, engine_split.llama_token_to_piece 43362] =
      [[195], [169, 98]] ∧
    (process_tokens engine_split {} false [195]
      (({ id := 0 } : llama_client_slot).reset) []).2.1.multibyte_pending = 1 ∧
    (process_tokens engine_split {} false [195, 43362]
      (({ id := 0 } : llama_client_slot).reset) []).2.1.multibyte_pending = -1 := by
  refine ⟨by decide, by decide, by decide⟩

/-- C28 (failing input): with `params.n_predict = 2`, `has_budget` returns `false` at
`n_decoded = 2`, where `n_remaining = 0`, and `true` at `n_decoded = 3`, where
`n_remaining = -1`, the value that stands for no limit. -/
theorem has_budget_true_after_false :
    (({ id := 0, params := { n_predict := 2 }, n_decoded := 2 } : llama_client_slot).has_budget
      {}).2 = false ∧
    (({ id := 0, params := { n_predict := 2 }, n_decoded := 2 } : llama_client_slot).has_budget
      {}).1.n_remaining = 0 ∧
    (({ id := 0, params := { n_predict := 2 }, n_decoded := 3 } : llama_client_slot).has_budget
      {}).2 = true ∧
    (({ id := 0, params := { n_predict := 2 }, n_decoded := 3 } : llama_client_slot).has_budget
      {}).1.n_remaining = -1 := by
  refine ⟨by decide, by decide, by decide, by decide⟩


/-! ### The chunked decode loop -/

theorem send_final_response_fault (env : Engine) (s : llama_client_slot) (e : fault)
    (h : send_final_response env s = .error e) : e = .out_of_bounds := by
  unfold send_final_response at h
  simp only at h
  split at h
  · rename_i e' hp
    simp only [Except.error.injEq] at h
    subst h
    split at hp
    · split at hp
      · split at hp
        · cases hp
        · simp only [Except.error.injEq] at hp
          exact hp.symm
      · split at hp
        · cases hp
        · simp only [Except.error.injEq] at hp
          exact hp.symm
    · cases hp
  · cases h

theorem update_slots_sample_fault (env : Engine) (i n_tokens : Int)
    (st : llama_server_context × Bool) (s : llama_client_slot) (e : fault)
    (h : update_slots_sample env i n_tokens st s = .error e) : e = .out_of_bounds := by
  unfold update_slots_sample at h
  split at h
  · cases h
  · split at h
    · cases h
    · split at h
      · cases h
      · simp only at h
        split at h
        · split at h
          · rename_i e' he
            simp only [Except.error.injEq] at h
            subst h
            exact send_final_response_fault env _ _ he
          · cases h
        · cases h

theorem for_each_slot_fault {σ : Type}
    (body : σ → llama_client_slot → Except fault (σ × llama_client_slot)) (P : fault → Prop)
    (hbody : ∀ st s e, body st s = .error e → P e) :
    ∀ (ss : List llama_client_slot) (st : σ) (e : fault),
      for_each_slot body st ss = .error e → P e := by
  intro ss
  induction ss with
  | nil => intro st e h; simp [for_each_slot] at h
  | cons s ss ih =>
    intro st e h
    simp only [for_each_slot] at h
    split at h
    · rename_i e' hb
      simp only [Except.error.injEq] at h
      subst h
      exact hbody _ _ _ hb
    · split at h
      · rename_i e' hr
        simp only [Except.error.injEq] at h
        subst h
        exact ih _ _ hr
      · cases h

/-- One call of `update_slots_sample` leaves the batch and the count of decode calls, and
the `embedding` flag of the slot; when the slot is not an embedding slot, the loop over the
slots goes on. -/
theorem update_slots_sample_steady (env : Engine) (i n_tokens : Int)
    (st st' : llama_server_context × Bool) (s s' : llama_client_slot)
    (h : update_slots_sample env i n_tokens st s = .ok (st', s')) :
    st'.1.batch = st.1.batch ∧ st'.1.decode_calls = st.1.decode_calls ∧
    s'.embedding = s.embedding ∧
    (st.2 = false → s.embedding = false → st'.2 = false) := by
  unfold update_slots_sample at h
  split at h
  · rename_i hret
    simp only [Except.ok.injEq, Prod.mk.injEq] at h
    rw [← h.1, ← h.2]
    refine ⟨rfl, rfl, rfl, ?_⟩
    intro h1
    rw [h1] at hret
    cases hret
  · split at h
    · simp only [Except.ok.injEq, Prod.mk.injEq] at h
      rw [← h.1, ← h.2]
      exact ⟨rfl, rfl, rfl, fun h1 _ => h1⟩
    · split at h
      · rename_i hemb
        simp only [Except.ok.injEq, Prod.mk.injEq] at h
        rw [← h.1, ← h.2, release_frame]
        refine ⟨rfl, rfl, rfl, ?_⟩
        intro _ h2
        rw [h2] at hemb
        cases hemb
      · simp only at h
        have hframe := token_frame_process_token env st.1.params st.1.multimodal
          { tok := env.llama_sampling_sample st.1.sample_calls } s st.1.queue_results
        have f1 := congrArg llama_client_slot.embedding hframe
        split at h
        · split at h
          · cases h
          · simp only [Except.ok.injEq, Prod.mk.injEq] at h
            rw [← h.1, ← h.2, release_frame]
            exact ⟨rfl, rfl, f1, fun _ _ => rfl⟩
        · simp only [Except.ok.injEq, Prod.mk.injEq] at h
          rw [← h.1, ← h.2]
          exact ⟨rfl, rfl, f1, fun _ _ => rfl⟩

theorem for_each_slot_sample_steady (env : Engine) (i n_tokens : Int) :
    ∀ (ss ss' : List llama_client_slot) (st st' : llama_server_context × Bool),
      for_each_slot (update_slots_sample env i n_tokens) st ss = .ok (st', ss') →
      st'.1.batch = st.1.batch ∧ st'.1.decode_calls = st.1.decode_calls ∧
      (st.2 = false → (∀ s ∈ ss, s.embedding = false) →
        st'.2 = false ∧ ∀ s ∈ ss', s.embedding = false) := by
  intro ss
  induction ss with
  | nil =>
    intro ss' st st' h
    simp only [for_each_slot, Except.ok.injEq, Prod.mk.injEq] at h
    rw [← h.1, ← h.2]
    exact ⟨rfl, rfl, fun h1 _ => ⟨h1, fun s hs => by cases hs⟩⟩
  | cons s ss ih =>
    intro ss' st st' h
    simp only [for_each_slot] at h
    split at h
    · cases h
    · rename_i st1 s1 hb
      split at h
      · cases h
      · rename_i st2 rest2 hr
        simp only [Except.ok.injEq, Prod.mk.injEq] at h
        obtain ⟨b1, b2, b3, b4⟩ := update_slots_sample_steady env i n_tokens st st1 s s1 hb
        obtain ⟨r1, r2, r3⟩ := ih rest2 st1 st2 hr
        rw [← h.1, ← h.2]
        refine ⟨by rw [r1, b1], by rw [r2, b2], ?_⟩
        intro h1 hall
        have hs := hall s (List.mem_cons_self _ _)
        obtain ⟨q1, q2⟩ := r3 (b4 h1 hs) (fun x hx => hall x (List.mem_cons_of_mem _ hx))
        refine ⟨q1, ?_⟩
        intro x hx
        rcases List.mem_cons.1 hx with rfl | hx
        · rw [b3]; exact hs
        · exact q2 x hx

/-- The record of the decode calls is a ghost: without it the logged loop is
`decode_loop`. -/
theorem decode_loop_log_erase (env : Engine) :
    ∀ (fuel : Nat) (i n_batch : Int) (srv : llama_server_context),
      (decode_loop_log env fuel i n_batch srv).map (fun r => r.1) =
        decode_loop env fuel i n_batch srv := by
  intro fuel
  induction fuel with
  | zero => intro i n_batch srv; rfl
  | succ fuel ih =>
    intro i n_batch srv
    simp only [decode_loop_log, decode_loop]
    split
    · split
      · split
        · rfl
        · rw [← ih]
          cases decode_loop_log env fuel (i - n_batch.tdiv 2 + n_batch.tdiv 2)
            (n_batch.tdiv 2) { srv with decode_calls := srv.decode_calls + 1 } <;> rfl
      · cases hfe : for_each_slot
          (update_slots_sample env i (min n_batch ((srv.batch.length : Int) - i)))
          ({ srv with decode_calls := srv.decode_calls + 1 }, false) srv.slots with
        | error e => rfl
        | ok r =>
          obtain ⟨st, slots⟩ := r
          simp only
          split
          · rfl
          · rw [← ih]
            cases decode_loop_log env fuel (i + n_batch) n_batch { st.1 with slots := slots } <;>
              rfl
    · rfl

/-- One iteration of the logged loop, by cases. -/
theorem decode_loop_log_step (env : Engine) (fuel : Nat) (i n_batch : Int)
    (srv srv' : llama_server_context) (r : Bool) (l : List decode_call)
    (h : decode_loop_log env (fuel + 1) i n_batch srv = .ok ((r, srv'), l)) :
    (¬ i < (srv.batch.length : Int) ∧ r = true ∧ srv' = srv ∧ l = []) ∨
    (i < (srv.batch.length : Int) ∧ ∃ l',
      l = { i := i, n_batch := n_batch,
            n_tokens := min n_batch ((srv.batch.length : Int) - i),
            ret := env.llama_decode srv.decode_calls } :: l' ∧
      ((env.llama_decode srv.decode_calls ≠ 0 ∧
          (n_batch = 1 ∨ env.llama_decode srv.decode_calls < 0) ∧ r = false ∧ l' = []) ∨
       (env.llama_decode srv.decode_calls ≠ 0 ∧
          ¬ (n_batch = 1 ∨ env.llama_decode srv.decode_calls < 0) ∧
          decode_loop_log env fuel i (n_batch.tdiv 2)
            { srv with decode_calls := srv.decode_calls + 1 } = .ok ((r, srv'), l')) ∨
       (env.llama_decode srv.decode_calls = 0 ∧ ∃ st slots,
          for_each_slot
            (update_slots_sample env i (min n_batch ((srv.batch.length : Int) - i)))
            ({ srv with decode_calls := srv.decode_calls + 1 }, false) srv.slots =
            .ok (st, slots) ∧
          ((st.2 = true ∧ r = true ∧ l' = []) ∨
           (st.2 = false ∧
            decode_loop_log env fuel (i + n_batch) n_batch { st.1 with slots := slots } =
              .ok ((r, srv'), l')))))) := by
  simp only [decode_loop_log] at h
  split at h
  · rename_i hi
    right
    refine ⟨hi, ?_⟩
    split at h
    · rename_i hret
      split at h
      · rename_i hfatal
        simp only [Except.ok.injEq, Prod.mk.injEq] at h
        refine ⟨[], h.2.symm, Or.inl ⟨hret, hfatal, h.1.1.symm, rfl⟩⟩
      · rename_i hfatal
        rw [Int.sub_add_cancel] at h
        split at h
        · cases h
        · rename_i res calls hrec
          simp only [Except.ok.injEq, Prod.mk.injEq] at h
          refine ⟨calls, h.2.symm, Or.inr (Or.inl ⟨hret, hfatal, ?_⟩)⟩
          rw [hrec, ← h.1]
    · rename_i hret
      have hret0 : env.llama_decode srv.decode_calls = 0 := by
        by_contra hc
        exact hret hc
      split at h
      · cases h
      · rename_i st slots hfe
        split at h
        · rename_i hst
          simp only [Except.ok.injEq, Prod.mk.injEq] at h
          exact ⟨[], h.2.symm, Or.inr (Or.inr ⟨hret0, st, slots, hfe,
            Or.inl ⟨hst, h.1.1.symm, rfl⟩⟩)⟩
        · rename_i hst
          split at h
          · cases h
          · rename_i res calls hrec
            simp only [Except.ok.injEq, Prod.mk.injEq] at h
            refine ⟨calls, h.2.symm, Or.inr (Or.inr ⟨hret0, st, slots, hfe, Or.inr ⟨?_, ?_⟩⟩)⟩
            · cases hb : st.2 with
              | true => exact absurd hb hst
              | false => rfl
            · rw [hrec, ← h.1]
  · rename_i hi
    simp only [Except.ok.injEq, Prod.mk.injEq] at h
    exact Or.inl ⟨hi, h.1.1.symm, h.1.2.symm, h.2.symm⟩

theorem decode_loop_log_fuel (env : Engine) :
    ∀ (fuel : Nat) (i n_batch : Int) (srv : llama_server_context), 1 ≤ n_batch →
      ((srv.batch.length : Int) - i).toNat + n_batch.toNat < fuel →
      decode_loop_log env fuel i n_batch srv ≠ .error .out_of_fuel := by
  intro fuel
  induction fuel with
  | zero => intro i n_batch srv _ h; omega
  | succ fuel ih =>
    intro i n_batch srv hnb hfuel
    simp only [decode_loop_log]
    split
    · rename_i hi
      split
      · split
        · intro hc; cases hc
        · rename_i hfatal
          rw [Int.sub_add_cancel]
          have hq : n_batch.tdiv 2 = n_batch / 2 := Int.tdiv_eq_ediv (by omega) (by omega)
          have hrec := ih i (n_batch.tdiv 2) { srv with decode_calls := srv.decode_calls + 1 }
            (by rw [hq]; omega)
            (by
              rw [hq]
              have e1 : ({ srv with decode_calls := srv.decode_calls + 1 } :
                llama_server_context).batch = srv.batch := rfl
              rw [e1]
              omega)
          split
          · rename_i e he
            intro hc
            simp only [Except.error.injEq] at hc
            rw [hc] at he
            exact hrec he
          · intro hc; cases hc
      · split
        · rename_i e he
          intro hc
          simp only [Except.error.injEq] at hc
          subst hc
          have := for_each_slot_fault _ (fun e => e = .out_of_bounds)
            (fun st s e hb => update_slots_sample_fault env _ _ st s e hb) _ _ _ he
          cases this
        · rename_i st slots hfe
          split
          · intro hc; cases hc
          · obtain ⟨b1, _, _⟩ := for_each_slot_sample_steady env _ _ _ _ _ _ hfe
            have hrec := ih (i + n_batch) n_batch { st.1 with slots := slots } hnb
              (by
                have e1 : ({ st.1 with slots := slots } : llama_server_context).batch =
                    srv.batch := b1
                rw [e1]
                omega)
            split
            · rename_i e he
              intro hc
              simp only [Except.error.injEq] at hc
              rw [hc] at he
              exact hrec he
            · intro hc; cases hc
    · intro hc; cases hc

theorem decode_loop_log_more_fuel (env : Engine) :
    ∀ (fuel : Nat) (i n_batch : Int) (srv : llama_server_context),
      decode_loop_log env fuel i n_batch srv ≠ .error .out_of_fuel →
      decode_loop_log env (fuel + 1) i n_batch srv = decode_loop_log env fuel i n_batch srv := by
  intro fuel
  induction fuel with
  | zero => intro i n_batch srv h; exact absurd rfl h
  | succ fuel ih =>
    intro i n_batch srv h
    rw [decode_loop_log] at h ⊢
    conv_rhs => rw [decode_loop_log]
    simp only at h ⊢
    split
    · rw [if_pos (by assumption)] at h
      split
      · rw [if_pos (by assumption)] at h
        split
        · rfl
        · rw [if_neg (by assumption)] at h
          rw [ih]
          intro hc
          rw [hc] at h
          exact h rfl
      · rw [if_neg (by assumption)] at h
        split
        · rfl
        · rename_i st slots hfe
          rw [hfe] at h
          simp only at h
          split
          · rfl
          · rw [if_neg (by assumption)] at h
            rw [ih]
            intro hc
            rw [hc] at h
            exact h rfl
    · rfl

theorem decode_loop_log_fuel_le (env : Engine) (i n_batch : Int) (srv : llama_server_context)
    (n : Nat) (h : decode_loop_log env n i n_batch srv ≠ .error .out_of_fuel) :
    ∀ fuel, n ≤ fuel →
      decode_loop_log env fuel i n_batch srv = decode_loop_log env n i n_batch srv := by
  intro fuel hle
  induction fuel with
  | zero =>
    have : n = 0 := by omega
    subst this
    rfl
  | succ fuel ih =>
    by_cases hn : n = fuel + 1
    · subst hn; rfl
    · have e := ih (by omega)
      rw [decode_loop_log_more_fuel env fuel i n_batch srv (by rw [e]; exact h), e]

theorem decode_loop_log_length (env : Engine) :
    ∀ (fuel : Nat) (i n_batch : Int) (srv srv' : llama_server_context) (r : Bool)
      (l : List decode_call), 1 ≤ n_batch →
      decode_loop_log env fuel i n_batch srv = .ok ((r, srv'), l) →
      l.length ≤ ((srv.batch.length : Int) - i).toNat + n_batch.toNat := by
  intro fuel
  induction fuel with
  | zero => intro i n_batch srv srv' r l _ h; simp [decode_loop_log] at h
  | succ fuel ih =>
    intro i n_batch srv srv' r l hnb h
    rcases decode_loop_log_step env fuel i n_batch srv srv' r l h with
      ⟨_, _, _, hl⟩ | ⟨hi, l', hl, hcase⟩
    · rw [hl]
      simp
    · rw [hl]
      simp only [List.length_cons]
      rcases hcase with ⟨_, _, _, hl'⟩ | ⟨_, hfatal, hrec⟩ | ⟨_, st, slots, hfe, hcase2⟩
      · rw [hl']
        simp only [List.length_nil]
        omega
      · have hq : n_batch.tdiv 2 = n_batch / 2 := Int.tdiv_eq_ediv (by omega) (by omega)
        have := ih i (n_batch.tdiv 2) _ srv' r l' (by rw [hq]; omega) hrec
        rw [hq] at this
        have e1 : ({ srv with decode_calls := srv.decode_calls + 1 } :
          llama_server_context).batch = srv.batch := rfl
        rw [e1] at this
        omega
      · rcases hcase2 with ⟨_, _, hl'⟩ | ⟨_, hrec⟩
        · rw [hl']
          simp only [List.length_nil]
          omega
        · obtain ⟨b1, _, _⟩ := for_each_slot_sample_steady env _ _ _ _ _ _ hfe
          have := ih (i + n_batch) n_batch _ srv' r l' hnb hrec
          have e1 : ({ st.1 with slots := slots } : llama_server_context).batch =
              srv.batch := b1
          rw [e1] at this
          omega

/-- When `n_batch ≥ 1`, whatever the batch and the codes that `llama_decode` returns, the
chunked decode loop ends: with fuel above `|batch| + n_batch` it does not run out of fuel,
more fuel does not change what it returns, and it makes at most `|batch| + n_batch` calls
of `llama_decode`. -/
theorem decode_loop_terminates (env : Engine) (srv : llama_server_context) (n_batch : Int)
    (h : 1 ≤ n_batch) :
    ∀ fuel, srv.batch.length + n_batch.toNat < fuel →
      decode_loop env fuel 0 n_batch srv ≠ .error .out_of_fuel ∧
      decode_loop env fuel 0 n_batch srv =
        decode_loop env (srv.batch.length + n_batch.toNat + 1) 0 n_batch srv ∧
      ∀ res calls, decode_loop_log env fuel 0 n_batch srv = .ok (res, calls) →
        calls.length ≤ srv.batch.length + n_batch.toNat := by
  intro fuel hfuel
  have hN := decode_loop_log_fuel env (srv.batch.length + n_batch.toNat + 1) 0 n_batch srv h
    (by omega)
  have hstable := decode_loop_log_fuel_le env 0 n_batch srv _ hN fuel (by omega)
  refine ⟨?_, ?_, ?_⟩
  · rw [← decode_loop_log_erase, hstable]
    intro hc
    cases hres : decode_loop_log env (srv.batch.length + n_batch.toNat + 1) 0 n_batch srv with
    | error e =>
      rw [hres] at hc
      simp only [Except.map, Except.error.injEq] at hc
      rw [hc] at hres
      exact hN hres
    | ok r =>
      rw [hres] at hc
      cases hc
  · rw [← decode_loop_log_erase, ← decode_loop_log_erase, hstable]
  · intro res calls hres
    obtain ⟨r, srv'⟩ := res
    have := decode_loop_log_length env fuel 0 n_batch srv srv' r calls h hres
    omega

/-- The three tokens of `server_batch3` with `n_batch = 2`, the first decode call failing
with code 1: with fuel 6 the loop returns `true` after four decode calls. -/
theorem decode_loop_terminates_witness :
    decode_loop engine_retry 6 0 2 server_batch3 ≠ .error .out_of_fuel ∧
    (decode_loop engine_retry 6 0 2 server_batch3).map (fun r => (r.1, r.2.decode_calls)) =
      .ok (true, 4) :=
  ⟨(decode_loop_terminates engine_retry server_batch3 2 (by decide) 6 (by decide)).1,
    by decide⟩

/-- The calls of the logged loop: the first call is that of the first iteration, every
call takes `min n_batch (|batch| - i)` tokens, a call that fails with a positive code and
`n_batch > 1` is followed by a call at the same offset with half the `n_batch`, and a call
that fails with a negative code or with `n_batch = 1` is the last, the loop returning
`false`. -/
theorem decode_loop_log_calls (env : Engine) :
    ∀ (fuel : Nat) (i n_batch : Int) (srv srv' : llama_server_context) (r : Bool)
      (l : List decode_call),
      decode_loop_log env fuel i n_batch srv = .ok ((r, srv'), l) →
      (i < (srv.batch.length : Int) → ∃ c rest, l = c :: rest ∧ c.i = i ∧ c.n_batch = n_batch) ∧
      (∀ c ∈ l, c.n_tokens = min c.n_batch ((srv.batch.length : Int) - c.i)) ∧
      (∀ (k : Nat) (c : decode_call), l[k]? = some c → 0 < c.ret → 1 < c.n_batch →
        ∃ c', l[k + 1]? = some c' ∧ c'.i = c.i ∧ c'.n_batch = c.n_batch / 2) ∧
      (∀ (k : Nat) (c : decode_call), l[k]? = some c →
        (c.ret < 0 ∨ (c.ret ≠ 0 ∧ c.n_batch = 1)) →
        r = false ∧ l.length = k + 1) := by
  intro fuel
  induction fuel with
  | zero => intro i n_batch srv srv' r l h; simp [decode_loop_log] at h
  | succ fuel ih =>
    intro i n_batch srv srv' r l h
    rcases decode_loop_log_step env fuel i n_batch srv srv' r l h with
      ⟨hi, _, _, hl⟩ | ⟨hi, l', hl, hcase⟩
    · subst hl
      refine ⟨fun hc => absurd hc hi, ?_, ?_, ?_⟩
      · intro c hc; cases hc
      · intro k c hk; simp at hk
      · intro k c hk; simp at hk
    · subst hl
      refine ⟨fun _ => ⟨_, l', rfl, rfl, rfl⟩, ?_, ?_, ?_⟩
      · intro c hc
        rcases List.mem_cons.1 hc with rfl | hc
        · rfl
        · rcases hcase with ⟨_, _, _, hl'⟩ | ⟨_, _, hrec⟩ | ⟨_, st, slots, hfe, hcase2⟩
          · subst hl'; cases hc
          · exact (ih _ _ _ _ _ _ hrec).2.1 c hc
          · rcases hcase2 with ⟨_, _, hl'⟩ | ⟨_, hrec⟩
            · subst hl'; cases hc
            · obtain ⟨b1, _, _⟩ := for_each_slot_sample_steady env _ _ _ _ _ _ hfe
              have := (ih _ _ _ _ _ _ hrec).2.1 c hc
              have e1 : ({ st.1 with slots := slots } : llama_server_context).batch =
                  srv.batch := b1
              rw [e1] at this
              exact this
      · intro k c hk hret hnb
        cases k with
        | zero =>
          simp only [List.getElem?_cons_zero, Option.some.injEq] at hk
          subst hk
          simp only at hret hnb
          rcases hcase with ⟨_, hfatal, _, _⟩ | ⟨_, _, hrec⟩ | ⟨h0, _⟩
          · omega
          · obtain ⟨c', rest, hl', hc1, hc2⟩ := (ih _ _ _ _ _ _ hrec).1 hi
            subst hl'
            refine ⟨c', by simp, hc1, ?_⟩
            rw [hc2]
            exact Int.tdiv_eq_ediv (by omega) (by omega)
          · omega
        | succ k =>
          simp only [List.getElem?_cons_succ] at hk ⊢
          rcases hcase with ⟨_, _, _, hl'⟩ | ⟨_, _, hrec⟩ | ⟨_, st, slots, hfe, hcase2⟩
          · subst hl'; simp at hk
          · exact (ih _ _ _ _ _ _ hrec).2.2.1 k c hk hret hnb
          · rcases hcase2 with ⟨_, _, hl'⟩ | ⟨_, hrec⟩
            · subst hl'; simp at hk
            · exact (ih _ _ _ _ _ _ hrec).2.2.1 k c hk hret hnb
      · intro k c hk hfat
        cases k with
        | zero =>
          simp only [List.getElem?_cons_zero, Option.some.injEq] at hk
          subst hk
          simp only at hfat
          rcases hcase with ⟨_, _, hr, hl'⟩ | ⟨_, hnf, _⟩ | ⟨h0, _⟩
          · subst hl'
            exact ⟨hr, rfl⟩
          · exfalso
            apply hnf
            omega
          · omega
        | succ k =>
          simp only [List.getElem?_cons_succ] at hk
          simp only [List.length_cons]
          rcases hcase with ⟨_, _, _, hl'⟩ | ⟨_, _, hrec⟩ | ⟨_, st, slots, hfe, hcase2⟩
          · subst hl'; simp at hk
          · have := (ih _ _ _ _ _ _ hrec).2.2.2 k c hk hfat
            exact ⟨this.1, by omega⟩
          · rcases hcase2 with ⟨_, _, hl'⟩ | ⟨_, hrec⟩
            · subst hl'; simp at hk
            · have := (ih _ _ _ _ _ _ hrec).2.2.2 k c hk hfat
              exact ⟨this.1, by omega⟩

/-- With `n_batch ≤ 0` and no embedding slot the loop does not get past the batch: it can
only return `false`. -/
theorem decode_loop_log_nonpos (env : Engine) :
    ∀ (fuel : Nat) (i n_batch : Int) (srv srv' : llama_server_context) (r : Bool)
      (l : List decode_call), n_batch ≤ 0 → i < (srv.batch.length : Int) →
      (∀ s ∈ srv.slots, s.embedding = false) →
      decode_loop_log env fuel i n_batch srv = .ok ((r, srv'), l) → r = false := by
  intro fuel
  induction fuel with
  | zero => intro i n_batch srv srv' r l _ _ _ h; simp [decode_loop_log] at h
  | succ fuel ih =>
    intro i n_batch srv srv' r l hnb hi hemb h
    rcases decode_loop_log_step env fuel i n_batch srv srv' r l h with
      ⟨hni, _, _, _⟩ | ⟨_, l', _, hcase⟩
    · exact absurd hi hni
    · rcases hcase with ⟨_, _, hr, _⟩ | ⟨_, _, hrec⟩ | ⟨_, st, slots, hfe, hcase2⟩
      · exact hr
      · exact ih i (n_batch.tdiv 2) { srv with decode_calls := srv.decode_calls + 1 } srv' r l'
          (tdiv_two_nonpos n_batch hnb) hi hemb hrec
      · obtain ⟨b1, _, b3⟩ := for_each_slot_sample_steady env _ _ _ _ _ _ hfe
        obtain ⟨q1, q2⟩ := b3 rfl hemb
        rcases hcase2 with ⟨hst, _, _⟩ | ⟨_, hrec⟩
        · rw [q1] at hst
          cases hst
        · refine ih (i + n_batch) n_batch _ srv' r l' hnb ?_ q2 hrec
          have e1 : ({ st.1 with slots := slots } : llama_server_context).batch =
              srv.batch := b1
          rw [e1]
          omega

/-- With no embedding slot, when the loop returns `true` the chunks decoded with code 0
lie one after the other from `min i |batch|` to the end of the batch. -/
theorem decode_loop_log_cover (env : Engine) :
    ∀ (fuel : Nat) (i n_batch : Int) (srv srv' : llama_server_context)
      (l : List decode_call), (∀ s ∈ srv.slots, s.embedding = false) →
      decode_loop_log env fuel i n_batch srv = .ok ((true, srv'), l) →
      chunks_cover (l.filter (fun c => decide (c.ret = 0)))
        (min i (srv.batch.length : Int)) (srv.batch.length : Int) = true := by
  intro fuel
  induction fuel with
  | zero => intro i n_batch srv srv' l _ h; simp [decode_loop_log] at h
  | succ fuel ih =>
    intro i n_batch srv srv' l hemb h
    rcases decode_loop_log_step env fuel i n_batch srv srv' true l h with
      ⟨hni, _, _, hl⟩ | ⟨hi, l', hl, hcase⟩
    · subst hl
      simp only [List.filter_nil, chunks_cover, decide_eq_true_eq]
      omega
    · subst hl
      rcases hcase with ⟨_, _, hr, _⟩ | ⟨hret, _, hrec⟩ | ⟨hret, st, slots, hfe, hcase2⟩
      · cases hr
      · have := ih i (n_batch.tdiv 2) { srv with decode_calls := srv.decode_calls + 1 } srv' l'
          hemb hrec
        rw [List.filter_cons_of_neg (by simpa using hret)]
        exact this
      · obtain ⟨b1, _, b3⟩ := for_each_slot_sample_steady env _ _ _ _ _ _ hfe
        obtain ⟨q1, q2⟩ := b3 rfl hemb
        rcases hcase2 with ⟨hst, _, _⟩ | ⟨_, hrec⟩
        · rw [q1] at hst
          cases hst
        · have hpos : 0 < n_batch := by
            by_contra hc
            have := decode_loop_log_nonpos env (fuel + 1) i n_batch srv srv' true _
              (by omega) hi hemb h
            cases this
          have hrec' := ih (i + n_batch) n_batch _ srv' l' q2 hrec
          have e1 : ({ st.1 with slots := slots } : llama_server_context).batch =
              srv.batch := b1
          rw [e1] at hrec'
          rw [List.filter_cons_of_pos (by simpa using hret)]
          simp only [chunks_cover, Bool.and_eq_true, decide_eq_true_eq]
          refine ⟨⟨by omega, by omega⟩, ?_⟩
          have hoff : min i (srv.batch.length : Int) +
              min n_batch ((srv.batch.length : Int) - i) =
              min (i + n_batch) (srv.batch.length : Int) := by omega
          rw [hoff]
          exact hrec'

/-- C23: for a run of the chunked decode loop from offset 0, recorded call by call. The
run without the record is that of `decode_loop`; every call takes
`min n_batch (|batch| - i)` tokens; a call that returns a positive code with `n_batch > 1`
is followed by a call at the same offset with `n_batch` halved; after a call that returns a
negative code, or a code other than zero with `n_batch = 1`, no call follows and the loop
returns `false`; and when no slot is an embedding slot and the loop returns `true`, the
chunks decoded with code 0 lie one after the other, none empty, from offset 0 to the end of
the batch. -/
theorem chunked_decode_calls (env : Engine) (fuel : Nat) (n_batch : Int)
    (srv srv' : llama_server_context) (r : Bool) (calls : List decode_call)
    (h : decode_loop_log env fuel 0 n_batch srv = .ok ((r, srv'), calls)) :
    decode_loop env fuel 0 n_batch srv = .ok (r, srv') ∧
    (∀ c ∈ calls, c.n_tokens = min c.n_batch ((srv.batch.length : Int) - c.i)) ∧
    (∀ (k : Nat) (c : decode_call), calls[k]? = some c → 0 < c.ret → 1 < c.n_batch →
      ∃ c', calls[k + 1]? = some c' ∧ c'.i = c.i ∧ c'.n_batch = c.n_batch / 2) ∧
    (∀ (k : Nat) (c : decode_call), calls[k]? = some c →
      (c.ret < 0 ∨ (c.ret ≠ 0 ∧ c.n_batch = 1)) →
      r = false ∧ calls.length = k + 1) ∧
    ((∀ s ∈ srv.slots, s.embedding = false) → r = true →
      chunks_cover (calls.filter (fun c => decide (c.ret = 0))) 0
        (srv.batch.length : Int) = true) := by
  obtain ⟨_, c2, c3, c4⟩ := decode_loop_log_calls env fuel 0 n_batch srv srv' r calls h
  refine ⟨?_, c2, c3, c4, ?_⟩
  · rw [← decode_loop_log_erase, h]
    rfl
  · intro hemb hr
    subst hr
    have := decode_loop_log_cover env fuel 0 n_batch srv srv' calls hemb h
    have hmin : min (0 : Int) (srv.batch.length : Int) = 0 := by omega
    rw [hmin] at this
    exact this

/-- C23 (witness): the three tokens of `server_batch3` with `n_batch = 2`. The first call,
for the chunk `[0, 2)`, returns 1; the loop goes on with `n_batch = 1` and decodes the
chunks `[0, 1)`, `[1, 2)` and `[2, 3)`. -/
theorem chunked_decode_calls_witness :
    decode_loop_log engine_retry 6 0 2 server_batch3 =
      .ok ((true, { server_batch3 with decode_calls := 4 }),
        [{ i := 0, n_batch := 2, n_tokens := 2, ret := 1 },
         { i := 0, n_batch := 1, n_tokens := 1, ret := 0 },
         { i := 1, n_batch := 1, n_tokens := 1, ret := 0 },
         { i := 2, n_batch := 1, n_tokens := 1, ret := 0 }]) ∧
    chunks_cover
      [{ i := 0, n_batch := 1, n_tokens := 1, ret := 0 },
       { i := 1, n_batch := 1, n_tokens := 1, ret := 0 },
       { i := 2, n_batch := 1, n_tokens := 1, ret := 0 }] 0 3 = true :=
  ⟨by decide,
    (chunked_decode_calls engine_retry 6 2 server_batch3 { server_batch3 with decode_calls := 4 }
      true
      [{ i := 0, n_batch := 2, n_tokens := 2, ret := 1 },
       { i := 0, n_batch := 1, n_tokens := 1, ret := 0 },
       { i := 1, n_batch := 1, n_tokens := 1, ret := 0 },
       { i := 2, n_batch := 1, n_tokens := 1, ret := 0 }] (by decide)).2.2.2.2 (by decide) rfl⟩

/-- C29 (failing input): two slots of `n_ctx = 4` and `n_batch = 2`; an embedding request
with prompt "a" and a completion request with prompt "b" are submitted and a tick runs. The
batch holds four tokens, the last of them the logits of slot 1 at index 3. The decode loop
makes one call of `llama_decode`, for the chunk `[0, 2)`, and the embedding branch returns
`true` from `update_slots`: the loop has neither passed the end of the batch nor returned
`false`, and slot 1 keeps `i_batch = 3`, its prompt never decoded. -/
theorem decode_loop_returns_early :
    ((( llama_server_context.initialize
        { n_ctx := 8, params := { n_parallel := 2, n_batch := 2 } }).map
      (fun srv =>
        (request_completion
          (request_completion srv { prompt := some (.string [97]) } false true).1
          { prompt := some (.string [98]) } false false).1)).bind
      (update_slots engine_bytes 4)).map
      (fun r => (r.1, r.2.batch.length, r.2.params.n_batch, r.2.decode_calls)) =
      .ok (true, 4, 2, 1) ∧
    ((( llama_server_context.initialize
        { n_ctx := 8, params := { n_parallel := 2, n_batch := 2 } }).map
      (fun srv =>
        (request_completion
          (request_completion srv { prompt := some (.string [97]) } false true).1
          { prompt := some (.string [98]) } false false).1)).bind
      (update_slots engine_bytes 4)).map
      (fun r => r.2.batch.map (fun e => (e.token, e.seq_id, e.logits))) =
      .ok [(1, 0, false), (97, 0, true), (1, 1, false), (98, 1, true)] ∧
    ((( llama_server_context.initialize
        { n_ctx := 8, params := { n_parallel := 2, n_batch := 2 } }).map
      (fun srv =>
        (request_completion
          (request_completion srv { prompt := some (.string [97]) } false true).1
          { prompt := some (.string [98]) } false false).1)).bind
      (update_slots engine_bytes 4)).map
      (fun r => r.2.slots.map (fun s => (s.task_id, s.embedding, s.command, s.i_batch))) =
      .ok [(0, true, .RELEASE, -1), (1, false, .NONE, 3)] := by
  refine ⟨by decide, by decide, by decide⟩


/-! ### Base64 -/

theorem base64_chars_valid :
    ∀ e, e < 64 →
      base64_chars.getD e 0 ≠ 61 ∧ is_base64 (base64_chars.getD e 0) = true ∧
        base64_find (base64_chars.getD e 0) = e := by
  decide

theorem base64_bits :
    ∀ e, e < 64 →
      e <<< 2 = e * 4 ∧ (e &&& 0x30) >>> 4 = e / 16 ∧ (e &&& 0xf) <<< 4 = e % 16 * 16 ∧
        (e &&& 0x3c) >>> 2 = e / 4 ∧ (e &&& 0x3) <<< 6 = e % 4 * 64 := by
  decide

theorem base64_bytes_eq (e0 e1 e2 e3 : Nat) (h0 : e0 < 64) (h1 : e1 < 64) (h2 : e2 < 64) :
    base64_bytes [e0, e1, e2, e3] =
      [(e0 * 4 + e1 / 16) % 256, (e1 % 16 * 16 + e2 / 4) % 256, (e2 % 4 * 64 + e3) % 256] := by
  obtain ⟨a1, _, _, _, _⟩ := base64_bits e0 h0
  obtain ⟨_, b2, b3, _, _⟩ := base64_bits e1 h1
  obtain ⟨_, _, _, c4, c5⟩ := base64_bits e2 h2
  simp only [base64_bytes, List.getD_cons_zero, List.getD_cons_succ, a1, b2, b3, c4, c5]

theorem base64_group (a b c : Nat) (ha : a < 256) (hb : b < 256) (hc : c < 256) :
    base64_bytes [a / 4, a % 4 * 16 + b / 16, b % 16 * 4 + c / 64, c % 64] = [a, b, c] := by
  rw [base64_bytes_eq _ _ _ _ (by omega) (by omega) (by omega)]
  congr 1
  · omega
  · congr 1
    · omega
    · congr 1
      omega

theorem base64_decode_loop_group (e0 e1 e2 e3 : Nat) (h0 : e0 < 64) (h1 : e1 < 64)
    (h2 : e2 < 64) (h3 : e3 < 64) (rest : Str) (x0 x1 x2 x3 : Nat) (ret : List Nat) :
    base64_decode_loop
        (base64_chars.getD e0 0 :: base64_chars.getD e1 0 :: base64_chars.getD e2 0 ::
          base64_chars.getD e3 0 :: rest) 0 [x0, x1, x2, x3] ret =
      base64_decode_loop rest 0 [e0, e1, e2, e3] (ret ++ base64_bytes [e0, e1, e2, e3]) := by
  obtain ⟨a1, a2, a3⟩ := base64_chars_valid e0 h0
  obtain ⟨b1, b2, b3⟩ := base64_chars_valid e1 h1
  obtain ⟨c1, c2, c3⟩ := base64_chars_valid e2 h2
  obtain ⟨d1, d2, d3⟩ := base64_chars_valid e3 h3
  simp only [base64_decode_loop, a1, a2, b1, b2, c1, c2, d1, d2, ne_eq, not_false_eq_true,
    and_self, if_true, List.set, List.map, a3, b3, c3, d3]
  simp

theorem base64_bytes_take_one (e0 e1 e2 e3 : Nat) (h0 : e0 < 64) (h1 : e1 < 64) :
    (base64_bytes [e0, e1, e2, e3]).take 1 = [(e0 * 4 + e1 / 16) % 256] := by
  obtain ⟨a1, _, _, _, _⟩ := base64_bits e0 h0
  obtain ⟨_, b2, _, _, _⟩ := base64_bits e1 h1
  simp only [base64_bytes, List.getD_cons_zero, List.getD_cons_succ, a1, b2, List.take_succ_cons,
    List.take_zero]

theorem base64_bytes_take_two (e0 e1 e2 e3 : Nat) (h0 : e0 < 64) (h1 : e1 < 64)
    (h2 : e2 < 64) :
    (base64_bytes [e0, e1, e2, e3]).take 2 =
      [(e0 * 4 + e1 / 16) % 256, (e1 % 16 * 16 + e2 / 4) % 256] := by
  rw [base64_bytes_eq e0 e1 e2 e3 h0 h1 h2]
  rfl

theorem base64_decode_loop_one (e0 e1 : Nat) (h0 : e0 < 64) (h1 : e1 < 64)
    (x0 x1 x2 x3 : Nat) (ret : List Nat) :
    base64_decode_loop [base64_chars.getD e0 0, base64_chars.getD e1 0, 61, 61] 0
        [x0, x1, x2, x3] ret =
      (2, [base64_chars.getD e0 0, base64_chars.getD e1 0, x2, x3], ret) := by
  obtain ⟨a1, a2, _⟩ := base64_chars_valid e0 h0
  obtain ⟨b1, b2, _⟩ := base64_chars_valid e1 h1
  simp only [base64_decode_loop, a1, a2, b1, b2, ne_eq, not_false_eq_true, and_self, if_true,
    List.set]
  simp

theorem base64_decode_loop_two (e0 e1 e2 : Nat) (h0 : e0 < 64) (h1 : e1 < 64) (h2 : e2 < 64)
    (x0 x1 x2 x3 : Nat) (ret : List Nat) :
    base64_decode_loop
        [base64_chars.getD e0 0, base64_chars.getD e1 0, base64_chars.getD e2 0, 61] 0
        [x0, x1, x2, x3] ret =
      (3, [base64_chars.getD e0 0, base64_chars.getD e1 0, base64_chars.getD e2 0, x3],
        ret) := by
  obtain ⟨a1, a2, _⟩ := base64_chars_valid e0 h0
  obtain ⟨b1, b2, _⟩ := base64_chars_valid e1 h1
  obtain ⟨c1, c2, _⟩ := base64_chars_valid e2 h2
  simp only [base64_decode_loop, a1, a2, b1, b2, c1, c2, ne_eq, not_false_eq_true, and_self,
    if_true, List.set]
  simp

theorem base64_decode_tail_one (e0 e1 : Nat) (h0 : e0 < 64) (h1 : e1 < 64)
    (x2 x3 : Nat) (ret : List Nat) :
    base64_decode_tail (2, [base64_chars.getD e0 0, base64_chars.getD e1 0, x2, x3], ret) =
      ret ++ [(e0 * 4 + e1 / 16) % 256] := by
  obtain ⟨_, _, a3⟩ := base64_chars_valid e0 h0
  obtain ⟨_, _, b3⟩ := base64_chars_valid e1 h1
  have hb := base64_bytes_take_one e0 e1 (base64_find 0) (base64_find 0) h0 h1
  simp only [base64_decode_tail]
  rw [if_pos (by decide)]
  simp only [List.take_succ_cons, List.take_zero, List.replicate, List.cons_append,
    List.nil_append, List.map, a3, b3]
  exact congrArg (fun t => ret ++ t) hb

theorem base64_decode_tail_two (e0 e1 e2 : Nat) (h0 : e0 < 64) (h1 : e1 < 64) (h2 : e2 < 64)
    (x3 : Nat) (ret : List Nat) :
    base64_decode_tail
        (3, [base64_chars.getD e0 0, base64_chars.getD e1 0, base64_chars.getD e2 0, x3],
          ret) =
      ret ++ [(e0 * 4 + e1 / 16) % 256, (e1 % 16 * 16 + e2 / 4) % 256] := by
  obtain ⟨_, _, a3⟩ := base64_chars_valid e0 h0
  obtain ⟨_, _, b3⟩ := base64_chars_valid e1 h1
  obtain ⟨_, _, c3⟩ := base64_chars_valid e2 h2
  have hb := base64_bytes_take_two e0 e1 e2 (base64_find 0) h0 h1 h2
  simp only [base64_decode_tail]
  rw [if_pos (by decide)]
  simp only [List.take_succ_cons, List.take_zero, List.replicate, List.cons_append,
    List.nil_append, List.map, a3, b3, c3]
  exact congrArg (fun t => ret ++ t) hb

theorem base64_decode_eq (s : Str) :
    base64_decode s = base64_decode_tail (base64_decode_loop s 0 [0, 0, 0, 0] []) := rfl

theorem base64_decode_encoded : ∀ (b : List Nat), (∀ x ∈ b, x < 256) →
    ∀ (x0 x1 x2 x3 : Nat) (ret : List Nat),
      base64_decode_tail
        (base64_decode_loop (base64_encode_standard b) 0 [x0, x1, x2, x3] ret) = ret ++ b
  | [], _, x0, x1, x2, x3, ret => by
    simp [base64_encode_standard, base64_decode_loop, base64_decode_tail]
  | [a], h, x0, x1, x2, x3, ret => by
    have ha : a < 256 := h a (List.mem_cons_self _ _)
    rw [base64_encode_standard, base64_decode_loop_one _ _ (by omega) (by omega),
      base64_decode_tail_one _ _ (by omega) (by omega)]
    congr 2
    omega
  | [a, b], h, x0, x1, x2, x3, ret => by
    have ha : a < 256 := h a (List.mem_cons_self _ _)
    have hb : b < 256 := h b (List.mem_cons_of_mem _ (List.mem_cons_self _ _))
    rw [base64_encode_standard, base64_decode_loop_two _ _ _ (by omega) (by omega) (by omega),
      base64_decode_tail_two _ _ _ (by omega) (by omega) (by omega)]
    congr 2
    · omega
    · congr 1
      omega
  | a :: b :: c :: rest, h, x0, x1, x2, x3, ret => by
    have ha : a < 256 := h a (List.mem_cons_self _ _)
    have hb : b < 256 := h b (List.mem_cons_of_mem _ (List.mem_cons_self _ _))
    have hc : c < 256 :=
      h c (List.mem_cons_of_mem _ (List.mem_cons_of_mem _ (List.mem_cons_self _ _)))
    have hrest : ∀ x ∈ rest, x < 256 := fun x hx =>
      h x (List.mem_cons_of_mem _ (List.mem_cons_of_mem _ (List.mem_cons_of_mem _ hx)))
    rw [base64_encode_standard,
      base64_decode_loop_group _ _ _ _ (by omega) (by omega) (by omega) (by omega),
      base64_group a b c ha hb hc, base64_decode_encoded rest hrest]
    simp

/-- C30: for every sequence `b` of bytes, `base64_decode` of the standard Base64 encoding
of `b` is `b`. -/
theorem base64_round_trip (b : List Nat) (h : ∀ x ∈ b, x < 256) :
    base64_decode (base64_encode_standard b) = b := by
  rw [base64_decode_eq, base64_decode_encoded b h]
  rfl

/-- C30 (witness): the bytes of "Man!", whose encoding is "TWFuIQ==". -/
theorem base64_round_trip_witness :
    base64_encode_standard [77, 97, 110, 33] = [84, 87, 70, 117, 73, 81, 61, 61] ∧
    base64_decode (base64_encode_standard [77, 97, 110, 33]) = [77, 97, 110, 33] :=
  ⟨by decide, base64_round_trip [77, 97, 110, 33] (by decide)⟩


/-! ### The image markers of a prompt -/

theorem str_find_first (text word : Str) (from_pos p : Nat) (hfrom : from_pos ≤ p)
    (hp : p ≤ text.length) (hocc : word <+: text.drop p)
    (hno : ∀ j, from_pos ≤ j → j < p → ¬ word <+: text.drop j) :
    str_find text word from_pos = some p := by
  obtain ⟨q, hq, hle⟩ := str_find_complete text word from_pos p hocc hp hfrom
  obtain ⟨h1, _, h3⟩ := str_find_some text word from_pos q hq
  by_cases hqp : q = p
  · rw [hq, hqp]
  · exact absurd h3 (hno q h1 (by omega))

theorem str_find_none (text word : Str) (from_pos : Nat)
    (hno : ∀ j, from_pos ≤ j → j ≤ text.length → ¬ word <+: text.drop j) :
    str_find text word from_pos = none := by
  cases h : str_find text word from_pos with
  | none => rfl
  | some q =>
    obtain ⟨h1, h2, h3⟩ := str_find_some text word from_pos q h
    exact absurd h3 (hno q h1 h2)

theorem img_pattern_head (l : Str) (h : img_pattern <+: l) : l.head? = some 91 := by
  obtain ⟨r, rfl⟩ := h
  rfl

theorem bracket_head (l : Str) (h : [93] <+: l) : l.head? = some 93 := by
  obtain ⟨r, rfl⟩ := h
  rfl

/-- The pattern `"[img-"` does not begin inside a text in which it does not occur, when
the text is followed by the pattern. -/
theorem img_pattern_no_straddle (u R : Str) (m : Nat) (hm : m < u.length)
    (hno : ¬ img_pattern <:+: u) : ¬ img_pattern <+: u.drop m ++ (img_pattern ++ R) := by
  intro h
  have hlen : (u.drop m).length = u.length - m := List.length_drop m u
  by_cases hk : img_pattern.length ≤ (u.drop m).length
  · have hpre : img_pattern <+: u.drop m :=
      List.prefix_of_prefix_length_le h (List.prefix_append _ _) hk
    exact hno (infix_of_prefix_drop hpre)
  · have hplen : img_pattern.length = 5 := rfl
    obtain ⟨r, hr⟩ := h
    have hget := congrArg (fun l => l[(u.drop m).length]?) hr
    simp only at hget
    rw [List.getElem?_append_left (by omega), List.getElem?_append_right (Nat.le_refl _),
      Nat.sub_self] at hget
    have hcases : (u.drop m).length = 1 ∨ (u.drop m).length = 2 ∨ (u.drop m).length = 3 ∨
        (u.drop m).length = 4 := by omega
    rcases hcases with e | e | e | e <;> rw [e] at hget <;> simp [img_pattern] at hget

theorem digits_value_foldl_nonneg (digits : Str) (h : ∀ c ∈ digits, isdigit c = true) :
    ∀ acc : Int, 0 ≤ acc →
      0 ≤ digits.foldl (fun acc c => acc * 10 + ((c : Int) - 48)) acc := by
  induction digits with
  | nil => intro acc hacc; exact hacc
  | cons c t ih =>
    intro acc hacc
    have hc := h c (List.mem_cons_self _ _)
    simp only [isdigit, decide_eq_true_eq] at hc
    exact ih (fun x hx => h x (List.mem_cons_of_mem _ hx)) (acc * 10 + ((c : Int) - 48))
      (by omega)

theorem digits_value_nonneg (digits : Str) (h : ∀ c ∈ digits, isdigit c = true) :
    0 ≤ digits_value digits :=
  digits_value_foldl_nonneg digits h 0 (Int.le_refl 0)

theorem takeWhile_all {α : Type} (p : α → Bool) (l : List α) (h : ∀ c ∈ l, p c = true) :
    l.takeWhile p = l := by
  induction l with
  | nil => rfl
  | cons c t ih =>
    rw [List.takeWhile_cons, h c (List.mem_cons_self _ _)]
    simp only [if_true]
    rw [ih (fun x hx => h x (List.mem_cons_of_mem _ hx))]

/-- What `std::stoi` makes of a run of decimal digits within the range of `int`. -/
theorem stoi_digits (id : Str) (hne : id ≠ []) (hd : ∀ c ∈ id, isdigit c = true)
    (hmax : digits_value id ≤ 2147483647) : stoi id = .value (digits_value id) := by
  cases id with
  | nil => exact absurd rfl hne
  | cons c t =>
    have hc := hd c (List.mem_cons_self _ _)
    have hc' : 48 ≤ c ∧ c ≤ 57 := by simpa [isdigit] using hc
    have hsp : isspace c = false := by
      simp only [isspace, Bool.or_eq_false_iff, decide_eq_false_iff_not]
      omega
    have hnn := digits_value_nonneg (c :: t) hd
    have hsign : stoi_sign (c :: t) = (false, c :: t) := by
      unfold stoi_sign
      split
      · rename_i heq
        simp only [List.cons.injEq] at heq
        omega
      · rename_i heq
        simp only [List.cons.injEq] at heq
        omega
      · rfl
    unfold stoi
    rw [List.dropWhile_cons, hsp]
    simp only [Bool.false_eq_true, if_false, hsign]
    rw [takeWhile_all isdigit (c :: t) hd]
    simp only [List.isEmpty_cons, Bool.false_eq_true, if_false]
    rw [if_neg (by omega)]

theorem drop_two (pre t X : Str) : (pre ++ (t ++ X)).drop (pre.length + t.length) = X := by
  rw [← List.append_assoc, ← List.length_append, List.drop_left]

theorem drop_inside (pre t X : Str) (m : Nat) (hm : m ≤ t.length) :
    (pre ++ (t ++ X)).drop (pre.length + m) = t.drop m ++ X := by
  rw [List.drop_append, List.drop_append_of_le_length hm]

theorem head_drop_inside (id Y : Str) (m : Nat) (hm : m < id.length) :
    ∃ c, c ∈ id ∧ (id.drop m ++ Y).head? = some c := by
  refine ⟨id[m], List.getElem_mem _, ?_⟩
  rw [List.drop_eq_getElem_cons hm]
  rfl

/-- The last iteration of the marker scan: no pattern is left. -/
theorem image_marker_loop_last (pre last : Str) (pos fuel : Nat) (images : List slot_image)
    (hlast : ¬ img_pattern <:+: last)
    (hno : ∀ j, pos ≤ j → j < pre.length → ¬ img_pattern <+: (pre ++ last).drop j) :
    image_marker_loop (pre ++ last) (fuel + 1) pos pre.length images =
      .ok (some (pre.length, images)) := by
  have hfind : str_find (pre ++ last) img_pattern pos = none := by
    apply str_find_none
    intro j hj1 hj2 hocc
    by_cases hj : j < pre.length
    · exact hno j hj1 hj hocc
    · have e : j = pre.length + (j - pre.length) := by omega
      rw [e, List.drop_append] at hocc
      exact hlast (infix_of_prefix_drop hocc)
  simp only [image_marker_loop, hfind]

/-- One iteration of the marker scan at a marker `[img-id]` that comes after the text `t`:
the pattern is found at the end of `t`, the bracket at the end of `id`. -/
theorem image_marker_loop_marker (pre t id R : Str) (pos fuel : Nat)
    (images : List slot_image) (hpos : pos ≤ pre.length)
    (ht : ¬ img_pattern <:+: t) (hid : ∀ c ∈ id, c ≠ 93)
    (hno : ∀ j, pos ≤ j → j < pre.length →
      ¬ img_pattern <+: (pre ++ (t ++ (img_pattern ++ (id ++ 93 :: R)))).drop j) :
    image_marker_loop (pre ++ (t ++ (img_pattern ++ (id ++ 93 :: R)))) (fuel + 1) pos
        pre.length images =
      match stoi id with
      | .invalid_argument => .ok none
      | .out_of_range => .error .uncaught_exception
      | .value img_id =>
        match set_image_prefix img_id t images with
        | none => .ok none
        | some images1 =>
          image_marker_loop (pre ++ (t ++ (img_pattern ++ (id ++ 93 :: R)))) fuel
            (pre.length + t.length + img_pattern.length)
            (pre.length + t.length + img_pattern.length + id.length + 1) images1 := by
  have h5 : img_pattern.length = 5 := rfl
  have hfind1 : str_find (pre ++ (t ++ (img_pattern ++ (id ++ 93 :: R)))) img_pattern pos =
      some (pre.length + t.length) := by
    apply str_find_first
    · omega
    · simp only [List.length_append]
      omega
    · rw [drop_two]
      exact List.prefix_append _ _
    · intro j hj1 hj2 hocc
      by_cases hj : j < pre.length
      · exact hno j hj1 hj hocc
      · have e : j = pre.length + (j - pre.length) := by omega
        rw [e, drop_inside _ _ _ _ (by omega)] at hocc
        exact img_pattern_no_straddle t _ (j - pre.length) (by omega) ht hocc
  have hdrop : (pre ++ (t ++ (img_pattern ++ (id ++ 93 :: R)))).drop
      (pre.length + t.length + img_pattern.length) = id ++ 93 :: R := by
    have e : pre ++ (t ++ (img_pattern ++ (id ++ 93 :: R))) =
        (pre ++ t ++ img_pattern) ++ (id ++ 93 :: R) := by
      simp only [List.append_assoc]
    have el : pre.length + t.length + img_pattern.length =
        (pre ++ t ++ img_pattern).length := by
      simp only [List.length_append]
    rw [e, el, List.drop_left]
  have hdrop_id : ∀ m, m ≤ id.length →
      (pre ++ (t ++ (img_pattern ++ (id ++ 93 :: R)))).drop
        (pre.length + t.length + img_pattern.length + m) = id.drop m ++ 93 :: R := by
    intro m hm
    rw [← List.drop_drop, hdrop, List.drop_append_of_le_length hm]
  have hfind2 : str_find (pre ++ (t ++ (img_pattern ++ (id ++ 93 :: R)))) [93]
      (pre.length + t.length + img_pattern.length) =
      some (pre.length + t.length + img_pattern.length + id.length) := by
    apply str_find_first
    · omega
    · simp only [List.length_append, List.length_cons]
      omega
    · rw [hdrop_id id.length (Nat.le_refl _), List.drop_length]
      exact ⟨R, rfl⟩
    · intro j hj1 hj2 hocc
      have e : j = pre.length + t.length + img_pattern.length +
          (j - (pre.length + t.length + img_pattern.length)) := by omega
      rw [e, hdrop_id _ (by omega)] at hocc
      obtain ⟨c, hc, hhead⟩ := head_drop_inside id (93 :: R)
        (j - (pre.length + t.length + img_pattern.length)) (by omega)
      have := bracket_head _ hocc
      rw [hhead] at this
      simp only [Option.some.injEq] at this
      exact hid c hc this
  have hsub1 : substr (pre ++ (t ++ (img_pattern ++ (id ++ 93 :: R))))
      (pre.length + t.length + img_pattern.length)
      (pre.length + t.length + img_pattern.length + id.length -
        (pre.length + t.length + img_pattern.length)) = id := by
    unfold substr
    rw [hdrop, Nat.add_sub_cancel_left, List.take_left]
  have hsub2 : substr (pre ++ (t ++ (img_pattern ++ (id ++ 93 :: R)))) pre.length
      (size_t_sub (pre.length + t.length) pre.length) = t := by
    unfold substr size_t_sub
    rw [if_pos (by omega), Nat.add_sub_cancel_left, List.drop_left, List.take_left]
  cases hst : stoi id with
  | value n =>
    cases hset : set_image_prefix n t images with
    | none => simp only [image_marker_loop, hfind1, hfind2, hsub1, hsub2, hst, hset]
    | some images1 => simp only [image_marker_loop, hfind1, hfind2, hsub1, hsub2, hst, hset]
  | invalid_argument => simp only [image_marker_loop, hfind1, hfind2, hsub1, hsub2, hst]
  | out_of_range => simp only [image_marker_loop, hfind1, hfind2, hsub1, hsub2, hst]

theorem marked_prompt_cons (t id : Str) (rest : List (Str × Str)) (last : Str) :
    marked_prompt ((t, id) :: rest) last =
      t ++ (img_pattern ++ (id ++ 93 :: marked_prompt rest last)) := by
  simp [marked_prompt]

theorem marked_prompt_ends (segs : List (Str × Str)) (last : Str) :
    ∃ X, marked_prompt segs last = X ++ last ∧ segs.length ≤ X.length := by
  induction segs with
  | nil => exact ⟨[], rfl, Nat.le_refl _⟩
  | cons seg rest ih =>
    obtain ⟨t, id⟩ := seg
    obtain ⟨X, hX, hlen⟩ := ih
    refine ⟨t ++ (img_pattern ++ (id ++ 93 :: X)), ?_, ?_⟩
    · rw [marked_prompt_cons, hX]
      simp only [List.append_assoc, List.cons_append]
    · simp only [List.length_append, List.length_cons]
      omega

/-- The marker scan on a prompt written with markers, from a position `pos` after which no
pattern begins before the end of the part `pre` that was handled. -/
theorem image_marker_loop_spec (last : Str) (hlast : ¬ img_pattern <:+: last) :
    ∀ (segs : List (Str × Str)) (pre : Str) (pos fuel : Nat) (images : List slot_image),
      (∀ seg ∈ segs, ¬ img_pattern <:+: seg.1 ∧ (∀ c ∈ seg.2, c ≠ 91 ∧ c ≠ 93) ∧
        stoi seg.2 ≠ .out_of_range) →
      pos ≤ pre.length →
      (∀ j, pos ≤ j → j < pre.length →
        ¬ img_pattern <+: (pre ++ marked_prompt segs last).drop j) →
      segs.length < fuel →
      image_marker_loop (pre ++ marked_prompt segs last) fuel pos pre.length images =
        .ok ((bind_markers segs images).map
          (fun imgs => ((pre ++ marked_prompt segs last).length - last.length, imgs))) := by
  intro segs
  induction segs with
  | nil =>
    intro pre pos fuel images _ hpos hno hfuel
    obtain ⟨f, rfl⟩ : ∃ f, fuel = f + 1 := ⟨fuel - 1, by omega⟩
    have hm : marked_prompt [] last = last := rfl
    rw [hm] at hno ⊢
    rw [image_marker_loop_last pre last pos f images hlast hno]
    simp [bind_markers]
  | cons seg rest ih =>
    intro pre pos fuel images hsegs hpos hno hfuel
    obtain ⟨t, id⟩ := seg
    obtain ⟨f, rfl⟩ : ∃ f, fuel = f + 1 := ⟨fuel - 1, by omega⟩
    obtain ⟨ht, hid, hrange⟩ := hsegs (t, id) (List.mem_cons_self _ _)
    simp only at ht hid hrange
    rw [marked_prompt_cons] at hno ⊢
    rw [image_marker_loop_marker pre t id (marked_prompt rest last) pos f images hpos ht
      (fun c hc => (hid c hc).2) hno]
    simp only [bind_markers]
    cases hst : stoi id with
    | invalid_argument => rfl
    | out_of_range => exact absurd hst hrange
    | value n =>
      simp only
      cases hset : set_image_prefix n t images with
      | none => rfl
      | some images1 =>
        simp only
        have hP : pre ++ (t ++ (img_pattern ++ (id ++ 93 :: marked_prompt rest last))) =
            (pre ++ (t ++ (img_pattern ++ (id ++ [93])))) ++ marked_prompt rest last := by
          simp only [List.append_assoc, List.cons_append, List.nil_append]
        have hL : pre.length + t.length + img_pattern.length + id.length + 1 =
            (pre ++ (t ++ (img_pattern ++ (id ++ [93])))).length := by
          simp only [List.length_append, List.length_cons, List.length_nil]
          omega
        rw [hP, hL]
        apply ih (pre ++ (t ++ (img_pattern ++ (id ++ [93]))))
          (pre.length + t.length + img_pattern.length) f images1
          (fun seg hseg => hsegs seg (List.mem_cons_of_mem _ hseg))
        · rw [← hL]
          omega
        · intro j hj1 hj2 hocc
          rw [← hL] at hj2
          rw [← hP] at hocc
          have e : j = pre.length + t.length + img_pattern.length +
              (j - (pre.length + t.length + img_pattern.length)) := by omega
          have hdrop : (pre ++ (t ++ (img_pattern ++ (id ++ 93 :: marked_prompt rest last)))).drop
              (pre.length + t.length + img_pattern.length) =
              id ++ 93 :: marked_prompt rest last := by
            have e1 : pre ++ (t ++ (img_pattern ++ (id ++ 93 :: marked_prompt rest last))) =
                (pre ++ t ++ img_pattern) ++ (id ++ 93 :: marked_prompt rest last) := by
              simp only [List.append_assoc]
            have el : pre.length + t.length + img_pattern.length =
                (pre ++ t ++ img_pattern).length := by
              simp only [List.length_append]
            rw [e1, el, List.drop_left]
          rw [e, ← List.drop_drop, hdrop] at hocc
          have hhead := img_pattern_head _ hocc
          by_cases hm : j - (pre.length + t.length + img_pattern.length) < id.length
          · rw [List.drop_append_of_le_length (by omega)] at hhead
            obtain ⟨c, hc, hh⟩ := head_drop_inside id (93 :: marked_prompt rest last) _ hm
            rw [hh] at hhead
            simp only [Option.some.injEq] at hhead
            exact (hid c hc).1 hhead
          · have hm' : j - (pre.length + t.length + img_pattern.length) = id.length := by omega
            rw [hm', List.drop_left] at hhead
            simp at hhead
        · simp only [List.length_cons] at hfuel
          omega

/-- C25 (amended): for a string prompt written as `t0 [img-s1] t1 ... [img-sk] tk`, where
no `ti` holds the pattern `"[img-"`, no `si` holds a bracket and `std::stoi` does not
overflow on an `si`, and a non-empty image list, `launch_slot_with_data` handles the
markers in order: the first image whose id is the number that `std::stoi` reads from `si`
gets `t(i-1)` as `prefix_prompt`; then the prompt is cleared, `input_suffix` is `tk` and
`cache_prompt` is off. When some `si` holds no number, or its number is the id of no
image, the function returns `false` and the images are cleared. -/
theorem image_markers_bound (segs : List (Str × Str)) (last : Str) (slot : image_prompt)
    (hprompt : slot.prompt = .string (marked_prompt segs last))
    (himages : slot.images ≠ [])
    (hsegs : ∀ seg ∈ segs, ¬ img_pattern <:+: seg.1 ∧ (∀ c ∈ seg.2, c ≠ 91 ∧ c ≠ 93) ∧
      stoi seg.2 ≠ .out_of_range)
    (hlast : ¬ img_pattern <:+: last) :
    launch_slot_image_prompt slot =
      .ok (match bind_markers segs slot.images with
        | none => (false, { slot with images := [] })
        | some images =>
          (true, { images := images, prompt := .string [], input_suffix := last,
                   cache_prompt := false })) := by
  obtain ⟨X, hX, hXlen⟩ := marked_prompt_ends segs last
  have hloop := image_marker_loop_spec last hlast segs [] 0
    ((marked_prompt segs last).length + 1) slot.images hsegs (Nat.le_refl _)
    (fun j _ hj => by simp at hj)
    (by rw [hX, List.length_append]; omega)
  simp only [List.nil_append, List.length_nil] at hloop
  have hpos : slot.images.length > 0 := List.length_pos.2 himages
  unfold launch_slot_image_prompt
  rw [hprompt]
  simp only
  rw [if_pos hpos, hloop]
  cases bind_markers segs slot.images with
  | none => rfl
  | some images =>
    simp only [Option.map]
    have hdrop : (marked_prompt segs last).drop
        ((marked_prompt segs last).length - last.length) = last := by
      rw [hX, List.length_append, Nat.add_sub_cancel, List.drop_left]
    rw [hdrop]

/-- C25 (counterexample): the prompt `a[img-1x]b` holds no marker `[img-N]` with a number
`N`, and the text `1x` between `[img-` and `]` is the id of no image; yet the image with
id 1 gets the prefix `a`, `input_suffix` becomes `b` and the function returns `true`. And
in the prompt `[img-x]a[img-1]b` the marker `[img-1]` names the image with id 1, which gets
no prefix: the function returns `false` at `[img-x]` and the images are cleared. -/
theorem image_marker_lax_id :
    launch_slot_image_prompt
        { images := [{ id := 1 }],
          prompt := .string [97, 91, 105, 109, 103, 45, 49, 120, 93, 98] } =
      .ok (true,
        { images := [{ id := 1, prefix_prompt := [97] }], prompt := .string [],
          input_suffix := [98], cache_prompt := false }) ∧
    launch_slot_image_prompt
        { images := [{ id := 1 }],
          prompt :=
            .string [91, 105, 109, 103, 45, 120, 93, 97, 91, 105, 109, 103, 45, 49, 93, 98] } =
      .ok (false,
        { images := [],
          prompt :=
            .string
              [91, 105, 109, 103, 45, 120, 93, 97, 91, 105, 109, 103, 45, 49, 93, 98] }) := by
  refine ⟨by decide, by decide⟩

/-- C25 (witness): the prompt `a[img-12]b[img-7]c` with the images 7 and 12: image 12 gets
the prefix `a`, image 7 the prefix `b`, and `input_suffix` is `c`. -/
theorem image_markers_bound_witness :
    marked_prompt [([97], [49, 50]), ([98], [55])] [99] =
      [97, 91, 105, 109, 103, 45, 49, 50, 93, 98, 91, 105, 109, 103, 45, 55, 93, 99] ∧
    launch_slot_image_prompt
        { images := [{ id := 7 }, { id := 12 }],
          prompt := .string (marked_prompt [([97], [49, 50]), ([98], [55])] [99]) } =
      .ok (true,
        { images := [{ id := 7, prefix_prompt := [98] }, { id := 12, prefix_prompt := [97] }],
          prompt := .string [], input_suffix := [99], cache_prompt := false }) :=
  ⟨by decide,
    image_markers_bound [([97], [49, 50]), ([98], [55])] [99]
      { images := [{ id := 7 }, { id := 12 }],
        prompt := .string (marked_prompt [([97], [49, 50]), ([98], [55])] [99]) }
      rfl (by decide) (by decide) (by decide)⟩


/-! ### A second run of the same request -/

theorem for_each_slot_inv {σ : Type}
    (body : σ → llama_client_slot → Except fault (σ × llama_client_slot)) (Q : σ → Prop)
    (hQ : ∀ st s st' s', Q st → body st s = .ok (st', s') → Q st') :
    ∀ (ss : List llama_client_slot) (st st' : σ) (ss' : List llama_client_slot),
      Q st → for_each_slot body st ss = .ok (st', ss') →
      Q st' ∧ List.Forall₂ (fun s s' => ∃ a b, Q a ∧ body a s = .ok (b, s')) ss ss' := by
  intro ss
  induction ss with
  | nil =>
    intro st st' ss' hq h
    simp only [for_each_slot, Except.ok.injEq, Prod.mk.injEq] at h
    rw [← h.1, ← h.2]
    exact ⟨hq, List.Forall₂.nil⟩
  | cons s ss ih =>
    intro st st' ss' hq h
    simp only [for_each_slot] at h
    split at h
    · cases h
    · rename_i st1 s1 hb
      split at h
      · cases h
      · rename_i st2 rest2 hr
        simp only [Except.ok.injEq, Prod.mk.injEq] at h
        rw [← h.1, ← h.2]
        obtain ⟨q2, f2⟩ := ih st1 st2 rest2 (hQ st s st1 s1 hq hb) hr
        exact ⟨q2, List.Forall₂.cons ⟨st, st1, hq, hb⟩ f2⟩

theorem forall₂_get_some {α : Type} {R : α → α → Prop} :
    ∀ {a b : List α}, List.Forall₂ R a b → ∀ (i : Nat) (x : α), a.get? i = some x →
      ∃ y, b.get? i = some y ∧ R x y := by
  intro a b hab
  induction hab with
  | nil => intro i x h; simp at h
  | cons h' _ ih =>
    intro i x h
    cases i with
    | zero =>
      simp only [List.get?_cons_zero, Option.some.injEq] at h
      subst h
      exact ⟨_, rfl, h'⟩
    | succ i =>
      simp only [List.get?_cons_succ] at h
      obtain ⟨y, hy, hR⟩ := ih i x h
      exact ⟨y, by simpa using hy, hR⟩

/-! #### The system prompt through a tick -/

theorem update_slots_ongoing_system_prompt (env : Engine) (a b : llama_server_context)
    (s s' : llama_client_slot) (h : update_slots_ongoing env a s = .ok (b, s')) :
    b.system_prompt = a.system_prompt := by
  unfold update_slots_ongoing at h
  split at h
  · simp only [Except.ok.injEq, Prod.mk.injEq] at h
    rw [← h.1]
  · split at h
    · simp only [Except.ok.injEq, Prod.mk.injEq] at h
      rw [← h.1]
    · simp only [Except.ok.injEq, Prod.mk.injEq] at h
      rw [← h.1]

theorem update_slots_prompt_system_prompt (env : Engine) (a b : llama_server_context)
    (s s' : llama_client_slot) (h : update_slots_prompt env a s = .ok (b, s')) :
    b.system_prompt = a.system_prompt := by
  unfold update_slots_prompt at h
  simp only at h
  split at h
  · split at h
    · cases h
    · simp only [Except.ok.injEq, Prod.mk.injEq] at h
      rw [← h.1]
  · split at h
    · split at h
      · cases h
      · split at h
        · cases h
        · simp only [Except.ok.injEq, Prod.mk.injEq] at h
          rw [← h.1]
    · simp only [Except.ok.injEq, Prod.mk.injEq] at h
      rw [← h.1]

theorem update_slots_sample_system_prompt (env : Engine) (i n_tokens : Int)
    (st st' : llama_server_context × Bool) (s s' : llama_client_slot)
    (h : update_slots_sample env i n_tokens st s = .ok (st', s')) :
    st'.1.system_prompt = st.1.system_prompt := by
  unfold update_slots_sample at h
  split at h
  · simp only [Except.ok.injEq, Prod.mk.injEq] at h
    rw [← h.1]
  · split at h
    · simp only [Except.ok.injEq, Prod.mk.injEq] at h
      rw [← h.1]
    · split at h
      · simp only [Except.ok.injEq, Prod.mk.injEq] at h
        rw [← h.1]
      · simp only at h
        split at h
        · split at h
          · cases h
          · simp only [Except.ok.injEq, Prod.mk.injEq] at h
            rw [← h.1]
        · simp only [Except.ok.injEq, Prod.mk.injEq] at h
          rw [← h.1]

theorem decode_loop_system_prompt (env : Engine) :
    ∀ (fuel : Nat) (i n_batch : Int) (srv : llama_server_context) (b : Bool)
      (srv' : llama_server_context),
      decode_loop env fuel i n_batch srv = .ok (b, srv') →
      srv'.system_prompt = srv.system_prompt := by
  intro fuel
  induction fuel with
  | zero => intro i n_batch srv b srv' h; simp [decode_loop] at h
  | succ fuel ih =>
    intro i n_batch srv b srv' h
    simp only [decode_loop] at h
    split at h
    · split at h
      · split at h
        · simp only [Except.ok.injEq, Prod.mk.injEq] at h
          rw [← h.2]
        · exact ih _ _ { srv with decode_calls := srv.decode_calls + 1 } _ _ h
      · split at h
        · cases h
        · rename_i st slots hfor
          have hst : st.1.system_prompt = srv.system_prompt :=
            (for_each_slot_inv (update_slots_sample env i _)
              (fun x => x.1.system_prompt = srv.system_prompt)
              (fun x s x' s' hx hb =>
                (update_slots_sample_system_prompt env i _ x x' s s' hb).trans hx)
              srv.slots ({ srv with decode_calls := srv.decode_calls + 1 }, false) st slots
              rfl hfor).1
          split at h
          · simp only [Except.ok.injEq, Prod.mk.injEq] at h
            rw [← h.2]
            exact hst
          · exact (ih _ _ { st.1 with slots := slots } _ _ h).trans hst
    · simp only [Except.ok.injEq, Prod.mk.injEq] at h
      rw [← h.2]

theorem update_slots_begin_system_prompt (env : Engine) (srv : llama_server_context) :
    (update_slots_begin env srv).system_prompt = (process_tasks env srv).system_prompt := by
  have hsys : ∀ x : llama_server_context,
      (update_system_prompt env x).system_prompt = x.system_prompt := by
    intro x
    unfold update_system_prompt
    simp only
    split <;> rfl
  unfold update_slots_begin
  simp only
  split <;> split <;> first
    | exact hsys _
    | rfl

/-- One tick, slot by slot, as `update_slots_passes` has it, with the system prompt that
the prompt-ingest pass reads: it is that of the server after the tick. -/
theorem update_slots_passes_system_prompt (env : Engine) (fuel : Nat)
    (srv : llama_server_context) (b : Bool) (srv' : llama_server_context)
    (h : update_slots env fuel srv = .ok (b, srv')) :
    ∃ l1 l2 l3 : List llama_client_slot,
      List.Forall₂ (fun s s' => update_slots_shift s = .ok s') (process_tasks env srv).slots l1 ∧
      List.Forall₂ (fun s s' => ∃ a b, update_slots_ongoing env a s = .ok (b, s')) l1 l2 ∧
      List.Forall₂ (fun s s' =>
        (∃ a b, a.system_prompt = srv'.system_prompt ∧
          update_slots_prompt env a s = .ok (b, s')) ∨ s' = s) l2 l3 ∧
      List.Forall₂ (sampled_steps env) l3 srv'.slots := by
  unfold update_slots at h
  split at h
  · cases h
  · rename_i u shifted hshift
    have hs1 : List.Forall₂ (fun s s' => update_slots_shift s = .ok s')
        (process_tasks env srv).slots shifted := by
      have := for_each_slot_forall₂ _ _ _ _ _ hshift
      rw [update_slots_begin_slots] at this
      refine forall₂_mono ?_ this
      intro x y ⟨_, _, hxy⟩
      unfold update_slots_shift_body at hxy
      split at hxy
      · cases hxy
      · rename_i v hv
        simp only [Except.ok.injEq, Prod.mk.injEq, true_and] at hxy
        rw [hv, hxy]
    split at h
    · cases h
    · rename_i srv5 ongoing hong
      have hs2 := for_each_slot_forall₂ _ _ _ _ _ hong
      have h5 : srv5.system_prompt = (update_slots_begin env srv).system_prompt :=
        (for_each_slot_inv (update_slots_ongoing env)
          (fun x => x.system_prompt = (update_slots_begin env srv).system_prompt)
          (fun x s x' s' hx hb =>
            (update_slots_ongoing_system_prompt env x x' s s' hb).trans hx)
          shifted { update_slots_begin env srv with slots := shifted } srv5 ongoing
          rfl hong).1
      simp only at h
      split at h
      · cases h
      · rename_i srv7 slots hing
        have hs3 : srv7.system_prompt = (update_slots_begin env srv).system_prompt ∧
            List.Forall₂
            (fun s s' => (∃ a b, a.system_prompt = (update_slots_begin env srv).system_prompt ∧
              update_slots_prompt env a s = .ok (b, s')) ∨ s' = s)
            ongoing slots := by
          split at hing
          · obtain ⟨q, f⟩ := for_each_slot_inv (update_slots_prompt env)
              (fun x => x.system_prompt = (update_slots_begin env srv).system_prompt)
              (fun x s x' s' hx hb =>
                (update_slots_prompt_system_prompt env x x' s s' hb).trans hx)
              ongoing { srv5 with slots := ongoing } srv7 slots h5 hing
            exact ⟨q, forall₂_mono (fun x y hxy => Or.inl hxy) f⟩
          · simp only [Except.ok.injEq, Prod.mk.injEq] at hing
            rw [← hing.1, ← hing.2]
            exact ⟨h5, forall₂_refl_of
              (R := fun s s' => (∃ a b,
                a.system_prompt = (update_slots_begin env srv).system_prompt ∧
                update_slots_prompt env a s = .ok (b, s')) ∨ s' = s)
              (fun x => Or.inr rfl) _⟩
        obtain ⟨h7, hs3⟩ := hs3
        have hfinal : srv'.system_prompt = (update_slots_begin env srv).system_prompt ∧
            List.Forall₂ (sampled_steps env) slots srv'.slots := by
          split at h
          · simp only [Except.ok.injEq, Prod.mk.injEq] at h
            rw [← h.2]
            exact ⟨h7, forall₂_refl_of (sampled_steps.done) _⟩
          · exact ⟨(decode_loop_system_prompt env fuel 0 _ _ b srv' h).trans h7,
              decode_loop_rel env fuel 0 _ _ b srv' h (Or.inl (Int.le_refl 0))⟩
        refine ⟨shifted, ongoing, slots, hs1, hs2, ?_, hfinal.2⟩
        rw [hfinal.1]
        exact hs3

/-! #### What the passes keep of a slot -/

theorem process_task_forall₂ (R : llama_client_slot → llama_client_slot → Prop)
    (hrefl : ∀ x, R x x) (htrans : ∀ x y z, R x y → R y z → R x z)
    (hrel : ∀ x, R x x.release)
    (hbind : ∀ (slot : llama_client_slot) (task : task_server),
      R slot (launch_slot_with_data
        { slot.reset with
          infill := task.infill_mode, embedding := task.embedding_mode, task_id := task.id }
        task.data).2)
    (env : Engine) (srv : llama_server_context) (task : task_server) :
    List.Forall₂ R srv.slots (process_task env srv task).1.slots := by
  have hcancel : ∀ (target_id : Int) (slots : List llama_client_slot),
      List.Forall₂ R slots (cancel_slot target_id slots) := by
    intro target_id slots
    induction slots with
    | nil => exact List.Forall₂.nil
    | cons s slots ih =>
      simp only [cancel_slot]
      split
      · exact List.Forall₂.cons (hrel s) (forall₂_refl_of hrefl _)
      · exact List.Forall₂.cons (hrefl s) ih
  unfold process_task
  split
  · simp only
    split
    · exact forall₂_refl_of hrefl _
    · rename_i i hget
      have hsys : List.Forall₂ R srv.slots
          (match task.data.system_prompt with
            | some sys_props =>
              process_system_prompt_data { srv with clock_calls := srv.clock_calls + 1 } sys_props
            | none => { srv with clock_calls := srv.clock_calls + 1 }).slots := by
        split
        · unfold process_system_prompt_data
          simp only
          split
          · exact forall₂_map_right _ hrel _
          · exact forall₂_refl_of hrefl _
        · exact forall₂_refl_of hrefl _
      split
      · exact hsys
      · rename_i slot hslot
        have hset := forall₂_set hrefl _ i slot _ hslot (hbind slot task)
        have hall := forall₂_comp htrans hsys hset
        split
        · exact hall
        · exact hall
  · exact hcancel _ _

theorem process_tasks_forall₂ (R : llama_client_slot → llama_client_slot → Prop)
    (hrefl : ∀ x, R x x) (htrans : ∀ x y z, R x y → R y z → R x z)
    (hrel : ∀ x, R x x.release)
    (hbind : ∀ (slot : llama_client_slot) (task : task_server),
      R slot (launch_slot_with_data
        { slot.reset with
          infill := task.infill_mode, embedding := task.embedding_mode, task_id := task.id }
        task.data).2)
    (env : Engine) (srv : llama_server_context) :
    List.Forall₂ R srv.slots (process_tasks env srv).slots := by
  have key : ∀ (queue : List task_server) (srv : llama_server_context),
      List.Forall₂ R srv.slots (process_tasks_loop env queue srv).slots := by
    intro queue
    induction queue with
    | nil => intro srv; exact forall₂_refl_of hrefl _
    | cons task rest ih =>
      intro srv
      simp only [process_tasks_loop]
      have h1 : List.Forall₂ R srv.slots
          (process_task env { srv with queue_tasks := rest } task).1.slots :=
        process_task_forall₂ R hrefl htrans hrel hbind env { srv with queue_tasks := rest } task
      split
      · exact forall₂_comp htrans h1 (ih _)
      · exact h1
  exact key _ srv

/-- The work of `process_tasks` leaves `cache_tokens` of every slot as it is: neither
`reset` nor `launch_slot_with_data` nor `release` writes it. -/
theorem process_tasks_cache_tokens (env : Engine) (srv : llama_server_context) :
    List.Forall₂ (fun s s' => s'.cache_tokens = s.cache_tokens)
      srv.slots (process_tasks env srv).slots := by
  refine process_tasks_forall₂ (fun s s' => s'.cache_tokens = s.cache_tokens) (fun _ => rfl)
    (fun x y z h1 h2 => h2.trans h1) ?_ ?_ env srv
  · intro x
    rw [release_frame]
  · intro slot task
    rfl

theorem process_token_cache_grows (env : Engine) (params : gpt_params) (mm : Bool)
    (result : completion_token_output) (s : llama_client_slot) (q : List task_result) :
    s.cache_tokens <+: (process_token env params mm result s q).2.2.1.cache_tokens := by
  unfold process_token
  simp only
  rw [check_eos_cache_tokens, check_limit_cache_tokens, pending_override_cache_tokens]
  have hadd : ∀ (x : llama_client_slot) (r : completion_token_output),
      x.cache_tokens <+: (x.add_token_string r).cache_tokens := by
    intro x r
    unfold llama_client_slot.add_token_string
    split
    · exact List.prefix_refl _
    · exact List.prefix_append _ _
  split
  · unfold process_token_flush
    simp only
    have hbase : (append_piece result.tok (env.llama_token_to_piece result.tok) s).cache_tokens =
        s.cache_tokens := rfl
    split
    · rw [send_partial_response_cache_tokens]
      have := hadd (flush_text
        (stop_search (env.llama_token_to_piece result.tok)
          (append_piece result.tok (env.llama_token_to_piece result.tok) s)).1
        (stop_search (env.llama_token_to_piece result.tok)
          (append_piece result.tok (env.llama_token_to_piece result.tok) s)).2.1
        (stop_search (env.llama_token_to_piece result.tok)
          (append_piece result.tok (env.llama_token_to_piece result.tok) s)).2.2.1 result
        (stop_search (env.llama_token_to_piece result.tok)
          (append_piece result.tok (env.llama_token_to_piece result.tok) s)).2.2.2).2
        (flush_text
        (stop_search (env.llama_token_to_piece result.tok)
          (append_piece result.tok (env.llama_token_to_piece result.tok) s)).1
        (stop_search (env.llama_token_to_piece result.tok)
          (append_piece result.tok (env.llama_token_to_piece result.tok) s)).2.1
        (stop_search (env.llama_token_to_piece result.tok)
          (append_piece result.tok (env.llama_token_to_piece result.tok) s)).2.2.1 result
        (stop_search (env.llama_token_to_piece result.tok)
          (append_piece result.tok (env.llama_token_to_piece result.tok) s)).2.2.2).1
      rw [flush_text_cache_tokens, stop_search_cache_tokens, hbase] at this
      exact this
    · have := hadd (flush_text
        (stop_search (env.llama_token_to_piece result.tok)
          (append_piece result.tok (env.llama_token_to_piece result.tok) s)).1
        (stop_search (env.llama_token_to_piece result.tok)
          (append_piece result.tok (env.llama_token_to_piece result.tok) s)).2.1
        (stop_search (env.llama_token_to_piece result.tok)
          (append_piece result.tok (env.llama_token_to_piece result.tok) s)).2.2.1 result
        (stop_search (env.llama_token_to_piece result.tok)
          (append_piece result.tok (env.llama_token_to_piece result.tok) s)).2.2.2).2
        (flush_text
        (stop_search (env.llama_token_to_piece result.tok)
          (append_piece result.tok (env.llama_token_to_piece result.tok) s)).1
        (stop_search (env.llama_token_to_piece result.tok)
          (append_piece result.tok (env.llama_token_to_piece result.tok) s)).2.1
        (stop_search (env.llama_token_to_piece result.tok)
          (append_piece result.tok (env.llama_token_to_piece result.tok) s)).2.2.1 result
        (stop_search (env.llama_token_to_piece result.tok)
          (append_piece result.tok (env.llama_token_to_piece result.tok) s)).2.2.2).1
      rw [flush_text_cache_tokens, stop_search_cache_tokens, hbase] at this
      exact this
  · exact List.prefix_refl _

/-- One call of `update_slots_sample` keeps the request fields of the slot and what the
prompt preparation has set, and adds to `cache_tokens` at its end only. -/
theorem update_slots_sample_keeps (env : Engine) (i n_tokens : Int)
    (st st' : llama_server_context × Bool) (s s' : llama_client_slot)
    (h : update_slots_sample env i n_tokens st s = .ok (st', s')) :
    s'.prompt = s.prompt ∧ s'.infill = s.infill ∧
    s'.num_prompt_tokens_processed = s.num_prompt_tokens_processed ∧
    s.cache_tokens <+: s'.cache_tokens := by
  unfold update_slots_sample at h
  split at h
  · simp only [Except.ok.injEq, Prod.mk.injEq] at h
    rw [← h.2]
    exact ⟨rfl, rfl, rfl, List.prefix_refl _⟩
  · split at h
    · simp only [Except.ok.injEq, Prod.mk.injEq] at h
      rw [← h.2]
      exact ⟨rfl, rfl, rfl, List.prefix_refl _⟩
    · split at h
      · simp only [Except.ok.injEq, Prod.mk.injEq] at h
        rw [← h.2, release_frame]
        exact ⟨rfl, rfl, rfl, List.prefix_refl _⟩
      · simp only at h
        have hframe := token_frame_process_token env st.1.params st.1.multimodal
          { tok := env.llama_sampling_sample st.1.sample_calls } s st.1.queue_results
        have hcache := process_token_cache_grows env st.1.params st.1.multimodal
          { tok := env.llama_sampling_sample st.1.sample_calls } s st.1.queue_results
        have f1 := congrArg llama_client_slot.prompt hframe
        have f2 := congrArg llama_client_slot.infill hframe
        have f3 := congrArg llama_client_slot.num_prompt_tokens_processed hframe
        split at h
        · split at h
          · cases h
          · simp only [Except.ok.injEq, Prod.mk.injEq] at h
            rw [← h.2, release_frame]
            exact ⟨f1, f2, f3, hcache⟩
        · simp only [Except.ok.injEq, Prod.mk.injEq] at h
          rw [← h.2]
          exact ⟨f1, f2, f3, hcache⟩

theorem sampled_steps_keeps (env : Engine) (s s' : llama_client_slot)
    (h : sampled_steps env s s') :
    s'.prompt = s.prompt ∧ s'.infill = s.infill ∧
    s'.num_prompt_tokens_processed = s.num_prompt_tokens_processed ∧
    s.cache_tokens <+: s'.cache_tokens := by
  induction h with
  | done s => exact ⟨rfl, rfl, rfl, List.prefix_refl _⟩
  | step i n st st' s s1 s2 hi h _ ih =>
    obtain ⟨e1, e2, e3, e4⟩ := update_slots_sample_keeps env i n st st' s s1 h
    obtain ⟨f1, f2, f3, f4⟩ := ih
    exact ⟨f1.trans e1, f2.trans e2, f3.trans e3, e4.trans f4⟩

/-- The prompt preparation keeps the request fields of the slot. -/
theorem prepare_prompt_keeps (env : Engine) (srv : llama_server_context)
    (s r : llama_client_slot) (p : gpt_params) (T : List llama_token)
    (h : prepare_prompt env srv s = .ok (p, r, T)) :
    r.prompt = s.prompt ∧ r.infill = s.infill := by
  unfold prepare_prompt at h
  split at h
  · cases h
  · rename_i s3 tokens hprep
    simp only [Except.ok.injEq, Prod.mk.injEq] at h
    obtain ⟨_, h2, _⟩ := h
    have ha : ∀ x : llama_client_slot,
        (adjust_n_past x).prompt = x.prompt ∧ (adjust_n_past x).infill = x.infill := by
      intro x
      unfold adjust_n_past
      split <;> exact ⟨rfl, rfl⟩
    have hs3 : s3.prompt = s.prompt ∧ s3.infill = s.infill := by
      unfold prepare_slot at hprep
      split at hprep
      · simp only [Except.ok.injEq, Prod.mk.injEq] at hprep
        rw [← hprep.1]
        exact ⟨rfl, rfl⟩
      · unfold prepare_cached_prompt at hprep
        split at hprep
        · cases hprep
        · rename_i a3 toks hfit
          simp only [Except.ok.injEq, Prod.mk.injEq] at hprep
          rw [← hprep.1]
          unfold fit_prompt at hfit
          split at hfit
          · unfold truncate_prompt at hfit
            simp only at hfit
            split at hfit
            · cases hfit
            · split at hfit
              · cases hfit
              · split at hfit
                · simp only [Except.ok.injEq, Prod.mk.injEq] at hfit
                  rw [← hfit.1]
                  exact ⟨rfl, rfl⟩
                · cases hfit
          · simp only [Except.ok.injEq, Prod.mk.injEq] at hfit
            rw [← hfit.1]
            exact ⟨rfl, rfl⟩
    rw [← h2]
    exact ⟨(ha _).1.trans hs3.1, (ha _).2.trans hs3.2⟩

/-- The prompt-ingest pass on an idle slot that it leaves processing: the prompt was
prepared, and the slot is the prepared one but for `n_past`, `n_decoded` and `i_batch`. -/
theorem update_slots_prompt_prepares (env : Engine) (a b : llama_server_context)
    (s s' : llama_client_slot) (h : update_slots_prompt env a s = .ok (b, s'))
    (hs : s.state = .IDLE) (hs' : s'.state = .PROCESSING) :
    ∃ p r T, prepare_prompt env a { s with state := .PROCESSING, command := .NONE } =
        .ok (p, r, T) ∧
      s'.cache_tokens = r.cache_tokens ∧ s'.params = r.params ∧ s'.prompt = r.prompt ∧
      s'.infill = r.infill ∧
      s'.num_prompt_tokens_processed = r.num_prompt_tokens_processed ∧ s'.n_ctx = r.n_ctx := by
  unfold update_slots_prompt at h
  simp only at h
  split at h
  · split at h
    · cases h
    · simp only [Except.ok.injEq, Prod.mk.injEq] at h
      rw [← h.2, release_frame] at hs'
      rw [hs] at hs'
      cases hs'
  · split at h
    · split at h
      · cases h
      · rename_i p s5 toks hprep
        split at h
        · cases h
        · simp only [Except.ok.injEq, Prod.mk.injEq] at h
          rw [← h.2]
          exact ⟨p, s5, toks, hprep, rfl, rfl, rfl, rfl, rfl, rfl⟩
    · simp only [Except.ok.injEq, Prod.mk.injEq] at h
      rw [← h.2, hs] at hs'
      cases hs'

/-! #### One tick on the slot at an index -/

/-- The passes of one tick on the slot at index `j`, with what `process_tasks` keeps and
the system prompt that the prompt-ingest pass reads. -/
theorem update_slots_slot_chain (env : Engine) (fuel : Nat) (srv srv' : llama_server_context)
    (b : Bool) (h : update_slots env fuel srv = .ok (b, srv')) (j : Nat)
    (s s' : llama_client_slot) (hs : srv.slots.get? j = some s)
    (hs' : srv'.slots.get? j = some s') :
    ∃ s1 s2 s3 s4 : llama_client_slot,
      tasks_rel s s1 ∧ s1.cache_tokens = s.cache_tokens ∧
      update_slots_shift s1 = .ok s2 ∧
      (∃ a b, update_slots_ongoing env a s2 = .ok (b, s3)) ∧
      ((∃ a b, a.system_prompt = srv'.system_prompt ∧
          update_slots_prompt env a s3 = .ok (b, s4)) ∨ s4 = s3) ∧
      sampled_steps env s4 s' := by
  obtain ⟨l1, l2, l3, h1, h2, h3, h4⟩ := update_slots_passes_system_prompt env fuel srv b srv' h
  obtain ⟨s1, g1, r1⟩ := forall₂_get_some (process_tasks_rel env srv) j s hs
  obtain ⟨s1', g1', c1⟩ := forall₂_get_some (process_tasks_cache_tokens env srv) j s hs
  have e1 : s1' = s1 := by
    have : some s1' = some s1 := by rw [← g1', ← g1]
    exact Option.some.inj this
  subst e1
  obtain ⟨s2, g2, r2⟩ := forall₂_get_some h1 j s1' g1
  obtain ⟨s3, g3, r3⟩ := forall₂_get_some h2 j s2 g2
  obtain ⟨s4, g4, r4⟩ := forall₂_get_some h3 j s3 g3
  obtain ⟨s5, g5, r5⟩ := forall₂_get_some h4 j s4 g4
  have e5 : s5 = s' := by
    have : some s5 = some s' := by rw [← g5, ← hs']
    exact Option.some.inj this
  subst e5
  exact ⟨s1', s2, s3, s4, r1, c1, r2, r3, r4, r5⟩

theorem update_slots_shift_room (s s' : llama_client_slot)
    (hroom : (s.cache_tokens.length : Int) < s.n_ctx)
    (h : update_slots_shift s = .ok s') : s' = s := by
  unfold update_slots_shift at h
  have hf : context_shift_fires s = false := by
    unfold context_shift_fires
    have : decide (0 ≤ s.n_ctx ∧ s.n_ctx ≤ (s.cache_tokens.length : Int)) = false := by
      rw [decide_eq_false_iff_not]
      omega
    rw [this, Bool.and_false]
  rw [hf] at h
  simp only [Bool.false_eq_true, if_false, Except.ok.injEq] at h
  exact h.symm

/-- A tick in which the slot at index `j` neither shifts its context nor prepares a
prompt adds to its `cache_tokens` at the end only, and keeps `n_ctx`. -/
theorem quiet_tick_cache (env : Engine) (fuel : Nat) (j : Nat) (srv srv' : llama_server_context)
    (h : quiet_tick env fuel j srv srv') :
    ∃ s s', srv.slots.get? j = some s ∧ srv'.slots.get? j = some s' ∧
      s.cache_tokens <+: s'.cache_tokens ∧ s'.n_ctx = s.n_ctx := by
  obtain ⟨b, s, s', htick, hs, hs', hroom, hnot⟩ := h
  refine ⟨s, s', hs, hs', ?_⟩
  obtain ⟨s1, s2, s3, s4, t, c1, hshift, ⟨a, b', hong⟩, hprompt, hsamp⟩ :=
    update_slots_slot_chain env fuel srv srv' b htick j s s' hs hs'
  obtain ⟨t1, t2, _, _⟩ := t
  have e2 : s2 = s1 := update_slots_shift_room s1 s2 (by rw [c1, t2]; exact hroom) hshift
  subst e2
  obtain ⟨o1, o2, _, o4⟩ := update_slots_ongoing_effect env a b' s2 s3 hong
  obtain ⟨f1, _, f3, _⟩ := sampled_steps_frame env s4 s' hsamp
  obtain ⟨_, _, _, k4⟩ := sampled_steps_keeps env s4 s' hsamp
  have h43 : s4.cache_tokens = s3.cache_tokens ∧ s4.n_ctx = s3.n_ctx := by
    rcases hprompt with ⟨a', b'', _, hp⟩ | hp
    · obtain ⟨p1, p2⟩ := update_slots_prompt_effect env a' b'' s3 s4 hp
      rcases p2 with ⟨_, _, p⟩ | ⟨p, p', q, _⟩ | ⟨_, p⟩
      · rw [p, release_frame]
        exact ⟨rfl, rfl⟩
      · exfalso
        apply hnot
        refine ⟨?_, by rw [f1]; exact q⟩
        rcases o4 with ⟨_, _, oc, _⟩ | ⟨_, o, oe⟩ | ⟨_, _, o, _⟩
        · rw [oc] at p'
          cases p'
        · rw [← t1]
          exact o
        · rw [o] at p
          cases p
      · rw [p]
        exact ⟨rfl, rfl⟩
    · rw [hp]
      exact ⟨rfl, rfl⟩
  refine ⟨?_, ?_⟩
  · have : s.cache_tokens = s4.cache_tokens := by rw [h43.1, o1, c1]
    rw [this]
    exact k4
  · rw [f3, h43.2, o2, t2]

/-- Through a run in which the slot at index `j` neither shifts its context nor prepares
a prompt, its `cache_tokens` only grow at the end, and `n_ctx` stays. -/
theorem quiet_run_cache (env : Engine) (j : Nat) (srv srv' : llama_server_context)
    (h : quiet_run env j srv srv') (s s' : llama_client_slot)
    (hs : srv.slots.get? j = some s) (hs' : srv'.slots.get? j = some s') :
    s.cache_tokens <+: s'.cache_tokens ∧ s'.n_ctx = s.n_ctx := by
  induction h generalizing s with
  | done srv =>
    have : some s = some s' := by rw [← hs, ← hs']
    have e := Option.some.inj this
    subst e
    exact ⟨List.prefix_refl _, rfl⟩
  | tick fuel srv srv1 srv2 ht _ ih =>
    obtain ⟨x, x1, gx, gx1, c, n⟩ := quiet_tick_cache env fuel j srv srv1 ht
    have : some x = some s := by rw [← gx, ← hs]
    have e := Option.some.inj this
    subst e
    obtain ⟨c2, n2⟩ := ih x1 gx1 hs'
    exact ⟨c.trans c2, n2.trans n⟩
  | completion srv data im em srv2 _ ih => exact ih s hs hs'
  | cancel srv task_id srv2 _ ih => exact ih s hs hs'

/-- A tick that takes the slot at index `j` from idle to processing without a context
shift: the prompt of the slot, as `process_tasks` and the release pass left it, was
prepared with the system prompt of the server, and the slot after the tick has the
prepared request fields and the prompt tokens at the head of its `cache_tokens`. -/
theorem update_slots_prepares (env : Engine) (fuel : Nat) (srv srv' : llama_server_context)
    (b : Bool) (h : update_slots env fuel srv = .ok (b, srv')) (j : Nat)
    (s s' : llama_client_slot) (hs : srv.slots.get? j = some s)
    (hs' : srv'.slots.get? j = some s')
    (hidle : s.state = .IDLE) (hproc : s'.state = .PROCESSING)
    (hroom : (s.cache_tokens.length : Int) < s.n_ctx) :
    ∃ (a : llama_server_context) (s3 r : llama_client_slot) (p : gpt_params)
      (T : List llama_token),
      a.system_prompt = srv'.system_prompt ∧
      s3.cache_tokens = s.cache_tokens ∧ s3.n_ctx = s.n_ctx ∧
      prepare_prompt env a { s3 with state := .PROCESSING, command := .NONE } = .ok (p, r, T) ∧
      T <+: s'.cache_tokens ∧ s'.params = r.params ∧ s'.prompt = s3.prompt ∧
      s'.infill = s3.infill ∧
      s'.num_prompt_tokens_processed = r.num_prompt_tokens_processed ∧ s'.n_ctx = s.n_ctx := by
  obtain ⟨s1, s2, s3, s4, t, c1, hshift, ⟨a, b', hong⟩, hprompt, hsamp⟩ :=
    update_slots_slot_chain env fuel srv srv' b h j s s' hs hs'
  obtain ⟨t1, t2, _, _⟩ := t
  have e2 : s2 = s1 := update_slots_shift_room s1 s2 (by rw [c1, t2]; exact hroom) hshift
  subst e2
  obtain ⟨o1, o2, _, o4⟩ := update_slots_ongoing_effect env a b' s2 s3 hong
  obtain ⟨f1, _, f3, f4⟩ := sampled_steps_frame env s4 s' hsamp
  obtain ⟨k1, k2, k3, k4⟩ := sampled_steps_keeps env s4 s' hsamp
  have h3 : s3.state = .IDLE := by
    rcases o4 with ⟨_, o, _, _⟩ | ⟨_, o, oe⟩ | ⟨_, o, _⟩
    · exact o
    · rw [oe]; exact o
    · rw [t1, hidle] at o
      cases o
  rcases hprompt with ⟨a', b'', hsys, hp⟩ | hp
  · obtain ⟨p, r, T, hprep, q1, q2, q3, q4, q5, q6⟩ :=
      update_slots_prompt_prepares env a' b'' s3 s4 hp h3 (by rw [← f1]; exact hproc)
    obtain ⟨_, _, e3, _, _, e6, _⟩ := prepare_prompt_effect env a' _ r p T hprep
    obtain ⟨m1, m2⟩ := prepare_prompt_keeps env a' _ r p T hprep
    refine ⟨a', s3, r, p, T, hsys, by rw [o1, c1], by rw [o2, t2], hprep, ?_, ?_, ?_, ?_, ?_, ?_⟩
    · have : T = s4.cache_tokens := by rw [q1, e6]
      rw [this]
      exact k4
    · rw [f4, q2]
    · rw [k1, q3, m1]
    · rw [k2, q4, m2]
    · rw [k3, q5]
    · rw [f3, q6, e3]
      show s3.n_ctx = s.n_ctx
      rw [o2, t2]
  · exfalso
    rw [f1, hp, h3] at hproc
    cases hproc

/-- Two preparations of the same prompt with `cache_prompt` on, the second on a slot whose
`cache_tokens` begin with the tokens of the first: when both leave the same `n_keep`, the
second has the same tokens and nothing to process. -/
theorem prepare_prompt_same (env : Engine) (srv1 srv2 : llama_server_context)
    (s1 s2 r1 r2 : llama_client_slot) (p1 p2 : gpt_params) (T T2 extra : List llama_token)
    (h1 : prepare_prompt env srv1 s1 = .ok (p1, r1, T))
    (h2 : prepare_prompt env srv2 s2 = .ok (p2, r2, T2))
    (hsys : srv2.system_prompt = srv1.system_prompt)
    (hi1 : s1.infill = false) (hi2 : s2.infill = false)
    (hc1 : s1.params.cache_prompt = true) (hc2 : s2.params.cache_prompt = true)
    (hprompt : s2.prompt = s1.prompt) (hctx : s2.n_ctx = s1.n_ctx)
    (hkeep : r2.params.n_keep = r1.params.n_keep)
    (hcache : s2.cache_tokens = T ++ extra) :
    T2 = T ∧ r2.num_prompt_tokens_processed = 0 := by
  have htok : (prompt_tokens_of env srv2 s2).2 = (prompt_tokens_of env srv1 s1).2 := by
    simp only [prompt_tokens_of, hi1, hi2, hsys, hprompt, Bool.false_eq_true, if_false]
  unfold prepare_prompt at h1 h2
  rw [htok] at h2
  generalize (prompt_tokens_of env srv1 s1).2 = toks at h1 h2
  unfold prepare_slot at h1 h2
  simp only [hc1, hc2, Bool.true_eq_false, if_false] at h1 h2
  unfold prepare_cached_prompt at h1 h2
  split at h1
  · cases h1
  · rename_i x1 b1 tokens1 hfit1
    split at hfit1
    · cases hfit1
    · rename_i a1 tokens1' hfit1'
      simp only [Except.ok.injEq, Prod.mk.injEq] at hfit1
      obtain ⟨e1, e2⟩ := hfit1
      subst e1 e2
      simp only [Except.ok.injEq, Prod.mk.injEq] at h1
      obtain ⟨_, hr1, hT⟩ := h1
      subst hT
      split at h2
      · cases h2
      · rename_i x2 b2 tokens2 hfit2
        split at hfit2
        · cases hfit2
        · rename_i a2 tokens2' hfit2'
          simp only [Except.ok.injEq, Prod.mk.injEq] at hfit2
          obtain ⟨e3, e4⟩ := hfit2
          subst e3 e4
          simp only [Except.ok.injEq, Prod.mk.injEq] at h2
          obtain ⟨_, hr2, hT2⟩ := h2
          subst hT2
          have hk1 : r1.params.n_keep =
              (clamp_n_keep { s1 with num_prompt_tokens := toks.length }).params.n_keep := by
            obtain ⟨_, _, _, _, g4⟩ := fit_prompt_congr _
              (clamp_n_keep { s1 with num_prompt_tokens := toks.length }) _ _ _ hfit1' rfl rfl rfl
            rw [← hr1, (adjust_n_past_frame _).1]
            exact g4
          have hk2 : r2.params.n_keep =
              (clamp_n_keep { s2 with num_prompt_tokens := toks.length }).params.n_keep := by
            obtain ⟨_, _, _, _, g4⟩ := fit_prompt_congr _
              (clamp_n_keep { s2 with num_prompt_tokens := toks.length }) _ _ _ hfit2' rfl rfl rfl
            rw [← hr2, (adjust_n_past_frame _).1]
            exact g4
          obtain ⟨b', g1, g2, g3, _⟩ := fit_prompt_congr _
            (clamp_n_keep { s2 with num_prompt_tokens := toks.length }) _ _ _ hfit1'
            (by simp only [clamp_n_keep]; exact hctx) (by rw [← hk2, ← hk1]; exact hkeep) rfl
          rw [g1] at hfit2'
          simp only [Except.ok.injEq, Prod.mk.injEq] at hfit2'
          obtain ⟨e5, e6⟩ := hfit2'
          subst e5 e6
          refine ⟨rfl, ?_⟩
          rw [← hr2, (adjust_n_past_frame _).2]
          have hcb : b'.cache_tokens = tokens1' ++ extra := by
            rw [g2]; exact hcache
          have hlen : a1.num_prompt_tokens = tokens1'.length := by
            obtain ⟨_, _, _, _, _, _, c7, _⟩ := prepare_cached_prompt_effect
              { s1 with num_prompt_tokens := toks.length } _ toks tokens1' rfl
              (by unfold prepare_cached_prompt; rw [hfit1'])
            exact c7
          show b'.num_prompt_tokens - (common_part b'.cache_tokens tokens1' : Nat) = 0
          rw [hcb, common_part_append_left, g3, hlen]
          omega

/-- C7 (amended): let a tick take the slot at index `j` from idle to processing, with
`cache_prompt` on and no infill, its `cache_tokens` fewer than `n_ctx` when the tick starts
(as they are in a fresh slot); let the server then run by ticks, submitted tasks and
cancellations, the slot neither shifting its context nor preparing another prompt; and let
a later tick, at whose start the `cache_tokens` are again fewer than `n_ctx`, take the slot
from idle to processing with the same request: the same prompt and system prompt,
`cache_prompt` on, no infill, and the same `n_keep` after the preparation. Then the second
preparation has set `num_prompt_tokens_processed = 0`. -/
theorem second_preparation_reuses (env : Engine) (j : Nat) (fuel1 fuel2 : Nat)
    (srvA srvB srvC srvD : llama_server_context) (b1 b2 : Bool)
    (sA sB sC sD : llama_client_slot)
    (htick1 : update_slots env fuel1 srvA = .ok (b1, srvB))
    (hA : srvA.slots.get? j = some sA) (hB : srvB.slots.get? j = some sB)
    (hidleA : sA.state = .IDLE) (hprocB : sB.state = .PROCESSING)
    (hroomA : (sA.cache_tokens.length : Int) < sA.n_ctx)
    (hcacheB : sB.params.cache_prompt = true) (hinfillB : sB.infill = false)
    (hrun : quiet_run env j srvB srvC)
    (htick2 : update_slots env fuel2 srvC = .ok (b2, srvD))
    (hC : srvC.slots.get? j = some sC) (hD : srvD.slots.get? j = some sD)
    (hidleC : sC.state = .IDLE) (hprocD : sD.state = .PROCESSING)
    (hroomC : (sC.cache_tokens.length : Int) < sC.n_ctx)
    (hcacheD : sD.params.cache_prompt = true) (hinfillD : sD.infill = false)
    (hprompt : sD.prompt = sB.prompt) (hkeep : sD.params.n_keep = sB.params.n_keep)
    (hsys : srvD.system_prompt = srvB.system_prompt) :
    sD.num_prompt_tokens_processed = 0 := by
  obtain ⟨a1, x1, r1, p1, T, y1, _, y3, y4, y5, y6, y7, y8, _, y10⟩ :=
    update_slots_prepares env fuel1 srvA srvB b1 htick1 j sA sB hA hB hidleA hprocB hroomA
  obtain ⟨a2, x2, r2, p2, T2, z1, z2, z3, z4, _, z6, z7, z8, z9, _⟩ :=
    update_slots_prepares env fuel2 srvC srvD b2 htick2 j sC sD hC hD hidleC hprocD hroomC
  obtain ⟨c1, c2⟩ := quiet_run_cache env j srvB srvC hrun sB sC hB hC
  obtain ⟨extra, hextra⟩ := y5.trans c1
  obtain ⟨_, _, _, _, w5, _⟩ := prepare_prompt_effect env a1 _ r1 p1 T y4
  obtain ⟨_, _, _, _, v5, _⟩ := prepare_prompt_effect env a2 _ r2 p2 T2 z4
  have := prepare_prompt_same env a1 a2 { x1 with state := .PROCESSING, command := .NONE }
    { x2 with state := .PROCESSING, command := .NONE } r1 r2 p1 p2 T T2 extra y4 z4
    (by rw [z1, y1]; exact hsys)
    (by show x1.infill = false; rw [← y8]; exact hinfillB)
    (by show x2.infill = false; rw [← z8]; exact hinfillD)
    (by
      have : r1.params.cache_prompt = x1.params.cache_prompt := w5
      show x1.params.cache_prompt = true
      rw [← this, ← y6]; exact hcacheB)
    (by
      have : r2.params.cache_prompt = x2.params.cache_prompt := v5
      show x2.params.cache_prompt = true
      rw [← this, ← z6]; exact hcacheD)
    (by show x2.prompt = x1.prompt; rw [← z7, ← y7]; exact hprompt)
    (by show x2.n_ctx = x1.n_ctx; rw [z3, y3, c2, y10])
    (by rw [← z6, ← y6]; exact hkeep)
    (by show x2.cache_tokens = T ++ extra; rw [z2]; exact hextra.symm)
  rw [z9]
  exact this.2

/-- C7 (witness): on `server_ctx4` the request with prompt "a", `cache_prompt` on and the
stop word "d" is prepared in the first tick, which also ends its generation; the next tick
sets the slot idle, with three tokens in `cache_tokens`; the same request is submitted
again, and the tick that prepares it leaves `num_prompt_tokens_processed = 0`. -/
theorem second_preparation_reuses_witness :
    (slot_at server_reuse_b 0).cache_tokens = [1, 97, 100] ∧
    (slot_at server_reuse_d 0).task_id = 1 ∧
    (slot_at server_reuse_d 0).num_prompt_tokens_processed = 0 :=
  ⟨by decide, by decide,
    second_preparation_reuses engine_bytes 0 4 4
      server_reuse_a server_reuse_b server_reuse_c server_reuse_d true true
      (slot_at server_reuse_a 0) (slot_at server_reuse_b 0) (slot_at server_reuse_c 0)
      (slot_at server_reuse_d 0)
      (by decide) (by decide) (by decide) (by decide) (by decide) (by decide) (by decide)
      (by decide)
      (quiet_run.tick 4 server_reuse_b (after_tick engine_bytes 4 server_reuse_b) server_reuse_c
        ⟨true, slot_at server_reuse_b 0, slot_at (after_tick engine_bytes 4 server_reuse_b) 0,
          by decide, by decide, by decide, by decide, by decide⟩
        (quiet_run.completion (after_tick engine_bytes 4 server_reuse_b) data_reuse false false
          server_reuse_c (quiet_run.done server_reuse_c)))
      (by decide) (by decide) (by decide) (by decide) (by decide) (by decide) (by decide)
      (by decide) (by decide) (by decide) (by decide)⟩

end LlamaGrpc
